import Mathlib

/-!
# Infinite Tux level generation: a shallow embedding

The definitions below follow `src/include/Common.h` (class `Random`),
`src/src/Level.cpp` (class `Level`) and `src/src/LevelGenerator.cpp`
(class `LevelGenerator`).  C++ `int` and `int64_t` values are kept as `Int`;
where the source relies on two's-complement wraparound, and in the weight
arithmetic of `createLevelInternal` on the `difficulty` of the caller, the
wrap is written out (`wrap32`, `toU32`, `toU64`, `ofU64`).  Tile ids (`uint8_t`) are `Nat`
obtained through `u8`.  A loop whose trip count is not fixed by its header
runs on a `fuel` counter and yields `none` when the counter is used up; an
access outside a `std::vector` also yields `none`.
-/

namespace InfiniteTux

/-! ## Machine integers -/

/-- The bit pattern of a 32-bit two's-complement integer. -/
def toU32 (x : Int) : Nat := (x % 2 ^ 32).toNat

/-- The bit pattern of a 64-bit two's-complement integer. -/
def toU64 (x : Int) : Nat := (x % 2 ^ 64).toNat

/-- The signed value of a 64-bit pattern. -/
def ofU64 (n : Nat) : Int :=
  if n % 2 ^ 64 < 2 ^ 63 then ((n % 2 ^ 64 : Nat) : Int) else ((n % 2 ^ 64 : Nat) : Int) - 2 ^ 64

/-- Conversion to `int`: the value is reduced into `[-2^31, 2^31)`. -/
def wrap32 (x : Int) : Int := (x + 2 ^ 31) % 2 ^ 32 - 2 ^ 31

/-- Conversion to `uint8_t`. -/
def u8 (x : Int) : Nat := (x % 256).toNat

/-! ## `Random` (Common.h) -/

/-- The generator state: the field `int64_t seed`.  The cached Gaussian of
`nextGaussian` is floating point, is never used by the level generator, and
is left out. -/
structure Random where
  seed : Int
deriving DecidableEq, Repr

namespace Random

/-- `void setSeed(int64_t s)`: `seed = (s ^ 0x5DEECE66DLL) & ((1LL << 48) - 1)`. -/
def setSeed (s : Int) : Random :=
  ⟨ofU64 ((toU64 s ^^^ 0x5DEECE66D) &&& ((1 <<< 48) - 1))⟩

/-- `int next(int bits)`: the multiplication and addition are 64-bit, the
mask keeps 48 bits, the result is converted to `int`. -/
def next (r : Random) (bits : Nat) : Int × Random :=
  let seed := ofU64 (toU64 (r.seed * 0x5DEECE66D + 0xB) &&& ((1 <<< 48) - 1))
  (wrap32 (seed >>> (48 - bits)), ⟨seed⟩)

/-- The loop condition of `nextInt(int bound)` for the draw `bits`:
`bits - val + (bound - 1) < 0` in `int` arithmetic, with `val = bits % bound`. -/
def rejected (bound bits : Int) : Bool :=
  decide (wrap32 (bits - Int.tmod bits bound + (bound - 1)) < 0)

/-- The `do ... while` of `nextInt(int bound)`: draw, reduce, retry while
the draw is rejected. -/
def nextIntLoop (bound : Int) : Nat → Random → Option (Int × Random)
  | 0, _ => none
  | fuel + 1, r =>
    let d := r.next 31
    let bits := d.1
    let val := Int.tmod bits bound
    if rejected bound bits then nextIntLoop bound fuel d.2
    else some (val, d.2)

/-- The test `(bound & -bound) == bound` of `nextInt(int bound)` on 32-bit
patterns. -/
def powerOfTwoTest (bound : Int) : Bool :=
  decide (toU32 bound &&& toU32 (wrap32 (-bound)) = toU32 bound)

/-- `int nextInt(int bound)`. -/
def nextInt (fuel : Nat) (bound : Int) (r : Random) : Option (Int × Random) :=
  if bound ≤ 0 then some (0, r)
  else if powerOfTwoTest bound then
    let d := r.next 31
    some (wrap32 ((bound * d.1) >>> (31 : Nat)), d.2)
  else nextIntLoop bound fuel r

/-- The state after one call of `next`. -/
def advance (r : Random) : Random := (r.next 31).2

/-- The value that `next(31)` returns from the state `r`. -/
def draw31 (r : Random) : Int := (r.next 31).1

/-- The multiplier, the increment and the modulus of `next`. -/
def lcgA : Int := 0x5DEECE66D
def lcgC : Int := 0xB
def lcgM : Int := 2 ^ 48

/-- The sum `1 + A + ... + A^(n-1)`: after `n` calls of `next` the state
is `A^n * seed + lcgG n * C` modulo `2^48`. -/
def lcgG : Nat → Int
  | 0 => 0
  | n + 1 => lcgA * lcgG n + 1

/-- One doubling of `(A^n, lcgG n)` to `(A^(2n), lcgG (2n))`, reduced. -/
def lcgDbl (p : Int × Int) : Int × Int := (p.1 * p.1 % lcgM, p.2 * (p.1 + 1) % lcgM)

/-- The pair `(A^(2^k), lcgG (2^k))` modulo `2^48`. -/
def lcgPow : Nat → Int × Int
  | 0 => (lcgA % lcgM, 1)
  | k + 1 => lcgDbl (lcgPow k)

/-- Fuel that suffices for every `nextInt` loop: within `2^47 + 1` draws
the top bit of the state is clear once. -/
def enoughFuel : Nat := 2 ^ 47 + 1

end Random

/-! ## `SpriteTemplate` and `Level` (SpriteTemplate.h, Level.cpp) -/

/-- A spawn marker as `SpriteTemplate(type, winged)` builds it; the pointer
to the live sprite is null during generation and is not kept. -/
structure SpriteTemplate where
  type : Int
  winged : Bool
  isDead : Bool
  lastVisibleTick : Int
deriving DecidableEq, Repr

/-- `SpriteTemplate::SpriteTemplate(int type, bool winged)`. -/
def SpriteTemplate.init (type : Int) (winged : Bool) : SpriteTemplate :=
  { type := type, winged := winged, isDead := false, lastVisibleTick := -1 }

/-- Enemy type tags of `Enemy.h`. -/
def ENEMY_RED_KOOPA : Int := 0
def ENEMY_GREEN_KOOPA : Int := 1
def ENEMY_GOOMBA : Int := 2
def ENEMY_SPIKY : Int := 3
def ENEMY_FLOWER : Int := 4

/-- The fields of `class Level`; the three grids are `map[x][y]`,
`data[x][y]` and `spriteTemplates[x][y]`, a null marker being `none`. -/
structure Level where
  width : Int
  height : Int
  map : List (List Nat)
  data : List (List Nat)
  spriteTemplates : List (List (Option SpriteTemplate))
  xExit : Int
  yExit : Int
deriving DecidableEq, Repr

/-- Checked two-level indexing `m[x][y]`; `none` outside the vectors. -/
def at2 {α : Type} (m : List (List α)) (x y : Int) : Option α :=
  if x < 0 ∨ y < 0 then none
  else match m[x.toNat]? with
    | none => none
    | some col => col[y.toNat]?

/-- The assignment `m[x][y] = v` at non-negative indices. -/
def set2 {α : Type} (m : List (List α)) (x y : Nat) (v : α) : List (List α) :=
  m.set x ((m.getD x []).set y v)

namespace Level

/-- `Level::Level(int width, int height)`.  `resize` with a negative count
throws, which is `none`. -/
def init (width height : Int) : Option Level :=
  if width < 0 ∨ (0 < width ∧ height < 0) then none
  else some
    { width := width, height := height,
      map := List.replicate width.toNat (List.replicate height.toNat 0),
      data := List.replicate width.toNat (List.replicate height.toNat 0),
      spriteTemplates := List.replicate width.toNat (List.replicate height.toNat none),
      xExit := 10, yExit := 10 }

/-- The level that `new Level(w, h)` builds for sizes that are not negative. -/
def blank (w h : Nat) : Level :=
  { width := w, height := h,
    map := List.replicate w (List.replicate h 0),
    data := List.replicate w (List.replicate h 0),
    spriteTemplates := List.replicate w (List.replicate h none),
    xExit := 10, yExit := 10 }

/-- `uint8_t Level::getBlockCapped(int x, int y) const`. -/
def getBlockCapped (l : Level) (x y : Int) : Option Nat :=
  let x := if x < 0 then 0 else x
  let y := if y < 0 then 0 else y
  let x := if x ≥ l.width then l.width - 1 else x
  let y := if y ≥ l.height then l.height - 1 else y
  at2 l.map x y

/-- `uint8_t Level::getBlock(int x, int y) const`. -/
def getBlock (l : Level) (x y : Int) : Option Nat :=
  let x := if x < 0 then 0 else x
  if y < 0 then some 0
  else
    let x := if x ≥ l.width then l.width - 1 else x
    let y := if y ≥ l.height then l.height - 1 else y
    at2 l.map x y

/-- `void Level::setBlock(int x, int y, uint8_t b)`. -/
def setBlock (l : Level) (x y : Int) (b : Nat) : Level :=
  if x < 0 ∨ y < 0 ∨ x ≥ l.width ∨ y ≥ l.height then l
  else { l with map := set2 l.map x.toNat y.toNat b }

/-- `void Level::setBlockData(int x, int y, uint8_t b)`. -/
def setBlockData (l : Level) (x y : Int) (b : Nat) : Level :=
  if x < 0 ∨ y < 0 ∨ x ≥ l.width ∨ y ≥ l.height then l
  else { l with data := set2 l.data x.toNat y.toNat b }

/-- `SpriteTemplate* Level::getSpriteTemplate(int x, int y) const`; the
outer `none` is an access outside the vectors, the inner one is `nullptr`. -/
def getSpriteTemplate (l : Level) (x y : Int) : Option (Option SpriteTemplate) :=
  if x < 0 ∨ y < 0 ∨ x ≥ l.width ∨ y ≥ l.height then some none
  else at2 l.spriteTemplates x y

/-- `void Level::setSpriteTemplate(int x, int y, SpriteTemplate*)`. -/
def setSpriteTemplate (l : Level) (x y : Int) (st : SpriteTemplate) : Level :=
  if x < 0 ∨ y < 0 ∨ x ≥ l.width ∨ y ≥ l.height then l
  else { l with spriteTemplates := set2 l.spriteTemplates x.toNat y.toNat (some st) }

end Level

/-! ## The generator's mutable state -/

/-- What the zone builders mutate: the members `random` and `level` of
`LevelGenerator`.  `nonPositiveBound` is a monitor that no code reads: it
records whether `nextInt` was ever called with `bound <= 0`. -/
structure GenState where
  random : Random
  level : Level
  nonPositiveBound : Bool
deriving DecidableEq, Repr

/-- A step of the generator: it may fail (`none`: a loop ran out of fuel or
a vector was indexed out of range), otherwise it yields a value and the
next state. -/
def Gen (α : Type) : Type := GenState → Option (α × GenState)

namespace Gen

/-- Return without touching the state. -/
def ret {α : Type} (a : α) : Gen α := fun s => some (a, s)

/-- Sequencing. -/
def andThen {α β : Type} (m : Gen α) (f : α → Gen β) : Gen β := fun s =>
  match m s with
  | none => none
  | some (a, s') => f a s'

/-- The failing step. -/
def fail {α : Type} : Gen α := fun _ => none

instance : Monad Gen where
  pure := ret
  bind := andThen

/-- `random.nextInt(bound)`. -/
def nextInt (fuel : Nat) (bound : Int) : Gen Int := fun s =>
  match s.random.nextInt fuel bound with
  | none => none
  | some (v, r) =>
    some (v, { s with random := r,
                      nonPositiveBound := s.nonPositiveBound || decide (bound ≤ 0) })

/-- `level->setBlock(x, y, b)`. -/
def setBlock (x y : Int) (b : Nat) : Gen Unit := fun s =>
  some ((), { s with level := s.level.setBlock x y b })

/-- `level->getBlock(x, y)`. -/
def getBlock (x y : Int) : Gen Nat := fun s =>
  match s.level.getBlock x y with
  | none => none
  | some b => some (b, s)

/-- `level->getBlockCapped(x, y)`. -/
def getBlockCapped (x y : Int) : Gen Nat := fun s =>
  match s.level.getBlockCapped x y with
  | none => none
  | some b => some (b, s)

/-- `level->setSpriteTemplate(x, y, st)`. -/
def setSpriteTemplate (x y : Int) (st : SpriteTemplate) : Gen Unit := fun s =>
  some ((), { s with level := s.level.setSpriteTemplate x y st })

/-- A read through the pointer `level` (of `level->width`, `level->height`). -/
def getLevel : Gen Level := fun s => some (s.level, s)

/-- The assignments `level->xExit = x; level->yExit = y`. -/
def setExit (x y : Int) : Gen Unit := fun s =>
  some ((), { s with level := { s.level with xExit := x, yExit := y } })

/-- Lift of a checked read. -/
def ofOption {α : Type} (o : Option α) : Gen α := fun s =>
  match o with
  | none => none
  | some a => some (a, s)

/-- The body of `for (int x = lo; ...; x++)` run `n` times from `x`, the
locals that the body updates being threaded through `acc`. -/
def forLoop {β : Type} (body : Int → β → Gen β) : Nat → Int → β → Gen β
  | 0, _, acc => ret acc
  | n + 1, x, acc => andThen (body x acc) (fun acc' => forLoop body n (x + 1) acc')

/-- `for (int x = lo; x < hi; x++) body`, for a body that assigns neither
`x` nor the bound. -/
def forRange {β : Type} (lo hi : Int) (init : β) (body : Int → β → Gen β) : Gen β :=
  forLoop body (hi - lo).toNat lo init

end Gen

/-! ## `LevelGenerator` (LevelGenerator.cpp) -/

def TYPE_OVERGROUND : Int := 0
def TYPE_UNDERGROUND : Int := 1
def TYPE_CASTLE : Int := 2

def ODDS_STRAIGHT : Nat := 0
def ODDS_HILL_STRAIGHT : Nat := 1
def ODDS_TUBES : Nat := 2
def ODDS_JUMP : Nat := 3
def ODDS_CANNONS : Nat := 4

/-- The members of `LevelGenerator` that the zone builders only read. The
members `random` and `level` are the `GenState`. -/
structure LevelGenerator where
  width : Int
  height : Int
  type : Int
  difficulty : Int
  totalOdds : Int
  odds : List Int
deriving DecidableEq, Repr

open Gen

namespace LevelGenerator

/-- `LevelGenerator::LevelGenerator(int width, int height)`: it sets
`width`, `height` and the five `odds` entries; `type`, `difficulty` and
`totalOdds` keep whatever the memory held. -/
def init (width height : Int) (type0 difficulty0 totalOdds0 : Int) : LevelGenerator :=
  { width := width, height := height, type := type0, difficulty := difficulty0,
    totalOdds := totalOdds0, odds := [0, 0, 0, 0, 0] }

/-- The loop `for i < 5` of `createLevelInternal` over the entries not yet
visited: clamp, add to `totalOdds`, store `totalOdds - odds[i]`.  The sum
and the difference are `int` operations: they wrap at 32 bits. -/
def oddsLoop : List Int → Int → List Int × Int
  | [], totalOdds => ([], totalOdds)
  | o :: rest, totalOdds =>
    let o := if o < 0 then 0 else o
    let totalOdds := wrap32 (totalOdds + o)
    let r := oddsLoop rest totalOdds
    (wrap32 (totalOdds - o) :: r.1, r.2)

/-- The odds entries as `createLevelInternal` assigns them before the loop;
the `int` arithmetic on `difficulty` wraps at 32 bits. -/
def rawOdds (difficulty type : Int) : List Int :=
  let odds := [20, 10, wrap32 (2 + difficulty), wrap32 (2 * difficulty),
    wrap32 (-10 + wrap32 (5 * difficulty))]
  if type ≠ TYPE_OVERGROUND then odds.set ODDS_HILL_STRAIGHT 0 else odds

/-- The first lines of `createLevelInternal`: `type`, `difficulty`,
`totalOdds` and the odds table. -/
def setOdds (g : LevelGenerator) (difficulty type : Int) : LevelGenerator :=
  let r := oddsLoop (rawOdds difficulty type) 0
  { g with type := type, difficulty := difficulty, totalOdds := r.2, odds := r.1 }

/-- The selection loop of `buildZone`:
`for i < 5: if (odds[i] <= t) zoneType = i`. -/
def selectZone (odds : List Int) (t : Int) : Nat :=
  (List.range 5).foldl (fun zoneType i => if odds.getD i 0 ≤ t then i else zoneType) 0

/-- The weight of zone kind `i` as the specification states it: Straight
20, HillStraight 10 (0 off the overground), Tubes `max(0, 2 + difficulty)`,
Jump `max(0, 2 * difficulty)`, Cannons `max(0, 5 * difficulty - 10)`. -/
def zoneWeight (difficulty type : Int) (i : Nat) : Int :=
  match i with
  | 0 => 20
  | 1 => if type = TYPE_OVERGROUND then 10 else 0
  | 2 => max 0 (2 + difficulty)
  | 3 => max 0 (2 * difficulty)
  | 4 => max 0 (5 * difficulty - 10)
  | _ => 0

/-- The threshold of zone kind `i` as the specification states it: the sum
of the weights of the kinds before `i`. -/
def zoneThreshold (difficulty type : Int) (i : Nat) : Int :=
  ((List.range i).map (zoneWeight difficulty type)).sum

/-- The loop nest
`for x in [x0, x1): for y in [0, height): if (y >= floor) setBlock(x, y, 1 + 9 * 16)`
of `buildStraight`, `buildHillStraight` and the exit area. -/
def fillGround (g : LevelGenerator) (x0 x1 floor : Int) : Gen Unit :=
  forRange x0 x1 () (fun x _ =>
    forRange 0 g.height () (fun y _ =>
      if y ≥ floor then setBlock x y (u8 (1 + 9 * 16)) else ret ()))

/-- `void LevelGenerator::addEnemyLine(int x0, int x1, int y)`. -/
def addEnemyLine (g : LevelGenerator) (fuel : Nat) (x0 x1 y : Int) : Gen Unit :=
  forRange x0 x1 () (fun x _ => do
    let r ← nextInt fuel 35
    if r < g.difficulty + 1 then do
      let enemyType ← nextInt fuel 4
      let enemyType ←
        if g.difficulty < 1 then ret ENEMY_GOOMBA
        else if g.difficulty < 3 then nextInt fuel 3
        else ret enemyType
      let w ← nextInt fuel 35
      setSpriteTemplate x y (SpriteTemplate.init enemyType (decide (w < g.difficulty)))
    else ret ())

/-- The body of the block-row loop of `decorate` at column `x`. -/
def decorateBlock (fuel : Nat) (x0 x1 floor x : Int) : Gen Unit := do
  let special ←
    if x ≠ x0 + 1 ∧ x ≠ x1 - 2 then do
      let r ← nextInt fuel 3
      ret (decide (r = 0))
    else ret false
  if special then do
    let r ← nextInt fuel 4
    if r = 0 then setBlock x (floor - 4) (u8 (4 + 2 + 1 * 16))
    else setBlock x (floor - 4) (u8 (4 + 1 + 1 * 16))
  else do
    let r ← nextInt fuel 4
    if r = 0 then do
      let r ← nextInt fuel 4
      if r = 0 then setBlock x (floor - 4) (u8 (2 + 1 * 16))
      else setBlock x (floor - 4) (u8 (1 + 1 * 16))
    else setBlock x (floor - 4) (u8 (0 + 1 * 16))

/-- `void LevelGenerator::decorate(int x0, int x1, int floor)`. -/
def decorate (g : LevelGenerator) (fuel : Nat) (x0 x1 floor : Int) : Gen Unit :=
  if floor < 1 then ret ()
  else do
    addEnemyLine g fuel (x0 + 1) (x1 - 1) (floor - 1)
    let s ← nextInt fuel 4
    let e ← nextInt fuel 4
    if floor - 2 > 0 ∧ (x1 - 1 - e) - (x0 + 1 + s) > 1 then
      forRange (x0 + 1 + s) (x1 - 1 - e) () (fun x _ =>
        setBlock x (floor - 2) (u8 (2 + 2 * 16)))
    else ret ()
    let s ← nextInt fuel 4
    let e ← nextInt fuel 4
    if floor - 4 > 0 ∧ (x1 - 1 - e) - (x0 + 1 + s) > 2 then
      forRange (x0 + 1 + s) (x1 - 1 - e) () (fun x _ => decorateBlock fuel x0 x1 floor x)
    else ret ()

/-- `int LevelGenerator::buildStraight(int xo, int maxLength, bool safe)`. -/
def buildStraight (g : LevelGenerator) (fuel : Nat) (xo maxLength : Int) (safe : Bool) :
    Gen Int := do
  let r ← nextInt fuel 10
  let length := r + 2
  let length ← if safe then (do let r ← nextInt fuel 5; ret (10 + r)) else ret length
  let length := if length > maxLength then maxLength else length
  let r ← nextInt fuel 4
  let floor := g.height - 1 - r
  fillGround g xo (xo + length) floor
  if ¬ safe ∧ length > 5 then decorate g fuel xo (xo + length) floor else ret ()
  ret length

/-- Checked read `v[i]` of a vector. -/
def at1 {α : Type} (v : List α) (i : Int) : Option α :=
  if i < 0 then none else v[i.toNat]?

/-- Checked write `v[i] = a` of a vector. -/
def set1 {α : Type} (v : List α) (i : Int) (a : α) : Option (List α) :=
  if i < 0 ∨ i ≥ v.length then none else some (v.set i.toNat a)

/-- The condition that stops the tier loop of `buildHillStraight`, with
`d = xxo - xo`, evaluated left to right with short-circuit. -/
def hillConflict (occupied : List Bool) (d l length : Int) : Option Bool :=
  if d < 0 ∨ d ≥ length ∨ d + l ≥ length then some true
  else match at1 occupied d with
    | none => none
    | some true => some true
    | some false =>
      match at1 occupied (d + l) with
      | none => none
      | some true => some true
      | some false =>
        match (if d - 1 ≥ 0 then at1 occupied (d - 1) else some false) with
        | none => none
        | some true => some true
        | some false => if d + l + 1 < length then at1 occupied (d + l + 1) else some false

/-- The innermost body of the platform loop of `buildHillStraight` at `(x, y)`. -/
def hillPaint (xxo l h x y : Int) : Gen Unit := do
  let xx : Int := 5
  let xx : Int := if x = xxo then 4 else xx
  let xx : Int := if x = xxo + l - 1 then 6 else xx
  let yy : Int := 9
  let yy : Int := if y = h then 8 else yy
  let b ← getBlock x y
  if b = 0 then setBlock x y (u8 (xx + yy * 16))
  else do
    let b ← getBlock x y
    if b = u8 (4 + 8 * 16) then setBlock x y (u8 (4 + 11 * 16)) else ret ()
    let b ← getBlock x y
    if b = u8 (6 + 8 * 16) then setBlock x y (u8 (6 + 11 * 16)) else ret ()

/-- The loop `while (keepGoing)` of `buildHillStraight`, entered with the
current `h` and `occupied`. -/
def hillLoop (g : LevelGenerator) (fuel : Nat) (xo length floor : Int) :
    Nat → Int → List Bool → Gen Unit
  | 0, _, _ => fail
  | n + 1, h, occupied => do
    let r ← nextInt fuel 3
    let h := h - 2 - r
    if h ≤ 0 then ret ()
    else do
      let r ← nextInt fuel 5
      let l := r + 3
      let r ← nextInt fuel (length - l - 2)
      let xxo := r + xo + 1
      let conflict ← ofOption (hillConflict occupied (xxo - xo) l length)
      if conflict then ret ()
      else do
        let occupied ← ofOption (set1 occupied (xxo - xo) true)
        let occupied ← ofOption (set1 occupied (xxo - xo + l) true)
        addEnemyLine g fuel xxo (xxo + l) (h - 1)
        let r ← nextInt fuel 4
        let keepGoing ←
          if r = 0 then (do decorate g fuel (xxo - 1) (xxo + l + 1) h; ret false)
          else ret true
        forRange xxo (xxo + l) () (fun x _ =>
          forRange h floor () (fun y _ => hillPaint xxo l h x y))
        if keepGoing then hillLoop g fuel xo length floor n h occupied else ret ()

/-- `int LevelGenerator::buildHillStraight(int xo, int maxLength)`.  With a
negative `length` the vector `occupied` is built without a throw and is
never read: the first test `xxo - xo >= length` of the stop condition
holds, so the list stands for it with no entry. -/
def buildHillStraight (g : LevelGenerator) (fuel : Nat) (xo maxLength : Int) : Gen Int := do
  let r ← nextInt fuel 10
  let length := r + 10
  let length := if length > maxLength then maxLength else length
  let r ← nextInt fuel 4
  let floor := g.height - 1 - r
  fillGround g xo (xo + length) floor
  addEnemyLine g fuel (xo + 1) (xo + length - 1) (floor - 1)
  hillLoop g fuel xo length floor fuel floor (List.replicate length.toNat false)
  ret length

/-- `int LevelGenerator::buildTubes(int xo, int maxLength)`; the loop
carries `(xTube, tubeHeight)`. -/
def buildTubes (g : LevelGenerator) (fuel : Nat) (xo maxLength : Int) : Gen Int := do
  let r ← nextInt fuel 10
  let length := r + 5
  let length := if length > maxLength then maxLength else length
  let r ← nextInt fuel 4
  let floor := g.height - 1 - r
  let r ← nextInt fuel 4
  let xTube := xo + 1 + r
  let r ← nextInt fuel 2
  let tubeHeight := floor - r - 2
  let _ ← forRange xo (xo + length) (xTube, tubeHeight) (fun x acc => do
    let acc ←
      if x > acc.1 + 1 then do
        let r ← nextInt fuel 4
        let r2 ← nextInt fuel 2
        ret (acc.1 + (3 + r), floor - r2 - 2)
      else ret acc
    let xTube := if acc.1 ≥ xo + length - 2 then acc.1 + 10 else acc.1
    let tubeHeight := acc.2
    if x = xTube then do
      let r ← nextInt fuel 11
      if r < g.difficulty + 1 then
        setSpriteTemplate x tubeHeight (SpriteTemplate.init ENEMY_FLOWER false)
      else ret ()
    else ret ()
    forRange 0 g.height () (fun y _ =>
      if y ≥ floor then setBlock x y (u8 (1 + 9 * 16))
      else if (x = xTube ∨ x = xTube + 1) ∧ y ≥ tubeHeight then
        let xPic := 10 + x - xTube
        if y = tubeHeight then setBlock x y (u8 (xPic + 0 * 16))
        else setBlock x y (u8 (xPic + 1 * 16))
      else ret ())
    ret (xTube, tubeHeight))
  ret length

/-- `int LevelGenerator::buildJump(int xo, int maxLength)`. -/
def buildJump (g : LevelGenerator) (fuel : Nat) (xo maxLength : Int) : Gen Int := do
  let r ← nextInt fuel 4
  let js := r + 2
  let r ← nextInt fuel 2
  let jl := r + 2
  let length := js * 2 + jl
  let length := if length > maxLength then maxLength else length
  let r ← nextInt fuel 3
  let hasStairs : Bool := decide (r = 0)
  let r ← nextInt fuel 4
  let floor := g.height - 1 - r
  forRange xo (xo + length) () (fun x _ =>
    if x < xo + js ∨ x > xo + length - js - 1 then
      forRange 0 g.height () (fun y _ =>
        if y ≥ floor then setBlock x y (u8 (1 + 9 * 16))
        else if hasStairs then
          if x < xo + js then
            if y ≥ floor - (x - xo) + 1 then setBlock x y (u8 (9 + 0 * 16)) else ret ()
          else
            if y ≥ floor - (xo + length - 1 - x) + 1 then setBlock x y (u8 (9 + 0 * 16))
            else ret ()
        else ret ())
    else ret ())
  ret length

/-- `int LevelGenerator::buildCannons(int xo, int maxLength)`; the loop
carries `xCannon`. -/
def buildCannons (g : LevelGenerator) (fuel : Nat) (xo maxLength : Int) : Gen Int := do
  let r ← nextInt fuel 10
  let length := r + 2
  let length := if length > maxLength then maxLength else length
  let r ← nextInt fuel 4
  let floor := g.height - 1 - r
  let r ← nextInt fuel 4
  let xCannon := xo + 1 + r
  let _ ← forRange xo (xo + length) xCannon (fun x xCannon => do
    let xCannon ←
      if x > xCannon then do
        let r ← nextInt fuel 4
        ret (xCannon + (2 + r))
      else ret xCannon
    let xCannon := if xCannon ≥ xo + length - 2 then xCannon + 10 else xCannon
    let r ← nextInt fuel 4
    let cannonHeight := floor - r - 1
    forRange 0 g.height () (fun y _ =>
      if y ≥ floor then setBlock x y (u8 (1 + 9 * 16))
      else if x = xCannon ∧ y ≥ cannonHeight then
        if y = cannonHeight then setBlock x y (u8 (14 + 0 * 16))
        else if y = cannonHeight + 1 then setBlock x y (u8 (14 + 1 * 16))
        else setBlock x y (u8 (14 + 2 * 16))
      else ret ())
    ret xCannon)
  ret length

/-- The `switch (zoneType)` of `buildZone`. -/
def dispatchZone (g : LevelGenerator) (fuel : Nat) (zoneType : Nat) (x maxLength : Int) :
    Gen Int :=
  if zoneType = ODDS_STRAIGHT then buildStraight g fuel x maxLength false
  else if zoneType = ODDS_HILL_STRAIGHT then buildHillStraight g fuel x maxLength
  else if zoneType = ODDS_TUBES then buildTubes g fuel x maxLength
  else if zoneType = ODDS_JUMP then buildJump g fuel x maxLength
  else if zoneType = ODDS_CANNONS then buildCannons g fuel x maxLength
  else ret 0

/-- `int LevelGenerator::buildZone(int x, int maxLength)`. -/
def buildZone (g : LevelGenerator) (fuel : Nat) (x maxLength : Int) : Gen Int := do
  let t ← nextInt fuel g.totalOdds
  let zoneType := selectZone g.odds t
  dispatchZone g fuel zoneType x maxLength

/-- Checked write `blockMap[x][y] = v`. -/
def set2c {α : Type} (m : List (List α)) (x y : Int) (v : α) : Option (List (List α)) :=
  if x < 0 ∨ y < 0 then none
  else match m[x.toNat]? with
    | none => none
    | some col => if y.toNat < col.length then some (set2 m x.toNat y.toNat v) else none

/-- The count `blocks` of `fixWalls` for the vertex `(x, y)`: the cells
`(xx, yy)` with `x - 1 <= xx < x + 1`, `y - 1 <= yy < y + 1` whose capped
read is the ground tile. -/
def countGround (x y : Int) : Gen Int :=
  forRange (x - 1) (x + 1) 0 (fun xx blocks =>
    forRange (y - 1) (y + 1) blocks (fun yy blocks => do
      let b ← getBlockCapped xx yy
      ret (if b = u8 (1 + 9 * 16) then blocks + 1 else blocks)))

/-- The first loop nest of `fixWalls`: the vertex map `blockMap`. -/
def buildBlockMap (g : LevelGenerator) : Gen (List (List Bool)) :=
  if g.width + 1 < 0 ∨ g.height + 1 < 0 then fail
  else
    forRange 0 (g.width + 1)
      (List.replicate (g.width + 1).toNat (List.replicate (g.height + 1).toNat false))
      (fun x blockMap =>
        forRange 0 (g.height + 1) blockMap (fun y blockMap => do
          let blocks ← countGround x y
          ofOption (set2c blockMap x y (decide (blocks = 4)))))

/-- The entry of `b` read for the corner `(xx, yy)`: the indices are
clamped into `[0, width] x [0, height]` before `blockMap` is read. -/
def cornerFlag (g : LevelGenerator) (blockMap : List (List Bool)) (xx yy : Int) :
    Option Bool :=
  let _xx := if xx < 0 then 0 else xx
  let _yy := if yy < 0 then 0 else yy
  let _xx := if _xx > g.width then g.width else _xx
  let _yy := if _yy > g.height then g.height else _yy
  at2 blockMap _xx _yy

/-- The classification chain of `fixWalls` on `b[0][0]`, `b[1][0]`,
`b[0][1]`, `b[1][1]` with the offset `to`: the tile id before the conversion to `uint8_t`, or
`none` where the old block is kept. -/
def wallTile (b00 b10 b01 b11 : Bool) (toff : Int) : Option Int :=
  if b00 = b10 ∧ b01 = b11 then
    if b00 = b01 then
      if b00 then some (1 + 9 * 16 + toff) else none
    else
      if b00 then some (1 + 10 * 16 + toff) else some (1 + 8 * 16 + toff)
  else if b00 = b01 ∧ b10 = b11 then
    if b00 then some (2 + 9 * 16 + toff) else some (0 + 9 * 16 + toff)
  else if b00 = b11 ∧ b01 = b10 then some (1 + 9 * 16 + toff)
  else if b00 = b10 then
    if b00 then
      if b01 then some (3 + 10 * 16 + toff) else some (3 + 11 * 16 + toff)
    else
      if b01 then some (2 + 8 * 16 + toff) else some (0 + 8 * 16 + toff)
  else if b01 = b11 then
    if b01 then
      if b00 then some (3 + 9 * 16 + toff) else some (3 + 8 * 16 + toff)
    else
      if b00 then some (2 + 10 * 16 + toff) else some (0 + 10 * 16 + toff)
  else some (0 + 1 * 16 + toff)

/-- The tile offset `to` of `fixWalls`. -/
def tileOffset (type : Int) : Int :=
  if type = TYPE_CASTLE then 4 * 2
  else if type = TYPE_UNDERGROUND then 4 * 3
  else 0

/-- The body of the second loop nest of `fixWalls` at the cell `(x, y)`. -/
def fixCell (g : LevelGenerator) (blockMap : List (List Bool)) (x y : Int) : Gen Unit := do
  let b00 ← ofOption (cornerFlag g blockMap x y)
  let b01 ← ofOption (cornerFlag g blockMap x (y + 1))
  let b10 ← ofOption (cornerFlag g blockMap (x + 1) y)
  let b11 ← ofOption (cornerFlag g blockMap (x + 1) (y + 1))
  match wallTile b00 b10 b01 b11 (tileOffset g.type) with
  | none => ret ()
  | some t => setBlock x y (u8 t)

/-- `void LevelGenerator::fixWalls()`. -/
def fixWalls (g : LevelGenerator) : Gen Unit := do
  let blockMap ← buildBlockMap g
  forRange 0 g.width () (fun x _ =>
    forRange 0 g.height () (fun y _ => fixCell g blockMap x y))

/-- The loop `while (length < level->width - 64)` of `createLevelInternal`. -/
def zoneLoop (g : LevelGenerator) (fuel : Nat) : Nat → Int → Gen Int
  | 0, _ => fail
  | n + 1, length => do
    let lv ← getLevel
    if length < lv.width - 64 then do
      let z ← buildZone g fuel length (lv.width - length)
      zoneLoop g fuel n (length + z)
    else ret length

/-- The ceiling loop of `createLevelInternal`, carrying `(ceiling, run)`;
`level->width` and `level->height` do not change and are read once. -/
def addCeiling (fuel : Nat) : Gen Unit := do
  let lv ← getLevel
  let _ ← forRange 0 lv.width ((0 : Int), (0 : Int)) (fun x acc => do
    let test : Bool := decide (acc.2 ≤ 0)
    let run := acc.2 - 1
    let acc ←
      if test ∧ x > 4 then do
        let c ← nextInt fuel 4
        let r ← nextInt fuel 4
        ret (c, r + 4)
      else ret (acc.1, run)
    forRange 0 lv.height () (fun y _ =>
      if (x > 4 ∧ y ≤ acc.1) ∨ x < 1 then setBlock x y (u8 (1 + 9 * 16)) else ret ())
    ret acc)
  ret ()

/-- The statements of `createLevelInternal` after `random = Random(seed)`. -/
def generate (g : LevelGenerator) (fuel : Nat) : Gen Unit := do
  let lv ← getLevel
  let length ← buildStraight g fuel 0 lv.width true
  let length ← zoneLoop g fuel fuel length
  let r ← nextInt fuel 4
  let floor := g.height - 1 - r
  setExit (length + 8) floor
  fillGround g length lv.width floor
  if g.type = TYPE_CASTLE ∨ g.type = TYPE_UNDERGROUND then addCeiling fuel else ret ()
  fixWalls g

/-- The run of `createLevelInternal` up to its `return`: the final state of
the generator, from the members as the constructor left them (`g0` and the
clock-seeded `random0`). -/
def createLevelRun (g0 : LevelGenerator) (random0 : Random) (fuel : Nat)
    (seed difficulty type : Int) : Option GenState :=
  let g := g0.setOdds difficulty type
  match Level.init g.width g.height with
  | none => none
  | some level =>
    let s : GenState := { random := random0, level := level, nonPositiveBound := false }
    let s : GenState := { s with random := Random.setSeed seed }
    match generate g fuel s with
    | none => none
    | some (_, s') => some s'

/-- `Level* LevelGenerator::createLevelInternal(long seed, int difficulty, int type)`. -/
def createLevelInternal (g0 : LevelGenerator) (random0 : Random) (fuel : Nat)
    (seed difficulty type : Int) : Option Level :=
  (createLevelRun g0 random0 fuel seed difficulty type).map (fun s => s.level)

/-- `Level* LevelGenerator::createLevel(width, height, seed, difficulty, type)`.
`clock` is the time that seeds the default-constructed member `random`;
`type0`, `difficulty0`, `totalOdds0` are the contents of the members the
constructor does not set. -/
def createLevel (clock type0 difficulty0 totalOdds0 : Int) (fuel : Nat)
    (width height seed difficulty type : Int) : Option Level :=
  createLevelInternal (init width height type0 difficulty0 totalOdds0)
    (Random.setSeed clock) fuel seed difficulty type

end LevelGenerator

/-! ## Assertions on generator runs -/

/-- The grid of a level has `w` columns of `h` rows, as its fields say. -/
def Level.WF (w h : Int) (l : Level) : Prop :=
  l.width = w ∧ l.height = h ∧ l.map.length = w.toNat ∧ ∀ col ∈ l.map, col.length = h.toNat

/-- The tile stored at the cell `(x, y)`, `none` outside the grid. -/
def Level.tile (l : Level) (x y : Int) : Option Nat := at2 l.map x y

/-- Every cell of the region `S` that lies in the grid holds the
solid-ground tile `1 + 9 * 16`. -/
def Level.Ground (S : Int → Int → Prop) (l : Level) : Prop :=
  ∀ x y : Int, S x y → 0 ≤ x → x < l.width → 0 ≤ y → y < l.height →
    l.tile x y = some (u8 (1 + 9 * 16))

/-- Total correctness of a generator step over level assertions: from a
state whose level satisfies `P` the step returns, and the value and the
level it leaves satisfy `Q`.  With `M` set, the monitor `nonPositiveBound`
is clear before and stays clear. -/
def Gen.Tri {α : Type} (M : Bool) (P : Level → Prop) (m : Gen α)
    (Q : α → Level → Prop) : Prop :=
  ∀ s : GenState, P s.level → (M = true → s.nonPositiveBound = false) →
    ∃ a s', m s = some (a, s') ∧ Q a s'.level ∧ (M = true → s'.nonPositiveBound = false)

/-- The assertion `P` survives every spawn marker and every tile write in
a row above `fl` (a row `y < fl`). -/
def Level.Stable (fl : Int) (P : Level → Prop) : Prop :=
  (∀ l x y b, y < fl → P l → P (l.setBlock x y b)) ∧
  (∀ l x y st, P l → P (l.setSpriteTemplate x y st))

/-- The step `m` writes at most the cell `(x, y)`: it returns, and the
state it leaves is the old one or the old one after one `setBlock(x, y, b)`. -/
def Gen.CellWrite (x y : Int) (m : Gen Unit) : Prop :=
  ∀ s : GenState, ∃ s', m s = some ((), s') ∧
    (s' = s ∨ ∃ b, s' = { s with level := s.level.setBlock x y b })

/-- The bounds on the length a zone builder returns: at most `maxLength`,
at most `hi`, and at least `lo` unless it was cut to `maxLength`. -/
def LevelGenerator.LenOK (lo hi maxLength L : Int) : Prop :=
  L ≤ maxLength ∧ L ≤ hi ∧ (lo ≤ L ∨ L = maxLength)

/-- The step `m2` returns whatever the step `m1` returns: used to compare
one piece of code run on two amounts of fuel. -/
def Gen.Le {α : Type} (m1 m2 : Gen α) : Prop :=
  ∀ (s : GenState) (r : α × GenState), m1 s = some r → m2 s = some r

end InfiniteTux

namespace InfiniteTux

/-! ## Tile behaviours (Level.h, Level.cpp) -/

/-- Behaviour flags of `Level.h`. -/
def BIT_BLOCK_UPPER : Nat := 1 <<< 0
def BIT_BLOCK_ALL : Nat := 1 <<< 1
def BIT_BLOCK_LOWER : Nat := 1 <<< 2

/-- A `float` as far as `isBlocking` reads it: a NaN, or a value that is
ordered like a rational number (an infinity orders like any value beyond
the finite range). -/
inductive CFloat where
  | nan : CFloat
  | val (q : ℚ) : CFloat

/-- The comparison `a < b` of two `float` values; false when one is NaN. -/
def CFloat.lt : CFloat → CFloat → Bool
  | CFloat.val a, CFloat.val b => decide (a < b)
  | _, _ => false

/-- The literal `0`. -/
def CFloat.zero : CFloat := CFloat.val 0

/-- `bool Level::isBlocking(int x, int y, float xa, float ya) const`, the
static array `TILE_BEHAVIORS` being a parameter; `none` is a read outside
a vector. -/
def Level.isBlocking (TILE_BEHAVIORS : List Nat) (l : Level) (x y : Int)
    (_xa ya : CFloat) : Option Bool :=
  match l.getBlock x y with
  | none => none
  | some block =>
    match TILE_BEHAVIORS[block]? with
    | none => none
    | some beh =>
      let blocking := decide ((beh &&& BIT_BLOCK_ALL) > 0)
      let blocking := blocking || (CFloat.lt CFloat.zero ya && decide ((beh &&& BIT_BLOCK_UPPER) > 0))
      let blocking := blocking || (CFloat.lt ya CFloat.zero && decide ((beh &&& BIT_BLOCK_LOWER) > 0))
      some blocking

/-- The countdown grid `data` has `w` columns of `h` rows. -/
def Level.WFData (w h : Int) (l : Level) : Prop :=
  l.data.length = w.toNat ∧ ∀ col ∈ l.data, col.length = h.toNat

/-- The marker grid `spriteTemplates` has `w` columns of `h` rows. -/
def Level.WFSprites (w h : Int) (l : Level) : Prop :=
  l.spriteTemplates.length = w.toNat ∧ ∀ col ∈ l.spriteTemplates, col.length = h.toNat

/-- The marker stored at the cell `(x, y)`; the outer `none` is a cell
outside the grid, the inner one a null pointer. -/
def Level.marker (l : Level) (x y : Int) : Option (Option SpriteTemplate) :=
  at2 l.spriteTemplates x y

end InfiniteTux
namespace InfiniteTux

/-! ## `ImprovedNoise` (ImprovedNoise.cpp): the constructor -/

/-- The member `int p[512]` of `ImprovedNoise`. -/
structure ImprovedNoise where
  p : List Int
deriving DecidableEq, Repr

namespace ImprovedNoise

/-- The body of the shuffle loop `for (int i = 0; i < 256; i++)` of the
constructor, on the locals `random`, `permutation` and the member `p`. -/
def shuffleStep (fuel : Nat) (i : Int) (st : Random × List Int × List Int) :
    Option (Random × List Int × List Int) :=
  match st.1.nextInt fuel (256 - i) with
  | none => none
  | some (r, random) =>
    let j := r + i
    match LevelGenerator.at1 st.2.1 i, LevelGenerator.at1 st.2.1 j with
    | some tmp, some pj =>
      match LevelGenerator.set1 st.2.1 i pj with
      | none => none
      | some permutation =>
        match LevelGenerator.set1 permutation j tmp with
        | none => none
        | some permutation =>
          match LevelGenerator.at1 permutation i with
          | none => none
          | some v =>
            match LevelGenerator.set1 st.2.2 i v with
            | none => none
            | some p =>
              match LevelGenerator.set1 p (i + 256) v with
              | none => none
              | some p => some (random, permutation, p)
    | _, _ => none

/-- The shuffle loop run `n` times from the index `i`. -/
def shuffleLoop (fuel : Nat) : Nat → Int → Random × List Int × List Int →
    Option (Random × List Int × List Int)
  | 0, _, st => some st
  | n + 1, i, st =>
    match shuffleStep fuel i st with
    | none => none
    | some st' => shuffleLoop fuel n (i + 1) st'

/-- `ImprovedNoise::ImprovedNoise(int64_t seed)`.  The member `p` is not
initialised before the loop: `p0` is what the 512 words hold then. -/
def init (p0 : List Int) (fuel : Nat) (seed : Int) : Option ImprovedNoise :=
  let random := Random.setSeed seed
  let permutation := (List.range 256).map (fun i : Nat => (i : Int))
  (shuffleLoop fuel 256 0 (random, permutation, p0)).map (fun st => ⟨st.2.2⟩)

/-- The loop invariant of the shuffle after `k` rounds. -/
def ShuffleInv (k : Nat) (st : Random × List Int × List Int) : Prop :=
  st.2.1.length = 256 ∧ st.2.1.Perm ((List.range 256).map (fun i : Nat => (i : Int)))
    ∧ st.2.2.length = 512
    ∧ ∀ i : Nat, i < k → st.2.2[i]? = st.2.1[i]? ∧ st.2.2[i + 256]? = st.2.1[i]?

end ImprovedNoise

end InfiniteTux
namespace InfiniteTux

/-! ## What `fixWalls` computes -/

/-- The vertex `(x, y)` is full: the four cells around it, read with the
indices capped into the grid, all hold the ground tile `1 + 9 * 16`. -/
def Level.vertexFull (l : Level) (x y : Int) : Bool :=
  decide (l.getBlockCapped (x - 1) (y - 1) = some (u8 (1 + 9 * 16))
    ∧ l.getBlockCapped (x - 1) y = some (u8 (1 + 9 * 16))
    ∧ l.getBlockCapped x (y - 1) = some (u8 (1 + 9 * 16))
    ∧ l.getBlockCapped x y = some (u8 (1 + 9 * 16)))

/-- The tile that the classification chain gives the cell `(x, y)` of `l`
from the flags of its corners, top-left, top-right, bottom-left and
bottom-right; the old tile where the chain writes nothing. -/
def LevelGenerator.autotile (g : LevelGenerator) (l : Level) (x y : Int) : Option Nat :=
  match LevelGenerator.wallTile (l.vertexFull x y) (l.vertexFull (x + 1) y)
      (l.vertexFull x (y + 1)) (l.vertexFull (x + 1) (y + 1))
      (LevelGenerator.tileOffset g.type) with
  | none => l.tile x y
  | some t => some (u8 t)

/-- The 3 x 3 grid of the counterexample of C12, by columns: ground
everywhere but at the cells (2, 0) and (0, 2). -/
def diagonalGrid : Level :=
  { width := 3, height := 3,
    map := [[145, 145, 0], [145, 145, 145], [0, 145, 145]],
    data := List.replicate 3 (List.replicate 3 0),
    spriteTemplates := List.replicate 3 (List.replicate 3 none),
    xExit := 10, yExit := 10 }

end InfiniteTux

namespace InfiniteTux

/-! ## What the builders write -/

/-- The assertion `P` survives every tile write that `W` admits and every
spawn marker that `V` admits. -/
def Level.Keeps (W : Int → Int → Nat → Prop) (V : Int → Int → SpriteTemplate → Prop)
    (P : Level → Prop) : Prop :=
  (∀ l x y b, W x y b → P l → P (l.setBlock x y b))
    ∧ ∀ l x y st, V x y st → P l → P (l.setSpriteTemplate x y st)

/-- The enemy types that the chain of `addEnemyLine` leaves in `enemyType`
at the given difficulty. -/
def enemyTypeOK (difficulty t : Int) : Prop :=
  (difficulty < 1 → t = ENEMY_GOOMBA)
    ∧ (1 ≤ difficulty → difficulty < 3 →
        t = ENEMY_RED_KOOPA ∨ t = ENEMY_GREEN_KOOPA ∨ t = ENEMY_GOOMBA)
    ∧ (3 ≤ difficulty →
        t = ENEMY_RED_KOOPA ∨ t = ENEMY_GREEN_KOOPA ∨ t = ENEMY_GOOMBA ∨ t = ENEMY_SPIKY)

end InfiniteTux
namespace InfiniteTux

/-- The tiles that the block row of `decorate(x0, x1, floor)` can get in
the column `x`: a brick or a hidden block anywhere, a coin block or a
power-up block off the two edge columns `x0 + 1` and `x1 - 2`. -/
def blockRowTile (x0 x1 x : Int) (b : Nat) : Prop :=
  b = u8 (0 + 1 * 16) ∨ b = u8 (1 + 1 * 16) ∨ b = u8 (2 + 1 * 16)
    ∨ ((b = u8 (4 + 2 + 1 * 16) ∨ b = u8 (4 + 1 + 1 * 16)) ∧ x ≠ x0 + 1 ∧ x ≠ x1 - 2)

end InfiniteTux
namespace InfiniteTux

/-- The ids that the builders write above a floor, pipes apart: the stair
rock 9, the cannon parts 14, 30, 46, the blocks 16, 17, 18, 21, 22, the
coin 34 and the hill tiles. -/
def softTile (b : Nat) : Prop :=
  b ∈ [9, 14, 16, 17, 18, 21, 22, 30, 34, 46, 132, 133, 134, 148, 149, 150, 180, 182]

/-- The four ids of a pipe: the two of its top row and the two of its body. -/
def pipeTile (b : Nat) : Prop :=
  b = 10 ∨ b = 11 ∨ b = 26 ∨ b = 27

/-- The tile writes of a zone built at `xo` with length `L` and floor row
`floor`: the ground tile from the floor row down, a tile of `T` in the
rows of `[lo, floor)`, all in the columns of `[xo, xo + L)`. -/
def ZoneW (T : Nat → Prop) (xo L floor lo : Int) (x y : Int) (b : Nat) : Prop :=
  xo ≤ x ∧ x < xo + L ∧
    ((b = u8 (1 + 9 * 16) ∧ floor ≤ y) ∨ (T b ∧ lo ≤ y ∧ y < floor))

/-- The marker writes of a zone: a marker of `TV` in a row of `[lo, floor)`
and a column of `[xo, xo + L)`. -/
def ZoneV (TV : SpriteTemplate → Prop) (xo L floor lo : Int) (x y : Int)
    (st : SpriteTemplate) : Prop :=
  xo ≤ x ∧ x < xo + L ∧ lo ≤ y ∧ y < floor ∧ TV st

/-- A marker as `addEnemyLine` constructs it at the difficulty of `g`. -/
def LevelGenerator.lineMarker (g : LevelGenerator) (st : SpriteTemplate) : Prop :=
  ∃ t wg, enemyTypeOK g.difficulty t ∧ st = SpriteTemplate.init t wg

/-- The marker that `buildTubes` constructs. -/
def pipeMarker (st : SpriteTemplate) : Prop :=
  st = SpriteTemplate.init ENEMY_FLOWER false

end InfiniteTux
namespace InfiniteTux

/-- The tile under the marker `st` at `(x, y)` suits it: an empty cell or
one of the ids of `softTile` under a marker of another type than the
flower, the top-left id 10 of a pipe under a flower. -/
def Level.MarkerOK (l : Level) (x y : Int) (st : SpriteTemplate) : Prop :=
  ∃ t, l.tile x y = some t ∧
    (((t = 0 ∨ softTile t) ∧ st.type ≠ ENEMY_FLOWER) ∨ (t = 10 ∧ st.type = ENEMY_FLOWER))

/-- The invariant of `createLevelInternal` between two zones, `len` being
the length built so far: the columns from `len` on are empty, no tile
lies in row 0 nor, off the overground, above the row `h - 8`, every marker
lies in a column of `[1, len)` on a tile that suits it, and the marker of
the cell `(px, py)` is `pm` once its column is built. -/
def LevelGenerator.ZoneInv (g : LevelGenerator) (w h px py : Int)
    (pm : Option (Option SpriteTemplate)) (len : Int) (l : Level) : Prop :=
  l.WF w h ∧ l.WFSprites w h
    ∧ (∀ x y t, len ≤ x → l.tile x y = some t → t = 0)
    ∧ (∀ x y t, l.tile x y = some t → t ≠ 0 →
        1 ≤ y ∧ (g.type ≠ TYPE_OVERGROUND → h - 8 ≤ y))
    ∧ (∀ x y st, l.marker x y = some (some st) →
        1 ≤ x ∧ x < len ∧ (g.type ≠ TYPE_OVERGROUND → h - 8 ≤ y) ∧ l.MarkerOK x y st)
    ∧ (px < len → l.marker px py = pm)

/-- The invariant inside a zone built at `xo` with length `L` and floor row
`floor` by a builder that writes no pipe. -/
def LevelGenerator.BuildInv (g : LevelGenerator) (w h px py : Int)
    (pm : Option (Option SpriteTemplate)) (xo L floor : Int) (l : Level) : Prop :=
  l.WF w h ∧ l.WFSprites w h
    ∧ (∀ x y t, xo + L ≤ x → l.tile x y = some t → t = 0)
    ∧ (∀ x y t, l.tile x y = some t → t ≠ 0 →
        1 ≤ y ∧ (g.type ≠ TYPE_OVERGROUND → h - 8 ≤ y))
    ∧ (∀ x y t, xo ≤ x → l.tile x y = some t →
        t = 0 ∨ (t = u8 (1 + 9 * 16) ∧ floor ≤ y) ∨ (softTile t ∧ y < floor))
    ∧ (∀ x y st, l.marker x y = some (some st) →
        1 ≤ x ∧ x < xo + L ∧ (g.type ≠ TYPE_OVERGROUND → h - 8 ≤ y)
          ∧ (xo ≤ x → y < floor ∧ st.type ≠ ENEMY_FLOWER) ∧ l.MarkerOK x y st)
    ∧ (px < xo → l.marker px py = pm)

end InfiniteTux
namespace InfiniteTux

/-- The invariant of the row loop of `buildTubes` in the column `x`, before
the row `y`: the rows from `y` on of the column are empty, the cell
`(x, tH)` holds the id 10 once its row is passed if `x` is the column
`xT` of a pipe, and a marker of the column is a flower at `(xT, tH)`. -/
def LevelGenerator.TubeColInv (g : LevelGenerator) (w h px py : Int)
    (pm : Option (Option SpriteTemplate)) (x xT tH y : Int) (l : Level) : Prop :=
  l.WF w h ∧ l.WFSprites w h
    ∧ (∀ x' y' t, x + 1 ≤ x' → l.tile x' y' = some t → t = 0)
    ∧ (∀ x' y' t, l.tile x' y' = some t → t ≠ 0 →
        1 ≤ y' ∧ (g.type ≠ TYPE_OVERGROUND → h - 8 ≤ y'))
    ∧ (∀ y' t, l.tile x y' = some t →
        (y ≤ y' → t = 0) ∧ (y' < y → y' = tH → x = xT → t = 10))
    ∧ (∀ x' y' st, l.marker x' y' = some (some st) →
        1 ≤ x' ∧ x' < x + 1 ∧ (g.type ≠ TYPE_OVERGROUND → h - 8 ≤ y')
          ∧ (x' < x → l.MarkerOK x' y' st)
          ∧ (x' = x → y' = tH ∧ x = xT ∧ st.type = ENEMY_FLOWER))
    ∧ (px < x → l.marker px py = pm)

end InfiniteTux
namespace InfiniteTux

/-- The statements of `createLevelInternal` after the zone loop, `width`
being `level->width` and `length` the length built by the zones. -/
def LevelGenerator.finishLevel (g : LevelGenerator) (fuel : Nat) (width length : Int) :
    Gen Unit := do
  let r ← Gen.nextInt fuel 4
  let floor := g.height - 1 - r
  Gen.setExit (length + 8) floor
  LevelGenerator.fillGround g length width floor
  if g.type = TYPE_CASTLE ∨ g.type = TYPE_UNDERGROUND then LevelGenerator.addCeiling fuel
  else Gen.ret ()
  LevelGenerator.fixWalls g

/-- The invariant of `createLevelInternal` after the zone loop: on the
overground no tile lies in row 0; off it every tile lies in column 0, in
the rows 0..3 of the ceiling or from the row `h - 8` down; every marker
lies in a column from 1 on, on a tile that suits it; the marker of the
cell `(px, py)` is `pm`. -/
def LevelGenerator.DoneInv (g : LevelGenerator) (w h px py : Int)
    (pm : Option (Option SpriteTemplate)) (l : Level) : Prop :=
  l.WF w h ∧ l.WFSprites w h
    ∧ (∀ x y t, l.tile x y = some t → t ≠ 0 →
        (g.type = TYPE_OVERGROUND → 1 ≤ y)
          ∧ (g.type ≠ TYPE_OVERGROUND → x < 1 ∨ y ≤ 3 ∨ h - 8 ≤ y))
    ∧ (∀ x y st, l.marker x y = some (some st) →
        1 ≤ x ∧ (g.type ≠ TYPE_OVERGROUND → h - 8 ≤ y) ∧ l.MarkerOK x y st)
    ∧ l.marker px py = pm

/-- Every cell of column 0 holds the ground tile. -/
def Level.WallColumn (h : Int) (l : Level) : Prop :=
  ∀ y, 0 ≤ y → y < h → l.tile 0 y = some (u8 (1 + 9 * 16))

/-- Every cell of column 0 holds one of the four ids that `fixWalls` gives
a ground cell whose two left corners are full. -/
def Level.WallColumnFixed (toff h : Int) (l : Level) : Prop :=
  ∀ y, 0 ≤ y → y < h → ∃ t, l.tile 0 y = some t ∧
    (t = u8 (1 + 9 * 16 + toff) ∨ t = u8 (2 + 9 * 16 + toff) ∨ t = u8 (3 + 10 * 16 + toff)
      ∨ t = u8 (3 + 9 * 16 + toff))

end InfiniteTux

namespace InfiniteTux

/-! ## A behaviour table for the walkability claims -/

/-- A behaviour table in which tile 0 blocks nothing and every other tile
id is `BLOCK_ALL`. -/
def solidTable : List Nat := 0 :: List.replicate 255 BIT_BLOCK_ALL

end InfiniteTux
namespace InfiniteTux

/-! ## The first two zones, and the ids of solid ground -/

/-- The first two zone calls of `createLevelInternal` on a level of the
given width: the opening run `buildStraight(0, width, true)` and the first
`buildZone(length, width - length)` of the loop; the value is the pair of
the lengths they return. -/
def LevelGenerator.openingZones (g : LevelGenerator) (fuel : Nat) (width : Int) :
    Gen (Int × Int) :=
  (LevelGenerator.buildStraight g fuel 0 width true).andThen fun L0 =>
    (LevelGenerator.buildZone g fuel L0 (width - L0)).andThen fun z => Gen.ret (L0, z)

/-- The ids of solid ground: the placeholder `1 + 9 * 16` and the ids
`c + r * 16 + to` that `fixWalls` writes, `to` being 0, 8 or 12. -/
def groundId (t : Nat) : Prop :=
  ∃ c r toff : Int, 0 ≤ c ∧ c ≤ 3 ∧ 8 ≤ r ∧ r ≤ 11 ∧ (toff = 0 ∨ toff = 8 ∨ toff = 12) ∧
    t = u8 (c + r * 16 + toff)

end InfiniteTux
namespace InfiniteTux

/-! ## The platforms of a hill zone -/

namespace LevelGenerator

open Gen

/-- The loop `while (keepGoing)` of `buildHillStraight` with a ghost list:
`segs` collects the pair `(xxo, l)` of every platform placed, in the order
of placement.  The list is not read by the loop. -/
def hillLoopSegs (g : LevelGenerator) (fuel : Nat) (xo length floor : Int) :
    Nat → Int → List Bool → List (Int × Int) → Gen (List (Int × Int))
  | 0, _, _, _ => fail
  | n + 1, h, occupied, segs => do
    let r ← nextInt fuel 3
    let h := h - 2 - r
    if h ≤ 0 then ret segs
    else do
      let r ← nextInt fuel 5
      let l := r + 3
      let r ← nextInt fuel (length - l - 2)
      let xxo := r + xo + 1
      let conflict ← ofOption (hillConflict occupied (xxo - xo) l length)
      if conflict then ret segs
      else do
        let occupied ← ofOption (set1 occupied (xxo - xo) true)
        let occupied ← ofOption (set1 occupied (xxo - xo + l) true)
        addEnemyLine g fuel xxo (xxo + l) (h - 1)
        let r ← nextInt fuel 4
        let keepGoing ←
          if r = 0 then (do decorate g fuel (xxo - 1) (xxo + l + 1) h; ret false)
          else ret true
        forRange xxo (xxo + l) () (fun x _ =>
          forRange h floor () (fun y _ => hillPaint xxo l h x y))
        if keepGoing then hillLoopSegs g fuel xo length floor n h occupied (segs ++ [(xxo, l)])
        else ret (segs ++ [(xxo, l)])

/-- `buildHillStraight` with the ghost list of its platforms: the value is
the length returned and the pairs `(xxo, l)` placed. -/
def buildHillStraightSegs (g : LevelGenerator) (fuel : Nat) (xo maxLength : Int) :
    Gen (Int × List (Int × Int)) := do
  let r ← nextInt fuel 10
  let length := r + 10
  let length := if length > maxLength then maxLength else length
  let r ← nextInt fuel 4
  let floor := g.height - 1 - r
  fillGround g xo (xo + length) floor
  addEnemyLine g fuel (xo + 1) (xo + length - 1) (floor - 1)
  let segs ← hillLoopSegs g fuel xo length floor fuel floor
    (List.replicate length.toNat false) []
  ret (length, segs)

end LevelGenerator

/-- What the stop condition of the tier loop enforces between an earlier
platform `a = (xxo, l)` and a later one `b`: none of the four columns that
the condition probes for `b` (its first column, the column after its last,
and the two columns outside those) is the first column of `a` or the
column after the last column of `a`. -/
def hillApart (a b : Int × Int) : Prop :=
  ∀ c : Int, (c = b.1 - 1 ∨ c = b.1 ∨ c = b.1 + b.2 ∨ c = b.1 + b.2 + 1) →
    c ≠ a.1 ∧ c ≠ a.1 + a.2

/-- Two column spans `[a.1, a.1 + a.2)` and `[b.1, b.1 + b.2)` share a
column. -/
def spansOverlap (a b : Int × Int) : Prop :=
  ∃ c : Int, a.1 ≤ c ∧ c < a.1 + a.2 ∧ b.1 ≤ c ∧ c < b.1 + b.2

end InfiniteTux
namespace InfiniteTux

/-- The vector `occupied` holds `true` at the two marks of every platform
of `segs`: at `xxo - xo` and at `xxo - xo + l`. -/
def LevelGenerator.SegMarks (xo : Int) (occupied : List Bool) (segs : List (Int × Int)) :
    Prop :=
  ∀ a ∈ segs, LevelGenerator.at1 occupied (a.1 - xo) = some true ∧
    LevelGenerator.at1 occupied (a.1 - xo + a.2) = some true

end InfiniteTux
namespace InfiniteTux

/-! ## The calls of the zone loop -/

/-- The loop `while (length < level->width - 64)` of `createLevelInternal`
with a ghost list: `calls` collects, for every call of `buildZone`, the
triple of its two arguments and the length it returned.  The list is not
read by the loop. -/
def LevelGenerator.zoneLoopTrace (g : LevelGenerator) (fuel : Nat) :
    Nat → Int → List (Int × Int × Int) → Gen (Int × List (Int × Int × Int))
  | 0, _, _ => Gen.fail
  | n + 1, length, calls => do
    let lv ← Gen.getLevel
    if length < lv.width - 64 then do
      let z ← LevelGenerator.buildZone g fuel length (lv.width - length)
      LevelGenerator.zoneLoopTrace g fuel n (length + z)
        (calls ++ [(length, lv.width - length, z)])
    else Gen.ret (length, calls)

/-- What holds of one call `c = (x, maxLength, z)` of `buildZone` made by
the zone loop on a level of width `w`: fewer than `w - 64` columns are
built, `maxLength` is the rest of the width and exceeds 64, the length
returned is between 2 and 19, and the columns built after the call do not
exceed the width. -/
def zoneCallOK (w : Int) (c : Int × Int × Int) : Prop :=
  c.1 < w - 64 ∧ c.2.1 = w - c.1 ∧ 64 < c.2.1 ∧ 2 ≤ c.2.2 ∧ c.2.2 ≤ 19 ∧
    c.1 < c.1 + c.2.2 ∧ c.1 + c.2.2 ≤ w

end InfiniteTux
namespace InfiniteTux

/-! ## `ImprovedNoise::noise`: the table reads -/

namespace ImprovedNoise

/-- The masking `(int)floor(x) & 255` on the 32-bit pattern of the `int`
`f = (int)floor(x)`. -/
def latticeIndex (f : Int) : Int := ((toU32 f &&& 255 : Nat) : Int)

/-- The reads of the table `p` in `ImprovedNoise::noise` for the lattice
cell of a point, `fx`, `fy`, `fz` being the values `(int)floor(x)`,
`(int)floor(y)`, `(int)floor(z)`: the indices read, in the order of the
source, and the eight hashes handed to `grad`.  The floating-point
interpolation of the hashes is left out; `none` is a read outside `p`. -/
def noiseReads (n : ImprovedNoise) (fx fy fz : Int) : Option (List Int × List Int) :=
  let X := latticeIndex fx
  let Y := latticeIndex fy
  let Z := latticeIndex fz
  match LevelGenerator.at1 n.p X with
  | none => none
  | some pX =>
  let A := pX + Y
  match LevelGenerator.at1 n.p A with
  | none => none
  | some pA =>
  let AA := pA + Z
  match LevelGenerator.at1 n.p (A + 1) with
  | none => none
  | some pA1 =>
  let AB := pA1 + Z
  match LevelGenerator.at1 n.p (X + 1) with
  | none => none
  | some pX1 =>
  let B := pX1 + Y
  match LevelGenerator.at1 n.p B with
  | none => none
  | some pB =>
  let BA := pB + Z
  match LevelGenerator.at1 n.p (B + 1) with
  | none => none
  | some pB1 =>
  let BB := pB1 + Z
  match LevelGenerator.at1 n.p AA with
  | none => none
  | some h1 =>
  match LevelGenerator.at1 n.p BA with
  | none => none
  | some h2 =>
  match LevelGenerator.at1 n.p AB with
  | none => none
  | some h3 =>
  match LevelGenerator.at1 n.p BB with
  | none => none
  | some h4 =>
  match LevelGenerator.at1 n.p (AA + 1) with
  | none => none
  | some h5 =>
  match LevelGenerator.at1 n.p (BA + 1) with
  | none => none
  | some h6 =>
  match LevelGenerator.at1 n.p (AB + 1) with
  | none => none
  | some h7 =>
  match LevelGenerator.at1 n.p (BB + 1) with
  | none => none
  | some h8 =>
  some ([X, A, A + 1, X + 1, B, B + 1, AA, BA, AB, BB, AA + 1, BA + 1, AB + 1, BB + 1],
    [h1, h2, h3, h4, h5, h6, h7, h8])

/-- The table has 512 entries, each in 0..255. -/
def ByteTable (p : List Int) : Prop :=
  p.length = 512 ∧ ∀ i : Int, 0 ≤ i → i < 512 →
    ∃ v, LevelGenerator.at1 p i = some v ∧ 0 ≤ v ∧ v ≤ 255

end ImprovedNoise

end InfiniteTux
namespace InfiniteTux

/-! ## Loading the behaviour table (Level.cpp, Game.cpp) -/

/-- `bool Level::loadBehaviors(const std::string& path)` on the content of
the resource: `none` is a file that cannot be opened, `some bytes` a file
holding `bytes`.  `file.read(buf, 256)` stores the bytes it can read, at
most 256, at the start of the static array, and `gcount()` is their
number.  The value is the result and the content of `TILE_BEHAVIORS` after
the call. -/
def Level.loadBehaviors (TILE_BEHAVIORS : List Nat) (file : Option (List Nat)) :
    Bool × List Nat :=
  match file with
  | none => (false, TILE_BEHAVIORS)
  | some bytes =>
    let got := bytes.take 256
    let table := got ++ TILE_BEHAVIORS.drop got.length
    let bytesRead := got.length
    if bytesRead ≠ 256 then (false, table) else (true, table)

/-- The step of `Game::init` that loads the tile behaviours: `none` is the
`return false` of a failed load, otherwise the table installed. -/
def Game.initBehaviors (TILE_BEHAVIORS : List Nat) (file : Option (List Nat)) :
    Option (List Nat) :=
  if ¬ (Level.loadBehaviors TILE_BEHAVIORS file).1 then none
  else some (Level.loadBehaviors TILE_BEHAVIORS file).2

end InfiniteTux

namespace InfiniteTux

/-! ## The floor row of a zone -/

namespace LevelGenerator

open Gen

/-- `buildStraight` with a ghost result: the value is the length returned
and the local `floor` of the call.  The code is that of `buildStraight`. -/
def buildStraightFloor (g : LevelGenerator) (fuel : Nat) (xo maxLength : Int) (safe : Bool) :
    Gen (Int × Int) := do
  let r ← nextInt fuel 10
  let length := r + 2
  let length ← if safe then (do let r ← nextInt fuel 5; ret (10 + r)) else ret length
  let length := if length > maxLength then maxLength else length
  let r ← nextInt fuel 4
  let floor := g.height - 1 - r
  fillGround g xo (xo + length) floor
  if ¬ safe ∧ length > 5 then decorate g fuel xo (xo + length) floor else ret ()
  ret (length, floor)

/-- `buildHillStraight` with a ghost result: the length returned and the
local `floor` of the call. -/
def buildHillStraightFloor (g : LevelGenerator) (fuel : Nat) (xo maxLength : Int) :
    Gen (Int × Int) := do
  let r ← nextInt fuel 10
  let length := r + 10
  let length := if length > maxLength then maxLength else length
  let r ← nextInt fuel 4
  let floor := g.height - 1 - r
  fillGround g xo (xo + length) floor
  addEnemyLine g fuel (xo + 1) (xo + length - 1) (floor - 1)
  hillLoop g fuel xo length floor fuel floor (List.replicate length.toNat false)
  ret (length, floor)

/-- `buildTubes` with a ghost result: the length returned and the local
`floor` of the call. -/
def buildTubesFloor (g : LevelGenerator) (fuel : Nat) (xo maxLength : Int) :
    Gen (Int × Int) := do
  let r ← nextInt fuel 10
  let length := r + 5
  let length := if length > maxLength then maxLength else length
  let r ← nextInt fuel 4
  let floor := g.height - 1 - r
  let r ← nextInt fuel 4
  let xTube := xo + 1 + r
  let r ← nextInt fuel 2
  let tubeHeight := floor - r - 2
  let _ ← forRange xo (xo + length) (xTube, tubeHeight) (fun x acc => do
    let acc ←
      if x > acc.1 + 1 then do
        let r ← nextInt fuel 4
        let r2 ← nextInt fuel 2
        ret (acc.1 + (3 + r), floor - r2 - 2)
      else ret acc
    let xTube := if acc.1 ≥ xo + length - 2 then acc.1 + 10 else acc.1
    let tubeHeight := acc.2
    if x = xTube then do
      let r ← nextInt fuel 11
      if r < g.difficulty + 1 then
        setSpriteTemplate x tubeHeight (SpriteTemplate.init ENEMY_FLOWER false)
      else ret ()
    else ret ()
    forRange 0 g.height () (fun y _ =>
      if y ≥ floor then setBlock x y (u8 (1 + 9 * 16))
      else if (x = xTube ∨ x = xTube + 1) ∧ y ≥ tubeHeight then
        let xPic := 10 + x - xTube
        if y = tubeHeight then setBlock x y (u8 (xPic + 0 * 16))
        else setBlock x y (u8 (xPic + 1 * 16))
      else ret ())
    ret (xTube, tubeHeight))
  ret (length, floor)

/-- `buildJump` with a ghost result: the length returned, the local `floor`
and the local `js` of the call. -/
def buildJumpFloor (g : LevelGenerator) (fuel : Nat) (xo maxLength : Int) :
    Gen (Int × Int × Int) := do
  let r ← nextInt fuel 4
  let js := r + 2
  let r ← nextInt fuel 2
  let jl := r + 2
  let length := js * 2 + jl
  let length := if length > maxLength then maxLength else length
  let r ← nextInt fuel 3
  let hasStairs : Bool := decide (r = 0)
  let r ← nextInt fuel 4
  let floor := g.height - 1 - r
  forRange xo (xo + length) () (fun x _ =>
    if x < xo + js ∨ x > xo + length - js - 1 then
      forRange 0 g.height () (fun y _ =>
        if y ≥ floor then setBlock x y (u8 (1 + 9 * 16))
        else if hasStairs then
          if x < xo + js then
            if y ≥ floor - (x - xo) + 1 then setBlock x y (u8 (9 + 0 * 16)) else ret ()
          else
            if y ≥ floor - (xo + length - 1 - x) + 1 then setBlock x y (u8 (9 + 0 * 16))
            else ret ()
        else ret ())
    else ret ())
  ret (length, floor, js)

/-- `buildCannons` with a ghost result: the length returned and the local
`floor` of the call. -/
def buildCannonsFloor (g : LevelGenerator) (fuel : Nat) (xo maxLength : Int) :
    Gen (Int × Int) := do
  let r ← nextInt fuel 10
  let length := r + 2
  let length := if length > maxLength then maxLength else length
  let r ← nextInt fuel 4
  let floor := g.height - 1 - r
  let r ← nextInt fuel 4
  let xCannon := xo + 1 + r
  let _ ← forRange xo (xo + length) xCannon (fun x xCannon => do
    let xCannon ←
      if x > xCannon then do
        let r ← nextInt fuel 4
        ret (xCannon + (2 + r))
      else ret xCannon
    let xCannon := if xCannon ≥ xo + length - 2 then xCannon + 10 else xCannon
    let r ← nextInt fuel 4
    let cannonHeight := floor - r - 1
    forRange 0 g.height () (fun y _ =>
      if y ≥ floor then setBlock x y (u8 (1 + 9 * 16))
      else if x = xCannon ∧ y ≥ cannonHeight then
        if y = cannonHeight then setBlock x y (u8 (14 + 0 * 16))
        else if y = cannonHeight + 1 then setBlock x y (u8 (14 + 1 * 16))
        else setBlock x y (u8 (14 + 2 * 16))
      else ret ())
    ret xCannon)
  ret (length, floor)

end LevelGenerator

end InfiniteTux

/-! # Theorems -/

namespace InfiniteTux

/-! ## Machine integers -/

theorem wrap32_of_range {x : Int} (h0 : -(2 : Int) ^ 31 ≤ x) (h1 : x < 2 ^ 31) :
    wrap32 x = x := by
  unfold wrap32
  rw [Int.emod_eq_of_lt (by omega) (by omega)]
  omega

theorem wrap32_lt (x : Int) : wrap32 x < 2 ^ 31 := by
  unfold wrap32
  have := Int.emod_lt_of_pos (x + 2 ^ 31) (show (0 : Int) < 2 ^ 32 by norm_num)
  omega

theorem wrap32_ge (x : Int) : -(2 : Int) ^ 31 ≤ wrap32 x := by
  unfold wrap32
  have := Int.emod_nonneg (x + 2 ^ 31) (show (2 : Int) ^ 32 ≠ 0 by norm_num)
  omega

theorem mask48_eq (x : Int) : toU64 x &&& ((1 <<< 48) - 1) = (x % 2 ^ 48).toNat := by
  have h : ((1 : Nat) <<< 48) - 1 = 2 ^ 48 - 1 := by decide
  rw [h, Nat.and_pow_two_sub_one_eq_mod]
  unfold toU64
  have h1 : (0 : Int) ≤ x % 2 ^ 64 := Int.emod_nonneg _ (by norm_num)
  zify
  rw [Int.toNat_of_nonneg h1, Int.toNat_of_nonneg (Int.emod_nonneg _ (by norm_num))]
  exact Int.emod_emod_of_dvd x (by norm_num)

theorem ofU64_small {n : Nat} (h : n < 2 ^ 48) : ofU64 n = n := by
  unfold ofU64
  have : n % 2 ^ 64 = n := Nat.mod_eq_of_lt (by omega)
  rw [this, if_pos (by omega)]

theorem ofU64_mask48 (x : Int) : ofU64 (toU64 x &&& ((1 <<< 48) - 1)) = x % 2 ^ 48 := by
  have h0 : (0 : Int) ≤ x % 2 ^ 48 := Int.emod_nonneg _ (by norm_num)
  have h1 : x % 2 ^ 48 < 2 ^ 48 := Int.emod_lt_of_pos _ (by norm_num)
  rw [mask48_eq, ofU64_small (by omega), Int.toNat_of_nonneg h0]

theorem and_compl_eq_zero {m j : Nat} (hm : m < 2 ^ j) : m &&& (2 ^ j - (m + 1)) = 0 := by
  apply Nat.eq_of_testBit_eq
  intro i
  rw [Nat.testBit_and, Nat.testBit_two_pow_sub_succ hm, Nat.zero_testBit]
  cases m.testBit i <;> simp

/-- A `j`-bit pattern that is contained in its own negation is a power of two. -/
theorem pow2_of_and_neg : ∀ (j n : Nat), 0 < n → n < 2 ^ j → n &&& (2 ^ j - n) = n →
    ∃ k, n = 2 ^ k := by
  intro j
  induction j with
  | zero => intro n h0 h1; omega
  | succ j ih =>
    intro n h0 h1 h
    have hd := congrArg (· / 2) h
    simp only [Nat.and_div_two] at hd
    rcases Nat.mod_two_eq_zero_or_one n with he | ho
    · have hx : (2 ^ (j + 1) - n) / 2 = 2 ^ j - n / 2 := by
        rw [pow_succ]; omega
      rw [hx] at hd
      obtain ⟨k, hk⟩ := ih (n / 2) (by omega) (by rw [pow_succ] at h1; omega) hd
      refine ⟨k + 1, ?_⟩
      rw [pow_succ]; omega
    · have hx : (2 ^ (j + 1) - n) / 2 = 2 ^ j - (n / 2 + 1) := by
        rw [pow_succ]; omega
      rw [hx, and_compl_eq_zero (by rw [pow_succ] at h1; omega)] at hd
      refine ⟨0, ?_⟩
      simp; omega

theorem toU32_of_pos {b : Int} (h0 : 0 < b) (h1 : b < 2 ^ 31) :
    toU32 b = b.toNat ∧ toU32 (wrap32 (-b)) = 2 ^ 32 - b.toNat := by
  unfold toU32
  rw [wrap32_of_range (by omega) (by omega)]
  constructor
  · rw [Int.emod_eq_of_lt (by omega) (by omega)]
  · have : (-b) % 2 ^ 32 = 2 ^ 32 - b := by omega
    rw [this]
    omega

theorem xor_mod_two_pow_of_lt (a K j : Nat) (hK : K < 2 ^ j) :
    (a ^^^ K) % 2 ^ j = (a % 2 ^ j) ^^^ K := by
  apply Nat.eq_of_testBit_eq
  intro i
  simp only [Nat.testBit_mod_two_pow, Nat.testBit_xor]
  by_cases hi : i < j
  · simp [hi]
  · have : K.testBit i = false :=
      Nat.testBit_lt_two_pow (lt_of_lt_of_le hK (Nat.pow_le_pow_right (by norm_num) (by omega)))
    simp [hi, this]

namespace Random

/-- The multiplier and the increment of the generator. -/
theorem next_seed (r : Random) (bits : Nat) :
    (r.next bits).2.seed = (r.seed * 0x5DEECE66D + 0xB) % 2 ^ 48 := by
  simp only [next, ofU64_mask48]

theorem next_fst (r : Random) (bits : Nat) :
    (r.next bits).1 = wrap32 (((r.seed * 0x5DEECE66D + 0xB) % 2 ^ 48) / 2 ^ (48 - bits)) := by
  simp only [next, ofU64_mask48, Int.shiftRight_eq_div_pow]
  norm_cast

theorem next_snd_bits (r : Random) (b1 b2 : Nat) : (r.next b1).2 = (r.next b2).2 := rfl

theorem top_bits_range (s : Int) (bits : Nat) (hb : bits ≤ 48) :
    0 ≤ (s % 2 ^ 48) / 2 ^ (48 - bits) ∧ (s % 2 ^ 48) / 2 ^ (48 - bits) < 2 ^ bits := by
  have h0 : (0 : Int) ≤ s % 2 ^ 48 := Int.emod_nonneg _ (by norm_num)
  have h1 : s % 2 ^ 48 < 2 ^ 48 := Int.emod_lt_of_pos _ (by norm_num)
  have hp : (0 : Int) < 2 ^ (48 - bits) := by positivity
  refine ⟨Int.ediv_nonneg h0 hp.le, ?_⟩
  rw [Int.ediv_lt_iff_lt_mul hp]
  have : (2 : Int) ^ bits * 2 ^ (48 - bits) = 2 ^ 48 := by
    rw [← pow_add]
    congr 1
    omega
  rw [this]
  exact h1

/-- A draw of 31 bits is a non-negative `int`. -/
theorem next31_eq (r : Random) :
    (r.next 31).1 = ((r.seed * 0x5DEECE66D + 0xB) % 2 ^ 48) / 2 ^ 17 := by
  rw [next_fst]
  have h := top_bits_range (r.seed * 0x5DEECE66D + 0xB) 31 (by norm_num)
  norm_num at h ⊢
  exact wrap32_of_range (by omega) (by omega)

theorem next31_range (r : Random) : 0 ≤ (r.next 31).1 ∧ (r.next 31).1 < 2 ^ 31 := by
  rw [next31_eq]
  have h := top_bits_range (r.seed * 0x5DEECE66D + 0xB) 31 (by norm_num)
  norm_num at h ⊢
  exact h

/-! ### The period of the generator and the termination of `nextInt` -/

theorem advance_seed (r : Random) : (advance r).seed = (r.seed * lcgA + lcgC) % lcgM := by
  unfold advance
  rw [next_seed]
  rfl

theorem advance_seed_range (r : Random) : 0 ≤ (advance r).seed ∧ (advance r).seed < 2 ^ 48 := by
  rw [advance_seed]
  exact ⟨Int.emod_nonneg _ (by decide), Int.emod_lt_of_pos _ (by decide)⟩

theorem iterate_seed (n : Nat) (r : Random) :
    (advance^[n] r).seed ≡ lcgA ^ n * r.seed + lcgG n * lcgC [ZMOD lcgM] := by
  induction n with
  | zero => simp [lcgG]
  | succ n ih =>
    rw [Function.iterate_succ_apply', advance_seed]
    refine (Int.mod_modEq _ _).trans ?_
    have h := (ih.mul_right lcgA).add_right lcgC
    refine h.trans ?_
    rw [lcgG]
    have : (lcgA ^ n * r.seed + lcgG n * lcgC) * lcgA + lcgC
        = lcgA ^ (n + 1) * r.seed + (lcgA * lcgG n + 1) * lcgC := by ring
    rw [this]

theorem lcgG_add (m n : Nat) : lcgG (m + n) = lcgA ^ n * lcgG m + lcgG n := by
  induction n with
  | zero => simp [lcgG]
  | succ n ih =>
    rw [← Nat.add_assoc, lcgG, ih, lcgG]
    ring

theorem lcgPow_spec (k : Nat) :
    (lcgPow k).1 ≡ lcgA ^ (2 ^ k) [ZMOD lcgM] ∧ (lcgPow k).2 ≡ lcgG (2 ^ k) [ZMOD lcgM] := by
  induction k with
  | zero =>
    constructor
    · simpa [lcgPow] using Int.mod_modEq lcgA lcgM
    · simp [lcgPow, lcgG]
  | succ k ih =>
    obtain ⟨h1, h2⟩ := ih
    have e : 2 ^ (k + 1) = 2 ^ k + 2 ^ k := by ring
    constructor
    · have : lcgA ^ 2 ^ (k + 1) = lcgA ^ 2 ^ k * lcgA ^ 2 ^ k := by rw [e, pow_add]
      rw [this]
      exact (Int.mod_modEq _ _).trans (h1.mul h1)
    · rw [e, lcgG_add]
      have : lcgA ^ 2 ^ k * lcgG (2 ^ k) + lcgG (2 ^ k)
          = lcgG (2 ^ k) * (lcgA ^ 2 ^ k + 1) := by ring
      rw [this]
      exact (Int.mod_modEq _ _).trans (h2.mul (h1.add_right 1))

set_option maxRecDepth 100000 in
theorem lcgPow_47 : lcgPow 47 = (1, 2 ^ 47) := by decide

/-- After `2^47` calls of `next` the top bit of the 48-bit state is flipped. -/
theorem iterate_flip (r : Random) :
    (advance^[2 ^ 47] r).seed ≡ r.seed + 2 ^ 47 [ZMOD lcgM] := by
  obtain ⟨h1, h2⟩ := lcgPow_spec 47
  rw [lcgPow_47] at h1 h2
  refine (iterate_seed (2 ^ 47) r).trans ?_
  have h3 := (h1.symm.mul_right r.seed).add (h2.symm.mul_right lcgC)
  refine h3.trans ?_
  simp only [one_mul]
  apply Int.ModEq.add_left
  decide

theorem tmod_eq_emod_of_nonneg {a b : Int} (ha : 0 ≤ a) (hb : 0 ≤ b) : Int.tmod a b = a % b :=
  Int.tmod_eq_emod ha hb

/-- The loop condition of `nextInt` through the unwrapped value. -/
theorem rejected_iff {bound d : Int} (hb0 : 0 < bound) (hb1 : bound < 2 ^ 31)
    (hd0 : 0 ≤ d) (hd1 : d < 2 ^ 31) :
    rejected bound d = true ↔ 2 ^ 31 ≤ d - d % bound + (bound - 1) := by
  unfold rejected
  rw [tmod_eq_emod_of_nonneg hd0 hb0.le, decide_eq_true_iff]
  have h0 := Int.emod_nonneg d hb0.ne'
  have h1 := Int.emod_lt_of_pos d hb0
  have h2 : d % bound ≤ d := by
    have := Int.emod_add_ediv d bound
    have hq : 0 ≤ d / bound := Int.ediv_nonneg hd0 hb0.le
    nlinarith
  unfold wrap32
  generalize d % bound = m at *
  omega

theorem not_rejected_of_small {bound d : Int} (hb0 : 0 < bound) (hb1 : bound < 2 ^ 31)
    (hd0 : 0 ≤ d) (hd1 : d < 2 ^ 30) : rejected bound d = false := by
  rw [Bool.eq_false_iff]
  intro h
  rw [rejected_iff hb0 hb1 hd0 (by omega)] at h
  have h0 := Int.emod_nonneg d hb0.ne'
  by_cases hlt : d < bound
  · rw [Int.emod_eq_of_lt hd0 hlt] at h
    omega
  · omega

theorem draw31_eq (r : Random) : draw31 r = (advance r).seed / 2 ^ 17 := by
  unfold draw31 advance
  rw [next31_eq, next_seed]

theorem draw31_range (r : Random) : 0 ≤ draw31 r ∧ draw31 r < 2 ^ 31 := next31_range r

theorem iterate_pos_seed_range (n : Nat) (hn : 0 < n) (r : Random) :
    0 ≤ (advance^[n] r).seed ∧ (advance^[n] r).seed < 2 ^ 48 := by
  obtain ⟨m, rfl⟩ : ∃ m, n = m + 1 := ⟨n - 1, by omega⟩
  rw [Function.iterate_succ_apply']
  exact advance_seed_range _

theorem small_after_flip (n : Nat) (hn : 0 < n) (u : Random)
    (hu0 : 2 ^ 47 ≤ u.seed) (hu1 : u.seed < 2 ^ 48)
    (hf : (advance^[n] u).seed ≡ u.seed + 2 ^ 47 [ZMOD lcgM]) :
    (advance^[n] u).seed < 2 ^ 47 := by
  have hr2 := iterate_pos_seed_range n hn u
  have h2 : (advance^[n] u).seed % lcgM = (u.seed + 2 ^ 47) % lcgM := hf
  have h3 : (advance^[n] u).seed % lcgM = (advance^[n] u).seed :=
    Int.emod_eq_of_lt hr2.1 hr2.2
  have h4 : (u.seed + 2 ^ 47) % lcgM = u.seed - 2 ^ 47 := by
    unfold lcgM
    omega
  rw [← h3, h2, h4]
  omega

/-- Among the first `2^47 + 1` draws one is below `2^30`. -/
theorem exists_small_draw (r : Random) :
    ∃ j, j < enoughFuel ∧ draw31 (advance^[j] r) < 2 ^ 30 := by
  by_cases h : (advance r).seed < 2 ^ 47
  · refine ⟨0, by norm_num [enoughFuel], ?_⟩
    rw [Function.iterate_zero, id, draw31_eq]
    omega
  · refine ⟨2 ^ 47, by norm_num [enoughFuel], ?_⟩
    have hf := iterate_flip (advance r)
    have hr := advance_seed_range r
    have hpos : 0 < 2 ^ 47 := by norm_num
    generalize 2 ^ 47 = n at hf hpos ⊢
    have hs := small_after_flip n hpos (advance r) (by omega) hr.2 hf
    rw [draw31_eq, ← Function.iterate_succ_apply' advance, Function.iterate_succ_apply]
    omega

theorem nextIntLoop_succ (bound : Int) (fuel : Nat) (r : Random) :
    nextIntLoop bound (fuel + 1) r =
      if rejected bound (draw31 r) then nextIntLoop bound fuel (advance r)
      else some (Int.tmod (draw31 r) bound, advance r) := rfl

/-- The loop returns the first draw that is not rejected. -/
theorem nextIntLoop_first (bound : Int) :
    ∀ (j fuel : Nat) (r : Random), j < fuel →
      (∀ i, i < j → rejected bound (draw31 (advance^[i] r)) = true) →
      rejected bound (draw31 (advance^[j] r)) = false →
      nextIntLoop bound fuel r
        = some (Int.tmod (draw31 (advance^[j] r)) bound, advance^[j + 1] r) := by
  intro j
  induction j with
  | zero =>
    intro fuel r hf _ hacc
    obtain ⟨f, rfl⟩ : ∃ f, fuel = f + 1 := ⟨fuel - 1, by omega⟩
    rw [nextIntLoop_succ]
    simp only [Function.iterate_zero, id] at hacc
    rw [hacc]
    rfl
  | succ j ih =>
    intro fuel r hf hrej hacc
    obtain ⟨f, rfl⟩ : ∃ f, fuel = f + 1 := ⟨fuel - 1, by omega⟩
    rw [nextIntLoop_succ]
    have h0 := hrej 0 (by omega)
    simp only [Function.iterate_zero, id] at h0
    rw [if_pos h0]
    have h1 : ∀ i, i < j → rejected bound (draw31 (advance^[i] (advance r))) = true := by
      intro i hi
      have := hrej (i + 1) (by omega)
      rwa [Function.iterate_succ_apply] at this
    have h2 : rejected bound (draw31 (advance^[j] (advance r))) = false := by
      rwa [Function.iterate_succ_apply] at hacc
    rw [ih f (advance r) (by omega) h1 h2]
    rfl

/-- Whatever the loop returns is a residue of a 31-bit draw. -/
theorem nextIntLoop_range {bound : Int} (hb : 0 < bound) :
    ∀ (fuel : Nat) (r : Random) (v : Int) (r' : Random),
      nextIntLoop bound fuel r = some (v, r') → 0 ≤ v ∧ v < bound := by
  intro fuel
  induction fuel with
  | zero => intro r v r' h; simp [nextIntLoop] at h
  | succ f ih =>
    intro r v r' h
    rw [nextIntLoop_succ] at h
    split at h
    · exact ih _ _ _ h
    · simp only [Option.some.injEq, Prod.mk.injEq] at h
      rw [← h.1, tmod_eq_emod_of_nonneg (draw31_range r).1 hb.le]
      exact ⟨Int.emod_nonneg _ hb.ne', Int.emod_lt_of_pos _ hb⟩

/-- With enough fuel the loop of `nextInt` returns. -/
theorem nextIntLoop_total {bound : Int} (hb0 : 0 < bound) (hb1 : bound < 2 ^ 31)
    {fuel : Nat} (hf : enoughFuel ≤ fuel) (r : Random) :
    ∃ v r', nextIntLoop bound fuel r = some (v, r') := by
  obtain ⟨j, hj, hs⟩ := exists_small_draw r
  have key : ∀ (j fuel : Nat) (r : Random), j < fuel →
      rejected bound (draw31 (advance^[j] r)) = false →
      ∃ v r', nextIntLoop bound fuel r = some (v, r') := by
    intro j
    induction j with
    | zero =>
      intro fuel r hf hacc
      obtain ⟨f, rfl⟩ : ∃ f, fuel = f + 1 := ⟨fuel - 1, by omega⟩
      rw [nextIntLoop_succ]
      simp only [Function.iterate_zero, id] at hacc
      simp [hacc]
    | succ j ih =>
      intro fuel r hf hacc
      obtain ⟨f, rfl⟩ : ∃ f, fuel = f + 1 := ⟨fuel - 1, by omega⟩
      rw [nextIntLoop_succ]
      split
      · exact ih f (advance r) (by omega) (by rwa [Function.iterate_succ_apply] at hacc)
      · exact ⟨_, _, rfl⟩
  exact key j fuel r (by omega)
    (not_rejected_of_small hb0 hb1 (draw31_range _).1 hs)

theorem powerOfTwoTest_iff {bound : Int} (h0 : 0 < bound) (h1 : bound < 2 ^ 31) :
    powerOfTwoTest bound = true ↔ ∃ k : Nat, bound = 2 ^ k := by
  unfold powerOfTwoTest
  rw [decide_eq_true_iff]
  obtain ⟨e1, e2⟩ := toU32_of_pos h0 h1
  rw [e1, e2]
  constructor
  · intro h
    obtain ⟨k, hk⟩ := pow2_of_and_neg 32 bound.toNat (by omega) (by omega) h
    refine ⟨k, ?_⟩
    have : ((bound.toNat : Nat) : Int) = ((2 ^ k : Nat) : Int) := by rw [hk]
    rw [Int.toNat_of_nonneg h0.le] at this
    rw [this]
    norm_cast
  · rintro ⟨k, rfl⟩
    have hk : k < 31 := by
      by_contra hc
      have : (2 : Int) ^ 31 ≤ 2 ^ k := pow_le_pow_right₀ (by norm_num) (by omega)
      omega
    have e : ((2 : Int) ^ k).toNat = 2 ^ k := by
      have : ((2 : Int) ^ k) = ((2 ^ k : Nat) : Int) := by norm_cast
      rw [this, Int.toNat_natCast]
    rw [e]
    interval_cases k <;> decide

theorem nextInt_pow2 (fuel : Nat) (k : Nat) (hk : k ≤ 30) (r : Random) :
    nextInt fuel (2 ^ k) r = some (wrap32 ((2 ^ k * draw31 r) >>> (31 : Nat)), advance r) := by
  have h0 : (0 : Int) < 2 ^ k := by positivity
  have h1 : (2 : Int) ^ k < 2 ^ 31 := pow_lt_pow_right₀ (by norm_num) (by omega)
  unfold nextInt
  rw [if_neg (by omega), if_pos ((powerOfTwoTest_iff h0 h1).2 ⟨k, rfl⟩)]
  rfl

theorem pow2_scale (k : Nat) (hk : k ≤ 30) (d : Int) (hd0 : 0 ≤ d) (hd1 : d < 2 ^ 31) :
    wrap32 ((2 ^ k * d) >>> (31 : Nat)) = d >>> (31 - k) ∧
      0 ≤ d >>> (31 - k) ∧ d >>> (31 - k) < 2 ^ k := by
  rw [Int.shiftRight_eq_div_pow, Int.shiftRight_eq_div_pow]
  have e31 : ((2 ^ 31 : Nat) : Int) = 2 ^ k * 2 ^ (31 - k) := by
    rw [← pow_add]
    norm_cast
    congr 1
    omega
  have hp : (0 : Int) < 2 ^ (31 - k) := by positivity
  have hpk : (0 : Int) < 2 ^ k := by positivity
  have hdiv : 2 ^ k * d / ((2 ^ 31 : Nat) : Int) = d / 2 ^ (31 - k) := by
    rw [e31]
    exact Int.mul_ediv_mul_of_pos _ _ hpk
  have hlt : d / 2 ^ (31 - k) < 2 ^ k := by
    rw [Int.ediv_lt_iff_lt_mul hp, ← e31]
    norm_cast
  have hnn : 0 ≤ d / 2 ^ (31 - k) := Int.ediv_nonneg hd0 hp.le
  have hk31 : (2 : Int) ^ k < 2 ^ 31 := pow_lt_pow_right₀ (by norm_num) (by omega)
  rw [hdiv]
  push_cast
  exact ⟨wrap32_of_range (by omega) (by omega), hnn, hlt⟩

theorem nextInt_not_pow2 (fuel : Nat) {bound : Int} (h0 : 0 < bound) (h1 : bound < 2 ^ 31)
    (hnp : ¬ ∃ k : Nat, bound = 2 ^ k) (r : Random) :
    nextInt fuel bound r = nextIntLoop bound fuel r := by
  unfold nextInt
  rw [if_neg (by omega)]
  have : powerOfTwoTest bound ≠ true := fun h => hnp ((powerOfTwoTest_iff h0 h1).1 h)
  rw [if_neg this]

/-- Every result of `nextInt` with a bound that is an `int` lies below it. -/
theorem nextInt_range {fuel : Nat} {bound : Int} (h0 : 0 < bound) (h1 : bound < 2 ^ 31)
    {r : Random} {v : Int} {r' : Random} (h : nextInt fuel bound r = some (v, r')) :
    0 ≤ v ∧ v < bound := by
  by_cases hp : ∃ k : Nat, bound = 2 ^ k
  · obtain ⟨k, rfl⟩ := hp
    have hk : k ≤ 30 := by
      by_contra hc
      have : (2 : Int) ^ 31 ≤ 2 ^ k := pow_le_pow_right₀ (by norm_num) (by omega)
      omega
    rw [nextInt_pow2 fuel k hk] at h
    simp only [Option.some.injEq, Prod.mk.injEq] at h
    obtain ⟨e, a, b⟩ := pow2_scale k hk (draw31 r) (draw31_range r).1 (draw31_range r).2
    rw [← h.1, e]
    exact ⟨a, b⟩
  · rw [nextInt_not_pow2 fuel h0 h1 hp] at h
    exact nextIntLoop_range h0 _ _ _ _ h

/-- With enough fuel `nextInt` returns, whatever the bound. -/
theorem nextInt_total {fuel : Nat} (hf : enoughFuel ≤ fuel) (bound : Int)
    (h1 : bound < 2 ^ 31) (r : Random) : ∃ v r', nextInt fuel bound r = some (v, r') := by
  by_cases h0 : bound ≤ 0
  · exact ⟨0, r, by unfold nextInt; rw [if_pos h0]⟩
  · by_cases hp : powerOfTwoTest bound = true
    · exact ⟨_, _, by unfold nextInt; rw [if_neg h0, if_pos hp]⟩
    · unfold nextInt
      rw [if_neg h0, if_neg hp]
      exact nextIntLoop_total (by omega) h1 hf r

end Random

/-! ## Claims on `Random` -/

/-- C2: `next(bits)` with `1 <= bits <= 32` replaces the state by
`(s * 0x5DEECE66D + 0xB) mod 2^48` and returns the top `bits` bits of the
new state, `newState / 2^(48 - bits)`, converted to a signed 32-bit
integer (for `bits <= 31` the conversion changes nothing); `Random(seed)`
starts from the 64-bit pattern of `seed` XOR `0x5DEECE66D`, modulo `2^48`,
which is also the low 48 bits of `seed` XOR the constant. -/
theorem C2_next_is_lcg (r : Random) (bits : Nat) (h1 : 1 ≤ bits) (h32 : bits ≤ 32) :
    (r.next bits).2.seed = (r.seed * 0x5DEECE66D + 0xB) % 2 ^ 48 ∧
    (r.next bits).1 = wrap32 ((r.next bits).2.seed / 2 ^ (48 - bits)) ∧
    (0 ≤ (r.next bits).2.seed / 2 ^ (48 - bits) ∧
      (r.next bits).2.seed / 2 ^ (48 - bits) < 2 ^ bits) ∧
    (bits ≤ 31 → (r.next bits).1 = (r.next bits).2.seed / 2 ^ (48 - bits)) ∧
    (∀ seed : Int,
      (Random.setSeed seed).seed = (((toU64 seed ^^^ 0x5DEECE66D) % 2 ^ 48 : Nat) : Int) ∧
      (Random.setSeed seed).seed = (((seed % 2 ^ 48).toNat ^^^ 0x5DEECE66D : Nat) : Int)) := by
  have hr := Random.top_bits_range (r.seed * 0x5DEECE66D + 0xB) bits (by omega)
  refine ⟨Random.next_seed r bits, ?_, ?_, ?_, ?_⟩
  · rw [Random.next_fst, Random.next_seed]
  · rw [Random.next_seed]
    exact hr
  · intro h31
    rw [Random.next_fst, Random.next_seed]
    have hp : (2 : Int) ^ bits ≤ 2 ^ 31 := pow_le_pow_right₀ (by norm_num) h31
    exact wrap32_of_range (by omega) (by omega)
  · intro seed
    have hm : (toU64 seed ^^^ 0x5DEECE66D) &&& ((1 <<< 48) - 1)
        = (toU64 seed ^^^ 0x5DEECE66D) % 2 ^ 48 := by
      have h : ((1 : Nat) <<< 48) - 1 = 2 ^ 48 - 1 := by decide
      rw [h, Nat.and_pow_two_sub_one_eq_mod]
    have hlt : (toU64 seed ^^^ 0x5DEECE66D) % 2 ^ 48 < 2 ^ 48 := Nat.mod_lt _ (by norm_num)
    have e1 : (Random.setSeed seed).seed
        = (((toU64 seed ^^^ 0x5DEECE66D) % 2 ^ 48 : Nat) : Int) := by
      unfold Random.setSeed
      simp only
      rw [hm, ofU64_small hlt]
    refine ⟨e1, ?_⟩
    rw [e1, xor_mod_two_pow_of_lt _ _ 48 (by norm_num)]
    congr 2
    have h := mask48_eq seed
    have h2 : ((1 : Nat) <<< 48) - 1 = 2 ^ 48 - 1 := by decide
    rw [h2, Nat.and_pow_two_sub_one_eq_mod] at h
    exact h

/-- C2, at the state 0 and `bits = 31`: the next state is the increment. -/
theorem C2_next_is_lcg_witness :
    (1 ≤ 31 ∧ 31 ≤ 32) ∧ ((Random.mk 0).next 31).2.seed = 11 :=
  ⟨by decide, (C2_next_is_lcg (Random.mk 0) 31 (by decide) (by decide)).1.trans (by decide)⟩

/-- C3: for a power-of-two bound `2^k`, `0 <= k <= 30`, and every state,
`nextInt(bound)` returns for every amount of loop fuel, zero included (the
rejection loop is not entered): the state advances exactly once, the result
is `(bound * r) >> 31` for the single draw `r = next(31)`, which equals
`r >> (31 - k)` and lies in `[0, bound)`. -/
theorem C3_nextInt_power_of_two (k : Nat) (hk : k ≤ 30) (fuel : Nat) (r : Random) :
    Random.nextInt fuel (2 ^ k) r
      = some (wrap32 ((2 ^ k * Random.draw31 r) >>> (31 : Nat)), Random.advance r) ∧
    Random.nextInt 0 (2 ^ k) r = Random.nextInt fuel (2 ^ k) r ∧
    wrap32 ((2 ^ k * Random.draw31 r) >>> (31 : Nat)) = Random.draw31 r >>> (31 - k) ∧
    0 ≤ Random.draw31 r >>> (31 - k) ∧ Random.draw31 r >>> (31 - k) < 2 ^ k := by
  refine ⟨Random.nextInt_pow2 fuel k hk r, ?_, ?_⟩
  · rw [Random.nextInt_pow2 fuel k hk r, Random.nextInt_pow2 0 k hk r]
  · exact Random.pow2_scale k hk _ (Random.draw31_range r).1 (Random.draw31_range r).2

set_option maxRecDepth 100000 in
/-- C3 at `nextInt(16)` from `Random(42)` with no fuel: the result is 11. -/
theorem C3_nextInt_power_of_two_witness :
    4 ≤ 30 ∧ (Random.nextInt 0 16 (Random.setSeed 42)).map (fun p => p.1) = some 11 :=
  ⟨by decide, by
    have h := (C3_nextInt_power_of_two 4 (by decide) 0 (Random.setSeed 42)).1
    have e : ((2 : Int) ^ 4) = 16 := by norm_num
    rw [e] at h
    rw [h]
    decide⟩

/-- C4: for every bound with `0 < bound < 2^31` that is not a power of two:
a 31-bit draw `d` is rejected exactly when `d - (d mod bound) + (bound - 1)`
is at least `2^31` (negative after 32-bit wraparound); `nextInt(bound)`
returns `d mod bound` for the first draw `d` that is not rejected and
leaves the state after that draw; such a draw exists, so that with
`enoughFuel` the call returns; and every result lies in `[0, bound)`. -/
theorem C4_nextInt_rejection (bound : Int) (hb0 : 0 < bound) (hb1 : bound < 2 ^ 31)
    (hnp : ¬ ∃ k : Nat, bound = 2 ^ k) (r : Random) :
    (∀ d : Int, 0 ≤ d → d < 2 ^ 31 →
      (Random.rejected bound d = true ↔ 2 ^ 31 ≤ d - d % bound + (bound - 1))) ∧
    (∀ j fuel : Nat, j < fuel →
      (∀ i, i < j → Random.rejected bound (Random.draw31 (Random.advance^[i] r)) = true) →
      Random.rejected bound (Random.draw31 (Random.advance^[j] r)) = false →
      Random.nextInt fuel bound r
        = some (Random.draw31 (Random.advance^[j] r) % bound, Random.advance^[j + 1] r)) ∧
    (∃ j, j < Random.enoughFuel ∧
      Random.rejected bound (Random.draw31 (Random.advance^[j] r)) = false) ∧
    (∀ fuel, Random.enoughFuel ≤ fuel → ∃ v r', Random.nextInt fuel bound r = some (v, r')) ∧
    (∀ fuel v r', Random.nextInt fuel bound r = some (v, r') → 0 ≤ v ∧ v < bound) := by
  refine ⟨fun d h0 h1 => Random.rejected_iff hb0 hb1 h0 h1, ?_, ?_, ?_, ?_⟩
  · intro j fuel hj hrej hacc
    rw [Random.nextInt_not_pow2 fuel hb0 hb1 hnp, Random.nextIntLoop_first bound j fuel r hj hrej hacc,
      Random.tmod_eq_emod_of_nonneg (Random.draw31_range _).1 hb0.le]
  · obtain ⟨j, hj, hs⟩ := Random.exists_small_draw r
    exact ⟨j, hj, Random.not_rejected_of_small hb0 hb1 (Random.draw31_range _).1 hs⟩
  · intro fuel hf
    exact Random.nextInt_total hf bound hb1 r
  · intro fuel v r' h
    exact Random.nextInt_range hb0 hb1 h

set_option maxRecDepth 100000 in
/-- C4 at `nextInt(100)` from `Random(42)`: the first draw is kept, the
result is 30. -/
theorem C4_nextInt_rejection_witness :
    (0 < (100 : Int) ∧ (100 : Int) < 2 ^ 31) ∧
    (Random.nextInt 1 100 (Random.setSeed 42)).map (fun p => p.1) = some 30 :=
  ⟨by decide, by
    have hnp : ¬ ∃ k : Nat, (100 : Int) = 2 ^ k := by
      rintro ⟨k, hk⟩
      have hk7 : k < 7 := by
        by_contra hc
        have : (2 : Int) ^ 7 ≤ 2 ^ k := pow_le_pow_right₀ (by norm_num) (by omega)
        omega
      interval_cases k <;> omega
    have h := (C4_nextInt_rejection 100 (by decide) (by decide) hnp (Random.setSeed 42)).2.1
      0 1 (by decide) (fun i hi => absurd hi (by omega)) (by decide)
    rw [h]
    decide⟩

/-! ## The odds table and the zone selection -/

namespace LevelGenerator

theorem selectZone_five (a b c d e t : Int) :
    selectZone [a, b, c, d, e] t
      = if e ≤ t then 4 else if d ≤ t then 3 else if c ≤ t then 2 else if b ≤ t then 1 else 0 := by
  simp only [selectZone, List.range, List.range.loop, List.foldl, List.getD_cons_zero,
    List.getD_cons_succ]
  split_ifs <;> rfl

/-- The odds loop on five weights whose clamped sum fits an `int`: no
addition wraps. -/
theorem oddsLoop_five (a b c d e : Int)
    (hsum : max 0 a + max 0 b + max 0 c + max 0 d + max 0 e < 2 ^ 31) :
    oddsLoop [a, b, c, d, e] 0
      = ([0, max 0 a, max 0 a + max 0 b, max 0 a + max 0 b + max 0 c,
          max 0 a + max 0 b + max 0 c + max 0 d],
        max 0 a + max 0 b + max 0 c + max 0 d + max 0 e) := by
  have key : ∀ o : Int, (if o < 0 then 0 else o) = max 0 o := fun o => by
    rw [max_def]
    split_ifs <;> omega
  simp only [oddsLoop, key]
  have ha := le_max_left 0 a
  have hb := le_max_left 0 b
  have hc := le_max_left 0 c
  have hd := le_max_left 0 d
  have he := le_max_left 0 e
  generalize max 0 a = a' at *
  generalize max 0 b = b' at *
  generalize max 0 c = c' at *
  generalize max 0 d = d' at *
  generalize max 0 e = e' at *
  simp only [wrap32, Prod.mk.injEq, List.cons.injEq, and_true]
  refine ⟨⟨?_, ?_, ?_, ?_, ?_⟩, ?_⟩ <;> omega

/-- In the range of difficulties where no weight and no sum of weights
leaves the `int` range, the odds table holds the thresholds. -/
theorem setOdds_odds (g : LevelGenerator) (difficulty type : Int)
    (hlo : -(2 : Int) ^ 31 ≤ 5 * difficulty - 10) (hhi : 22 + 8 * difficulty < 2 ^ 31) :
    (g.setOdds difficulty type).odds
      = [zoneThreshold difficulty type 0, zoneThreshold difficulty type 1,
          zoneThreshold difficulty type 2, zoneThreshold difficulty type 3,
          zoneThreshold difficulty type 4] ∧
    (g.setOdds difficulty type).totalOdds = zoneThreshold difficulty type 5 := by
  have e1 : wrap32 (2 + difficulty) = 2 + difficulty :=
    wrap32_of_range (by omega) (by omega)
  have e2 : wrap32 (2 * difficulty) = 2 * difficulty :=
    wrap32_of_range (by omega) (by omega)
  have e3 : wrap32 (5 * difficulty) = 5 * difficulty :=
    wrap32_of_range (by omega) (by omega)
  have e4 : wrap32 (-10 + 5 * difficulty) = -10 + 5 * difficulty :=
    wrap32_of_range (by omega) (by omega)
  have e5 : max 0 (-10 + 5 * difficulty) = max 0 (5 * difficulty - 10) := by
    congr 1
    omega
  have m20 : max (0 : Int) 20 = 20 := by norm_num
  have m10 : max (0 : Int) 10 = 10 := by norm_num
  have m00 : max (0 : Int) 0 = 0 := by norm_num
  simp only [setOdds, rawOdds, e3, e4, e1, e2, zoneThreshold, zoneWeight, List.range,
    List.range.loop, List.map, List.sum_cons, List.sum_nil, TYPE_OVERGROUND,
    ODDS_HILL_STRAIGHT]
  by_cases ht : type = 0
  · simp only [ht, ne_eq, not_true_eq_false, if_false, if_true]
    rw [oddsLoop_five _ _ _ _ _ (by simp only [max_def]; split_ifs <;> omega)]
    simp only [e5, m20, m10, m00, List.cons.injEq, and_true]
    refine ⟨⟨trivial, ?_, ?_, ?_, ?_⟩, ?_⟩ <;> omega
  · simp only [ht, ne_eq, not_false_eq_true, if_false, if_true, List.set]
    rw [oddsLoop_five _ _ _ _ _ (by simp only [max_def]; split_ifs <;> omega)]
    simp only [e5, m20, m10, m00, List.cons.injEq, and_true]
    refine ⟨⟨trivial, ?_, ?_, ?_, ?_⟩, ?_⟩ <;> omega

/-- With the weights 20 and 0 in front, the second and the third threshold
are both 20, whether or not a later weight wraps. -/
theorem oddsLoop_hill (a b c : Int) :
    ∃ x y, (oddsLoop [20, 0, a, b, c] 0).1 = [0, 20, 20, x, y] := by
  simp only [oddsLoop]
  refine ⟨_, _, congrArg₂ List.cons ?_ (congrArg₂ List.cons ?_ (congrArg₂ List.cons ?_ rfl))⟩
  · simp only [wrap32]
    split_ifs <;> omega
  · simp only [wrap32]
    split_ifs <;> omega
  · simp only [wrap32]
    split_ifs <;> omega

/-- Off the overground the thresholds of HillStraight and of Tubes are both
20, whatever the difficulty. -/
theorem setOdds_hill (g : LevelGenerator) (difficulty type : Int)
    (ht : type ≠ TYPE_OVERGROUND) :
    ∃ c d, (g.setOdds difficulty type).odds = [0, 20, 20, c, d] := by
  simp only [setOdds, rawOdds, if_pos ht, ODDS_HILL_STRAIGHT, List.set]
  exact oddsLoop_hill _ _ _

/-- No draw selects HillStraight off the overground. -/
theorem selectZone_ne_hill (g : LevelGenerator) (difficulty type : Int)
    (ht : type ≠ TYPE_OVERGROUND) (t : Int) :
    selectZone (g.setOdds difficulty type).odds t ≠ ODDS_HILL_STRAIGHT := by
  obtain ⟨c, d, e⟩ := setOdds_hill g difficulty type ht
  rw [e, selectZone_five]
  unfold ODDS_HILL_STRAIGHT
  split_ifs <;> omega

theorem zoneWeight_nonneg (difficulty type : Int) (i : Nat) :
    0 ≤ zoneWeight difficulty type i := by
  unfold zoneWeight
  split
  · omega
  · split_ifs <;> omega
  · exact le_max_left _ _
  · exact le_max_left _ _
  · exact le_max_left _ _
  · omega

theorem zoneThreshold_succ (difficulty type : Int) (i : Nat) :
    zoneThreshold difficulty type (i + 1)
      = zoneThreshold difficulty type i + zoneWeight difficulty type i := by
  simp [zoneThreshold, List.range_succ]

theorem zoneThreshold_le_add (difficulty type : Int) (n m : Nat) :
    zoneThreshold difficulty type n ≤ zoneThreshold difficulty type (n + m) := by
  induction m with
  | zero => exact le_refl _
  | succ m ih =>
    have h1 := zoneThreshold_succ difficulty type (n + m)
    have h2 := zoneWeight_nonneg difficulty type (n + m)
    rw [← Nat.add_assoc]
    omega

theorem zoneThreshold_zero (difficulty type : Int) : zoneThreshold difficulty type 0 = 0 := by
  simp [zoneThreshold]

/-- The draws that select kind `i` are those from its threshold up to the
next threshold. -/
theorem selectZone_eq_iff (g : LevelGenerator) (difficulty type : Int)
    (hlo : -(2 : Int) ^ 31 ≤ 5 * difficulty - 10) (hhi : 22 + 8 * difficulty < 2 ^ 31)
    (t : Int) (h0 : 0 ≤ t) (h1 : t < (g.setOdds difficulty type).totalOdds) (i : Nat) :
    selectZone (g.setOdds difficulty type).odds t = i ↔
      (zoneThreshold difficulty type i ≤ t ∧
        t < zoneThreshold difficulty type i + zoneWeight difficulty type i) := by
  obtain ⟨ho, ht⟩ := setOdds_odds g difficulty type hlo hhi
  rw [ht] at h1
  rw [ho, selectZone_five]
  have w0 := zoneWeight_nonneg difficulty type 0
  have w1 := zoneWeight_nonneg difficulty type 1
  have w2 := zoneWeight_nonneg difficulty type 2
  have w3 := zoneWeight_nonneg difficulty type 3
  have w4 := zoneWeight_nonneg difficulty type 4
  have s1 := zoneThreshold_succ difficulty type 0
  have s2 := zoneThreshold_succ difficulty type 1
  have s3 := zoneThreshold_succ difficulty type 2
  have s4 := zoneThreshold_succ difficulty type 3
  have s5 := zoneThreshold_succ difficulty type 4
  have z0 := zoneThreshold_zero difficulty type
  simp only [zero_add, Nat.reduceAdd] at s1 s2 s3 s4 s5
  by_cases hi : i < 5
  · interval_cases i <;> split_ifs <;> constructor <;> intro h <;>
      first | omega | exact h.elim
  · have hw : zoneWeight difficulty type i = 0 := by
      unfold zoneWeight
      split <;> omega
    have hth : zoneThreshold difficulty type 5 ≤ zoneThreshold difficulty type i := by
      obtain ⟨m, rfl⟩ : ∃ m, i = 5 + m := ⟨i - 5, by omega⟩
      exact zoneThreshold_le_add difficulty type 5 m
    split_ifs <;> constructor <;> intro h <;> omega

theorem totalOdds_ge (g : LevelGenerator) (difficulty type : Int)
    (hlo : -(2 : Int) ^ 31 ≤ 5 * difficulty - 10) (hhi : 22 + 8 * difficulty < 2 ^ 31) :
    20 ≤ (g.setOdds difficulty type).totalOdds := by
  rw [(setOdds_odds g difficulty type hlo hhi).2]
  have h := zoneThreshold_le_add difficulty type 1 4
  have h1 := zoneThreshold_succ difficulty type 0
  rw [zoneThreshold_zero] at h1
  have h2 : zoneWeight difficulty type 0 = 20 := rfl
  simp only [zero_add, Nat.reduceAdd] at h h1
  omega

theorem odds_getD (g : LevelGenerator) (difficulty type : Int)
    (hlo : -(2 : Int) ^ 31 ≤ 5 * difficulty - 10) (hhi : 22 + 8 * difficulty < 2 ^ 31)
    (i : Nat) (hi : i < 5) :
    (g.setOdds difficulty type).odds.getD i 0 = zoneThreshold difficulty type i := by
  rw [(setOdds_odds g difficulty type hlo hhi).1]
  interval_cases i <;> rfl

end LevelGenerator

namespace Gen

theorem nextInt_eq_some {fuel : Nat} {bound : Int} {s s' : GenState} {v : Int}
    (h : nextInt fuel bound s = some (v, s')) :
    ∃ r', s.random.nextInt fuel bound = some (v, r') ∧
      s' = { s with random := r',
                    nonPositiveBound := s.nonPositiveBound || decide (bound ≤ 0) } := by
  unfold nextInt at h
  split at h
  · exact absurd h (by simp)
  · rename_i v0 r0 heq
    simp only [Option.some.injEq, Prod.mk.injEq] at h
    exact ⟨r0, by rw [heq, h.1], h.2.symm⟩

theorem draw_range {fuel : Nat} {bound : Int} (h0 : 0 < bound) (h1 : bound < 2 ^ 31)
    {s s' : GenState} {v : Int} (h : nextInt fuel bound s = some (v, s')) :
    0 ≤ v ∧ v < bound := by
  obtain ⟨r', hr, _⟩ := nextInt_eq_some h
  exact Random.nextInt_range h0 h1 hr

end Gen

/-! ## The grid -/

theorem getD_mem_of_lt {α : Type} (m : List (List α)) (x : Nat) (hx : x < m.length) :
    m.getD x [] ∈ m := by
  rw [List.getD_eq_getElem?_getD, List.getElem?_eq_getElem hx]
  exact List.getElem_mem hx

theorem at2_set2 {α : Type} (m : List (List α)) (x y : Nat) (v : α) (x' y' : Int)
    (hx : x < m.length) (hy : y < (m.getD x []).length) :
    at2 (set2 m x y v) x' y' = if x' = x ∧ y' = y then some v else at2 m x' y' := by
  unfold at2 set2
  by_cases hneg : x' < 0 ∨ y' < 0
  · rw [if_pos hneg, if_pos hneg, if_neg (by omega)]
  · rw [if_neg hneg, if_neg hneg, List.getElem?_set]
    by_cases hxx : x = x'.toNat
    · rw [if_pos hxx, if_pos hx]
      have hm : m[x'.toNat]? = some (m.getD x []) := by
        rw [← hxx, List.getD_eq_getElem?_getD, List.getElem?_eq_getElem hx]
        rfl
      rw [hm]
      simp only
      rw [List.getElem?_set]
      by_cases hyy : y = y'.toNat
      · rw [if_pos hyy, if_pos hy, if_pos (by omega)]
      · rw [if_neg hyy, if_neg (by omega)]
    · rw [if_neg hxx, if_neg (by omega)]

theorem length_set2 {α : Type} (m : List (List α)) (x y : Nat) (v : α) :
    (set2 m x y v).length = m.length := by
  unfold set2
  rw [List.length_set]

theorem mem_set2 {α : Type} (m : List (List α)) (x y : Nat) (v : α) (n : Nat)
    (h : ∀ col ∈ m, col.length = n) : ∀ col ∈ set2 m x y v, col.length = n := by
  intro col hc
  unfold set2 at hc
  by_cases hx : x < m.length
  · rcases List.mem_or_eq_of_mem_set hc with h1 | h1
    · exact h col h1
    · rw [h1, List.length_set]
      exact h _ (getD_mem_of_lt m x hx)
  · rw [List.set_eq_of_length_le (by omega)] at hc
    exact h col hc

namespace Level

theorem WF.setBlock {w h : Int} {l : Level} (hl : l.WF w h) (x y : Int) (b : Nat) :
    (l.setBlock x y b).WF w h := by
  unfold Level.setBlock
  split
  · exact hl
  · obtain ⟨h1, h2, h3, h4⟩ := hl
    exact ⟨h1, h2, by simp only [length_set2]; exact h3, mem_set2 _ _ _ _ _ h4⟩

theorem WF.setSpriteTemplate {w h : Int} {l : Level} (hl : l.WF w h) (x y : Int)
    (st : SpriteTemplate) : (l.setSpriteTemplate x y st).WF w h := by
  unfold Level.setSpriteTemplate
  split
  · exact hl
  · exact hl

theorem tile_setSpriteTemplate (l : Level) (x y : Int) (st : SpriteTemplate) (x' y' : Int) :
    (l.setSpriteTemplate x y st).tile x' y' = l.tile x' y' := by
  unfold Level.setSpriteTemplate Level.tile
  split <;> rfl

theorem width_setBlock (l : Level) (x y : Int) (b : Nat) :
    (l.setBlock x y b).width = l.width := by
  unfold Level.setBlock
  split <;> rfl

theorem height_setBlock (l : Level) (x y : Int) (b : Nat) :
    (l.setBlock x y b).height = l.height := by
  unfold Level.setBlock
  split <;> rfl

theorem width_setSpriteTemplate (l : Level) (x y : Int) (st : SpriteTemplate) :
    (l.setSpriteTemplate x y st).width = l.width := by
  unfold Level.setSpriteTemplate
  split <;> rfl

theorem height_setSpriteTemplate (l : Level) (x y : Int) (st : SpriteTemplate) :
    (l.setSpriteTemplate x y st).height = l.height := by
  unfold Level.setSpriteTemplate
  split <;> rfl

/-- The tile read back after a write. -/
theorem tile_setBlock {w h : Int} {l : Level} (hl : l.WF w h) (x y : Int) (b : Nat)
    (x' y' : Int) :
    (l.setBlock x y b).tile x' y'
      = if x' = x ∧ y' = y ∧ 0 ≤ x ∧ x < w ∧ 0 ≤ y ∧ y < h then some b else l.tile x' y' := by
  obtain ⟨h1, h2, h3, h4⟩ := hl
  unfold Level.setBlock Level.tile
  by_cases hout : x < 0 ∨ y < 0 ∨ x ≥ l.width ∨ y ≥ l.height
  · rw [if_pos hout, if_neg (by omega)]
  · rw [if_neg hout]
    simp only
    have hx : x.toNat < l.map.length := by omega
    have hy : y.toNat < (l.map.getD x.toNat []).length := by
      rw [h4 _ (getD_mem_of_lt _ _ hx)]
      omega
    rw [at2_set2 _ _ _ _ _ _ hx hy]
    by_cases hc : x' = x ∧ y' = y
    · rw [if_pos (by omega), if_pos (by omega)]
    · rw [if_neg (by omega), if_neg (by omega)]

/-- Inside a well-formed grid every cell holds a tile. -/
theorem tile_isSome {w h : Int} {l : Level} (hl : l.WF w h) {x y : Int}
    (hx0 : 0 ≤ x) (hx1 : x < w) (hy0 : 0 ≤ y) (hy1 : y < h) : ∃ b, l.tile x y = some b := by
  obtain ⟨h1, h2, h3, h4⟩ := hl
  unfold Level.tile at2
  rw [if_neg (by omega)]
  have hx : x.toNat < l.map.length := by omega
  rw [List.getElem?_eq_getElem hx]
  simp only
  have hy : y.toNat < (l.map[x.toNat]).length := by
    rw [h4 _ (List.getElem_mem hx)]
    omega
  exact ⟨_, List.getElem?_eq_getElem hy⟩

theorem xExit_setBlock (l : Level) (x y : Int) (b : Nat) :
    (l.setBlock x y b).xExit = l.xExit ∧ (l.setBlock x y b).yExit = l.yExit := by
  unfold Level.setBlock
  split <;> exact ⟨rfl, rfl⟩

/-- The constructor builds a grid of the requested size. -/
theorem init_WF (w h : Int) (hw : 0 ≤ w) (hh : 0 ≤ h) :
    ∃ l, Level.init w h = some l ∧ l.WF w h := by
  unfold Level.init
  rw [if_neg (by omega)]
  refine ⟨_, rfl, rfl, rfl, ?_, ?_⟩
  · simp
  · intro col hc
    simp only at hc
    rw [List.eq_of_mem_replicate hc, List.length_replicate]

theorem blank_WF (w h : Nat) : (Level.blank w h).WF w h := by
  refine ⟨rfl, rfl, ?_, ?_⟩
  · simp [Level.blank]
  · intro col hc
    simp only [Level.blank] at hc
    rw [List.eq_of_mem_replicate hc, List.length_replicate]
    simp

/-- In a grid with at least one cell `getBlock` reads inside the grid. -/
theorem getBlock_isSome {w h : Int} {l : Level} (hl : l.WF w h) (hw : 1 ≤ w) (hh : 1 ≤ h)
    (x y : Int) : ∃ b, l.getBlock x y = some b := by
  unfold Level.getBlock
  simp only
  split
  · exact ⟨0, rfl⟩
  · have e1 := hl.1
    have e2 := hl.2.1
    apply tile_isSome hl <;> split_ifs <;> omega

/-- In a grid with at least one cell `getBlockCapped` reads inside the grid. -/
theorem getBlockCapped_isSome {w h : Int} {l : Level} (hl : l.WF w h) (hw : 1 ≤ w)
    (hh : 1 ≤ h) (x y : Int) : ∃ b, l.getBlockCapped x y = some b := by
  unfold Level.getBlockCapped
  simp only
  have e1 := hl.1
  have e2 := hl.2.1
  apply tile_isSome hl <;> split_ifs <;> omega

end Level

/-! ## Rules for generator steps -/

namespace Gen

theorem bind_eq {α β : Type} (m : Gen α) (f : α → Gen β) : (m >>= f) = andThen m f := rfl

theorem pure_eq {α : Type} (a : α) : (pure a : Gen α) = ret a := rfl

theorem ret_andThen {α β : Type} (a : α) (f : α → Gen β) : andThen (ret a) f = f a := rfl

theorem andThen_assoc {α β γ : Type} (m : Gen α) (f : α → Gen β) (k : β → Gen γ) :
    andThen (andThen m f) k = andThen m (fun a => andThen (f a) k) := by
  funext s
  unfold andThen
  cases m s with
  | none => rfl
  | some p => rfl

theorem Tri.ofRet {α : Type} {M : Bool} {P : Level → Prop} {Q : α → Level → Prop} (a : α)
    (h : ∀ l, P l → Q a l) : Tri M P (Gen.ret a) Q := by
  intro s hP hm
  exact ⟨a, s, rfl, h _ hP, hm⟩

theorem Tri.bind {α β : Type} {M : Bool} {P : Level → Prop} {R : α → Level → Prop}
    {Q : β → Level → Prop} {m : Gen α} {f : α → Gen β}
    (h1 : Tri M P m R) (h2 : ∀ a, Tri M (R a) (f a) Q) : Tri M P (Gen.andThen m f) Q := by
  intro s hP hm
  obtain ⟨a, s1, e1, hR, hm1⟩ := h1 s hP hm
  obtain ⟨b, s2, e2, hQ, hm2⟩ := h2 a s1 hR hm1
  refine ⟨b, s2, ?_, hQ, hm2⟩
  unfold Gen.andThen
  rw [e1]
  exact e2

theorem Tri.conseq {α : Type} {M : Bool} {P A : Level → Prop} {Q B : α → Level → Prop}
    {m : Gen α} (h : Tri M P m Q) (hp : ∀ l, A l → P l) (hq : ∀ a l, Q a l → B a l) :
    Tri M A m B := by
  intro s hP hm
  obtain ⟨a, s1, e1, hQ, hm1⟩ := h s (hp _ hP) hm
  exact ⟨a, s1, e1, hq _ _ hQ, hm1⟩

theorem Tri.pre {α : Type} {M : Bool} {P A : Level → Prop} {Q : α → Level → Prop}
    {m : Gen α} (hp : ∀ l, A l → P l) (h : Tri M P m Q) : Tri M A m Q :=
  h.conseq hp (fun _ _ hq => hq)

theorem Tri.post {α : Type} {M : Bool} {P : Level → Prop} {Q B : α → Level → Prop}
    {m : Gen α} (h : Tri M P m Q) (hq : ∀ a l, Q a l → B a l) : Tri M P m B :=
  h.conseq (fun _ hp => hp) hq

/-- A fact that does not depend on the level moves into the context. -/
theorem Tri.assume {α : Type} {M : Bool} {φ : Prop} {P : Level → Prop}
    {Q : α → Level → Prop} {m : Gen α} (h : φ → Tri M P m Q) :
    Tri M (fun l => φ ∧ P l) m Q := by
  intro s hP hm
  exact h hP.1 s hP.2 hm

theorem Tri.ofIte {α : Type} {M : Bool} {P : Level → Prop} {Q : α → Level → Prop}
    {c : Prop} [Decidable c] {m1 m2 : Gen α}
    (h1 : c → Tri M P m1 Q) (h2 : ¬ c → Tri M P m2 Q) :
    Tri M P (if c then m1 else m2) Q := by
  split
  · exact h1 ‹_›
  · exact h2 ‹_›

/-- A step that reads the level first. -/
theorem Tri.readLevel {α : Type} {M : Bool} {P : Level → Prop} {Q : α → Level → Prop}
    {m : Level → Gen α} (h : ∀ l0, Tri M (fun l => l = l0 ∧ P l) (m l0) Q) :
    Tri M P (fun s => m s.level s) Q := by
  intro s hP hm
  exact h s.level s ⟨rfl, hP⟩ hm

/-- A draw: it returns with enough fuel, the level is untouched, the value
lies below a positive bound and is zero for any other bound. -/
theorem Tri.nextInt {M : Bool} {P : Level → Prop} {fuel : Nat}
    (hf : Random.enoughFuel ≤ fuel) (bound : Int) (hb : bound < 2 ^ 31)
    (hpos : M = true → 0 < bound) :
    Tri M P (Gen.nextInt fuel bound)
      (fun v l => P l ∧ (0 < bound → 0 ≤ v ∧ v < bound) ∧ (bound ≤ 0 → v = 0)) := by
  intro s hP hm
  obtain ⟨v, r', hr⟩ := Random.nextInt_total hf bound hb s.random
  refine ⟨v, ⟨r', s.level, s.nonPositiveBound || decide (bound ≤ 0)⟩, ?_, ⟨hP, ?_, ?_⟩, ?_⟩
  · unfold Gen.nextInt
    rw [hr]
  · intro h0
    exact Random.nextInt_range h0 hb hr
  · intro h0
    unfold Random.nextInt at hr
    rw [if_pos h0] at hr
    simp only [Option.some.injEq, Prod.mk.injEq] at hr
    exact hr.1.symm
  · intro hM
    have := hpos hM
    simp only [hm hM, Bool.false_or, decide_eq_false_iff_not, not_le]
    exact this

/-- A draw with a positive bound followed by the rest of the code. -/
theorem Tri.bind_nextInt {β : Type} {M : Bool} {P : Level → Prop} {Q : β → Level → Prop}
    {fuel : Nat} (hf : Random.enoughFuel ≤ fuel) (bound : Int) (hb0 : 0 < bound)
    (hb : bound < 2 ^ 31) {f : Int → Gen β}
    (h : ∀ r, 0 ≤ r → r < bound → Tri M P (f r) Q) :
    Tri M P (Gen.andThen (Gen.nextInt fuel bound) f) Q := by
  refine Tri.bind (Tri.nextInt hf bound hb (fun _ => hb0)) (fun r => ?_)
  intro s hP hm
  exact h r (hP.2.1 hb0).1 (hP.2.1 hb0).2 s hP.1 hm

theorem Tri.ofSetBlock {M : Bool} {P : Level → Prop} (x y : Int) (b : Nat) :
    Tri M (fun l => P (l.setBlock x y b)) (Gen.setBlock x y b) (fun _ l => P l) := by
  intro s hP hm
  exact ⟨(), _, rfl, hP, hm⟩

theorem Tri.ofSetSpriteTemplate {M : Bool} {P : Level → Prop} (x y : Int)
    (st : SpriteTemplate) :
    Tri M (fun l => P (l.setSpriteTemplate x y st)) (Gen.setSpriteTemplate x y st)
      (fun _ l => P l) := by
  intro s hP hm
  exact ⟨(), _, rfl, hP, hm⟩

theorem Tri.ofOption {α : Type} {M : Bool} {P : Level → Prop} {o : Option α} {a : α}
    (h : o = some a) : Tri M P (Gen.ofOption o) (fun b l => b = a ∧ P l) := by
  intro s hP hm
  subst h
  exact ⟨a, s, rfl, ⟨rfl, hP⟩, hm⟩

theorem Tri.forLoop {β : Type} {M : Bool} (I : Int → β → Level → Prop)
    (body : Int → β → Gen β) :
    ∀ (n : Nat) (x : Int) (acc : β),
      (∀ (k : Nat) (a : β), k < n →
        Tri M (I (x + k) a) (body (x + k) a) (fun a' l => I (x + k + 1) a' l)) →
      Tri M (I x acc) (Gen.forLoop body n x acc) (fun a l => I (x + n) a l) := by
  intro n
  induction n with
  | zero =>
    intro x acc _
    exact Tri.ofRet (M := M) acc (fun l h => by simpa using h)
  | succ n ih =>
    intro x acc hbody
    unfold Gen.forLoop
    refine Tri.bind (P := I x acc) (R := fun a l => I (x + 1) a l) ?_ ?_
    · have := hbody 0 acc (by omega)
      simpa using this
    · intro a
      have h := ih (x + 1) a (fun k a' hk => by
        have := hbody (k + 1) a' (by omega)
        have e : x + ((k + 1 : Nat) : Int) = x + 1 + (k : Int) := by push_cast; ring
        rw [e] at this
        exact this)
      have e : x + 1 + (n : Int) = x + ((n + 1 : Nat) : Int) := by push_cast; ring
      rw [e] at h
      exact h

/-- The rule of the `for` loop with the invariant `I x acc`. -/
theorem Tri.forRange {β : Type} {M : Bool} (I : Int → β → Level → Prop)
    (lo hi : Int) (init : β) (body : Int → β → Gen β) (hle : lo ≤ hi)
    (hbody : ∀ (x : Int) (a : β), lo ≤ x → x < hi →
      Tri M (I x a) (body x a) (fun a' l => I (x + 1) a' l)) :
    Tri M (I lo init) (Gen.forRange lo hi init body) (fun a l => I hi a l) := by
  unfold Gen.forRange
  have h := Tri.forLoop (M := M) I body (hi - lo).toNat lo init (fun k a hk =>
    hbody (lo + k) a (by omega) (by omega))
  have e : lo + (((hi - lo).toNat : Nat) : Int) = hi := by omega
  rw [e] at h
  exact h

/-- A `for` loop over an empty range does nothing. -/
theorem Tri.forRange_empty {β : Type} {M : Bool} {P : Level → Prop}
    (lo hi : Int) (init : β) (body : Int → β → Gen β) (hle : hi ≤ lo) :
    Tri M P (Gen.forRange lo hi init body) (fun a l => a = init ∧ P l) := by
  unfold Gen.forRange
  have e : (hi - lo).toNat = 0 := by omega
  rw [e]
  exact Tri.ofRet init (fun l h => ⟨rfl, h⟩)

end Gen

/-! ## Ground regions -/

namespace Level

theorem Ground.mono {S S' : Int → Int → Prop} {l : Level} (h : l.Ground S)
    (hs : ∀ x y, S' x y → S x y) : l.Ground S' :=
  fun x y hxy => h x y (hs x y hxy)

/-- Writing the ground tile adds the cell to a ground region. -/
theorem Ground.setBlock_ground {w h : Int} {S S' : Int → Int → Prop} {l : Level}
    (hl : l.WF w h) (hg : l.Ground S) (x y : Int)
    (hs : ∀ x' y', S' x' y' → S x' y' ∨ (x' = x ∧ y' = y)) :
    (l.setBlock x y (u8 (1 + 9 * 16))).Ground S' := by
  intro x' y' hxy hx0 hx1 hy0 hy1
  rw [width_setBlock] at hx1
  rw [height_setBlock] at hy1
  rw [tile_setBlock hl]
  split
  · rfl
  · rename_i hne
    rcases hs x' y' hxy with h1 | h1
    · exact hg x' y' h1 hx0 hx1 hy0 hy1
    · exfalso
      apply hne
      obtain ⟨e1, e2, _, _⟩ := hl
      omega

/-- A write outside a ground region keeps it. -/
theorem Ground.setBlock_off {w h : Int} {S : Int → Int → Prop} {l : Level}
    (hl : l.WF w h) (hg : l.Ground S) (x y : Int) (b : Nat) (hs : ¬ S x y) :
    (l.setBlock x y b).Ground S := by
  intro x' y' hxy hx0 hx1 hy0 hy1
  rw [width_setBlock] at hx1
  rw [height_setBlock] at hy1
  rw [tile_setBlock hl]
  split
  · rename_i he
    exfalso
    apply hs
    rw [← he.1, ← he.2.1]
    exact hxy
  · exact hg x' y' hxy hx0 hx1 hy0 hy1

theorem Ground.afterSprite {S : Int → Int → Prop} {l : Level}
    (hg : l.Ground S) (x y : Int) (st : SpriteTemplate) :
    (l.setSpriteTemplate x y st).Ground S := by
  intro x' y' hxy hx0 hx1 hy0 hy1
  rw [width_setSpriteTemplate] at hx1
  rw [height_setSpriteTemplate] at hy1
  rw [tile_setSpriteTemplate]
  exact hg x' y' hxy hx0 hx1 hy0 hy1

/-- A well-formed grid with a ground region in the rows from `fl` down is
stable. -/
theorem stable_ground (w h fl : Int) (S : Int → Int → Prop) (hS : ∀ x y, S x y → fl ≤ y) :
    Stable fl (fun l => l.WF w h ∧ l.Ground S) := by
  constructor
  · intro l x y b hy hP
    exact ⟨hP.1.setBlock x y b, hP.2.setBlock_off hP.1 x y b (fun hs => by
      have := hS x y hs
      omega)⟩
  · intro l x y st hP
    exact ⟨hP.1.setSpriteTemplate x y st, hP.2.afterSprite x y st⟩

theorem Stable.weaken {fl fl' : Int} {P : Level → Prop} (h : Stable fl P) (hle : fl' ≤ fl) :
    Stable fl' P :=
  ⟨fun l x y b hy hP => h.1 l x y b (by omega) hP, h.2⟩

end Level

namespace Gen

theorem CellWrite.write (x y : Int) (b : Nat) : CellWrite x y (Gen.setBlock x y b) :=
  fun _ => ⟨_, rfl, Or.inr ⟨b, rfl⟩⟩

theorem CellWrite.skip (x y : Int) : CellWrite x y (Gen.ret ()) :=
  fun s => ⟨s, rfl, Or.inl rfl⟩

theorem CellWrite.branch {x y : Int} {c : Prop} [Decidable c] {m1 m2 : Gen Unit}
    (h1 : CellWrite x y m1) (h2 : CellWrite x y m2) :
    CellWrite x y (if c then m1 else m2) := by
  split
  · exact h1
  · exact h2

/-- A step that writes at most one cell keeps every assertion that a write
to that cell keeps. -/
theorem CellWrite.tri {M : Bool} {x y : Int} {m : Gen Unit} (hm : CellWrite x y m)
    {P : Level → Prop} (hP : ∀ l b, P l → P (l.setBlock x y b)) :
    Tri M P m (fun _ l => P l) := by
  intro s hs hM
  obtain ⟨s', e, h⟩ := hm s
  refine ⟨(), s', e, ?_, ?_⟩
  · rcases h with h | ⟨b, h⟩
    · rw [h]; exact hs
    · rw [h]; exact hP _ b hs
  · rcases h with h | ⟨b, h⟩
    · rw [h]; exact hM
    · rw [h]; exact hM

/-- A `for` loop whose body keeps `P` keeps `P`. -/
theorem Tri.forRange_inv {β : Type} {M : Bool} {P : Level → Prop}
    (lo hi : Int) (init : β) (body : Int → β → Gen β)
    (hbody : ∀ (x : Int) (a : β), lo ≤ x → x < hi →
      Tri M P (body x a) (fun _ l => P l)) :
    Tri M P (Gen.forRange lo hi init body) (fun _ l => P l) := by
  by_cases hle : lo ≤ hi
  · exact Tri.forRange (fun _ _ l => P l) lo hi init body hle hbody
  · exact (Tri.forRange_empty lo hi init body (by omega)).post (fun _ _ h => h.2)

/-- The rule of the `for` loop for any bounds: the invariant holds at the
bound where the loop stops. -/
theorem Tri.forRange_any {β : Type} {M : Bool} (I : Int → β → Level → Prop)
    (lo hi : Int) (init : β) (body : Int → β → Gen β)
    (hbody : ∀ (x : Int) (a : β), lo ≤ x → x < hi →
      Tri M (I x a) (body x a) (fun a' l => I (x + 1) a' l)) :
    Tri M (I lo init) (Gen.forRange lo hi init body)
      (fun a l => I (if lo ≤ hi then hi else lo) a l) := by
  by_cases hle : lo ≤ hi
  · rw [if_pos hle]
    exact Tri.forRange I lo hi init body hle hbody
  · rw [if_neg hle]
    exact (Tri.forRange_empty lo hi init body (by omega)).post
      (fun _ _ h => by rw [h.1]; exact h.2)

/-- A spawn marker that keeps `P`, followed by the rest of the code. -/
theorem Tri.bind_setSpriteTemplate {β : Type} {M : Bool} {P : Level → Prop}
    {Q : β → Level → Prop} {x y : Int} {st : SpriteTemplate} {f : Unit → Gen β}
    (hP : ∀ l, P l → P (l.setSpriteTemplate x y st)) (h : Tri M P (f ()) Q) :
    Tri M P (Gen.andThen (Gen.setSpriteTemplate x y st) f) Q :=
  Tri.bind ((Tri.ofSetSpriteTemplate x y st).pre hP) (fun _ => h)

/-- A tile write that keeps `P`, followed by the rest of the code. -/
theorem Tri.bind_setBlock {β : Type} {M : Bool} {P : Level → Prop}
    {Q : β → Level → Prop} {x y : Int} {b : Nat} {f : Unit → Gen β}
    (hP : ∀ l, P l → P (l.setBlock x y b)) (h : Tri M P (f ()) Q) :
    Tri M P (Gen.andThen (Gen.setBlock x y b) f) Q :=
  Tri.bind ((Tri.ofSetBlock x y b).pre hP) (fun _ => h)

/-- A read through `getBlock` in a grid with at least one cell, followed by
the rest of the code. -/
theorem Tri.bind_getBlock {β : Type} {M : Bool} {P : Level → Prop}
    {Q : β → Level → Prop} (w h : Int) (hw : 1 ≤ w) (hh : 1 ≤ h)
    (hWF : ∀ l, P l → l.WF w h) {x y : Int} {f : Nat → Gen β}
    (h : ∀ b, Tri M P (f b) Q) :
    Tri M P (Gen.andThen (Gen.getBlock x y) f) Q := by
  intro s hP hm
  obtain ⟨b, hb⟩ := Level.getBlock_isSome (hWF _ hP) hw hh x y
  obtain ⟨a, s', e, hq⟩ := h b s hP hm
  refine ⟨a, s', ?_, hq⟩
  unfold Gen.andThen Gen.getBlock
  rw [hb]
  exact e

/-- A read through `getBlockCapped` in a grid with at least one cell,
followed by the rest of the code. -/
theorem Tri.bind_getBlockCapped {β : Type} {M : Bool} {P : Level → Prop}
    {Q : β → Level → Prop} (w h : Int) (hw : 1 ≤ w) (hh : 1 ≤ h)
    (hWF : ∀ l, P l → l.WF w h) {x y : Int} {f : Nat → Gen β}
    (h : ∀ b, Tri M P (f b) Q) :
    Tri M P (Gen.andThen (Gen.getBlockCapped x y) f) Q := by
  intro s hP hm
  obtain ⟨b, hb⟩ := Level.getBlockCapped_isSome (hWF _ hP) hw hh x y
  obtain ⟨a, s', e, hq⟩ := h b s hP hm
  refine ⟨a, s', ?_, hq⟩
  unfold Gen.andThen Gen.getBlockCapped
  rw [hb]
  exact e

/-- A read through the level pointer, followed by the rest of the code. -/
theorem Tri.bind_getLevel {β : Type} {M : Bool} {P : Level → Prop}
    {Q : β → Level → Prop} {f : Level → Gen β}
    (h : ∀ l0, P l0 → Tri M (fun l => l = l0) (f l0) Q) :
    Tri M P (Gen.andThen Gen.getLevel f) Q := by
  intro s hP hm
  exact h s.level hP s rfl hm

/-- The exit assignment, followed by the rest of the code. -/
theorem Tri.bind_setExit {β : Type} {M : Bool} {P A : Level → Prop}
    {Q : β → Level → Prop} {x y : Int} {f : Unit → Gen β}
    (hP : ∀ l : Level, P l → A { l with xExit := x, yExit := y })
    (h : Tri M A (f ()) Q) :
    Tri M P (Gen.andThen (Gen.setExit x y) f) Q := by
  intro s hs hm
  exact h _ (hP _ hs) hm

/-- A checked read that succeeds, followed by the rest of the code. -/
theorem Tri.bind_ofOption {α β : Type} {M : Bool} {P : Level → Prop}
    {Q : β → Level → Prop} {o : Option α} {a : α} (ho : o = some a) {f : α → Gen β}
    (h : Tri M P (f a) Q) : Tri M P (Gen.andThen (Gen.ofOption o) f) Q := by
  subst ho
  exact h

end Gen

/-! ## The zone builders -/

namespace LevelGenerator

open Gen

theorem addEnemyLine_spec {M : Bool} {P : Level → Prop} {fuel : Nat}
    (hf : Random.enoughFuel ≤ fuel) (g : LevelGenerator) (x0 x1 y : Int)
    (hP : ∀ l x y st, P l → P (l.setSpriteTemplate x y st)) :
    Tri M P (addEnemyLine g fuel x0 x1 y) (fun _ l => P l) := by
  unfold addEnemyLine
  refine Tri.forRange_inv _ _ _ _ (fun x _ _ _ => ?_)
  simp only [bind_eq, ret_andThen]
  have hlast : ∀ e : Int, Tri M P
      ((nextInt fuel 35).andThen fun w =>
        setSpriteTemplate x y (SpriteTemplate.init e (decide (w < g.difficulty))))
      (fun _ l => P l) := fun e =>
    Tri.bind_nextInt hf 35 (by norm_num) (by norm_num) (fun w _ _ =>
      (Tri.ofSetSpriteTemplate x y _).pre (fun l h => hP l x y _ h))
  refine Tri.bind_nextInt hf 35 (by norm_num) (by norm_num) (fun r _ _ => ?_)
  refine Tri.ofIte (fun _ => ?_) (fun _ => Tri.ofRet _ (fun _ h => h))
  refine Tri.bind_nextInt hf 4 (by norm_num) (by norm_num) (fun e _ _ => ?_)
  refine Tri.ofIte (fun _ => hlast _) (fun _ => ?_)
  refine Tri.ofIte (fun _ => ?_) (fun _ => hlast _)
  exact Tri.bind_nextInt hf 3 (by norm_num) (by norm_num) (fun e2 _ _ => hlast _)

theorem decorateBlock_spec {M : Bool} {P : Level → Prop} {fuel : Nat}
    (hf : Random.enoughFuel ≤ fuel) (x0 x1 floor x : Int)
    (hP : ∀ l b, P l → P (l.setBlock x (floor - 4) b)) :
    Tri M P (decorateBlock fuel x0 x1 floor x) (fun _ l => P l) := by
  unfold decorateBlock
  simp only [bind_eq, ret_andThen]
  repeat (first
    | exact (Tri.ofSetBlock _ _ _).pre (fun l h => hP l _ h)
    | refine Tri.ofIte (fun _ => ?_) (fun _ => ?_)
    | refine Tri.bind_nextInt hf _ (by norm_num) (by norm_num) (fun _ _ _ => ?_))

theorem decorate_spec {M : Bool} {P : Level → Prop} {fuel : Nat}
    (hf : Random.enoughFuel ≤ fuel) (g : LevelGenerator) (x0 x1 floor : Int)
    (hP : Level.Stable floor P) :
    Tri M P (decorate g fuel x0 x1 floor) (fun _ l => P l) := by
  unfold decorate
  simp only [bind_eq, ret_andThen]
  refine Tri.ofIte (fun _ => Tri.ofRet _ (fun _ h => h)) (fun _ => ?_)
  refine Tri.bind (addEnemyLine_spec hf g _ _ _ hP.2) (fun _ => ?_)
  refine Tri.bind_nextInt hf _ (by norm_num) (by norm_num) (fun s _ _ => ?_)
  refine Tri.bind_nextInt hf _ (by norm_num) (by norm_num) (fun e _ _ => ?_)
  have hrest : Tri M P
      ((nextInt fuel 4).andThen fun s =>
        (nextInt fuel 4).andThen fun e =>
          if floor - 4 > 0 ∧ x1 - 1 - e - (x0 + 1 + s) > 2 then
            forRange (x0 + 1 + s) (x1 - 1 - e) () fun x _ => decorateBlock fuel x0 x1 floor x
          else ret ())
      (fun _ l => P l) := by
    refine Tri.bind_nextInt hf _ (by norm_num) (by norm_num) (fun s _ _ => ?_)
    refine Tri.bind_nextInt hf _ (by norm_num) (by norm_num) (fun e _ _ => ?_)
    refine Tri.ofIte (fun _ => ?_) (fun _ => Tri.ofRet _ (fun _ h => h))
    refine Tri.forRange_inv _ _ _ _ (fun x _ _ _ => ?_)
    exact decorateBlock_spec hf x0 x1 floor x (fun l b h => hP.1 l x _ b (by omega) h)
  refine Tri.ofIte (fun _ => ?_) (fun _ => hrest)
  refine Tri.bind (R := fun _ l => P l) ?_ (fun _ => hrest)
  refine Tri.forRange_inv _ _ _ _ (fun x _ _ _ => ?_)
  exact (Tri.ofSetBlock _ _ _).pre (fun l h => hP.1 l x _ _ (by omega) h)

/-- The column loop shared by the builders: the rows from `floor` down in
column `x` get the ground tile, whatever else the body writes at `(x, y)`
in the rows above; an assertion `R` that survives writes in column `x` is
kept. -/
theorem column_spec_frame {M : Bool} (w h : Int) (S : Int → Int → Prop) (R : Level → Prop)
    (x floor H : Int) (E : Int → Gen Unit) (hE : ∀ y, CellWrite x y (E y))
    (hS : ∀ x' y', S x' y' → floor ≤ y')
    (hR : ∀ l y b, l.WF w h → R l → R (l.setBlock x y b)) :
    Tri M (fun l => l.WF w h ∧ l.Ground S ∧ R l)
      (forRange 0 H () (fun y _ =>
        if y ≥ floor then setBlock x y (u8 (1 + 9 * 16)) else E y))
      (fun _ l => l.WF w h ∧
        l.Ground (fun x' y' => S x' y' ∨ (x' = x ∧ floor ≤ y' ∧ y' < H)) ∧ R l) := by
  by_cases hH : 0 ≤ H
  · have key := Tri.forRange (M := M)
      (fun (y : Int) (_ : Unit) l => l.WF w h ∧
        l.Ground (fun x' y' => S x' y' ∨ (x' = x ∧ floor ≤ y' ∧ y' < y)) ∧ R l)
      0 H () (fun y _ => if y ≥ floor then setBlock x y (u8 (1 + 9 * 16)) else E y) hH
      (fun y _ hy0 hy1 => by
        refine Tri.ofIte (fun hge => ?_) (fun hlt => ?_)
        · refine (Tri.ofSetBlock x y _).pre
            (fun l hl => ⟨hl.1.setBlock _ _ _, ?_, hR l y _ hl.1 hl.2.2⟩)
          refine hl.2.1.setBlock_ground hl.1 x y (fun x' y' hs => ?_)
          rcases hs with hs | hs
          · exact Or.inl (Or.inl hs)
          · by_cases hy : y' = y
            · exact Or.inr ⟨hs.1, hy⟩
            · exact Or.inl (Or.inr ⟨hs.1, hs.2.1, by omega⟩)
        · have hreg : ∀ l : Level, (l.WF w h ∧
              l.Ground (fun x' y' => S x' y' ∨ (x' = x ∧ floor ≤ y' ∧ y' < y)) ∧ R l) →
              (l.WF w h ∧
                l.Ground (fun x' y' => S x' y' ∨ (x' = x ∧ floor ≤ y' ∧ y' < y + 1)) ∧
                R l) :=
            fun l hl => ⟨hl.1, hl.2.1.mono (fun x' y' hs => by
              rcases hs with hs | hs
              · exact Or.inl hs
              · exact Or.inr ⟨hs.1, hs.2.1, by omega⟩), hl.2.2⟩
          refine Tri.pre hreg ((hE y).tri
            (fun l b hl => ⟨hl.1.setBlock _ _ _, ?_, hR l y b hl.1 hl.2.2⟩))
          refine hl.2.1.setBlock_off hl.1 x y b (fun hs => ?_)
          rcases hs with hs | hs
          · have := hS x y hs
            omega
          · omega)
    refine key.pre (fun l hl => ⟨hl.1, ?_, hl.2.2⟩)
    intro x' y' hs hx0 hx1 hy0 hy1
    rcases hs with hs | hs
    · exact hl.2.1 x' y' hs hx0 hx1 hy0 hy1
    · omega
  · refine (Tri.forRange_empty 0 H () _ (by omega)).post
      (fun _ l hl => ⟨hl.2.1, ?_, hl.2.2.2⟩)
    intro x' y' hs hx0 hx1 hy0 hy1
    rcases hs with hs | hs
    · exact hl.2.2.1 x' y' hs hx0 hx1 hy0 hy1
    · omega

theorem column_spec {M : Bool} (w h : Int) (S : Int → Int → Prop) (x floor H : Int)
    (E : Int → Gen Unit) (hE : ∀ y, CellWrite x y (E y))
    (hS : ∀ x' y', S x' y' → floor ≤ y') :
    Tri M (fun l => l.WF w h ∧ l.Ground S)
      (forRange 0 H () (fun y _ =>
        if y ≥ floor then setBlock x y (u8 (1 + 9 * 16)) else E y))
      (fun _ l => l.WF w h ∧
        l.Ground (fun x' y' => S x' y' ∨ (x' = x ∧ floor ≤ y' ∧ y' < H))) :=
  (column_spec_frame w h S (fun _ => True) x floor H E hE hS
    (fun _ _ _ _ _ => trivial)).conseq
    (fun _ hl => ⟨hl.1, hl.2, trivial⟩) (fun _ _ hl => ⟨hl.1, hl.2.1⟩)

theorem fillGround_spec {M : Bool} (w h : Int) (S : Int → Int → Prop)
    (g : LevelGenerator) (x0 x1 floor : Int) (hS : ∀ x' y', S x' y' → floor ≤ y') :
    Tri M (fun l => l.WF w h ∧ l.Ground S) (fillGround g x0 x1 floor)
      (fun _ l => l.WF w h ∧
        l.Ground (fun x' y' => S x' y' ∨ (x0 ≤ x' ∧ x' < x1 ∧ floor ≤ y' ∧ y' < g.height))) := by
  unfold fillGround
  by_cases hle : x0 ≤ x1
  · have key := Tri.forRange (M := M)
      (fun (x : Int) (_ : Unit) l => l.WF w h ∧
        l.Ground (fun x' y' => S x' y' ∨ (x0 ≤ x' ∧ x' < x ∧ floor ≤ y' ∧ y' < g.height)))
      x0 x1 () (fun x _ => forRange 0 g.height () (fun y _ =>
        if y ≥ floor then setBlock x y (u8 (1 + 9 * 16)) else ret ())) hle
      (fun x _ hx0 hx1 => by
        have hc := column_spec (M := M) w h
          (fun x' y' => S x' y' ∨ (x0 ≤ x' ∧ x' < x ∧ floor ≤ y' ∧ y' < g.height))
          x floor g.height (fun _ => ret ()) (fun y => CellWrite.skip x y)
          (fun x' y' hs => by
            rcases hs with hs | hs
            · exact hS x' y' hs
            · exact hs.2.2.1)
        refine hc.post (fun _ l hl => ⟨hl.1, hl.2.mono (fun x' y' hs => ?_)⟩)
        rcases hs with hs | hs
        · exact Or.inl (Or.inl hs)
        · by_cases hx : x' = x
          · exact Or.inr ⟨hx, hs.2.2.1, hs.2.2.2⟩
          · exact Or.inl (Or.inr ⟨hs.1, by omega, hs.2.2.1, hs.2.2.2⟩))
    refine key.pre (fun l hl => ⟨hl.1, hl.2.mono (fun x' y' hs => ?_)⟩)
    rcases hs with hs | hs
    · exact hs
    · omega
  · refine (Tri.forRange_empty x0 x1 () _ (by omega)).post
      (fun _ l hl => ⟨hl.2.1, hl.2.2.mono (fun x' y' hs => ?_)⟩)
    rcases hs with hs | hs
    · exact hs
    · omega

theorem buildStraight_spec {M : Bool} (w h : Int) {fuel : Nat}
    (hf : Random.enoughFuel ≤ fuel) (g : LevelGenerator) (hg : g.height = h)
    (xo maxLength : Int) (safe : Bool) :
    Tri M (fun l => l.WF w h) (buildStraight g fuel xo maxLength safe)
      (fun L l => l.WF w h ∧
        LenOK (if safe then 10 else 2) (if safe then 14 else 11) maxLength L ∧
        ∃ floor, h - 4 ≤ floor ∧ floor ≤ h - 1 ∧
          l.Ground (fun x y => xo ≤ x ∧ x < xo + L ∧ floor ≤ y)) := by
  unfold buildStraight
  simp only [bind_eq, ret_andThen, andThen_assoc]
  have tail : ∀ len lo hi : Int, lo ≤ len → len ≤ hi → Tri M (fun l => l.WF w h)
      ((nextInt fuel 4).andThen fun r =>
        (g.fillGround xo (xo + if len > maxLength then maxLength else len)
            (g.height - 1 - r)).andThen fun _ =>
          if ¬safe = true ∧ (if len > maxLength then maxLength else len) > 5 then
            (g.decorate fuel xo (xo + if len > maxLength then maxLength else len)
                (g.height - 1 - r)).andThen fun _ =>
              ret (if len > maxLength then maxLength else len)
          else ret (if len > maxLength then maxLength else len))
      (fun L l => l.WF w h ∧ LenOK lo hi maxLength L ∧
        ∃ floor, h - 4 ≤ floor ∧ floor ≤ h - 1 ∧
          l.Ground (fun x y => xo ≤ x ∧ x < xo + L ∧ floor ≤ y)) := by
    intro len lo hi hlo hhi
    refine Tri.bind_nextInt hf _ (by norm_num) (by norm_num) (fun r hr0 hr1 => ?_)
    have hlen : LenOK lo hi maxLength (if len > maxLength then maxLength else len) := by
      unfold LenOK
      split_ifs <;> omega
    have hfill := (fillGround_spec (M := M) w h (fun _ _ => False) g xo
      (xo + if len > maxLength then maxLength else len) (g.height - 1 - r)
      (fun _ _ hs => hs.elim))
    have hpost : ∀ l : Level, (l.WF w h ∧ l.Ground (fun x y =>
          xo ≤ x ∧ x < xo + (if len > maxLength then maxLength else len) ∧
            g.height - 1 - r ≤ y)) →
        (l.WF w h ∧ LenOK lo hi maxLength (if len > maxLength then maxLength else len) ∧
          ∃ floor, h - 4 ≤ floor ∧ floor ≤ h - 1 ∧ l.Ground (fun x y =>
            xo ≤ x ∧ x < xo + (if len > maxLength then maxLength else len) ∧ floor ≤ y)) :=
      fun l hl => ⟨hl.1, hlen, g.height - 1 - r, by omega, by omega, hl.2⟩
    refine Tri.bind (R := fun _ l => l.WF w h ∧ l.Ground (fun x y =>
        xo ≤ x ∧ x < xo + (if len > maxLength then maxLength else len) ∧
          g.height - 1 - r ≤ y)) ?_ (fun _ => ?_)
    · refine hfill.conseq (fun l hl => ⟨hl, fun _ _ hs => hs.elim⟩)
        (fun _ l hl => ⟨hl.1, ?_⟩)
      intro x y hs hx0 hx1 hy0 hy1
      refine hl.2 x y (Or.inr ⟨hs.1, hs.2.1, hs.2.2, ?_⟩) hx0 hx1 hy0 hy1
      rw [hg, ← hl.1.2.1]
      exact hy1
    · refine Tri.ofIte (fun _ => ?_) (fun _ => Tri.ofRet _ hpost)
      refine Tri.bind (decorate_spec hf g _ _ _
        (Level.stable_ground w h (g.height - 1 - r) _ (fun x y hs => hs.2.2))) (fun _ => ?_)
      exact Tri.ofRet _ hpost
  refine Tri.bind_nextInt hf _ (by norm_num) (by norm_num) (fun r hr0 hr1 => ?_)
  refine Tri.ofIte (fun hs => ?_) (fun hs => ?_)
  · refine Tri.bind_nextInt hf _ (by norm_num) (by norm_num) (fun r2 h0 h1 => ?_)
    rw [if_pos hs, if_pos hs]
    exact tail (10 + r2) 10 14 (by omega) (by omega)
  · rw [if_neg hs, if_neg hs]
    exact tail (r + 2) 2 11 (by omega) (by omega)

/-- `buildJump` lays the floor in its two flanks and leaves every cell
outside the flank columns as it was. -/
theorem buildJump_frame {M : Bool} (w h : Int) {fuel : Nat}
    (hf : Random.enoughFuel ≤ fuel) (g : LevelGenerator) (hg : g.height = h)
    (xo maxLength : Int) (l0 : Level) :
    Tri M (fun l => l = l0 ∧ l.WF w h) (buildJump g fuel xo maxLength)
      (fun L l => l.WF w h ∧ LenOK 6 13 maxLength L ∧
        ∃ floor js, h - 4 ≤ floor ∧ floor ≤ h - 1 ∧ 2 ≤ js ∧ js ≤ 5 ∧
          l.Ground (fun x y => xo ≤ x ∧ x < xo + L ∧
            (x < xo + js ∨ x > xo + L - js - 1) ∧ floor ≤ y) ∧
          ∀ x y, ¬ (xo ≤ x ∧ x < xo + L ∧ (x < xo + js ∨ x > xo + L - js - 1)) →
            l.tile x y = l0.tile x y) := by
  unfold buildJump
  simp only [bind_eq, ret_andThen, andThen_assoc]
  refine Tri.bind_nextInt hf _ (by norm_num) (by norm_num) (fun r1 h10 h11 => ?_)
  refine Tri.bind_nextInt hf _ (by norm_num) (by norm_num) (fun r2 h20 h21 => ?_)
  refine Tri.bind_nextInt hf _ (by norm_num) (by norm_num) (fun r3 _ _ => ?_)
  refine Tri.bind_nextInt hf _ (by norm_num) (by norm_num) (fun r4 h40 h41 => ?_)
  generalize hL : (if (r1 + 2) * 2 + (r2 + 2) > maxLength then maxLength
    else (r1 + 2) * 2 + (r2 + 2)) = L
  have hlen : LenOK 6 13 maxLength L := by
    rw [← hL]
    unfold LenOK
    split_ifs <;> omega
  have key := Tri.forRange_any (M := M)
    (fun (x : Int) (_ : Unit) l => l.WF w h ∧
      l.Ground (fun x' y' => xo ≤ x' ∧ x' < x ∧
        (x' < xo + (r1 + 2) ∨ x' > xo + L - (r1 + 2) - 1) ∧ g.height - 1 - r4 ≤ y') ∧
      ∀ x' y', ¬ (xo ≤ x' ∧ x' < xo + L ∧
        (x' < xo + (r1 + 2) ∨ x' > xo + L - (r1 + 2) - 1)) → l.tile x' y' = l0.tile x' y')
    xo (xo + L) ()
    (fun x _ =>
      if x < xo + (r1 + 2) ∨ x > xo + L - (r1 + 2) - 1 then
        forRange 0 g.height () (fun y _ =>
          if y ≥ g.height - 1 - r4 then setBlock x y (u8 (1 + 9 * 16))
          else if decide (r3 = 0) = true then
            if x < xo + (r1 + 2) then
              if y ≥ g.height - 1 - r4 - (x - xo) + 1 then setBlock x y (u8 (9 + 0 * 16))
              else ret ()
            else
              if y ≥ g.height - 1 - r4 - (xo + L - 1 - x) + 1 then
                setBlock x y (u8 (9 + 0 * 16))
              else ret ()
          else ret ())
      else ret ())
    (fun x _ hx0 hx1 => by
      refine Tri.ofIte (fun hflank => ?_) (fun hflank => ?_)
      · have hc := column_spec_frame (M := M) w h
          (fun x' y' => xo ≤ x' ∧ x' < x ∧
            (x' < xo + (r1 + 2) ∨ x' > xo + L - (r1 + 2) - 1) ∧ g.height - 1 - r4 ≤ y')
          (fun l => ∀ x' y', ¬ (xo ≤ x' ∧ x' < xo + L ∧
            (x' < xo + (r1 + 2) ∨ x' > xo + L - (r1 + 2) - 1)) →
            l.tile x' y' = l0.tile x' y')
          x (g.height - 1 - r4) g.height
          (fun y => if decide (r3 = 0) = true then
            if x < xo + (r1 + 2) then
              if y ≥ g.height - 1 - r4 - (x - xo) + 1 then setBlock x y (u8 (9 + 0 * 16))
              else ret ()
            else
              if y ≥ g.height - 1 - r4 - (xo + L - 1 - x) + 1 then
                setBlock x y (u8 (9 + 0 * 16))
              else ret ()
          else ret ())
          (fun y => CellWrite.branch
            (CellWrite.branch
              (CellWrite.branch (CellWrite.write _ _ _) (CellWrite.skip _ _))
              (CellWrite.branch (CellWrite.write _ _ _) (CellWrite.skip _ _)))
            (CellWrite.skip _ _))
          (fun x' y' hs => hs.2.2.2)
          (fun l y b hwf hR x' y' hout => by
            rw [Level.tile_setBlock hwf, if_neg (fun hc => hout (by
              rw [hc.1]
              exact ⟨hx0, hx1, hflank⟩))]
            exact hR x' y' hout)
        refine hc.post (fun _ l hl => ⟨hl.1, ?_, hl.2.2⟩)
        intro x' y' hs hx0' hx1' hy0' hy1'
        by_cases hx : x' = x
        · refine hl.2.1 x' y' (Or.inr ⟨hx, hs.2.2.2, ?_⟩) hx0' hx1' hy0' hy1'
          rw [hg, ← hl.1.2.1]
          exact hy1'
        · exact hl.2.1 x' y' (Or.inl ⟨hs.1, by omega, hs.2.2.1, hs.2.2.2⟩)
            hx0' hx1' hy0' hy1'
      · refine Tri.ofRet _ (fun l hl => ⟨hl.1, hl.2.1.mono (fun x' y' hs => ?_), hl.2.2⟩)
        have hx : x' ≠ x := by
          intro hx
          rw [hx] at hs
          exact hflank hs.2.2.1
        exact ⟨hs.1, by omega, hs.2.2.1, hs.2.2.2⟩)
  refine Tri.bind (key.pre (fun l hl => ⟨hl.2, fun x' y' hs => by omega,
    fun x' y' _ => by rw [hl.1]⟩)) (fun _ => ?_)
  refine Tri.ofRet _ (fun l hl => ⟨hl.1, hlen, g.height - 1 - r4, r1 + 2, by omega, by omega,
    by omega, by omega, hl.2.1.mono (fun x' y' hs => ?_), hl.2.2⟩)
  refine ⟨hs.1, ?_, hs.2.2.1, hs.2.2.2⟩
  split_ifs <;> omega

theorem buildJump_spec {M : Bool} (w h : Int) {fuel : Nat}
    (hf : Random.enoughFuel ≤ fuel) (g : LevelGenerator) (hg : g.height = h)
    (xo maxLength : Int) :
    Tri M (fun l => l.WF w h) (buildJump g fuel xo maxLength)
      (fun L l => l.WF w h ∧ LenOK 6 13 maxLength L ∧
        ∃ floor js, h - 4 ≤ floor ∧ floor ≤ h - 1 ∧ 2 ≤ js ∧ js ≤ 5 ∧
          l.Ground (fun x y => xo ≤ x ∧ x < xo + L ∧
            (x < xo + js ∨ x > xo + L - js - 1) ∧ floor ≤ y)) := by
  intro s hs hm
  obtain ⟨L, s', e, hq, hm'⟩ := buildJump_frame (M := M) w h hf g hg xo maxLength s.level
    s ⟨rfl, hs⟩ hm
  obtain ⟨h1, h2, floor, js, h3, h4, h5, h6, h7, _⟩ := hq
  exact ⟨L, s', e, ⟨h1, h2, floor, js, h3, h4, h5, h6, h7⟩, hm'⟩

/-- One round of a builder loop: once the column loop of column `x` has
run, the floor covers the columns up to `x`. -/
theorem column_step {M : Bool} {β : Type} (w h : Int) (g : LevelGenerator)
    (hg : g.height = h) (xo x floor : Int) (E : Int → Gen Unit)
    (hE : ∀ y, CellWrite x y (E y)) (v : β) :
    Tri M (fun l => l.WF w h ∧ l.Ground (fun x' y' => xo ≤ x' ∧ x' < x ∧ floor ≤ y'))
      ((forRange 0 g.height () (fun y _ =>
        if y ≥ floor then setBlock x y (u8 (1 + 9 * 16)) else E y)).andThen
          (fun _ => ret v))
      (fun _ l => l.WF w h ∧
        l.Ground (fun x' y' => xo ≤ x' ∧ x' < x + 1 ∧ floor ≤ y')) := by
  have hc := column_spec (M := M) w h
    (fun x' y' => xo ≤ x' ∧ x' < x ∧ floor ≤ y') x floor g.height E hE
    (fun x' y' hs => hs.2.2)
  refine Tri.bind hc (fun _ => Tri.ofRet _ (fun l hl => ⟨hl.1, ?_⟩))
  intro x' y' hs hx0' hx1' hy0' hy1'
  by_cases hx : x' = x
  · refine hl.2 x' y' (Or.inr ⟨hx, hs.2.2, ?_⟩) hx0' hx1' hy0' hy1'
    rw [hg, ← hl.1.2.1]
    exact hy1'
  · exact hl.2 x' y' (Or.inl ⟨hs.1, by omega, hs.2.2⟩) hx0' hx1' hy0' hy1'

theorem buildCannons_spec {M : Bool} (w h : Int) {fuel : Nat}
    (hf : Random.enoughFuel ≤ fuel) (g : LevelGenerator) (hg : g.height = h)
    (xo maxLength : Int) :
    Tri M (fun l => l.WF w h) (buildCannons g fuel xo maxLength)
      (fun L l => l.WF w h ∧ LenOK 2 11 maxLength L ∧
        ∃ floor, h - 4 ≤ floor ∧ floor ≤ h - 1 ∧
          l.Ground (fun x y => xo ≤ x ∧ x < xo + L ∧ floor ≤ y)) := by
  unfold buildCannons
  simp only [bind_eq, ret_andThen, andThen_assoc]
  refine Tri.bind_nextInt hf _ (by norm_num) (by norm_num) (fun r hr0 hr1 => ?_)
  refine Tri.bind_nextInt hf _ (by norm_num) (by norm_num) (fun r1 h10 h11 => ?_)
  refine Tri.bind_nextInt hf _ (by norm_num) (by norm_num) (fun r2 _ _ => ?_)
  generalize hL : (if r + 2 > maxLength then maxLength else r + 2) = L
  have hlen : LenOK 2 11 maxLength L := by
    rw [← hL]
    unfold LenOK
    split_ifs <;> omega
  refine Tri.bind (R := fun _ l => l.WF w h ∧ l.Ground (fun x' y' =>
    xo ≤ x' ∧ x' < (if xo ≤ xo + L then xo + L else xo) ∧ g.height - 1 - r1 ≤ y')) ?_
    (fun _ => Tri.ofRet _ (fun l hl => ⟨hl.1, hlen, g.height - 1 - r1, by omega, by omega,
      hl.2.mono (fun x' y' hs => ⟨hs.1, by split_ifs <;> omega, hs.2.2⟩)⟩))
  refine (Tri.forRange_any (fun (x : Int) (_ : Int) l => l.WF w h ∧
    l.Ground (fun x' y' => xo ≤ x' ∧ x' < x ∧ g.height - 1 - r1 ≤ y')) xo (xo + L) _ _
    (fun x a hx0 hx1 => ?_)).pre (fun l hl => ⟨hl, fun x' y' hs => by omega⟩)
  repeat (first
    | refine Tri.ofIte (fun _ => ?_) (fun _ => ?_)
    | refine Tri.bind_nextInt hf _ (by norm_num) (by norm_num) (fun _ _ _ => ?_)
    | exact column_step w h g hg xo x _ _ (fun y => by
        repeat (first
          | exact CellWrite.write _ _ _
          | exact CellWrite.skip _ _
          | refine CellWrite.branch ?_ ?_)) _)

theorem buildTubes_spec {M : Bool} (w h : Int) {fuel : Nat}
    (hf : Random.enoughFuel ≤ fuel) (g : LevelGenerator) (hg : g.height = h)
    (xo maxLength : Int) :
    Tri M (fun l => l.WF w h) (buildTubes g fuel xo maxLength)
      (fun L l => l.WF w h ∧ LenOK 5 14 maxLength L ∧
        ∃ floor, h - 4 ≤ floor ∧ floor ≤ h - 1 ∧
          l.Ground (fun x y => xo ≤ x ∧ x < xo + L ∧ floor ≤ y)) := by
  unfold buildTubes
  simp only [bind_eq, ret_andThen, andThen_assoc]
  refine Tri.bind_nextInt hf _ (by norm_num) (by norm_num) (fun r hr0 hr1 => ?_)
  refine Tri.bind_nextInt hf _ (by norm_num) (by norm_num) (fun r1 h10 h11 => ?_)
  refine Tri.bind_nextInt hf _ (by norm_num) (by norm_num) (fun r2 _ _ => ?_)
  refine Tri.bind_nextInt hf _ (by norm_num) (by norm_num) (fun r3 _ _ => ?_)
  generalize hL : (if r + 5 > maxLength then maxLength else r + 5) = L
  have hlen : LenOK 5 14 maxLength L := by
    rw [← hL]
    unfold LenOK
    split_ifs <;> omega
  refine Tri.bind (R := fun _ l => l.WF w h ∧ l.Ground (fun x' y' =>
    xo ≤ x' ∧ x' < (if xo ≤ xo + L then xo + L else xo) ∧ g.height - 1 - r1 ≤ y')) ?_
    (fun _ => Tri.ofRet _ (fun l hl => ⟨hl.1, hlen, g.height - 1 - r1, by omega, by omega,
      hl.2.mono (fun x' y' hs => ⟨hs.1, by split_ifs <;> omega, hs.2.2⟩)⟩))
  refine (Tri.forRange_any (fun (x : Int) (_ : Int × Int) l => l.WF w h ∧
    l.Ground (fun x' y' => xo ≤ x' ∧ x' < x ∧ g.height - 1 - r1 ≤ y')) xo (xo + L) _ _
    (fun x a hx0 hx1 => ?_)).pre (fun l hl => ⟨hl, fun x' y' hs => by omega⟩)
  repeat (first
    | refine Tri.ofIte (fun _ => ?_) (fun _ => ?_)
    | refine Tri.bind_nextInt hf _ (by norm_num) (by norm_num) (fun _ _ _ => ?_)
    | refine Tri.bind_setSpriteTemplate (fun l hl =>
        ⟨hl.1.setSpriteTemplate _ _ _, hl.2.afterSprite _ _ _⟩) ?_
    | exact column_step w h g hg xo x _ _ (fun y => by
        repeat (first
          | exact CellWrite.write _ _ _
          | exact CellWrite.skip _ _
          | refine CellWrite.branch ?_ ?_)) _)

theorem hillPaint_spec {M : Bool} {P : Level → Prop} (w h : Int) (hw : 1 ≤ w) (hh : 1 ≤ h)
    (hWF : ∀ l, P l → l.WF w h) (xxo l h' x y : Int)
    (hP : ∀ l b, P l → P (l.setBlock x y b)) :
    Tri M P (hillPaint xxo l h' x y) (fun _ l => P l) := by
  unfold hillPaint
  simp only [bind_eq, ret_andThen, andThen_assoc]
  have hlast : Tri M P
      ((getBlock x y).andThen fun b =>
        if b = u8 (6 + 8 * 16) then setBlock x y (u8 (6 + 11 * 16)) else ret ())
      (fun _ l => P l) := by
    refine Tri.bind_getBlock w h hw hh hWF (fun _ => ?_)
    refine Tri.ofIte (fun _ => ?_) (fun _ => Tri.ofRet _ (fun _ hl => hl))
    exact (Tri.ofSetBlock _ _ _).pre (fun l hl => hP l _ hl)
  refine Tri.bind_getBlock w h hw hh hWF (fun _ => ?_)
  refine Tri.ofIte (fun _ => ?_) (fun _ => ?_)
  · exact (Tri.ofSetBlock _ _ _).pre (fun l hl => hP l _ hl)
  · refine Tri.bind_getBlock w h hw hh hWF (fun _ => ?_)
    refine Tri.ofIte (fun _ => ?_) (fun _ => hlast)
    exact Tri.bind_setBlock (fun l hl => hP l _ hl) hlast

theorem at1_isSome {α : Type} (v : List α) (i : Int) (h0 : 0 ≤ i) (h1 : i < v.length) :
    ∃ a, at1 v i = some a := by
  unfold at1
  rw [if_neg (by omega)]
  exact ⟨_, List.getElem?_eq_getElem (by omega)⟩

/-- The stop condition of the tier loop never reads outside `occupied`,
and when it is false the two writes that follow are inside it. -/
theorem hillConflict_total (occupied : List Bool) (d l length : Int)
    (hlen : (occupied.length : Int) = length) (hl : 0 ≤ l) :
    ∃ c, hillConflict occupied d l length = some c ∧
      (c = false → 0 ≤ d ∧ d + l < length) := by
  unfold hillConflict
  by_cases hc : d < 0 ∨ d ≥ length ∨ d + l ≥ length
  · rw [if_pos hc]
    exact ⟨true, rfl, fun h => by simp at h⟩
  · rw [if_neg hc]
    obtain ⟨a, ha⟩ := at1_isSome occupied d (by omega) (by omega)
    obtain ⟨b, hb⟩ := at1_isSome occupied (d + l) (by omega) (by omega)
    rw [ha]
    cases a with
    | true => exact ⟨true, rfl, fun h => by simp at h⟩
    | false =>
      simp only
      rw [hb]
      cases b with
      | true => exact ⟨true, rfl, fun h => by simp at h⟩
      | false =>
        simp only
        have h3 : ∃ c, (if d - 1 ≥ 0 then at1 occupied (d - 1) else some false) = some c := by
          split
          · exact at1_isSome occupied (d - 1) (by omega) (by omega)
          · exact ⟨false, rfl⟩
        obtain ⟨c, hc3⟩ := h3
        rw [hc3]
        cases c with
        | true => exact ⟨true, rfl, fun h => by simp at h⟩
        | false =>
          simp only
          split
          · obtain ⟨e, he⟩ := at1_isSome occupied (d + l + 1) (by omega) (by omega)
            exact ⟨e, he, fun _ => ⟨by omega, by omega⟩⟩
          · exact ⟨false, rfl, fun _ => ⟨by omega, by omega⟩⟩

theorem set1_total {α : Type} (v : List α) (i : Int) (a : α) (h0 : 0 ≤ i)
    (h1 : i < v.length) : ∃ v', set1 v i a = some v' ∧ v'.length = v.length := by
  unfold set1
  rw [if_neg (by omega)]
  exact ⟨_, rfl, List.length_set _ _ _⟩

/-- The tier loop of `buildHillStraight` returns when the fuel exceeds the
current tier row, reads and writes `occupied` in range, and leaves every
assertion that is stable above the floor. -/
theorem hillLoop_spec {M : Bool} {P : Level → Prop} (w h : Int) (hw : 1 ≤ w) (hh : 1 ≤ h)
    (hWF : ∀ l, P l → l.WF w h) {fuel : Nat} (hf : Random.enoughFuel ≤ fuel)
    (g : LevelGenerator) (xo length floor : Int)
    (hlen1 : length < 2 ^ 31) (hM : M = true → 10 ≤ length)
    (hP : Level.Stable floor P) :
    ∀ (n : Nat) (hcur : Int) (occupied : List Bool), 0 < n → hcur < n → hcur ≤ floor →
      (occupied.length : Int) = length →
      Tri M P (hillLoop g fuel xo length floor n hcur occupied) (fun _ l => P l) := by
  intro n
  induction n with
  | zero => intro hcur occupied h0; omega
  | succ n ih =>
    intro hcur occupied _ hn hfl hocc
    unfold hillLoop
    simp only [bind_eq, ret_andThen, andThen_assoc]
    refine Tri.bind_nextInt hf _ (by norm_num) (by norm_num) (fun r hr0 hr1 => ?_)
    refine Tri.ofIte (fun _ => Tri.ofRet _ (fun _ hl => hl)) (fun hpos => ?_)
    refine Tri.bind_nextInt hf _ (by norm_num) (by norm_num) (fun r1 h10 h11 => ?_)
    refine Tri.bind (Tri.nextInt hf (length - (r1 + 3) - 2) (by omega)
      (fun hm => by have := hM hm; omega)) (fun r2 => ?_)
    refine Tri.pre (P := fun l => (((0 < length - (r1 + 3) - 2 →
        0 ≤ r2 ∧ r2 < length - (r1 + 3) - 2) ∧ (length - (r1 + 3) - 2 ≤ 0 → r2 = 0)) ∧ P l))
      (fun l hl => ⟨hl.2, hl.1⟩) (Tri.assume (fun hr2 => ?_))
    have hr2nn : 0 ≤ r2 := by
      by_cases hb : 0 < length - (r1 + 3) - 2
      · exact (hr2.1 hb).1
      · rw [hr2.2 (by omega)]
    have hr2lt : 0 < length - (r1 + 3) - 2 → r2 < length - (r1 + 3) - 2 :=
      fun hb => (hr2.1 hb).2
    obtain ⟨c, hc, hcf⟩ := hillConflict_total occupied (r2 + xo + 1 - xo) (r1 + 3) length
      hocc (by omega)
    refine Tri.bind_ofOption hc ?_
    cases c with
    | true => exact Tri.ofIte (fun _ => Tri.ofRet _ (fun _ hl => hl)) (fun hne => absurd rfl hne)
    | false =>
      refine Tri.ofIte (fun hne => by simp at hne) (fun _ => ?_)
      have hin := hcf rfl
      obtain ⟨o1, ho1, hlen1'⟩ := set1_total occupied (r2 + xo + 1 - xo) true
        (by omega) (by omega)
      refine Tri.bind_ofOption ho1 ?_
      obtain ⟨o2, ho2, hlen2⟩ := set1_total o1 (r2 + xo + 1 - xo + (r1 + 3)) true
        (by omega) (by omega)
      refine Tri.bind_ofOption ho2 ?_
      refine Tri.bind (addEnemyLine_spec hf g _ _ _ hP.2) (fun _ => ?_)
      refine Tri.bind_nextInt hf _ (by norm_num) (by norm_num) (fun r3 _ _ => ?_)
      have hpaint : Tri M P
          (forRange (r2 + xo + 1) (r2 + xo + 1 + (r1 + 3)) () fun x _ =>
            forRange (hcur - 2 - r) floor () fun y _ =>
              hillPaint (r2 + xo + 1) (r1 + 3) (hcur - 2 - r) x y)
          (fun _ l => P l) := by
        refine Tri.forRange_inv _ _ _ _ (fun x _ _ _ => ?_)
        refine Tri.forRange_inv _ _ _ _ (fun y _ _ hy => ?_)
        exact hillPaint_spec w h hw hh hWF _ _ _ x y (fun l b hl => hP.1 l x y b hy hl)
      refine Tri.ofIte (fun _ => ?_) (fun _ => ?_)
      · refine Tri.bind (decorate_spec hf g _ _ _ (hP.weaken (by omega))) (fun _ => ?_)
        refine Tri.bind hpaint (fun _ => ?_)
        exact Tri.ofIte (fun hne => by simp at hne) (fun _ => Tri.ofRet _ (fun _ hl => hl))
      · refine Tri.bind hpaint (fun _ => ?_)
        refine Tri.ofIte (fun _ => ?_) (fun hne => absurd trivial hne)
        exact ih (hcur - 2 - r) o2 (by omega) (by omega) (by omega) (by omega)

theorem buildHillStraight_spec {M : Bool} (w h : Int) (hw : 1 ≤ w) (hh : 1 ≤ h)
    {fuel : Nat} (hf : Random.enoughFuel ≤ fuel) (hfh : h ≤ fuel)
    (g : LevelGenerator) (hg : g.height = h) (xo maxLength : Int)
    (hm0 : 0 ≤ maxLength) (hM : M = true → 10 ≤ maxLength) :
    Tri M (fun l => l.WF w h) (buildHillStraight g fuel xo maxLength)
      (fun L l => l.WF w h ∧ LenOK 10 19 maxLength L ∧
        ∃ floor, h - 4 ≤ floor ∧ floor ≤ h - 1 ∧
          l.Ground (fun x y => xo ≤ x ∧ x < xo + L ∧ floor ≤ y)) := by
  unfold buildHillStraight
  simp only [bind_eq, ret_andThen, andThen_assoc]
  refine Tri.bind_nextInt hf _ (by norm_num) (by norm_num) (fun r hr0 hr1 => ?_)
  refine Tri.bind_nextInt hf _ (by norm_num) (by norm_num) (fun r1 h10 h11 => ?_)
  generalize hL : (if r + 10 > maxLength then maxLength else r + 10) = L
  have hlen : LenOK 10 19 maxLength L := by
    rw [← hL]
    unfold LenOK
    split_ifs <;> omega
  have hL0 : 0 ≤ L := by rw [← hL]; split_ifs <;> omega
  have hfill := (fillGround_spec (M := M) w h (fun _ _ => False) g xo (xo + L)
    (g.height - 1 - r1) (fun _ _ hs => hs.elim))
  have hst := Level.stable_ground w h (g.height - 1 - r1)
    (fun x y => xo ≤ x ∧ x < xo + L ∧ g.height - 1 - r1 ≤ y) (fun x y hs => hs.2.2)
  refine Tri.bind (R := fun _ l => l.WF w h ∧ l.Ground (fun x y =>
      xo ≤ x ∧ x < xo + L ∧ g.height - 1 - r1 ≤ y)) ?_ (fun _ => ?_)
  · refine hfill.conseq (fun l hl => ⟨hl, fun _ _ hs => hs.elim⟩)
      (fun _ l hl => ⟨hl.1, ?_⟩)
    intro x y hs hx0 hx1 hy0 hy1
    refine hl.2 x y (Or.inr ⟨hs.1, hs.2.1, hs.2.2, ?_⟩) hx0 hx1 hy0 hy1
    rw [hg, ← hl.1.2.1]
    exact hy1
  · refine Tri.bind (addEnemyLine_spec hf g _ _ _ hst.2) (fun _ => ?_)
    refine Tri.bind (hillLoop_spec w h hw hh (fun l hl => hl.1) hf g xo L _
      (by unfold LenOK at hlen; omega) (fun hm => by
        have := hM hm
        unfold LenOK at hlen
        omega) hst fuel (g.height - 1 - r1) _
      (by unfold Random.enoughFuel at hf; omega) (by omega) (le_refl _)
      (by rw [List.length_replicate]; omega)) (fun _ => ?_)
    exact Tri.ofRet _ (fun l hl => ⟨hl.1, hlen, g.height - 1 - r1, by omega, by omega, hl.2⟩)

/-- A zone built with room for at least 19 columns is 2 to 19 columns long. -/
theorem buildZone_spec {M : Bool} (w h : Int) (hw : 1 ≤ w) (hh : 1 ≤ h)
    {fuel : Nat} (hf : Random.enoughFuel ≤ fuel) (hfh : h ≤ fuel)
    (g : LevelGenerator) (hg : g.height = h) (ht0 : 0 < g.totalOdds)
    (ht1 : g.totalOdds < 2 ^ 31) (x maxLength : Int) (hm : 19 ≤ maxLength) :
    Tri M (fun l => l.WF w h) (buildZone g fuel x maxLength)
      (fun L l => l.WF w h ∧ 2 ≤ L ∧ L ≤ 19) := by
  unfold buildZone
  simp only [bind_eq, ret_andThen, andThen_assoc]
  refine Tri.bind_nextInt hf _ ht0 ht1 (fun t _ _ => ?_)
  unfold dispatchZone
  refine Tri.ofIte (fun _ => ?_) (fun _ => ?_)
  · refine (buildStraight_spec w h hf g hg x maxLength false).post (fun L l hl => ⟨hl.1, ?_⟩)
    have := hl.2.1
    simp only [LenOK, Bool.false_eq_true, if_false] at this
    omega
  refine Tri.ofIte (fun _ => ?_) (fun _ => ?_)
  · refine (buildHillStraight_spec w h hw hh hf hfh g hg x maxLength (by omega)
      (fun _ => by omega)).post (fun L l hl => ⟨hl.1, ?_⟩)
    have := hl.2.1
    simp only [LenOK] at this
    omega
  refine Tri.ofIte (fun _ => ?_) (fun _ => ?_)
  · refine (buildTubes_spec w h hf g hg x maxLength).post (fun L l hl => ⟨hl.1, ?_⟩)
    have := hl.2.1
    simp only [LenOK] at this
    omega
  refine Tri.ofIte (fun _ => ?_) (fun _ => ?_)
  · refine (buildJump_spec w h hf g hg x maxLength).post (fun L l hl => ⟨hl.1, ?_⟩)
    have := hl.2.1
    simp only [LenOK] at this
    omega
  refine Tri.ofIte (fun _ => ?_) (fun hne => ?_)
  · refine (buildCannons_spec w h hf g hg x maxLength).post (fun L l hl => ⟨hl.1, ?_⟩)
    have := hl.2.1
    simp only [LenOK] at this
    omega
  · exfalso
    have h5 : selectZone g.odds t < 5 := by
      unfold selectZone
      simp only [List.range, List.range.loop, List.foldl]
      split_ifs <;> omega
    simp only [ODDS_STRAIGHT, ODDS_HILL_STRAIGHT, ODDS_TUBES, ODDS_JUMP, ODDS_CANNONS] at *
    omega

/-- The zone loop stops within `width - 64 - length` rounds, at a length
from `width - 64` to `width - 46` unless it was beyond on entry. -/
theorem zoneLoop_spec {M : Bool} (w h : Int) (hw : 1 ≤ w) (hh : 1 ≤ h)
    {fuel : Nat} (hf : Random.enoughFuel ≤ fuel) (hfh : h ≤ fuel)
    (g : LevelGenerator) (hg : g.height = h) (ht0 : 0 < g.totalOdds)
    (ht1 : g.totalOdds < 2 ^ 31) :
    ∀ (n : Nat) (length : Int), 0 < n → w - 64 - length < n →
      Tri M (fun l => l.WF w h) (zoneLoop g fuel n length)
        (fun L l => l.WF w h ∧ w - 64 ≤ L ∧ length ≤ L ∧ (L = length ∨ L ≤ w - 46)) := by
  intro n
  induction n with
  | zero => intro length h0; omega
  | succ n ih =>
    intro length _ hn
    unfold zoneLoop
    simp only [bind_eq, ret_andThen, andThen_assoc]
    refine Tri.bind_getLevel (fun l0 hl0 => ?_)
    have hw0 : l0.width = w := hl0.1
    rw [hw0]
    refine Tri.pre (P := fun l => l.WF w h) (fun l hl => by rw [hl]; exact hl0) ?_
    refine Tri.ofIte (fun hlt => ?_) (fun hge => ?_)
    · refine Tri.bind (buildZone_spec w h hw hh hf hfh g hg ht0 ht1 length (w - length)
        (by omega)) (fun z => ?_)
      refine Tri.pre (P := fun l => (2 ≤ z ∧ z ≤ 19) ∧ l.WF w h)
        (fun l hl => ⟨hl.2, hl.1⟩) (Tri.assume (fun hz => ?_))
      refine (ih (length + z) (by omega) (by omega)).post (fun L l hl => ⟨hl.1, hl.2.1, ?_, ?_⟩)
      · omega
      · right
        rcases hl.2.2.2 with h1 | h1
        · omega
        · exact h1
    · exact Tri.ofRet _ (fun l hl => ⟨hl, by omega, le_refl _, Or.inl rfl⟩)

theorem fillGround_inv {M : Bool} {P : Level → Prop} (g : LevelGenerator)
    (x0 x1 floor : Int) (hP : ∀ l x y b, P l → P (l.setBlock x y b)) :
    Tri M P (fillGround g x0 x1 floor) (fun _ l => P l) := by
  unfold fillGround
  refine Tri.forRange_inv _ _ _ _ (fun x _ _ _ => ?_)
  refine Tri.forRange_inv _ _ _ _ (fun y _ _ _ => ?_)
  refine Tri.ofIte (fun _ => ?_) (fun _ => Tri.ofRet _ (fun _ hl => hl))
  exact (Tri.ofSetBlock _ _ _).pre (fun l hl => hP l _ _ _ hl)

theorem addCeiling_spec {M : Bool} {P : Level → Prop} {fuel : Nat}
    (hf : Random.enoughFuel ≤ fuel) (hP : ∀ l x y b, P l → P (l.setBlock x y b)) :
    Tri M P (addCeiling fuel) (fun _ l => P l) := by
  unfold addCeiling
  simp only [bind_eq, ret_andThen, andThen_assoc]
  refine Tri.bind_getLevel (fun l0 hl0 => ?_)
  refine Tri.pre (P := P) (fun l hl => by rw [hl]; exact hl0) ?_
  refine Tri.bind (R := fun _ l => P l) ?_ (fun _ => Tri.ofRet _ (fun _ hl => hl))
  refine Tri.forRange_inv _ _ _ _ (fun x a _ _ => ?_)
  have hcol : ∀ (c : Int) (v : Int × Int), Tri M P
      ((forRange 0 l0.height () fun y _ =>
        if (x > 4 ∧ y ≤ c) ∨ x < 1 then setBlock x y (u8 (1 + 9 * 16)) else ret ()).andThen
          fun _ => ret v)
      (fun _ l => P l) := by
    intro c v
    refine Tri.bind (R := fun _ l => P l) ?_ (fun _ => Tri.ofRet _ (fun _ hl => hl))
    refine Tri.forRange_inv _ _ _ _ (fun y _ _ _ => ?_)
    refine Tri.ofIte (fun _ => ?_) (fun _ => Tri.ofRet _ (fun _ hl => hl))
    exact (Tri.ofSetBlock _ _ _).pre (fun l hl => hP l _ _ _ hl)
  refine Tri.ofIte (fun _ => ?_) (fun _ => hcol _ _)
  refine Tri.bind_nextInt hf _ (by norm_num) (by norm_num) (fun c _ _ => ?_)
  refine Tri.bind_nextInt hf _ (by norm_num) (by norm_num) (fun r _ _ => ?_)
  exact hcol _ _

/-! ### The wall-fixing pass -/

theorem countGround_spec {M : Bool} {P : Level → Prop} (w h : Int) (hw : 1 ≤ w)
    (hh : 1 ≤ h) (hWF : ∀ l, P l → l.WF w h) (x y : Int) :
    Tri M P (countGround x y) (fun _ l => P l) := by
  unfold countGround
  refine Tri.forRange_inv _ _ _ _ (fun xx _ _ _ => ?_)
  refine Tri.forRange_inv _ _ _ _ (fun yy _ _ _ => ?_)
  simp only [bind_eq]
  exact Tri.bind_getBlockCapped w h hw hh hWF (fun _ => Tri.ofRet _ (fun _ hl => hl))

/-- The vertex map has `n` columns of `m` entries. -/
theorem set2c_total {α : Type} (bm : List (List α)) (n m : Nat) (hn : bm.length = n)
    (hm : ∀ col ∈ bm, col.length = m) (x y : Int) (v : α)
    (hx0 : 0 ≤ x) (hx1 : x < n) (hy0 : 0 ≤ y) (hy1 : y < m) :
    ∃ bm', set2c bm x y v = some bm' ∧ bm'.length = n ∧ ∀ col ∈ bm', col.length = m := by
  unfold set2c
  rw [if_neg (by omega)]
  have hx : x.toNat < bm.length := by omega
  rw [List.getElem?_eq_getElem hx]
  simp only
  have hc := hm _ (List.getElem_mem hx)
  rw [if_pos (by omega)]
  exact ⟨_, rfl, by rw [length_set2]; exact hn, mem_set2 _ _ _ _ _ hm⟩

theorem at2_total {α : Type} (bm : List (List α)) (n m : Nat) (hn : bm.length = n)
    (hm : ∀ col ∈ bm, col.length = m) (x y : Int)
    (hx0 : 0 ≤ x) (hx1 : x < n) (hy0 : 0 ≤ y) (hy1 : y < m) :
    ∃ a, at2 bm x y = some a := by
  unfold at2
  rw [if_neg (by omega)]
  have hx : x.toNat < bm.length := by omega
  rw [List.getElem?_eq_getElem hx]
  simp only
  have hc := hm _ (List.getElem_mem hx)
  exact ⟨_, List.getElem?_eq_getElem (by omega)⟩

theorem buildBlockMap_spec {M : Bool} {P : Level → Prop} (w h : Int) (hw : 1 ≤ w)
    (hh : 1 ≤ h) (hWF : ∀ l, P l → l.WF w h) (g : LevelGenerator) (hgw : g.width = w)
    (hgh : g.height = h) :
    Tri M P (buildBlockMap g)
      (fun bm l => P l ∧ bm.length = (w + 1).toNat ∧
        ∀ col ∈ bm, col.length = (h + 1).toNat) := by
  unfold buildBlockMap
  rw [hgw, hgh]
  refine Tri.ofIte (fun hneg => by omega) (fun _ => ?_)
  have key := Tri.forRange (M := M)
    (fun (_ : Int) (bm : List (List Bool)) l => P l ∧ bm.length = (w + 1).toNat ∧
        ∀ col ∈ bm, col.length = (h + 1).toNat)
    0 (w + 1) (List.replicate (w + 1).toNat (List.replicate (h + 1).toNat false))
    (fun x blockMap =>
        forRange 0 (h + 1) blockMap (fun y blockMap => do
          let blocks ← countGround x y
          ofOption (set2c blockMap x y (decide (blocks = 4))))) (by omega)
    (fun x bm hx0 hx1 => by
      have inner := Tri.forRange (M := M)
        (fun (_ : Int) (bm : List (List Bool)) l => P l ∧ bm.length = (w + 1).toNat ∧
          ∀ col ∈ bm, col.length = (h + 1).toNat)
        0 (h + 1) bm
        (fun y blockMap => do
          let blocks ← countGround x y
          ofOption (set2c blockMap x y (decide (blocks = 4)))) (by omega)
        (fun y bm2 hy0 hy1 => by
          simp only [bind_eq]
          refine Tri.pre (P := fun l => (bm2.length = (w + 1).toNat ∧
              ∀ col ∈ bm2, col.length = (h + 1).toNat) ∧ P l)
            (fun l hl => ⟨hl.2, hl.1⟩) (Tri.assume (fun hbm => ?_))
          refine Tri.bind (countGround_spec w h hw hh hWF x y) (fun blocks => ?_)
          obtain ⟨bm', e, h1, h2⟩ := set2c_total bm2 _ _ hbm.1 hbm.2 x y
            (decide (blocks = 4)) hx0 (by omega) hy0 (by omega)
          exact (Tri.ofOption e).post (fun b l hl => by
            rw [hl.1]
            exact ⟨hl.2, h1, h2⟩))
      exact inner)
  refine key.pre (fun l hl => ⟨hl, List.length_replicate _ _, ?_⟩)
  intro col hc
  rw [List.eq_of_mem_replicate hc, List.length_replicate]

theorem cornerFlag_total (g : LevelGenerator) (w h : Int) (hw : 1 ≤ w) (hh : 1 ≤ h)
    (hgw : g.width = w) (hgh : g.height = h) (bm : List (List Bool))
    (hn : bm.length = (w + 1).toNat) (hm : ∀ col ∈ bm, col.length = (h + 1).toNat)
    (xx yy : Int) : ∃ b, cornerFlag g bm xx yy = some b := by
  unfold cornerFlag
  simp only
  rw [hgw, hgh]
  apply at2_total bm _ _ hn hm <;> split_ifs <;> omega

theorem fixCell_spec {M : Bool} {P : Level → Prop} (w h : Int) (hw : 1 ≤ w) (hh : 1 ≤ h)
    (g : LevelGenerator) (hgw : g.width = w) (hgh : g.height = h) (bm : List (List Bool))
    (hn : bm.length = (w + 1).toNat) (hm : ∀ col ∈ bm, col.length = (h + 1).toNat)
    (x y : Int) (hP : ∀ l b, P l → P (l.setBlock x y b)) :
    Tri M P (fixCell g bm x y) (fun _ l => P l) := by
  unfold fixCell
  simp only [bind_eq]
  obtain ⟨b00, e00⟩ := cornerFlag_total g w h hw hh hgw hgh bm hn hm x y
  obtain ⟨b01, e01⟩ := cornerFlag_total g w h hw hh hgw hgh bm hn hm x (y + 1)
  obtain ⟨b10, e10⟩ := cornerFlag_total g w h hw hh hgw hgh bm hn hm (x + 1) y
  obtain ⟨b11, e11⟩ := cornerFlag_total g w h hw hh hgw hgh bm hn hm (x + 1) (y + 1)
  refine Tri.bind_ofOption e00 ?_
  refine Tri.bind_ofOption e01 ?_
  refine Tri.bind_ofOption e10 ?_
  refine Tri.bind_ofOption e11 ?_
  split
  · exact Tri.ofRet _ (fun _ hl => hl)
  · exact (Tri.ofSetBlock _ _ _).pre (fun l hl => hP l _ hl)

theorem fixWalls_spec {M : Bool} {P : Level → Prop} (w h : Int) (hw : 1 ≤ w) (hh : 1 ≤ h)
    (hWF : ∀ l, P l → l.WF w h) (g : LevelGenerator) (hgw : g.width = w)
    (hgh : g.height = h) (hP : ∀ l x y b, P l → P (l.setBlock x y b)) :
    Tri M P (fixWalls g) (fun _ l => P l) := by
  unfold fixWalls
  simp only [bind_eq]
  refine Tri.bind (buildBlockMap_spec w h hw hh hWF g hgw hgh) (fun bm => ?_)
  refine Tri.pre (P := fun l => (bm.length = (w + 1).toNat ∧
      ∀ col ∈ bm, col.length = (h + 1).toNat) ∧ P l)
    (fun l hl => ⟨hl.2, hl.1⟩) (Tri.assume (fun hbm => ?_))
  refine Tri.forRange_inv _ _ _ _ (fun x _ _ _ => ?_)
  refine Tri.forRange_inv _ _ _ _ (fun y _ _ _ => ?_)
  exact fixCell_spec w h hw hh g hgw hgh bm hbm.1 hbm.2 x y (fun l b hl => hP l x y b hl)

theorem totalOdds_lt (g : LevelGenerator) (difficulty type : Int) :
    (g.setOdds difficulty type).totalOdds < 2 ^ 31 := by
  simp only [setOdds, rawOdds]
  split_ifs <;> simp only [oddsLoop, List.set, ODDS_HILL_STRAIGHT] <;> exact wrap32_lt _

/-- The whole of `createLevelInternal` after the seeding: it returns, the
grid keeps its size, and the exit column is 8 past the built length. -/
theorem generate_spec {M : Bool} (w h : Int) (hw : 1 ≤ w) (hh : 1 ≤ h)
    {fuel : Nat} (hf : Random.enoughFuel ≤ fuel) (hfw : w ≤ fuel) (hfh : h ≤ fuel)
    (g : LevelGenerator) (hgw : g.width = w) (hgh : g.height = h) (ht0 : 0 < g.totalOdds)
    (ht1 : g.totalOdds < 2 ^ 31) :
    Tri M (fun l => l.WF w h) (generate g fuel)
      (fun _ l => l.WF w h ∧ ∃ L0 L floor, LenOK 10 14 w L0 ∧ w - 64 ≤ L ∧ L0 ≤ L ∧
        (L = L0 ∨ L ≤ w - 46) ∧ l.xExit = L + 8 ∧ h - 4 ≤ floor ∧ floor ≤ h - 1 ∧
        l.yExit = floor) := by
  unfold generate
  simp only [bind_eq, ret_andThen, andThen_assoc]
  refine Tri.bind_getLevel (fun l0 hl0 => ?_)
  have hw0 : l0.width = w := hl0.1
  rw [hw0]
  refine Tri.pre (P := fun l => l.WF w h) (fun l hl => by rw [hl]; exact hl0) ?_
  refine Tri.bind ((buildStraight_spec w h hf g hgh 0 w true).post
    (B := fun L0 l => LenOK 10 14 w L0 ∧ l.WF w h) (fun L0 l hl => ⟨by
      have := hl.2.1
      simpa using this, hl.1⟩)) (fun L0 => Tri.assume (fun hL0 => ?_))
  have hL0' := hL0
  unfold LenOK at hL0'
  refine Tri.bind ((zoneLoop_spec w h hw hh hf hfh g hgh ht0 ht1 fuel L0
    (by unfold Random.enoughFuel at hf; omega) (by omega)).post
    (B := fun L l => (w - 64 ≤ L ∧ L0 ≤ L ∧ (L = L0 ∨ L ≤ w - 46)) ∧ l.WF w h)
    (fun L l hl => ⟨hl.2, hl.1⟩)) (fun L => Tri.assume (fun hL => ?_))
  refine Tri.bind_nextInt hf _ (by norm_num) (by norm_num) (fun r hr0 hr1 => ?_)
  have hPset : ∀ (l : Level) (x y : Int) (b : Nat),
      (l.WF w h ∧ l.xExit = L + 8 ∧ l.yExit = g.height - 1 - r) →
      ((l.setBlock x y b).WF w h ∧ (l.setBlock x y b).xExit = L + 8 ∧
        (l.setBlock x y b).yExit = g.height - 1 - r) := by
    intro l x y b hl
    have := Level.xExit_setBlock l x y b
    exact ⟨hl.1.setBlock x y b, by rw [this.1]; exact hl.2.1, by rw [this.2]; exact hl.2.2⟩
  refine Tri.bind_setExit
    (A := fun l => l.WF w h ∧ l.xExit = L + 8 ∧ l.yExit = g.height - 1 - r)
    (fun l hl => ⟨hl, rfl, rfl⟩) ?_
  refine Tri.post (Q := fun _ l => l.WF w h ∧ l.xExit = L + 8 ∧ l.yExit = g.height - 1 - r)
    ?_ (fun _ l hl => ⟨hl.1, L0, L, g.height - 1 - r, hL0, hL.1, hL.2.1, hL.2.2, hl.2.1,
      by omega, by omega, hl.2.2⟩)
  refine Tri.bind (fillGround_inv g _ _ _ hPset) (fun _ => ?_)
  have hfix := fixWalls_spec (M := M) w h hw hh
    (P := fun l => l.WF w h ∧ l.xExit = L + 8 ∧ l.yExit = g.height - 1 - r)
    (fun l hl => hl.1) g hgw hgh hPset
  refine Tri.ofIte (fun _ => ?_) (fun _ => hfix)
  exact Tri.bind (addCeiling_spec hf hPset) (fun _ => hfix)

/-- With enough fuel the run of `createLevelInternal` returns a state whose
level has the requested size, with the monitor clear. -/
theorem createLevelRun_spec (w h : Int) (hw : 1 ≤ w) (hh : 1 ≤ h) {fuel : Nat}
    (hf : Random.enoughFuel ≤ fuel) (hfw : w ≤ fuel) (hfh : h ≤ fuel)
    (g0 : LevelGenerator) (hgw : g0.width = w) (hgh : g0.height = h) (random0 : Random)
    (seed difficulty type : Int) (hlo : -(2 : Int) ^ 31 ≤ 5 * difficulty - 10)
    (hd : 22 + 8 * difficulty < 2 ^ 31) :
    ∃ s, createLevelRun g0 random0 fuel seed difficulty type = some s ∧
      s.nonPositiveBound = false ∧ s.level.WF w h ∧
      ∃ L0 L floor, LenOK 10 14 w L0 ∧ w - 64 ≤ L ∧ L0 ≤ L ∧
        (L = L0 ∨ L ≤ w - 46) ∧ s.level.xExit = L + 8 ∧ h - 4 ≤ floor ∧ floor ≤ h - 1 ∧
        s.level.yExit = floor := by
  unfold createLevelRun
  simp only
  have e1 : (g0.setOdds difficulty type).width = w := hgw
  have e2 : (g0.setOdds difficulty type).height = h := hgh
  rw [e1, e2]
  obtain ⟨l, hl, hwf⟩ := Level.init_WF w h (by omega) (by omega)
  rw [hl]
  simp only
  have ht0 := totalOdds_ge g0 difficulty type hlo hd
  obtain ⟨a, s', e, hq, hm⟩ := generate_spec (M := true) w h hw hh hf hfw hfh
    (g0.setOdds difficulty type) e1 e2 (by omega) (totalOdds_lt g0 difficulty type)
    ⟨Random.setSeed seed, l, false⟩ hwf (fun _ => rfl)
  rw [e]
  exact ⟨s', rfl, hm rfl, hq.1, hq.2⟩

end LevelGenerator

/-! ## More fuel never changes a result -/

namespace Random

theorem nextIntLoop_mono (bound : Int) :
    ∀ (f1 f2 : Nat) (r : Random) (x : Int × Random), f1 ≤ f2 →
      nextIntLoop bound f1 r = some x → nextIntLoop bound f2 r = some x := by
  intro f1
  induction f1 with
  | zero => intro f2 r x _ h; simp [nextIntLoop] at h
  | succ f1 ih =>
    intro f2 r x hle h
    obtain ⟨f, rfl⟩ : ∃ f, f2 = f + 1 := ⟨f2 - 1, by omega⟩
    rw [nextIntLoop_succ] at h ⊢
    split
    · rename_i hr
      rw [if_pos hr] at h
      exact ih f _ x (by omega) h
    · rename_i hr
      rw [if_neg hr] at h
      exact h

theorem nextInt_mono (bound : Int) (f1 f2 : Nat) (r : Random) (x : Int × Random)
    (hle : f1 ≤ f2) (h : nextInt f1 bound r = some x) : nextInt f2 bound r = some x := by
  unfold nextInt at h ⊢
  split
  · rename_i hb
    rw [if_pos hb] at h
    exact h
  · rename_i hb
    rw [if_neg hb] at h
    split
    · rename_i hp
      rw [if_pos hp] at h
      exact h
    · rename_i hp
      rw [if_neg hp] at h
      exact nextIntLoop_mono bound f1 f2 r x hle h

end Random

namespace Gen

theorem Le.same {α : Type} (m : Gen α) : Le m m := fun _ _ h => h

theorem Le.seq {α β : Type} {m1 m2 : Gen α} {f1 f2 : α → Gen β}
    (h : Le m1 m2) (hf : ∀ a, Le (f1 a) (f2 a)) : Le (andThen m1 f1) (andThen m2 f2) := by
  intro s r hr
  unfold andThen at hr ⊢
  cases e : m1 s with
  | none => rw [e] at hr; exact absurd hr (by simp)
  | some p =>
    rw [e] at hr
    rw [h s p e]
    exact hf p.1 p.2 r hr

theorem Le.cond {α : Type} {c : Prop} [Decidable c] {a1 a2 b1 b2 : Gen α}
    (ha : c → Le a1 a2) (hb : ¬ c → Le b1 b2) :
    Le (if c then a1 else b1) (if c then a2 else b2) := by
  split
  · exact ha ‹_›
  · exact hb ‹_›

theorem Le.loop {β : Type} {b1 b2 : Int → β → Gen β} (hb : ∀ x a, Le (b1 x a) (b2 x a)) :
    ∀ (n : Nat) (x : Int) (a : β), Le (forLoop b1 n x a) (forLoop b2 n x a) := by
  intro n
  induction n with
  | zero => intro x a; exact Le.same _
  | succ n ih =>
    intro x a
    unfold forLoop
    exact Le.seq (hb x a) (fun a' => ih (x + 1) a')

theorem Le.range {β : Type} {b1 b2 : Int → β → Gen β} (lo hi : Int) (init : β)
    (hb : ∀ x a, Le (b1 x a) (b2 x a)) :
    Le (forRange lo hi init b1) (forRange lo hi init b2) :=
  Le.loop hb _ _ _

theorem Le.draw {f1 f2 : Nat} (hle : f1 ≤ f2) (bound : Int) :
    Le (nextInt f1 bound) (nextInt f2 bound) := by
  intro s r hr
  unfold nextInt at hr ⊢
  cases e : s.random.nextInt f1 bound with
  | none => rw [e] at hr; exact absurd hr (by simp)
  | some p =>
    rw [e] at hr
    rw [Random.nextInt_mono bound f1 f2 s.random p hle e]
    exact hr

end Gen

namespace LevelGenerator

open Gen

theorem addEnemyLine_le (g : LevelGenerator) {f1 f2 : Nat} (hle : f1 ≤ f2) (x0 x1 y : Int) :
    Le (addEnemyLine g f1 x0 x1 y) (addEnemyLine g f2 x0 x1 y) := by
  unfold addEnemyLine
  simp only [bind_eq, ret_andThen, andThen_assoc]
  refine Le.range _ _ _ (fun x _ => ?_)
  repeat (first
    | exact Le.draw hle _
    | refine Le.seq ?_ (fun _ => ?_)
    | refine Le.cond (fun _ => ?_) (fun _ => ?_)
    | exact Le.same _)

theorem decorateBlock_le {f1 f2 : Nat} (hle : f1 ≤ f2) (x0 x1 floor x : Int) :
    Le (decorateBlock f1 x0 x1 floor x) (decorateBlock f2 x0 x1 floor x) := by
  unfold decorateBlock
  simp only [bind_eq, ret_andThen, andThen_assoc]
  repeat (first
    | exact Le.draw hle _
    | refine Le.seq ?_ (fun _ => ?_)
    | refine Le.cond (fun _ => ?_) (fun _ => ?_)
    | exact Le.same _)

theorem decorate_le (g : LevelGenerator) {f1 f2 : Nat} (hle : f1 ≤ f2) (x0 x1 floor : Int) :
    Le (decorate g f1 x0 x1 floor) (decorate g f2 x0 x1 floor) := by
  unfold decorate
  simp only [bind_eq, ret_andThen, andThen_assoc]
  repeat (first
    | exact Le.draw hle _
    | exact addEnemyLine_le g hle _ _ _
    | refine Le.range _ _ _ (fun _ _ => decorateBlock_le hle _ _ _ _)
    | refine Le.seq ?_ (fun _ => ?_)
    | refine Le.cond (fun _ => ?_) (fun _ => ?_)
    | exact Le.same _)

theorem buildStraight_le (g : LevelGenerator) {f1 f2 : Nat} (hle : f1 ≤ f2)
    (xo maxLength : Int) (safe : Bool) :
    Le (buildStraight g f1 xo maxLength safe) (buildStraight g f2 xo maxLength safe) := by
  unfold buildStraight
  simp only [bind_eq, ret_andThen, andThen_assoc]
  repeat (first
    | exact Le.draw hle _
    | exact decorate_le g hle _ _ _
    | refine Le.seq ?_ (fun _ => ?_)
    | refine Le.cond (fun _ => ?_) (fun _ => ?_)
    | exact Le.same _)

theorem hillLoop_le (g : LevelGenerator) {f1 f2 : Nat} (hle : f1 ≤ f2)
    (xo length floor : Int) :
    ∀ (n1 n2 : Nat) (h : Int) (occupied : List Bool), n1 ≤ n2 →
      Le (hillLoop g f1 xo length floor n1 h occupied)
        (hillLoop g f2 xo length floor n2 h occupied) := by
  intro n1
  induction n1 with
  | zero =>
    intro n2 h occupied _ s r hr
    simp [hillLoop, Gen.fail] at hr
  | succ n1 ih =>
    intro n2 h occupied hn
    obtain ⟨n, rfl⟩ : ∃ n, n2 = n + 1 := ⟨n2 - 1, by omega⟩
    unfold hillLoop
    simp only [bind_eq, ret_andThen, andThen_assoc]
    repeat (first
      | exact Le.draw hle _
      | exact decorate_le g hle _ _ _
      | exact addEnemyLine_le g hle _ _ _
      | exact ih n _ _ (by omega)
      | refine Le.seq ?_ (fun _ => ?_)
      | refine Le.cond (fun _ => ?_) (fun _ => ?_)
      | exact Le.same _)

theorem buildHillStraight_le (g : LevelGenerator) {f1 f2 : Nat} (hle : f1 ≤ f2)
    (xo maxLength : Int) :
    Le (buildHillStraight g f1 xo maxLength) (buildHillStraight g f2 xo maxLength) := by
  unfold buildHillStraight
  simp only [bind_eq, ret_andThen, andThen_assoc]
  repeat (first
    | exact Le.draw hle _
    | exact addEnemyLine_le g hle _ _ _
    | exact hillLoop_le g hle _ _ _ _ _ _ _ hle
    | refine Le.seq ?_ (fun _ => ?_)
    | refine Le.cond (fun _ => ?_) (fun _ => ?_)
    | exact Le.same _)

theorem buildTubes_le (g : LevelGenerator) {f1 f2 : Nat} (hle : f1 ≤ f2)
    (xo maxLength : Int) :
    Le (buildTubes g f1 xo maxLength) (buildTubes g f2 xo maxLength) := by
  unfold buildTubes
  simp only [bind_eq, ret_andThen, andThen_assoc]
  repeat (first
    | exact Le.draw hle _
    | refine Le.range _ _ _ (fun _ _ => ?_)
    | refine Le.seq ?_ (fun _ => ?_)
    | refine Le.cond (fun _ => ?_) (fun _ => ?_)
    | exact Le.same _)

theorem buildJump_le (g : LevelGenerator) {f1 f2 : Nat} (hle : f1 ≤ f2)
    (xo maxLength : Int) :
    Le (buildJump g f1 xo maxLength) (buildJump g f2 xo maxLength) := by
  unfold buildJump
  simp only [bind_eq, ret_andThen, andThen_assoc]
  repeat (first
    | exact Le.draw hle _
    | refine Le.seq ?_ (fun _ => ?_)
    | exact Le.same _)

theorem buildCannons_le (g : LevelGenerator) {f1 f2 : Nat} (hle : f1 ≤ f2)
    (xo maxLength : Int) :
    Le (buildCannons g f1 xo maxLength) (buildCannons g f2 xo maxLength) := by
  unfold buildCannons
  simp only [bind_eq, ret_andThen, andThen_assoc]
  repeat (first
    | exact Le.draw hle _
    | refine Le.range _ _ _ (fun _ _ => ?_)
    | refine Le.seq ?_ (fun _ => ?_)
    | refine Le.cond (fun _ => ?_) (fun _ => ?_)
    | exact Le.same _)

theorem buildZone_le (g : LevelGenerator) {f1 f2 : Nat} (hle : f1 ≤ f2)
    (x maxLength : Int) :
    Le (buildZone g f1 x maxLength) (buildZone g f2 x maxLength) := by
  unfold buildZone dispatchZone
  simp only [bind_eq, ret_andThen, andThen_assoc]
  refine Le.seq (Le.draw hle _) (fun t => ?_)
  refine Le.cond (fun _ => buildStraight_le g hle _ _ _) (fun _ => ?_)
  refine Le.cond (fun _ => buildHillStraight_le g hle _ _) (fun _ => ?_)
  refine Le.cond (fun _ => buildTubes_le g hle _ _) (fun _ => ?_)
  refine Le.cond (fun _ => buildJump_le g hle _ _) (fun _ => ?_)
  exact Le.cond (fun _ => buildCannons_le g hle _ _) (fun _ => Le.same _)

theorem zoneLoop_le (g : LevelGenerator) {f1 f2 : Nat} (hle : f1 ≤ f2) :
    ∀ (n1 n2 : Nat) (length : Int), n1 ≤ n2 →
      Le (zoneLoop g f1 n1 length) (zoneLoop g f2 n2 length) := by
  intro n1
  induction n1 with
  | zero =>
    intro n2 length _ s r hr
    simp [zoneLoop, Gen.fail] at hr
  | succ n1 ih =>
    intro n2 length hn
    obtain ⟨n, rfl⟩ : ∃ n, n2 = n + 1 := ⟨n2 - 1, by omega⟩
    unfold zoneLoop
    simp only [bind_eq, ret_andThen, andThen_assoc]
    refine Le.seq (Le.same _) (fun lv => ?_)
    refine Le.cond (fun _ => ?_) (fun _ => Le.same _)
    exact Le.seq (buildZone_le g hle _ _) (fun z => ih n _ (by omega))

theorem addCeiling_le {f1 f2 : Nat} (hle : f1 ≤ f2) :
    Le (addCeiling f1) (addCeiling f2) := by
  unfold addCeiling
  simp only [bind_eq, ret_andThen, andThen_assoc]
  refine Le.seq (Le.same _) (fun lv => ?_)
  refine Le.seq ?_ (fun _ => Le.same _)
  refine Le.range _ _ _ (fun x a => ?_)
  repeat (first
    | exact Le.draw hle _
    | refine Le.seq ?_ (fun _ => ?_)
    | refine Le.cond (fun _ => ?_) (fun _ => ?_)
    | exact Le.same _)

theorem generate_le (g : LevelGenerator) {f1 f2 : Nat} (hle : f1 ≤ f2) :
    Le (generate g f1) (generate g f2) := by
  unfold generate
  simp only [bind_eq, ret_andThen, andThen_assoc]
  refine Le.seq (Le.same _) (fun lv => ?_)
  refine Le.seq (buildStraight_le g hle _ _ _) (fun L0 => ?_)
  refine Le.seq (zoneLoop_le g hle _ _ _ hle) (fun L => ?_)
  refine Le.seq (Le.draw hle _) (fun r => ?_)
  refine Le.seq (Le.same _) (fun _ => ?_)
  refine Le.seq (Le.same _) (fun _ => ?_)
  exact Le.cond (fun _ => Le.seq (addCeiling_le hle) (fun _ => Le.same _))
    (fun _ => Le.same _)

/-- A run that returns with some fuel returns the same state with more. -/
theorem createLevelRun_mono (g0 : LevelGenerator) (random0 : Random) {f1 f2 : Nat}
    (hle : f1 ≤ f2) (seed difficulty type : Int) (s : GenState)
    (h : createLevelRun g0 random0 f1 seed difficulty type = some s) :
    createLevelRun g0 random0 f2 seed difficulty type = some s := by
  unfold createLevelRun at h ⊢
  simp only at h ⊢
  cases e : Level.init (g0.setOdds difficulty type).width (g0.setOdds difficulty type).height with
  | none =>
    rw [e] at h
    exact absurd h (by simp)
  | some l =>
    rw [e] at h
    simp only at h ⊢
    cases e2 : generate (g0.setOdds difficulty type) f1 ⟨Random.setSeed seed, l, false⟩ with
    | none =>
      rw [e2] at h
      exact absurd h (by simp)
    | some p =>
      rw [e2] at h
      rw [generate_le (g0.setOdds difficulty type) hle _ p e2]
      exact h

end LevelGenerator

/-! ## Claims on the zone selection -/

/-- C5: for a difficulty in the range where the weight arithmetic does not
leave the `int` range (`-2^31 <= 5 * difficulty - 10` and
`22 + 8 * difficulty < 2^31`), the odds table built by `createLevelInternal`
holds at index `i` the sum of the clamped weights of the kinds before `i`,
`totalOdds` is the sum of all five, and for every draw `t` in
`[0, totalOdds)` the kind selected by `buildZone` is the largest index `i`
in `0..4` whose threshold is `<= t`. -/
theorem C5_zone_selection (g : LevelGenerator) (difficulty type t : Int)
    (hlo : -(2 : Int) ^ 31 ≤ 5 * difficulty - 10) (hhi : 22 + 8 * difficulty < 2 ^ 31)
    (h0 : 0 ≤ t) (h1 : t < (g.setOdds difficulty type).totalOdds) :
    (∀ i, i < 5 →
      (g.setOdds difficulty type).odds.getD i 0 = LevelGenerator.zoneThreshold difficulty type i) ∧
    (g.setOdds difficulty type).totalOdds = LevelGenerator.zoneThreshold difficulty type 5 ∧
    LevelGenerator.selectZone (g.setOdds difficulty type).odds t < 5 ∧
    (g.setOdds difficulty type).odds.getD
      (LevelGenerator.selectZone (g.setOdds difficulty type).odds t) 0 ≤ t ∧
    (∀ i, i < 5 → (g.setOdds difficulty type).odds.getD i 0 ≤ t →
      i ≤ LevelGenerator.selectZone (g.setOdds difficulty type).odds t) := by
  have hz := (LevelGenerator.selectZone_eq_iff g difficulty type hlo hhi t h0 h1
    (LevelGenerator.selectZone (g.setOdds difficulty type).odds t)).1 rfl
  have hlt : LevelGenerator.selectZone (g.setOdds difficulty type).odds t < 5 := by
    by_contra hc
    have hw : LevelGenerator.zoneWeight difficulty type
        (LevelGenerator.selectZone (g.setOdds difficulty type).odds t) = 0 := by
      unfold LevelGenerator.zoneWeight
      split <;> omega
    omega
  refine ⟨fun i hi => LevelGenerator.odds_getD g difficulty type hlo hhi i hi,
    (LevelGenerator.setOdds_odds g difficulty type hlo hhi).2, hlt, ?_, ?_⟩
  · rw [LevelGenerator.odds_getD g difficulty type hlo hhi _ hlt]
    exact hz.1
  · intro i hi hle
    rw [LevelGenerator.odds_getD g difficulty type hlo hhi i hi] at hle
    by_contra hc
    obtain ⟨m, hm⟩ : ∃ m, i = (LevelGenerator.selectZone (g.setOdds difficulty type).odds t + 1) + m :=
      ⟨i - (LevelGenerator.selectZone (g.setOdds difficulty type).odds t + 1), by omega⟩
    have h3 := LevelGenerator.zoneThreshold_le_add difficulty type
      (LevelGenerator.selectZone (g.setOdds difficulty type).odds t + 1) m
    rw [← hm, LevelGenerator.zoneThreshold_succ] at h3
    omega

/-- C5 at difficulty 2 on the overground with the draw 25: the thresholds
are 0, 20, 30, 34, 38 and HillStraight (index 1) is selected. -/
theorem C5_zone_selection_witness :
    (-(2 : Int) ^ 31 ≤ 5 * 2 - 10 ∧ (22 : Int) + 8 * 2 < 2 ^ 31 ∧ (0 : Int) ≤ 25 ∧
      (25 : Int) < ((LevelGenerator.init 320 15 0 0 0).setOdds 2 TYPE_OVERGROUND).totalOdds) ∧
    LevelGenerator.selectZone
      ((LevelGenerator.init 320 15 0 0 0).setOdds 2 TYPE_OVERGROUND).odds 25 = 1 := by
  refine ⟨⟨by norm_num, by norm_num, by decide, by decide⟩, ?_⟩
  have h := C5_zone_selection (LevelGenerator.init 320 15 0 0 0) 2 TYPE_OVERGROUND 25
    (by norm_num) (by norm_num) (by decide) (by decide)
  have h1 := h.2.2.2.2 1 (by decide) (by decide)
  have h2 : LevelGenerator.selectZone
      ((LevelGenerator.init 320 15 0 0 0).setOdds 2 TYPE_OVERGROUND).odds 25 ≤ 1 := by decide
  omega

/-- C6: for every difficulty in the range where the weight arithmetic does
not leave the `int` range (`-2^31 <= 5 * difficulty - 10` and
`22 + 8 * difficulty < 2^31`), every level type and every zone kind `i`,
the number of draws `t` in `[0, totalOdds)` for which `buildZone` selects
kind `i` is the clamped weight of that kind; a kind of weight zero is
selected by no draw. -/
theorem C6_weight_share (g : LevelGenerator) (difficulty type : Int) (i : Nat)
    (hlo : -(2 : Int) ^ 31 ≤ 5 * difficulty - 10) (hhi : 22 + 8 * difficulty < 2 ^ 31) :
    ((Finset.Ico 0 (g.setOdds difficulty type).totalOdds).filter
        (fun t => LevelGenerator.selectZone (g.setOdds difficulty type).odds t = i)).card
      = (LevelGenerator.zoneWeight difficulty type i).toNat ∧
    (LevelGenerator.zoneWeight difficulty type i = 0 →
      ∀ t, 0 ≤ t → t < (g.setOdds difficulty type).totalOdds →
        LevelGenerator.selectZone (g.setOdds difficulty type).odds t ≠ i) := by
  constructor
  · have hset : (Finset.Ico 0 (g.setOdds difficulty type).totalOdds).filter
          (fun t => LevelGenerator.selectZone (g.setOdds difficulty type).odds t = i)
        = Finset.Ico (LevelGenerator.zoneThreshold difficulty type i)
            (LevelGenerator.zoneThreshold difficulty type i
              + LevelGenerator.zoneWeight difficulty type i) := by
      ext t
      simp only [Finset.mem_filter, Finset.mem_Ico]
      constructor
      · rintro ⟨⟨h0, h1⟩, h⟩
        exact (LevelGenerator.selectZone_eq_iff g difficulty type hlo hhi t h0 h1 i).1 h
      · rintro ⟨ha, hb⟩
        have hnn : 0 ≤ t := by
          have := LevelGenerator.zoneThreshold_le_add difficulty type 0 i
          rw [LevelGenerator.zoneThreshold_zero, Nat.zero_add] at this
          omega
        have hlt : t < (g.setOdds difficulty type).totalOdds := by
          rw [(LevelGenerator.setOdds_odds g difficulty type hlo hhi).2]
          by_cases hi : i < 5
          · obtain ⟨m, hm⟩ : ∃ m, 5 = (i + 1) + m := ⟨5 - (i + 1), by omega⟩
            have := LevelGenerator.zoneThreshold_le_add difficulty type (i + 1) m
            rw [← hm, LevelGenerator.zoneThreshold_succ] at this
            omega
          · have hw : LevelGenerator.zoneWeight difficulty type i = 0 := by
              unfold LevelGenerator.zoneWeight
              split <;> omega
            omega
        exact ⟨⟨hnn, hlt⟩,
          (LevelGenerator.selectZone_eq_iff g difficulty type hlo hhi t hnn hlt i).2 ⟨ha, hb⟩⟩
    rw [hset, Int.card_Ico]
    congr 1
    omega
  · intro hw t h0 h1 h
    have := (LevelGenerator.selectZone_eq_iff g difficulty type hlo hhi t h0 h1 i).1 h
    omega

/-- C6 at difficulty 3 on the overground: of the 46 draws, 5 select Tubes. -/
theorem C6_weight_share_witness :
    (-(2 : Int) ^ 31 ≤ 5 * 3 - 10 ∧ (22 : Int) + 8 * 3 < 2 ^ 31) ∧
    ((LevelGenerator.init 320 15 0 0 0).setOdds 3 TYPE_OVERGROUND).totalOdds = 46 ∧
    ((Finset.Ico 0 ((LevelGenerator.init 320 15 0 0 0).setOdds 3 TYPE_OVERGROUND).totalOdds).filter
        (fun t => LevelGenerator.selectZone
          ((LevelGenerator.init 320 15 0 0 0).setOdds 3 TYPE_OVERGROUND).odds t = 2)).card
      = 5 :=
  ⟨⟨by norm_num, by norm_num⟩, by decide,
    (C6_weight_share (LevelGenerator.init 320 15 0 0 0) 3 TYPE_OVERGROUND 2
      (by norm_num) (by norm_num)).1.trans (by decide)⟩

/-- C7: for a level type other than Overground and every difficulty,
whether or not a weight wraps in its `int`, the HillStraight entry of the
odds is set to zero before the table is built, no draw `t` selects
`ODDS_HILL_STRAIGHT` (in particular none in `[0, totalOdds)`), and the draw
that `buildZone` makes from any generator state selects another kind (so
`buildZone` runs the builder of that other kind). -/
theorem C7_no_hill_off_overground (g : LevelGenerator) (difficulty type : Int)
    (ht : type ≠ TYPE_OVERGROUND) :
    (LevelGenerator.rawOdds difficulty type).getD ODDS_HILL_STRAIGHT 1 = 0 ∧
    (∀ t, 0 ≤ t → t < (g.setOdds difficulty type).totalOdds →
      LevelGenerator.selectZone (g.setOdds difficulty type).odds t ≠ ODDS_HILL_STRAIGHT) ∧
    (∀ (fuel : Nat) (x maxLength : Int) (s s' : GenState) (t : Int),
      Gen.nextInt fuel (g.setOdds difficulty type).totalOdds s = some (t, s') →
      LevelGenerator.selectZone (g.setOdds difficulty type).odds t ≠ ODDS_HILL_STRAIGHT ∧
      LevelGenerator.buildZone (g.setOdds difficulty type) fuel x maxLength s
        = LevelGenerator.dispatchZone (g.setOdds difficulty type) fuel
            (LevelGenerator.selectZone (g.setOdds difficulty type).odds t) x maxLength s') := by
  refine ⟨?_, fun t _ _ => LevelGenerator.selectZone_ne_hill g difficulty type ht t, ?_⟩
  · simp [LevelGenerator.rawOdds, ht, ODDS_HILL_STRAIGHT]
  · intro fuel x maxLength s s' t hdraw
    refine ⟨LevelGenerator.selectZone_ne_hill g difficulty type ht t, ?_⟩
    show Gen.andThen _ _ s = _
    unfold Gen.andThen
    rw [hdraw]

/-- C7 for an underground level of difficulty 3: the draw 20 (the first
one past the Straight share) selects Tubes, not HillStraight. -/
theorem C7_no_hill_off_overground_witness :
    TYPE_UNDERGROUND ≠ TYPE_OVERGROUND ∧
    LevelGenerator.selectZone
      ((LevelGenerator.init 320 15 0 0 0).setOdds 3 TYPE_UNDERGROUND).odds 20 ≠ ODDS_HILL_STRAIGHT :=
  ⟨by decide,
    (C7_no_hill_off_overground (LevelGenerator.init 320 15 0 0 0) 3 TYPE_UNDERGROUND
      (by decide)).2.1 20 (by decide) (by decide)⟩

/-! ## Claims on the generation run -/

/-- C1: `createLevel` is deterministic.  Two calls with the same arguments
return the same result (the same tile grid, the same spawn markers with
their type and winged flag in the same cells, the same exit), whatever the
clock that seeds the default-constructed `random` member and whatever the
members left unset by the constructor hold in either call; and a level
returned with some amount of loop fuel is the level returned with any
larger amount. -/
theorem C1_createLevel_deterministic
    (clock1 type1 difficulty1 totalOdds1 clock2 type2 difficulty2 totalOdds2 : Int)
    (fuel : Nat) (width height seed difficulty type : Int) :
    LevelGenerator.createLevel clock1 type1 difficulty1 totalOdds1 fuel
        width height seed difficulty type
      = LevelGenerator.createLevel clock2 type2 difficulty2 totalOdds2 fuel
        width height seed difficulty type ∧
    (LevelGenerator.createLevel clock1 type1 difficulty1 totalOdds1 fuel
        width height seed difficulty type).map
        (fun l => (l.map, l.spriteTemplates, l.xExit, l.yExit))
      = (LevelGenerator.createLevel clock2 type2 difficulty2 totalOdds2 fuel
        width height seed difficulty type).map
        (fun l => (l.map, l.spriteTemplates, l.xExit, l.yExit)) ∧
    (∀ (fuel' : Nat) (lvl : Level), fuel ≤ fuel' →
      LevelGenerator.createLevel clock1 type1 difficulty1 totalOdds1 fuel
        width height seed difficulty type = some lvl →
      LevelGenerator.createLevel clock2 type2 difficulty2 totalOdds2 fuel'
        width height seed difficulty type = some lvl) := by
  have hg : (LevelGenerator.init width height type1 difficulty1 totalOdds1).setOdds
        difficulty type
      = (LevelGenerator.init width height type2 difficulty2 totalOdds2).setOdds
        difficulty type := by
    simp only [LevelGenerator.setOdds, LevelGenerator.init]
  have hrun : ∀ f : Nat, LevelGenerator.createLevelRun
        (LevelGenerator.init width height type1 difficulty1 totalOdds1)
        (Random.setSeed clock1) f seed difficulty type
      = LevelGenerator.createLevelRun
        (LevelGenerator.init width height type2 difficulty2 totalOdds2)
        (Random.setSeed clock2) f seed difficulty type := by
    intro f
    unfold LevelGenerator.createLevelRun
    simp only [hg]
  have h : ∀ f : Nat, LevelGenerator.createLevel clock1 type1 difficulty1 totalOdds1 f
        width height seed difficulty type
      = LevelGenerator.createLevel clock2 type2 difficulty2 totalOdds2 f
        width height seed difficulty type := by
    intro f
    unfold LevelGenerator.createLevel LevelGenerator.createLevelInternal
    rw [hrun f]
  refine ⟨h fuel, by rw [h fuel], ?_⟩
  intro fuel' lvl hle hlvl
  rw [← h fuel']
  unfold LevelGenerator.createLevel LevelGenerator.createLevelInternal at hlvl ⊢
  obtain ⟨s, hs, rfl⟩ := Option.map_eq_some'.1 hlvl
  rw [LevelGenerator.createLevelRun_mono _ _ hle seed difficulty type s hs]
  rfl

set_option maxRecDepth 1000000 in
/-- C1 on a level of 2 by 2 from the seed 0: the level returned with
`enoughFuel` from one clock is the level returned with more fuel from
another clock. -/
theorem C1_createLevel_deterministic_witness :
    Random.enoughFuel ≤ Random.enoughFuel + 5 ∧
    LevelGenerator.createLevel 1700000000 9 9 9 (Random.enoughFuel + 5) 2 2 0 0 0
      = some { width := 2, height := 2, map := [[0, 129], [0, 129]],
               data := [[0, 0], [0, 0]], spriteTemplates := [[none, none], [none, none]],
               xExit := 10, yExit := -1 } :=
  ⟨by omega,
    (C1_createLevel_deterministic 0 0 0 0 1700000000 9 9 9 Random.enoughFuel 2 2 0 0 0).2.2
      (Random.enoughFuel + 5) _ (by omega) (by decide!)⟩

/-- C8: for every seed, `createLevel(320, 15, seed, 2, Overground)` returns
a level whose exit column satisfies `320 - 64 <= xExit < 320` (it lies in
`264..282`). -/
theorem C8_exit_within_last_64 (clock type0 difficulty0 totalOdds0 : Int) (fuel : Nat)
    (hf : Random.enoughFuel ≤ fuel) (seed : Int) :
    ∃ lvl, LevelGenerator.createLevel clock type0 difficulty0 totalOdds0 fuel
        320 15 seed 2 TYPE_OVERGROUND = some lvl ∧
      320 - 64 ≤ lvl.xExit ∧ lvl.xExit < 320 ∧ 264 ≤ lvl.xExit ∧ lvl.xExit ≤ 282 := by
  have hf' : (320 : Int) ≤ fuel ∧ (15 : Int) ≤ fuel := by
    unfold Random.enoughFuel at hf
    omega
  obtain ⟨s, hs, _, _, L0, L, floor, hL0, h1, h2, h3, h4, _⟩ :=
    LevelGenerator.createLevelRun_spec 320 15 (by norm_num) (by norm_num) hf hf'.1 hf'.2
      (LevelGenerator.init 320 15 type0 difficulty0 totalOdds0) rfl rfl
      (Random.setSeed clock) seed 2 TYPE_OVERGROUND (by norm_num) (by norm_num)
  refine ⟨s.level, ?_, ?_⟩
  · unfold LevelGenerator.createLevel LevelGenerator.createLevelInternal
    rw [hs]
    rfl
  · unfold LevelGenerator.LenOK at hL0
    omega

/-- C8 at the seed 12345. -/
theorem C8_exit_within_last_64_witness :
    Random.enoughFuel ≤ Random.enoughFuel ∧
    ∃ lvl, LevelGenerator.createLevel 0 0 0 0 Random.enoughFuel
        320 15 12345 2 TYPE_OVERGROUND = some lvl ∧
      320 - 64 ≤ lvl.xExit ∧ lvl.xExit < 320 ∧ 264 ≤ lvl.xExit ∧ lvl.xExit ≤ 282 :=
  ⟨le_refl _, C8_exit_within_last_64 0 0 0 0 Random.enoughFuel (le_refl _) 12345⟩

set_option maxRecDepth 1000000 in
/-- C10 fails for `buildJump`: on the empty level of 16 by 5, from
`Random(0)`, `buildJump(0, 16)` returns the length 11 and leaves the cell
`(4, 4)` of its span empty, in the bottom row, so that no floor row makes
the span solid ground from that row down. -/
theorem C10_jump_gap_counterexample :
    ∃ L s', LevelGenerator.buildJump ((LevelGenerator.init 16 5 0 0 0).setOdds 0 0)
        Random.enoughFuel 0 16 ⟨Random.setSeed 0, Level.blank 16 5, false⟩ = some (L, s') ∧
      ¬ ∃ floor, floor ≤ 5 - 1 ∧
        s'.level.Ground (fun x y => 0 ≤ x ∧ x < 0 + L ∧ floor ≤ y) := by
  have h : (LevelGenerator.buildJump ((LevelGenerator.init 16 5 0 0 0).setOdds 0 0)
        Random.enoughFuel 0 16 ⟨Random.setSeed 0, Level.blank 16 5, false⟩).map
      (fun r => (r.1, r.2.level.width, r.2.level.height, r.2.level.tile 4 4))
      = some (11, 16, 5, some 0) := by
    decide!
  obtain ⟨⟨L, s'⟩, e, hr⟩ := Option.map_eq_some'.1 h
  simp only [Prod.mk.injEq] at hr
  obtain ⟨hL, hw, hh, ht⟩ := hr
  refine ⟨L, s', e, ?_⟩
  rintro ⟨floor, hfl, hG⟩
  have := hG 4 4 ⟨by omega, by omega, by omega⟩ (by omega) (by omega) (by omega) (by omega)
  rw [ht] at this
  exact absurd this (by decide)

end InfiniteTux

namespace InfiniteTux

/-! ## The accessors of `Level` -/

theorem and_bit_pos (beh i : Nat) : (beh &&& (1 <<< i) > 0) ↔ beh.testBit i = true := by
  rw [Nat.one_shiftLeft, Nat.and_two_pow]
  cases beh.testBit i <;> simp

theorem decide_and_bit (beh i : Nat) : decide (beh &&& (1 <<< i) > 0) = beh.testBit i := by
  rw [Bool.eq_iff_iff]
  simp only [decide_eq_true_eq]
  exact and_bit_pos beh i

/-- C14: `getBlock` returns 0 above the grid whatever the grid holds, the
last row below the grid, clamps `x` into the grid, and returns the stored
tile inside the grid. -/
theorem C14_getBlock_asymmetry (l : Level) (x y : Int) :
    (y < 0 → l.getBlock x y = some 0)
    ∧ (1 ≤ l.height → l.height ≤ y → l.getBlock x y = l.getBlock x (l.height - 1))
    ∧ (1 ≤ l.width → l.getBlock x y = l.getBlock (max 0 (min x (l.width - 1))) y)
    ∧ (0 ≤ x → x < l.width → 0 ≤ y → y < l.height → l.getBlock x y = at2 l.map x y) := by
  refine ⟨?_, ?_, ?_, ?_⟩
  · intro hy
    unfold Level.getBlock
    simp only
    rw [if_pos hy]
  · intro h1 hy
    unfold Level.getBlock
    simp only
    split_ifs <;> first | rfl | omega
  · intro h1
    unfold Level.getBlock
    simp only [max_def, min_def]
    split_ifs <;> first | rfl | omega
  · intro hx0 hx1 hy0 hy1
    unfold Level.getBlock
    simp only
    rw [if_neg (by omega), if_neg (by omega), if_neg (by omega), if_neg (by omega)]

/-- Witness of C14: a 2 x 2 grid holding the tiles 1, 2, 3, 4. -/
theorem C14_getBlock_asymmetry_witness :
    let l : Level := ⟨2, 2, [[1, 2], [3, 4]], [[0, 0], [0, 0]], [[none, none], [none, none]], 10, 10⟩
    l.getBlock 5 (-1) = some 0 ∧ l.getBlock 5 7 = l.getBlock 5 1 ∧ l.getBlock 5 7 = some 4
      ∧ l.getBlock (-3) 1 = some 2 :=
  ⟨(C14_getBlock_asymmetry _ 5 (-1)).1 (by decide),
   (C14_getBlock_asymmetry _ 5 7).2.1 (by decide) (by decide), by decide, by decide⟩

theorem at2_set2_data {α : Type} {w h : Int} (m : List (List α))
    (h3 : m.length = w.toNat) (h4 : ∀ col ∈ m, col.length = h.toNat) (x y : Int) (v : α)
    (hx0 : 0 ≤ x) (hx1 : x < w) (hy0 : 0 ≤ y) (hy1 : y < h) (x' y' : Int) :
    at2 (set2 m x.toNat y.toNat v) x' y' = if x' = x ∧ y' = y then some v else at2 m x' y' := by
  have hx : x.toNat < m.length := by omega
  have hy : y.toNat < (m.getD x.toNat []).length := by
    rw [h4 _ (getD_mem_of_lt _ _ hx)]
    omega
  rw [at2_set2 _ _ _ _ _ _ hx hy]
  by_cases hc : x' = x ∧ y' = y
  · rw [if_pos (by omega), if_pos (by omega)]
  · rw [if_neg (by omega), if_neg (by omega)]

/-- C15: outside the grid `setBlock` and `setBlockData` leave the level as
it is; inside the grid `setBlock` changes the one cell of `map` (and
`getBlock` reads it back), `setBlockData` the one cell of `data`, and
every other field is as before. -/
theorem C15_setBlock_frame (l : Level) (w h : Int) (hl : l.WF w h) (hd : l.WFData w h)
    (x y : Int) (b : Nat) :
    ((x < 0 ∨ y < 0 ∨ x ≥ w ∨ y ≥ h) → l.setBlock x y b = l ∧ l.setBlockData x y b = l)
    ∧ (0 ≤ x → x < w → 0 ≤ y → y < h →
        ((l.setBlock x y b).getBlock x y = some b
          ∧ (∀ x' y', ¬ (x' = x ∧ y' = y) → at2 (l.setBlock x y b).map x' y' = at2 l.map x' y')
          ∧ (l.setBlock x y b).data = l.data
          ∧ (l.setBlock x y b).spriteTemplates = l.spriteTemplates
          ∧ (l.setBlock x y b).xExit = l.xExit ∧ (l.setBlock x y b).yExit = l.yExit
          ∧ (l.setBlock x y b).width = l.width ∧ (l.setBlock x y b).height = l.height)
        ∧ (at2 (l.setBlockData x y b).data x y = some b
          ∧ (∀ x' y', ¬ (x' = x ∧ y' = y) →
              at2 (l.setBlockData x y b).data x' y' = at2 l.data x' y')
          ∧ (l.setBlockData x y b).map = l.map
          ∧ (l.setBlockData x y b).spriteTemplates = l.spriteTemplates
          ∧ (l.setBlockData x y b).xExit = l.xExit ∧ (l.setBlockData x y b).yExit = l.yExit
          ∧ (l.setBlockData x y b).width = l.width
          ∧ (l.setBlockData x y b).height = l.height)) := by
  obtain ⟨h1, h2, h3, h4⟩ := hl
  obtain ⟨d3, d4⟩ := hd
  refine ⟨?_, ?_⟩
  · intro hout
    unfold Level.setBlock Level.setBlockData
    rw [if_pos (by omega), if_pos (by omega)]
    exact ⟨rfl, rfl⟩
  · intro hx0 hx1 hy0 hy1
    have hin : ¬ (x < 0 ∨ y < 0 ∨ x ≥ l.width ∨ y ≥ l.height) := by omega
    refine ⟨?_, ?_⟩
    · unfold Level.setBlock
      rw [if_neg hin]
      refine ⟨?_, ?_, rfl, rfl, rfl, rfl, rfl, rfl⟩
      · unfold Level.getBlock
        simp only
        rw [if_neg (by omega), if_neg (by omega), if_neg (by omega), if_neg (by omega),
          at2_set2_data _ h3 h4 x y b hx0 hx1 hy0 hy1, if_pos ⟨rfl, rfl⟩]
      · intro x' y' hne
        simp only
        rw [at2_set2_data _ h3 h4 x y b hx0 hx1 hy0 hy1, if_neg hne]
    · unfold Level.setBlockData
      rw [if_neg hin]
      refine ⟨?_, ?_, rfl, rfl, rfl, rfl, rfl, rfl⟩
      · simp only
        rw [at2_set2_data _ d3 d4 x y b hx0 hx1 hy0 hy1, if_pos ⟨rfl, rfl⟩]
      · intro x' y' hne
        simp only
        rw [at2_set2_data _ d3 d4 x y b hx0 hx1 hy0 hy1, if_neg hne]

theorem blank_WFData (w h : Nat) : (Level.blank w h).WFData w h := by
  refine ⟨?_, ?_⟩
  · simp [Level.blank]
  · intro col hc
    simp only [Level.blank] at hc
    rw [List.eq_of_mem_replicate hc, List.length_replicate]
    simp

/-- Witness of C15: a write at the cell (1, 0) of the empty 2 x 2 level and
a write outside it. -/
theorem C15_setBlock_frame_witness :
    ((Level.blank 2 2).setBlock 1 0 7).getBlock 1 0 = some 7
      ∧ (Level.blank 2 2).setBlock 2 0 7 = Level.blank 2 2 :=
  ⟨((C15_setBlock_frame (Level.blank 2 2) 2 2 (Level.blank_WF 2 2) (blank_WFData 2 2)
      1 0 7).2 (by decide) (by decide) (by decide) (by decide)).1.1,
   ((C15_setBlock_frame (Level.blank 2 2) 2 2 (Level.blank_WF 2 2) (blank_WFData 2 2)
      2 0 7).1 (by decide)).1⟩

/-- C16: `isBlocking` is true exactly when the behaviour byte of the tile
that `getBlock` returns has the BLOCK_ALL bit (bit 1) set, or the
BLOCK_UPPER bit (bit 0) and `ya > 0`, or the BLOCK_LOWER bit (bit 2) and
`ya < 0`; it does not depend on `xa`, and with `ya = 0` it is the
BLOCK_ALL bit alone. -/
theorem C16_isBlocking (TILE_BEHAVIORS : List Nat) (l : Level) (x y : Int) (xa ya : CFloat)
    (block beh : Nat) (hb : l.getBlock x y = some block)
    (ht : TILE_BEHAVIORS[block]? = some beh) :
    l.isBlocking TILE_BEHAVIORS x y xa ya
        = some (decide (beh.testBit 1 = true
            ∨ (beh.testBit 0 = true ∧ CFloat.lt CFloat.zero ya = true)
            ∨ (beh.testBit 2 = true ∧ CFloat.lt ya CFloat.zero = true)))
      ∧ (∀ xa' : CFloat,
          l.isBlocking TILE_BEHAVIORS x y xa' ya = l.isBlocking TILE_BEHAVIORS x y xa ya)
      ∧ l.isBlocking TILE_BEHAVIORS x y xa CFloat.zero = some (beh.testBit 1) := by
  have e0 : decide (beh &&& BIT_BLOCK_UPPER > 0) = beh.testBit 0 := decide_and_bit beh 0
  have e1 : decide (beh &&& BIT_BLOCK_ALL > 0) = beh.testBit 1 := decide_and_bit beh 1
  have e2 : decide (beh &&& BIT_BLOCK_LOWER > 0) = beh.testBit 2 := decide_and_bit beh 2
  have hz : CFloat.lt CFloat.zero CFloat.zero = false := by
    simp [CFloat.lt, CFloat.zero]
  refine ⟨?_, fun _ => rfl, ?_⟩
  · unfold Level.isBlocking
    rw [hb]
    simp only
    rw [ht]
    simp only [e0, e1, e2]
    cases beh.testBit 0 <;> cases beh.testBit 1 <;> cases beh.testBit 2 <;>
      cases CFloat.lt CFloat.zero ya <;> cases CFloat.lt ya CFloat.zero <;> rfl
  · unfold Level.isBlocking
    rw [hb]
    simp only
    rw [ht]
    simp only [e0, e1, e2, hz]
    cases beh.testBit 1 <;> rfl

/-- Witness of C16: a one-way platform tile under a falling and under a
rising body. -/
theorem C16_isBlocking_witness :
    let l : Level := ⟨1, 1, [[1]], [[0]], [[none]], 10, 10⟩
    l.isBlocking [0, 1] 0 0 CFloat.zero (CFloat.val 1) = some true
      ∧ l.isBlocking [0, 1] 0 0 CFloat.zero (CFloat.val (-1)) = some false := by
  have h1 := (C16_isBlocking [0, 1] ⟨1, 1, [[1]], [[0]], [[none]], 10, 10⟩ 0 0 CFloat.zero
    (CFloat.val 1) 1 1 rfl rfl).1
  have h2 := (C16_isBlocking [0, 1] ⟨1, 1, [[1]], [[0]], [[none]], 10, 10⟩ 0 0 CFloat.zero
    (CFloat.val (-1)) 1 1 rfl rfl).1
  refine ⟨h1.trans ?_, h2.trans ?_⟩
  · simp [CFloat.lt, CFloat.zero, Nat.testBit]
  · simp [CFloat.lt, CFloat.zero, Nat.testBit]

end InfiniteTux
namespace InfiniteTux

/-! ## The permutation table of `ImprovedNoise` -/

theorem swap_perm (l : List Int) (i j : Nat) (hi : i < l.length) (hj : j < l.length) :
    ((l.set i l[j]).set j l[i]).Perm l := by
  rw [List.perm_iff_count]
  intro b
  have hj' : j < (l.set i l[j]).length := by rw [List.length_set]; exact hj
  rw [List.count_set _ _ _ _ hj', List.count_set _ _ _ _ hi]
  have e : (l.set i l[j])[j] = l[j] := by
    rw [List.getElem_set]
    split <;> rfl
  rw [e]
  have b1 := List.boole_getElem_le_count b l i hi
  by_cases h1 : (l[i] == b) = true <;> by_cases h2 : (l[j] == b) = true <;>
    simp only [h1, h2, if_true, if_false] at b1 ⊢ <;> omega

namespace ImprovedNoise

theorem at1_natCast {α : Type} (v : List α) (i : Nat) (h : i < v.length) :
    LevelGenerator.at1 v (i : Int) = some v[i] := by
  unfold LevelGenerator.at1
  rw [if_neg (by omega), Int.toNat_ofNat, List.getElem?_eq_getElem h]

theorem set1_natCast {α : Type} (v : List α) (i : Nat) (a : α) (h : i < v.length) :
    LevelGenerator.set1 v (i : Int) a = some (v.set i a) := by
  unfold LevelGenerator.set1
  rw [if_neg (by omega), Int.toNat_ofNat]

theorem shuffleStep_spec {fuel : Nat} (hf : Random.enoughFuel ≤ fuel) (k : Nat) (hk : k < 256)
    (st : Random × List Int × List Int) (hinv : ShuffleInv k st) :
    ∃ st', shuffleStep fuel k st = some st' ∧ ShuffleInv (k + 1) st' := by
  obtain ⟨random, perm, p⟩ := st
  obtain ⟨h1, h2, h3, h4⟩ := hinv
  simp only at h1 h2 h3 h4
  obtain ⟨r, random', hr⟩ := Random.nextInt_total hf (256 - (k : Int)) (by omega) random
  obtain ⟨r0, r1⟩ := Random.nextInt_range (by omega) (by omega) hr
  obtain ⟨j, rfl⟩ : ∃ j : Nat, r = (j : Int) := ⟨r.toNat, by omega⟩
  have hj : j + k < 256 := by omega
  have hjk : ((j : Int) + (k : Int)) = ((j + k : Nat) : Int) := by push_cast; rfl
  have hk256 : ((k : Int) + 256) = ((k + 256 : Nat) : Int) := by push_cast; rfl
  have hkl : k < perm.length := by omega
  have hjl : j + k < perm.length := by omega
  obtain ⟨perm1, hp1⟩ : ∃ q, q = perm.set k perm[j + k] := ⟨_, rfl⟩
  have l1 : perm1.length = 256 := by rw [hp1, List.length_set]; exact h1
  obtain ⟨perm2, hp2⟩ : ∃ q, q = perm1.set (j + k) perm[k] := ⟨_, rfl⟩
  have l2 : perm2.length = 256 := by rw [hp2, List.length_set]; exact l1
  have hk2 : k < perm2.length := by omega
  obtain ⟨v, hv⟩ : ∃ v, v = perm2[k] := ⟨_, rfl⟩
  obtain ⟨p1, hq1⟩ : ∃ q, q = p.set k v := ⟨_, rfl⟩
  have m1 : p1.length = 512 := by rw [hq1, List.length_set]; exact h3
  obtain ⟨p2, hq2⟩ : ∃ q, q = p1.set (k + 256) v := ⟨_, rfl⟩
  have e : shuffleStep fuel k (random, perm, p) = some (random', perm2, p2) := by
    unfold shuffleStep
    simp only
    rw [hr]
    simp only
    rw [hjk, at1_natCast perm k hkl, at1_natCast perm (j + k) hjl]
    simp only
    rw [set1_natCast perm k _ hkl, ← hp1]
    simp only
    rw [set1_natCast perm1 (j + k) _ (by omega), ← hp2]
    simp only
    rw [at1_natCast perm2 k hk2, ← hv]
    simp only
    rw [set1_natCast p k _ (by omega), ← hq1]
    simp only
    rw [hk256, set1_natCast p1 (k + 256) _ (by omega), ← hq2]
  have hperm : perm2.Perm perm := by
    rw [hp2, hp1]
    exact swap_perm perm k (j + k) hkl hjl
  refine ⟨_, e, l2, hperm.trans h2, ?_, ?_⟩
  · simp only
    rw [hq2, List.length_set]
    exact m1
  · intro i hi
    simp only
    have hvk : perm2[k]? = some v := by
      rw [List.getElem?_eq_getElem hk2, hv]
    by_cases hik : i = k
    · subst hik
      rw [hvk, hq2, hq1]
      constructor
      · rw [List.getElem?_set_ne (by omega), List.getElem?_set_eq_of_lt _ (by omega)]
      · rw [List.getElem?_set_eq_of_lt _ (by rw [List.length_set]; omega)]
    · have hlt : i < k := by omega
      obtain ⟨a1, a2⟩ := h4 i hlt
      rw [hq2, hq1, hp2, hp1]
      rw [List.getElem?_set_ne (by omega), List.getElem?_set_ne (by omega),
        List.getElem?_set_ne (by omega), List.getElem?_set_ne (by omega),
        List.getElem?_set_ne (by omega), List.getElem?_set_ne (by omega)]
      exact ⟨a1, a2⟩

theorem shuffleLoop_spec {fuel : Nat} (hf : Random.enoughFuel ≤ fuel) (n : Nat) :
    ∀ (k : Nat) (st : Random × List Int × List Int), k + n ≤ 256 → ShuffleInv k st →
      ∃ st', shuffleLoop fuel n k st = some st' ∧ ShuffleInv (k + n) st' := by
  induction n with
  | zero => exact fun k st _ h => ⟨st, rfl, h⟩
  | succ n ih =>
    intro k st hk hinv
    obtain ⟨st1, e1, h1⟩ := shuffleStep_spec hf k (by omega) st hinv
    obtain ⟨st2, e2, h2⟩ := ih (k + 1) st1 (by omega) h1
    refine ⟨st2, ?_, ?_⟩
    · unfold shuffleLoop
      rw [e1]
      simp only
      have : ((k : Int) + 1) = ((k + 1 : Nat) : Int) := by omega
      rw [this]
      exact e2
    · have : k + (n + 1) = k + 1 + n := by omega
      rw [this]
      exact h2

end ImprovedNoise

/-- C20: for every seed the constructor of `ImprovedNoise` returns, and the
table `p` it leaves has 512 entries, its first 256 entries are a
permutation of the values 0..255 (each value exactly once), and
`p[i + 256] = p[i]` for every `i` in 0..255; the content of `p` before
the constructor does not matter. -/
theorem C20_noise_permutation (p0 : List Int) (fuel : Nat) (seed : Int)
    (hp : p0.length = 512) (hf : Random.enoughFuel ≤ fuel) :
    ∃ n : ImprovedNoise, ImprovedNoise.init p0 fuel seed = some n
      ∧ n.p.length = 512
      ∧ (n.p.take 256).Perm ((List.range 256).map (fun i : Nat => (i : Int)))
      ∧ (∀ v : Int, 0 ≤ v → v < 256 → (n.p.take 256).count v = 1)
      ∧ ∀ i : Nat, i < 256 → n.p[i + 256]? = n.p[i]? := by
  have h0 : ImprovedNoise.ShuffleInv 0
      (Random.setSeed seed, (List.range 256).map (fun i : Nat => (i : Int)), p0) :=
    ⟨by simp, List.Perm.refl _, hp, fun i hi => absurd hi (by omega)⟩
  obtain ⟨⟨r, perm, p⟩, e, h1, h2, h3, h4⟩ :=
    ImprovedNoise.shuffleLoop_spec hf 256 0 _ (by omega) h0
  simp only at h1 h2 h3 h4
  have htake : p.take 256 = perm := by
    apply List.ext_getElem?
    intro i
    by_cases hi : i < 256
    · rw [List.getElem?_take_of_lt hi]
      exact (h4 i (by omega)).1
    · rw [List.getElem?_eq_none (by rw [List.length_take]; omega),
        List.getElem?_eq_none (by omega)]
  refine ⟨⟨p⟩, ?_, h3, ?_, ?_, ?_⟩
  · unfold ImprovedNoise.init
    simp only
    have : ((0 : Nat) : Int) = 0 := rfl
    rw [← this, e]
    rfl
  · simp only
    rw [htake]
    exact h2
  · intro v v0 v1
    simp only
    rw [htake, List.Perm.count_eq h2]
    obtain ⟨m, rfl⟩ : ∃ m : Nat, v = (m : Int) := ⟨v.toNat, by omega⟩
    rw [List.count_map_of_injective _ _ (fun a b h => by exact_mod_cast h)]
    exact List.count_eq_one_of_mem (List.nodup_range 256) (List.mem_range.mpr (by omega))
  · intro i hi
    simp only
    rw [(h4 i (by omega)).1, (h4 i (by omega)).2]

/-- Witness of C20: the table built from seed 0 over 512 zero words. -/
theorem C20_noise_permutation_witness :
    ∃ n : ImprovedNoise, ImprovedNoise.init (List.replicate 512 0) Random.enoughFuel 0 = some n
      ∧ n.p.length = 512
      ∧ (n.p.take 256).Perm ((List.range 256).map (fun i : Nat => (i : Int)))
      ∧ (∀ v : Int, 0 ≤ v → v < 256 → (n.p.take 256).count v = 1)
      ∧ ∀ i : Nat, i < 256 → n.p[i + 256]? = n.p[i]? :=
  C20_noise_permutation (List.replicate 512 0) Random.enoughFuel 0
    (List.length_replicate 512 0) (le_refl _)

end InfiniteTux
namespace InfiniteTux

namespace LevelGenerator

open Gen

/-! ## The vertex map and the second pass of `fixWalls` -/

theorem countGround_val {M : Bool} (w h : Int) (hw : 1 ≤ w) (hh : 1 ≤ h) (l0 : Level)
    (hl0 : l0.WF w h) (x y : Int) :
    Tri M (fun l => l = l0) (countGround x y)
      (fun c l => l = l0 ∧ decide (c = 4) = l0.vertexFull x y) := by
  intro s hs hm
  have key : ∀ xx yy, ∃ b, s.level.getBlockCapped xx yy = some b := fun xx yy => by
    rw [hs]
    exact Level.getBlockCapped_isSome hl0 hw hh xx yy
  obtain ⟨b1, e1⟩ := key (x - 1) (y - 1)
  obtain ⟨b2, e2⟩ := key (x - 1) y
  obtain ⟨b3, e3⟩ := key x (y - 1)
  obtain ⟨b4, e4⟩ := key x y
  have n1 : (x + 1 - (x - 1)).toNat = 2 := by omega
  have n2 : (y + 1 - (y - 1)).toNat = 2 := by omega
  have hc : ∀ (b : Nat) (k : Int), (if b = u8 (1 + 9 * 16) then k + 1 else k)
      = k + (if b = u8 (1 + 9 * 16) then 1 else 0) := fun b k => by split <;> omega
  have e : countGround x y s = some ((0 : Int) + (if b1 = u8 (1 + 9 * 16) then 1 else 0)
      + (if b2 = u8 (1 + 9 * 16) then 1 else 0) + (if b3 = u8 (1 + 9 * 16) then 1 else 0)
      + (if b4 = u8 (1 + 9 * 16) then 1 else 0), s) := by
    unfold countGround forRange
    rw [n1, n2]
    simp only [forLoop, bind_eq, andThen, Gen.getBlockCapped, Gen.ret, sub_add_cancel, e1, e2,
      e3, e4, hc]
  refine ⟨_, s, e, ⟨hs, ?_⟩, hm⟩
  unfold Level.vertexFull
  rw [← hs, e1, e2, e3, e4]
  simp only [Option.some.injEq]
  generalize u8 (1 + 9 * 16) = G
  by_cases h1 : b1 = G <;> by_cases h2 : b2 = G <;>
    by_cases h3 : b3 = G <;> by_cases h4 : b4 = G <;>
    simp [h1, h2, h3, h4]

theorem set2c_val {α : Type} (bm : List (List α)) (W H : Int) (hn : bm.length = W.toNat)
    (hm : ∀ col ∈ bm, col.length = H.toNat) (x y : Int) (v : α)
    (hx0 : 0 ≤ x) (hx1 : x < W) (hy0 : 0 ≤ y) (hy1 : y < H) :
    ∃ bm', set2c bm x y v = some bm' ∧ bm'.length = W.toNat
      ∧ (∀ col ∈ bm', col.length = H.toNat)
      ∧ ∀ x' y', at2 bm' x' y' = if x' = x ∧ y' = y then some v else at2 bm x' y' := by
  unfold set2c
  rw [if_neg (by omega)]
  have hx : x.toNat < bm.length := by omega
  rw [List.getElem?_eq_getElem hx]
  simp only
  have hc := hm _ (List.getElem_mem hx)
  rw [if_pos (by omega)]
  exact ⟨_, rfl, by rw [length_set2]; exact hn, mem_set2 _ _ _ _ _ hm,
    fun x' y' => at2_set2_data bm hn hm x y v hx0 hx1 hy0 hy1 x' y'⟩

/-- The vertex map after the first loop nest of `fixWalls`: every entry
is the flag of its vertex in the level as it is before the pass. -/
theorem buildBlockMap_val {M : Bool} (w h : Int) (hw : 1 ≤ w) (hh : 1 ≤ h) (l0 : Level)
    (hl0 : l0.WF w h) (g : LevelGenerator) (hgw : g.width = w) (hgh : g.height = h) :
    Tri M (fun l => l = l0) (buildBlockMap g)
      (fun bm l => l = l0 ∧ bm.length = (w + 1).toNat
        ∧ (∀ col ∈ bm, col.length = (h + 1).toNat)
        ∧ ∀ x y, 0 ≤ x → x ≤ w → 0 ≤ y → y ≤ h →
            at2 bm x y = some (l0.vertexFull x y)) := by
  unfold buildBlockMap
  rw [hgw, hgh]
  refine Tri.ofIte (fun hneg => by omega) (fun _ => ?_)
  have key := Tri.forRange (M := M)
    (fun (x : Int) (bm : List (List Bool)) l => l = l0 ∧ bm.length = (w + 1).toNat
        ∧ (∀ col ∈ bm, col.length = (h + 1).toNat)
        ∧ ∀ x' y', 0 ≤ x' → x' < x → 0 ≤ y' → y' ≤ h →
            at2 bm x' y' = some (l0.vertexFull x' y'))
    0 (w + 1) (List.replicate (w + 1).toNat (List.replicate (h + 1).toNat false))
    (fun x blockMap =>
        forRange 0 (h + 1) blockMap (fun y blockMap => do
          let blocks ← countGround x y
          ofOption (set2c blockMap x y (decide (blocks = 4))))) (by omega)
    (fun x bm hx0 hx1 => by
      have inner := Tri.forRange (M := M)
        (fun (y : Int) (bm : List (List Bool)) l => l = l0 ∧ bm.length = (w + 1).toNat
          ∧ (∀ col ∈ bm, col.length = (h + 1).toNat)
          ∧ (∀ x' y', 0 ≤ x' → x' < x → 0 ≤ y' → y' ≤ h →
              at2 bm x' y' = some (l0.vertexFull x' y'))
          ∧ ∀ y', 0 ≤ y' → y' < y → at2 bm x y' = some (l0.vertexFull x y'))
        0 (h + 1) bm
        (fun y blockMap => do
          let blocks ← countGround x y
          ofOption (set2c blockMap x y (decide (blocks = 4)))) (by omega)
        (fun y bm2 hy0 hy1 => by
          simp only [bind_eq]
          refine Tri.pre (P := fun l => (bm2.length = (w + 1).toNat
              ∧ (∀ col ∈ bm2, col.length = (h + 1).toNat)
              ∧ (∀ x' y', 0 ≤ x' → x' < x → 0 ≤ y' → y' ≤ h →
                  at2 bm2 x' y' = some (l0.vertexFull x' y'))
              ∧ ∀ y', 0 ≤ y' → y' < y → at2 bm2 x y' = some (l0.vertexFull x y')) ∧ l = l0)
            (fun l hl => ⟨hl.2, hl.1⟩) (Tri.assume (fun hbm => ?_))
          refine Tri.bind (countGround_val w h hw hh l0 hl0 x y) (fun blocks => ?_)
          obtain ⟨bm', e, h1, h2, h3⟩ := set2c_val bm2 _ _ hbm.1 hbm.2.1 x y
            (decide (blocks = 4)) hx0 (by omega) hy0 (by omega)
          refine (Tri.ofOption e).post (fun b l hl => ?_)
          rw [hl.1]
          refine ⟨hl.2.1, h1, h2, ?_, ?_⟩
          · intro x' y' a1 a2 a3 a4
            rw [h3, if_neg (by omega)]
            exact hbm.2.2.1 x' y' a1 a2 a3 a4
          · intro y' a1 a2
            rw [h3]
            by_cases hy : y' = y
            · rw [if_pos ⟨rfl, hy⟩, hl.2.2, hy]
            · rw [if_neg (by omega)]
              exact hbm.2.2.2 y' a1 (by omega))
      refine inner.conseq (fun l hl => ⟨hl.1, hl.2.1, hl.2.2.1, hl.2.2.2, ?_⟩)
        (fun bm3 l hl => ⟨hl.1, hl.2.1, hl.2.2.1, ?_⟩)
      · intro y' a1 a2
        omega
      · intro x' y' a1 a2 a3 a4
        by_cases hxx : x' = x
        · rw [hxx]
          exact hl.2.2.2.2 y' a3 (by omega)
        · exact hl.2.2.2.1 x' y' a1 (by omega) a3 a4)
  refine key.conseq (fun l hl => ⟨hl, List.length_replicate _ _, ?_, ?_⟩)
    (fun bm l hl => ⟨hl.1, hl.2.1, hl.2.2.1, fun x y a1 a2 a3 a4 =>
      hl.2.2.2 x y a1 (by omega) a3 a4⟩)
  · intro col hc
    rw [List.eq_of_mem_replicate hc, List.length_replicate]
  · intro x' y' a1 a2
    omega

theorem cornerFlag_val (g : LevelGenerator) (w h : Int) (hgw : g.width = w)
    (hgh : g.height = h) (l0 : Level) (bm : List (List Bool))
    (hbm : ∀ x y, 0 ≤ x → x ≤ w → 0 ≤ y → y ≤ h → at2 bm x y = some (l0.vertexFull x y))
    (xx yy : Int) (hx0 : 0 ≤ xx) (hx1 : xx ≤ w) (hy0 : 0 ≤ yy) (hy1 : yy ≤ h) :
    cornerFlag g bm xx yy = some (l0.vertexFull xx yy) := by
  unfold cornerFlag
  simp only
  rw [hgw, hgh, if_neg (by omega), if_neg (by omega), if_neg (by omega), if_neg (by omega)]
  exact hbm xx yy hx0 hx1 hy0 hy1

/-- The body of the second loop nest at a cell of the grid, as a
transformer of assertions. -/
theorem fixCell_val {M : Bool} {P : Level → Prop} (g : LevelGenerator) (w h : Int)
    (hgw : g.width = w) (hgh : g.height = h) (l0 : Level) (bm : List (List Bool))
    (hbm : ∀ x y, 0 ≤ x → x ≤ w → 0 ≤ y → y ≤ h → at2 bm x y = some (l0.vertexFull x y))
    (x y : Int) (hx0 : 0 ≤ x) (hx1 : x < w) (hy0 : 0 ≤ y) (hy1 : y < h) :
    Tri M (fun l => P (match wallTile (l0.vertexFull x y) (l0.vertexFull (x + 1) y)
        (l0.vertexFull x (y + 1)) (l0.vertexFull (x + 1) (y + 1)) (tileOffset g.type) with
        | none => l
        | some t => l.setBlock x y (u8 t)))
      (fixCell g bm x y) (fun _ l => P l) := by
  unfold fixCell
  simp only [bind_eq]
  refine Tri.bind_ofOption
    (cornerFlag_val g w h hgw hgh l0 bm hbm x y hx0 (by omega) hy0 (by omega)) ?_
  refine Tri.bind_ofOption
    (cornerFlag_val g w h hgw hgh l0 bm hbm x (y + 1) hx0 (by omega) (by omega) (by omega)) ?_
  refine Tri.bind_ofOption
    (cornerFlag_val g w h hgw hgh l0 bm hbm (x + 1) y (by omega) (by omega) hy0 (by omega)) ?_
  refine Tri.bind_ofOption
    (cornerFlag_val g w h hgw hgh l0 bm hbm (x + 1) (y + 1) (by omega) (by omega) (by omega)
      (by omega)) ?_
  cases wallTile (l0.vertexFull x y) (l0.vertexFull (x + 1) y)
        (l0.vertexFull x (y + 1)) (l0.vertexFull (x + 1) (y + 1)) (tileOffset g.type) with
  | none => exact Tri.ofRet _ (fun _ hl => hl)
  | some t => exact Tri.ofSetBlock _ _ _

/-- What `fixWalls` computes: it returns, and every cell of the grid holds
the tile that the classification chain gives it from the vertex flags of
the level as it was before the pass. -/
theorem fixWalls_val {M : Bool} (w h : Int) (hw : 1 ≤ w) (hh : 1 ≤ h) (l0 : Level)
    (hl0 : l0.WF w h) (g : LevelGenerator) (hgw : g.width = w) (hgh : g.height = h) :
    Tri M (fun l => l = l0) (fixWalls g)
      (fun _ l => l.WF w h ∧
        ∀ x y, 0 ≤ x → x < w → 0 ≤ y → y < h → l.tile x y = g.autotile l0 x y) := by
  unfold fixWalls
  simp only [bind_eq]
  refine Tri.bind (buildBlockMap_val w h hw hh l0 hl0 g hgw hgh) (fun bm => ?_)
  refine Tri.pre (P := fun l => (∀ x y, 0 ≤ x → x ≤ w → 0 ≤ y → y ≤ h →
      at2 bm x y = some (l0.vertexFull x y)) ∧ l = l0)
    (fun l hl => ⟨hl.2.2.2, hl.1⟩) (Tri.assume (fun hbm => ?_))
  rw [hgw, hgh]
  have key := Tri.forRange (M := M)
    (fun (x : Int) (_ : Unit) l => l.WF w h ∧
      ∀ x' y', 0 ≤ x' → x' < w → 0 ≤ y' → y' < h →
        l.tile x' y' = if x' < x then g.autotile l0 x' y' else l0.tile x' y')
    0 w () (fun x _ => forRange 0 h () (fun y _ => fixCell g bm x y)) (by omega)
    (fun x _ hx0 hx1 => by
      have inner := Tri.forRange (M := M)
        (fun (y : Int) (_ : Unit) l => l.WF w h ∧
          ∀ x' y', 0 ≤ x' → x' < w → 0 ≤ y' → y' < h →
            l.tile x' y' = if x' < x ∨ (x' = x ∧ y' < y) then g.autotile l0 x' y'
              else l0.tile x' y')
        0 h () (fun y _ => fixCell g bm x y) (by omega)
        (fun y _ hy0 hy1 => by
          refine (fixCell_val g w h hgw hgh l0 bm hbm x y hx0 hx1 hy0 hy1).pre
            (fun l hl => ?_)
          obtain ⟨hwf, ht⟩ := hl
          have hxy := ht x y hx0 hx1 hy0 hy1
          rw [if_neg (by omega)] at hxy
          cases hc : wallTile (l0.vertexFull x y) (l0.vertexFull (x + 1) y)
            (l0.vertexFull x (y + 1)) (l0.vertexFull (x + 1) (y + 1)) (tileOffset g.type) with
          | none =>
            refine ⟨hwf, fun x' y' a1 a2 a3 a4 => ?_⟩
            rw [ht x' y' a1 a2 a3 a4]
            by_cases hcell : x' = x ∧ y' = y
            · rw [if_neg (by omega), if_pos (by omega), hcell.1, hcell.2]
              unfold autotile
              rw [hc]
            · by_cases hp : x' < x ∨ (x' = x ∧ y' < y)
              · rw [if_pos hp, if_pos (by omega)]
              · rw [if_neg hp, if_neg (by omega)]
          | some t =>
            refine ⟨hwf.setBlock _ _ _, fun x' y' a1 a2 a3 a4 => ?_⟩
            rw [Level.tile_setBlock hwf]
            by_cases hcell : x' = x ∧ y' = y
            · rw [if_pos (by omega), if_pos (by omega), hcell.1, hcell.2]
              unfold autotile
              rw [hc]
            · rw [if_neg (by omega), ht x' y' a1 a2 a3 a4]
              by_cases hp : x' < x ∨ (x' = x ∧ y' < y)
              · rw [if_pos hp, if_pos (by omega)]
              · rw [if_neg hp, if_neg (by omega)])
      refine inner.conseq (fun l hl => ⟨hl.1, fun x' y' a1 a2 a3 a4 => ?_⟩)
        (fun _ l hl => ⟨hl.1, fun x' y' a1 a2 a3 a4 => ?_⟩)
      · rw [hl.2 x' y' a1 a2 a3 a4]
        by_cases hp : x' < x
        · rw [if_pos hp, if_pos (by omega)]
        · rw [if_neg hp, if_neg (by omega)]
      · rw [hl.2 x' y' a1 a2 a3 a4]
        by_cases hp : x' < x + 1
        · rw [if_pos hp, if_pos (by omega)]
        · rw [if_neg hp, if_neg (by omega)])
  refine key.conseq (fun l hl => ⟨by rw [hl]; exact hl0, fun x' y' a1 a2 a3 a4 => ?_⟩)
    (fun _ l hl => ⟨hl.1, fun x' y' a1 a2 a3 a4 => ?_⟩)
  · rw [if_neg (by omega), hl]
  · rw [hl.2 x' y' a1 a2 a3 a4, if_pos a2]

end LevelGenerator

end InfiniteTux
namespace InfiniteTux

open LevelGenerator in
/-- C17: in `fixWalls` the entry of the vertex map for a vertex is true
iff the four edge-capped cells around it hold the ground tile
`1 + 9 * 16`; the pass returns, and every cell of the grid then holds the
tile that the chain gives for the flags (top-left, top-right, bottom-left,
bottom-right) of its corners, the old tile where the chain writes
nothing; the chain maps the 16 patterns as listed, shifted by the offset
of the level type: 0 Overground, 8 Castle, 12 Underground. -/
theorem C17_autotile_classification (g : LevelGenerator) (s : GenState) (w h : Int)
    (hw : 1 ≤ w) (hh : 1 ≤ h) (hgw : g.width = w) (hgh : g.height = h)
    (hs : s.level.WF w h) :
    (∃ bm s1, buildBlockMap g s = some (bm, s1) ∧ s1.level = s.level ∧
      ∀ x y, 0 ≤ x → x ≤ w → 0 ≤ y → y ≤ h →
        ∃ f : Bool, at2 bm x y = some f ∧
          (f = true ↔ (s.level.getBlockCapped (x - 1) (y - 1) = some (1 + 9 * 16)
            ∧ s.level.getBlockCapped (x - 1) y = some (1 + 9 * 16)
            ∧ s.level.getBlockCapped x (y - 1) = some (1 + 9 * 16)
            ∧ s.level.getBlockCapped x y = some (1 + 9 * 16))))
    ∧ (∃ s', fixWalls g s = some ((), s') ∧
        ∀ x y, 0 ≤ x → x < w → 0 ≤ y → y < h →
          s'.level.tile x y
            = match wallTile (s.level.vertexFull x y) (s.level.vertexFull (x + 1) y)
                (s.level.vertexFull x (y + 1)) (s.level.vertexFull (x + 1) (y + 1))
                (tileOffset g.type) with
              | none => s.level.tile x y
              | some t => some t.toNat)
    ∧ (∀ toff : Int,
        wallTile true true true true toff = some (1 + 9 * 16 + toff)
        ∧ wallTile false false false false toff = none
        ∧ wallTile true true false false toff = some (1 + 10 * 16 + toff)
        ∧ wallTile false false true true toff = some (1 + 8 * 16 + toff)
        ∧ wallTile true false true false toff = some (2 + 9 * 16 + toff)
        ∧ wallTile false true false true toff = some (0 + 9 * 16 + toff)
        ∧ wallTile true false false true toff = some (1 + 9 * 16 + toff)
        ∧ wallTile false true true false toff = some (1 + 9 * 16 + toff)
        ∧ wallTile true true true false toff = some (3 + 10 * 16 + toff)
        ∧ wallTile true true false true toff = some (3 + 11 * 16 + toff)
        ∧ wallTile false false true false toff = some (2 + 8 * 16 + toff)
        ∧ wallTile false false false true toff = some (0 + 8 * 16 + toff)
        ∧ wallTile true false true true toff = some (3 + 9 * 16 + toff)
        ∧ wallTile false true true true toff = some (3 + 8 * 16 + toff)
        ∧ wallTile true false false false toff = some (2 + 10 * 16 + toff)
        ∧ wallTile false true false false toff = some (0 + 10 * 16 + toff))
    ∧ tileOffset TYPE_OVERGROUND = 0 ∧ tileOffset TYPE_CASTLE = 8
    ∧ tileOffset TYPE_UNDERGROUND = 12 := by
  refine ⟨?_, ?_, ?_, rfl, rfl, rfl⟩
  · obtain ⟨bm, s1, e, ⟨hl, _, _, hbm⟩, _⟩ :=
      buildBlockMap_val (M := false) w h hw hh s.level hs g hgw hgh s rfl (fun hc => by cases hc)
    refine ⟨bm, s1, e, hl, fun x y a1 a2 a3 a4 => ⟨_, hbm x y a1 a2 a3 a4, ?_⟩⟩
    unfold Level.vertexFull
    rw [decide_eq_true_iff]
    rfl
  · obtain ⟨_, s', e, ⟨_, ht⟩, _⟩ :=
      fixWalls_val (M := false) w h hw hh s.level hs g hgw hgh s rfl (fun hc => by cases hc)
    refine ⟨s', e, fun x y a1 a2 a3 a4 => ?_⟩
    rw [ht x y a1 a2 a3 a4]
    unfold autotile
    have ho : tileOffset g.type = 0 ∨ tileOffset g.type = 8 ∨ tileOffset g.type = 12 := by
      unfold tileOffset
      split_ifs <;> simp
    cases s.level.vertexFull x y <;> cases s.level.vertexFull (x + 1) y <;>
      cases s.level.vertexFull x (y + 1) <;> cases s.level.vertexFull (x + 1) (y + 1) <;>
      rcases ho with ho | ho | ho <;> rw [ho] <;> rfl
  · intro toff
    simp [wallTile]

end InfiniteTux
namespace InfiniteTux

set_option maxRecDepth 100000 in
/-- C17 on the grid `diagonalGrid` of a castle level: the pass returns;
the cell `(0, 0)`, all four corners full, gets the centre fill
`1 + 9 * 16 + 8`; the cell `(1, 0)`, left corners full and right corners
empty, gets `2 + 9 * 16 + 8`; the cell `(1, 1)`, a diagonal pattern, gets
`1 + 9 * 16 + 8`; the cell `(2, 0)`, all four corners empty, keeps its
tile 0. -/
theorem C17_autotile_classification_witness :
    ((1 : Int) ≤ 3 ∧ diagonalGrid.WF 3 3) ∧
    ∃ s', LevelGenerator.fixWalls (LevelGenerator.init 3 3 TYPE_CASTLE 0 0)
        ⟨Random.setSeed 0, diagonalGrid, false⟩ = some ((), s') ∧
      s'.level.tile 0 0 = some (1 + 9 * 16 + 8) ∧
      s'.level.tile 1 0 = some (2 + 9 * 16 + 8) ∧
      s'.level.tile 1 1 = some (1 + 9 * 16 + 8) ∧
      s'.level.tile 2 0 = some 0 := by
  have hwf : diagonalGrid.WF 3 3 := ⟨rfl, rfl, rfl, by decide⟩
  obtain ⟨s', e, ht⟩ := (C17_autotile_classification
    (LevelGenerator.init 3 3 TYPE_CASTLE 0 0) ⟨Random.setSeed 0, diagonalGrid, false⟩ 3 3
    (by norm_num) (by norm_num) rfl rfl hwf).2.1
  refine ⟨⟨by norm_num, hwf⟩, s', e, ?_, ?_, ?_, ?_⟩
  · rw [ht 0 0 (by norm_num) (by norm_num) (by norm_num) (by norm_num)]
    decide
  · rw [ht 1 0 (by norm_num) (by norm_num) (by norm_num) (by norm_num)]
    decide
  · rw [ht 1 1 (by norm_num) (by norm_num) (by norm_num) (by norm_num)]
    decide
  · rw [ht 2 0 (by norm_num) (by norm_num) (by norm_num) (by norm_num)]
    decide

end InfiniteTux
namespace InfiniteTux

end InfiniteTux

namespace InfiniteTux

/-! ## Spawn markers -/

namespace Level

theorem WFSprites.keepBlock {w h : Int} {l : Level} (hl : l.WFSprites w h) (x y : Int)
    (b : Nat) : (l.setBlock x y b).WFSprites w h := by
  unfold Level.setBlock
  split
  · exact hl
  · exact hl

theorem WFSprites.keepSprite {w h : Int} {l : Level} (hl : l.WFSprites w h)
    (x y : Int) (st : SpriteTemplate) : (l.setSpriteTemplate x y st).WFSprites w h := by
  unfold Level.setSpriteTemplate
  split
  · exact hl
  · obtain ⟨h3, h4⟩ := hl
    exact ⟨by simp only [length_set2]; exact h3, mem_set2 _ _ _ _ _ h4⟩

theorem marker_setBlock (l : Level) (x y : Int) (b : Nat) (x' y' : Int) :
    (l.setBlock x y b).marker x' y' = l.marker x' y' := by
  unfold Level.setBlock Level.marker
  split <;> rfl

/-- The marker read back after a marker write. -/
theorem marker_setSpriteTemplate {w h : Int} {l : Level} (hl : l.WF w h)
    (hs : l.WFSprites w h) (x y : Int) (st : SpriteTemplate) (x' y' : Int) :
    (l.setSpriteTemplate x y st).marker x' y'
      = if x' = x ∧ y' = y ∧ 0 ≤ x ∧ x < w ∧ 0 ≤ y ∧ y < h then some (some st)
        else l.marker x' y' := by
  obtain ⟨h1, h2, _, _⟩ := hl
  obtain ⟨h3, h4⟩ := hs
  unfold Level.setSpriteTemplate Level.marker
  by_cases hout : x < 0 ∨ y < 0 ∨ x ≥ l.width ∨ y ≥ l.height
  · rw [if_pos hout, if_neg (by omega)]
  · rw [if_neg hout]
    simp only
    rw [at2_set2_data _ h3 h4 x y _ (by omega) (by omega) (by omega) (by omega)]
    by_cases hc : x' = x ∧ y' = y
    · rw [if_pos hc, if_pos (by omega)]
    · rw [if_neg hc, if_neg (by omega)]

theorem map_setSpriteTemplate (l : Level) (x y : Int) (st : SpriteTemplate) :
    (l.setSpriteTemplate x y st).map = l.map := by
  unfold Level.setSpriteTemplate
  split <;> rfl

theorem blank_WFSprites (w h : Nat) : (Level.blank w h).WFSprites w h := by
  refine ⟨?_, ?_⟩
  · simp [Level.blank]
  · intro col hc
    simp only [Level.blank] at hc
    rw [List.eq_of_mem_replicate hc, List.length_replicate]
    simp

end Level

namespace LevelGenerator

open Gen

/-- The markers of `addEnemyLine`: the assertion `P` is kept when it
survives every marker in the row `y`, in a column of `[x0, x1)`, of a type
that the difficulty admits and freshly constructed. -/
theorem addEnemyLine_frame {M : Bool} {P : Level → Prop} {fuel : Nat}
    (hf : Random.enoughFuel ≤ fuel) (g : LevelGenerator) (x0 x1 y : Int)
    (hP : ∀ l x t wg, x0 ≤ x → x < x1 → enemyTypeOK g.difficulty t → P l →
      P (l.setSpriteTemplate x y (SpriteTemplate.init t wg))) :
    Tri M P (addEnemyLine g fuel x0 x1 y) (fun _ l => P l) := by
  unfold addEnemyLine
  refine Tri.forRange_inv _ _ _ _ (fun x _ hx0 hx1 => ?_)
  simp only [bind_eq, ret_andThen]
  have hlast : ∀ e : Int, enemyTypeOK g.difficulty e → Tri M P
      ((nextInt fuel 35).andThen fun w =>
        setSpriteTemplate x y (SpriteTemplate.init e (decide (w < g.difficulty))))
      (fun _ l => P l) := fun e he =>
    Tri.bind_nextInt hf 35 (by norm_num) (by norm_num) (fun w _ _ =>
      (Tri.ofSetSpriteTemplate x y _).pre (fun l h => hP l x e _ hx0 hx1 he h))
  refine Tri.bind_nextInt hf 35 (by norm_num) (by norm_num) (fun r _ _ => ?_)
  refine Tri.ofIte (fun _ => ?_) (fun _ => Tri.ofRet _ (fun _ h => h))
  refine Tri.bind_nextInt hf 4 (by norm_num) (by norm_num) (fun e e0 e1 => ?_)
  refine Tri.ofIte (fun hd => hlast _ ?_) (fun hd => ?_)
  · exact ⟨fun _ => rfl, fun h1 _ => absurd hd (by omega), fun h3 => absurd hd (by omega)⟩
  refine Tri.ofIte (fun hd3 => ?_) (fun hd3 => hlast _ ?_)
  · refine Tri.bind_nextInt hf 3 (by norm_num) (by norm_num) (fun e2 a0 a1 => hlast _ ?_)
    refine ⟨fun h => absurd h (by omega), fun _ _ => ?_, fun h3 => absurd hd3 (by omega)⟩
    unfold ENEMY_RED_KOOPA ENEMY_GREEN_KOOPA ENEMY_GOOMBA
    omega
  · refine ⟨fun h => absurd h (by omega), fun _ h => absurd h (by omega), fun _ => ?_⟩
    unfold ENEMY_RED_KOOPA ENEMY_GREEN_KOOPA ENEMY_GOOMBA ENEMY_SPIKY
    omega

end LevelGenerator

end InfiniteTux
namespace InfiniteTux

namespace LevelGenerator

open Gen

/-- What `addEnemyLine` does to a level: no tile changes, and every marker
that is not the old one sits in the row `y`, in a column of `[x0, x1)`,
and has a type that the difficulty admits. -/
theorem addEnemyLine_markers {M : Bool} {fuel : Nat} (hf : Random.enoughFuel ≤ fuel)
    (g : LevelGenerator) (x0 x1 y : Int) (w h : Int) (l0 : Level) (hl0 : l0.WF w h)
    (hs0 : l0.WFSprites w h) :
    Tri M (fun l => l = l0) (addEnemyLine g fuel x0 x1 y)
      (fun _ l => l.WF w h ∧ l.WFSprites w h ∧ l.map = l0.map ∧
        ∀ x' y', l.marker x' y' = l0.marker x' y' ∨
          ∃ st, l.marker x' y' = some (some st) ∧ y' = y ∧ x0 ≤ x' ∧ x' < x1
            ∧ enemyTypeOK g.difficulty st.type) := by
  refine (addEnemyLine_frame hf g x0 x1 y ?_).pre
    (fun l hl => ⟨by rw [hl]; exact hl0, by rw [hl]; exact hs0, by rw [hl],
      fun x' y' => Or.inl (by rw [hl])⟩)
  intro l x t wg hx0 hx1 ht ⟨hwf, hws, hmap, hmk⟩
  refine ⟨hwf.setSpriteTemplate _ _ _, hws.keepSprite _ _ _, ?_, fun x' y' => ?_⟩
  · rw [Level.map_setSpriteTemplate, hmap]
  · rw [Level.marker_setSpriteTemplate hwf hws]
    split
    · rename_i hc
      exact Or.inr ⟨_, rfl, hc.2.1, by omega, by omega, ht⟩
    · exact hmk x' y'

end LevelGenerator

open LevelGenerator in
/-- C19, amended: `addEnemyLine` returns, changes no tile, and every marker
it places has type goomba when `difficulty < 1`, red koopa, green koopa or
goomba when `1 <= difficulty < 3`, and otherwise red koopa, green koopa,
goomba or spiky; at no difficulty a marker it places has the type
`ENEMY_FLOWER`. -/
theorem C19_enemy_subtype (g : LevelGenerator) (fuel : Nat) (hf : Random.enoughFuel ≤ fuel)
    (x0 x1 y : Int) (w h : Int) (s : GenState) (hl : s.level.WF w h)
    (hs : s.level.WFSprites w h) :
    ∃ s', addEnemyLine g fuel x0 x1 y s = some ((), s') ∧ s'.level.map = s.level.map ∧
      ∀ x' y', s'.level.marker x' y' = s.level.marker x' y' ∨
        ∃ st, s'.level.marker x' y' = some (some st) ∧ y' = y ∧ x0 ≤ x' ∧ x' < x1
          ∧ (g.difficulty < 1 → st.type = ENEMY_GOOMBA)
          ∧ (1 ≤ g.difficulty → g.difficulty < 3 →
              st.type = ENEMY_RED_KOOPA ∨ st.type = ENEMY_GREEN_KOOPA
                ∨ st.type = ENEMY_GOOMBA)
          ∧ (3 ≤ g.difficulty →
              st.type = ENEMY_RED_KOOPA ∨ st.type = ENEMY_GREEN_KOOPA
                ∨ st.type = ENEMY_GOOMBA ∨ st.type = ENEMY_SPIKY)
          ∧ st.type ≠ ENEMY_FLOWER := by
  obtain ⟨_, s', e, ⟨_, _, hmap, hmk⟩, _⟩ :=
    addEnemyLine_markers (M := false) hf g x0 x1 y w h s.level hl hs s rfl
      (fun hc => by cases hc)
  refine ⟨s', e, hmap, fun x' y' => ?_⟩
  rcases hmk x' y' with hm | ⟨st, hm, a1, a2, a3, t1, t2, t3⟩
  · exact Or.inl hm
  · refine Or.inr ⟨st, hm, a1, a2, a3, t1, t2, t3, ?_⟩
    intro hfl
    rw [hfl] at t1 t2 t3
    unfold ENEMY_FLOWER ENEMY_GOOMBA ENEMY_RED_KOOPA ENEMY_GREEN_KOOPA at *
    unfold ENEMY_SPIKY at t3
    rcases lt_or_le g.difficulty 1 with d1 | d1
    · have := t1 d1
      omega
    · rcases lt_or_le g.difficulty 3 with d3 | d3
      · have := t2 d1 d3
        omega
      · have := t3 d3
        omega

/-- Witness of C19 (amended): a line of enemies over the columns 0..7 of
the empty 8 x 4 level at difficulty 3. -/
theorem C19_enemy_subtype_witness :
    ∃ s', LevelGenerator.addEnemyLine ((LevelGenerator.init 8 4 0 0 0).setOdds 3 0)
        Random.enoughFuel 0 8 2 ⟨Random.setSeed 0, Level.blank 8 4, false⟩ = some ((), s')
      ∧ ∀ x' y', s'.level.marker x' y' = (Level.blank 8 4).marker x' y' ∨
        ∃ st, s'.level.marker x' y' = some (some st) ∧ st.type ≠ ENEMY_FLOWER := by
  obtain ⟨s', e, _, hmk⟩ := C19_enemy_subtype ((LevelGenerator.init 8 4 0 0 0).setOdds 3 0)
    Random.enoughFuel (le_refl _) 0 8 2 8 4 ⟨Random.setSeed 0, Level.blank 8 4, false⟩
    (Level.blank_WF 8 4) (Level.blank_WFSprites 8 4)
  refine ⟨s', e, fun x' y' => ?_⟩
  rcases hmk x' y' with hm | ⟨st, hm, _, _, _, _, _, _, hne⟩
  · exact Or.inl hm
  · exact Or.inr ⟨st, hm, hne⟩

/-- C19, counterexample: at difficulty 3 no random stream and no call make
`addEnemyLine` place a marker of type `ENEMY_FLOWER` on a level of the
size 320 x 15. -/
theorem C19_flower_counterexample :
    ¬ ∃ (x0 x1 y : Int) (s s' : GenState) (x' y' : Int) (st : SpriteTemplate),
        s.level.WF 320 15 ∧ s.level.WFSprites 320 15
        ∧ LevelGenerator.addEnemyLine ((LevelGenerator.init 320 15 0 0 0).setOdds 3 0)
            Random.enoughFuel x0 x1 y s = some ((), s')
        ∧ s.level.marker x' y' ≠ some (some st)
        ∧ s'.level.marker x' y' = some (some st) ∧ st.type = ENEMY_FLOWER := by
  rintro ⟨x0, x1, y, s, s', x', y', st, hl, hs, e, hold, hnew, hfl⟩
  obtain ⟨_, s'', e', ⟨_, _, _, hmk⟩, _⟩ :=
    LevelGenerator.addEnemyLine_markers (M := false) (le_refl _)
      ((LevelGenerator.init 320 15 0 0 0).setOdds 3 0) x0 x1 y 320 15 s.level hl hs s rfl
      (fun hc => by cases hc)
  rw [e] at e'
  simp only [Option.some.injEq, Prod.mk.injEq, true_and] at e'
  rw [← e'] at hmk
  rcases hmk x' y' with hm | ⟨st2, hm, _, _, _, _, _, t3⟩
  · rw [hnew] at hm
    exact hold hm.symm
  · rw [hnew] at hm
    simp only [Option.some.injEq] at hm
    rw [← hm, hfl] at t3
    have hd : ((LevelGenerator.init 320 15 0 0 0).setOdds 3 0).difficulty = 3 := rfl
    have := t3 (by rw [hd])
    unfold ENEMY_FLOWER ENEMY_GOOMBA ENEMY_RED_KOOPA ENEMY_GREEN_KOOPA ENEMY_SPIKY at this
    omega

end InfiniteTux
namespace InfiniteTux

namespace LevelGenerator

open Gen

theorem decorateBlock_frame {M : Bool} {P : Level → Prop} {fuel : Nat}
    (hf : Random.enoughFuel ≤ fuel) (x0 x1 floor x : Int)
    (hP : ∀ l b, blockRowTile x0 x1 x b → P l → P (l.setBlock x (floor - 4) b)) :
    Tri M P (decorateBlock fuel x0 x1 floor x) (fun _ l => P l) := by
  unfold decorateBlock
  simp only [bind_eq, ret_andThen, andThen_assoc]
  have hplain : Tri M P
      ((nextInt fuel 4).andThen fun r =>
        if r = 0 then (nextInt fuel 4).andThen fun r =>
          if r = 0 then setBlock x (floor - 4) (u8 (2 + 1 * 16))
          else setBlock x (floor - 4) (u8 (1 + 1 * 16))
        else setBlock x (floor - 4) (u8 (0 + 1 * 16)))
      (fun _ l => P l) := by
    refine Tri.bind_nextInt hf _ (by norm_num) (by norm_num) (fun _ _ _ => ?_)
    refine Tri.ofIte (fun _ => ?_) (fun _ => ?_)
    · refine Tri.bind_nextInt hf _ (by norm_num) (by norm_num) (fun _ _ _ => ?_)
      refine Tri.ofIte (fun _ => ?_) (fun _ => ?_)
      · exact (Tri.ofSetBlock _ _ _).pre (fun l h => hP l _ (Or.inr (Or.inr (Or.inl rfl))) h)
      · exact (Tri.ofSetBlock _ _ _).pre (fun l h => hP l _ (Or.inr (Or.inl rfl)) h)
    · exact (Tri.ofSetBlock _ _ _).pre (fun l h => hP l _ (Or.inl rfl) h)
  refine Tri.ofIte (fun hedge => ?_) (fun _ => ?_)
  · refine Tri.bind_nextInt hf _ (by norm_num) (by norm_num) (fun r _ _ => ?_)
    by_cases hr : r = 0
    · simp only [hr, decide_True, if_true]
      refine Tri.bind_nextInt hf _ (by norm_num) (by norm_num) (fun _ _ _ => ?_)
      refine Tri.ofIte (fun _ => ?_) (fun _ => ?_)
      · exact (Tri.ofSetBlock _ _ _).pre
          (fun l h => hP l _ (Or.inr (Or.inr (Or.inr ⟨Or.inl rfl, hedge⟩))) h)
      · exact (Tri.ofSetBlock _ _ _).pre
          (fun l h => hP l _ (Or.inr (Or.inr (Or.inr ⟨Or.inr rfl, hedge⟩))) h)
    · simp only [hr, decide_False, Bool.false_eq_true, if_false]
      exact hplain
  · simp only [Bool.false_eq_true, if_false]
    exact hplain

/-- The writes of `decorate`: markers in the row `floor - 1`, coins in the
row `floor - 2`, blocks in the row `floor - 4`, all in the columns of
`[x0 + 1, x1 - 1)`. -/
theorem decorate_frame {M : Bool} {P : Level → Prop} {fuel : Nat}
    (hf : Random.enoughFuel ≤ fuel) (g : LevelGenerator) (x0 x1 floor : Int)
    (hV : ∀ l x t wg, x0 + 1 ≤ x → x < x1 - 1 → 1 ≤ floor → enemyTypeOK g.difficulty t →
      P l → P (l.setSpriteTemplate x (floor - 1) (SpriteTemplate.init t wg)))
    (hC : ∀ l x, x0 + 1 ≤ x → x < x1 - 1 → 0 < floor - 2 → P l →
      P (l.setBlock x (floor - 2) (u8 (2 + 2 * 16))))
    (hB : ∀ l x b, x0 + 1 ≤ x → x < x1 - 1 → 0 < floor - 4 → blockRowTile x0 x1 x b →
      P l → P (l.setBlock x (floor - 4) b)) :
    Tri M P (decorate g fuel x0 x1 floor) (fun _ l => P l) := by
  unfold decorate
  simp only [bind_eq, ret_andThen]
  refine Tri.ofIte (fun _ => Tri.ofRet _ (fun _ h => h)) (fun hfl => ?_)
  refine Tri.bind (addEnemyLine_frame hf g _ _ _
    (fun l x t wg a1 a2 ht hl => hV l x t wg a1 a2 (by omega) ht hl)) (fun _ => ?_)
  refine Tri.bind_nextInt hf _ (by norm_num) (by norm_num) (fun s s0 _ => ?_)
  refine Tri.bind_nextInt hf _ (by norm_num) (by norm_num) (fun e e0 _ => ?_)
  have hrest : Tri M P
      ((nextInt fuel 4).andThen fun s =>
        (nextInt fuel 4).andThen fun e =>
          if floor - 4 > 0 ∧ x1 - 1 - e - (x0 + 1 + s) > 2 then
            forRange (x0 + 1 + s) (x1 - 1 - e) () fun x _ => decorateBlock fuel x0 x1 floor x
          else ret ())
      (fun _ l => P l) := by
    refine Tri.bind_nextInt hf _ (by norm_num) (by norm_num) (fun s s0 _ => ?_)
    refine Tri.bind_nextInt hf _ (by norm_num) (by norm_num) (fun e e0 _ => ?_)
    refine Tri.ofIte (fun hc => ?_) (fun _ => Tri.ofRet _ (fun _ h => h))
    refine Tri.forRange_inv _ _ _ _ (fun x _ a1 a2 => ?_)
    exact decorateBlock_frame hf x0 x1 floor x
      (fun l b hb h => hB l x b (by omega) (by omega) (by omega) hb h)
  refine Tri.ofIte (fun hc => ?_) (fun _ => hrest)
  refine Tri.bind (R := fun _ l => P l) ?_ (fun _ => hrest)
  refine Tri.forRange_inv _ _ _ _ (fun x _ a1 a2 => ?_)
  exact (Tri.ofSetBlock _ _ _).pre (fun l h => hC l x (by omega) (by omega) (by omega) h)

end LevelGenerator

open LevelGenerator in
/-- C18: `decorate` returns, and from any level it leaves every cell of the
row `floor - 4` either as it was or holding one of the five ids brick 16,
hidden 17 or 18, coin block 21, power-up block 22; at the edge columns
`x0 + 1` and `x1 - 2` a cell that changed holds 16, 17 or 18. -/
theorem C18_decoration_edge_rule (g : LevelGenerator) (fuel : Nat)
    (hf : Random.enoughFuel ≤ fuel) (x0 x1 floor : Int) (w h : Int) (s : GenState)
    (hl : s.level.WF w h) :
    ∃ s', decorate g fuel x0 x1 floor s = some ((), s') ∧
      ∀ x, s'.level.tile x (floor - 4) = s.level.tile x (floor - 4) ∨
        ∃ b, s'.level.tile x (floor - 4) = some b
          ∧ (b = 16 ∨ b = 17 ∨ b = 18 ∨ b = 21 ∨ b = 22)
          ∧ ((x = x0 + 1 ∨ x = x1 - 2) → (b = 16 ∨ b = 17 ∨ b = 18)) := by
  have key := decorate_frame (M := false)
    (P := fun l => l.WF w h ∧
      ∀ x, l.tile x (floor - 4) = s.level.tile x (floor - 4) ∨
        ∃ b, l.tile x (floor - 4) = some b ∧ blockRowTile x0 x1 x b) hf g x0 x1 floor
    (fun l x t wg _ _ _ _ hP => ⟨hP.1.setSpriteTemplate _ _ _, fun x' => by
      rw [Level.tile_setSpriteTemplate]
      exact hP.2 x'⟩)
    (fun l x _ _ _ hP => ⟨hP.1.setBlock _ _ _, fun x' => by
      rw [Level.tile_setBlock hP.1, if_neg (by omega)]
      exact hP.2 x'⟩)
    (fun l x b _ _ _ hb hP => ⟨hP.1.setBlock _ _ _, fun x' => by
      rw [Level.tile_setBlock hP.1]
      split
      · rename_i hc
        rw [hc.1]
        exact Or.inr ⟨b, rfl, hb⟩
      · exact hP.2 x'⟩)
  obtain ⟨_, s', e, ⟨_, ht⟩, _⟩ := key s ⟨hl, fun x => Or.inl rfl⟩ (fun hc => by cases hc)
  refine ⟨s', e, fun x => ?_⟩
  rcases ht x with h1 | ⟨b, hb, hr⟩
  · exact Or.inl h1
  · refine Or.inr ⟨b, hb, ?_, ?_⟩
    · rcases hr with h | h | h | ⟨h | h, _⟩
      · exact Or.inl h
      · exact Or.inr (Or.inl h)
      · exact Or.inr (Or.inr (Or.inl h))
      · exact Or.inr (Or.inr (Or.inr (Or.inr h)))
      · exact Or.inr (Or.inr (Or.inr (Or.inl h)))
    · intro hedge
      rcases hr with h | h | h | ⟨_, h1, h2⟩
      · exact Or.inl h
      · exact Or.inr (Or.inl h)
      · exact Or.inr (Or.inr h)
      · omega

/-- Witness of C18: the decoration of the columns 0..9 above the floor row
7 of the empty 10 x 8 level. -/
theorem C18_decoration_edge_rule_witness :
    ∃ s', LevelGenerator.decorate (LevelGenerator.init 10 8 0 0 0) Random.enoughFuel 0 10 7
        ⟨Random.setSeed 0, Level.blank 10 8, false⟩ = some ((), s') ∧
      ∀ x, s'.level.tile x (7 - 4) = (Level.blank 10 8).tile x (7 - 4) ∨
        ∃ b, s'.level.tile x (7 - 4) = some b
          ∧ (b = 16 ∨ b = 17 ∨ b = 18 ∨ b = 21 ∨ b = 22)
          ∧ ((x = 0 + 1 ∨ x = 10 - 2) → (b = 16 ∨ b = 17 ∨ b = 18)) :=
  C18_decoration_edge_rule (LevelGenerator.init 10 8 0 0 0) Random.enoughFuel (le_refl _)
    0 10 7 10 8 ⟨Random.setSeed 0, Level.blank 10 8, false⟩ (Level.blank_WF 10 8)

end InfiniteTux
namespace InfiniteTux

namespace LevelGenerator

open Gen

/-! ## The writes of the zone builders -/

theorem softTile_of_blockRowTile {x0 x1 x : Int} {b : Nat} (h : blockRowTile x0 x1 x b) :
    softTile b := by
  unfold softTile
  rcases h with h | h | h | ⟨h | h, _⟩ <;> rw [h] <;> decide

theorem fillGround_frame {M : Bool} {P : Level → Prop} (g : LevelGenerator)
    (x0 x1 floor : Int)
    (hP : ∀ l x y, x0 ≤ x → x < x1 → floor ≤ y → P l →
      P (l.setBlock x y (u8 (1 + 9 * 16)))) :
    Tri M P (fillGround g x0 x1 floor) (fun _ l => P l) := by
  unfold fillGround
  refine Tri.forRange_inv _ _ _ _ (fun x _ a1 a2 => ?_)
  refine Tri.forRange_inv _ _ _ _ (fun y _ _ _ => ?_)
  refine Tri.ofIte (fun hy => ?_) (fun _ => Tri.ofRet _ (fun _ hl => hl))
  exact (Tri.ofSetBlock _ _ _).pre (fun l hl => hP l x y a1 a2 hy hl)

/-- The writes of `decorate(x0, x1, floor)` as zone writes. -/
theorem decorate_zone {M : Bool} {P : Level → Prop} {fuel : Nat}
    (hf : Random.enoughFuel ≤ fuel) (g : LevelGenerator) (x0 x1 floor : Int)
    (xo L fl lo loV : Int) (hx0 : xo ≤ x0 + 1) (hx1 : x1 - 1 ≤ xo + L) (hfl : floor ≤ fl)
    (hlo : lo ≤ floor - 4 ∨ lo ≤ 1) (hloV : loV ≤ floor - 1 ∨ loV ≤ 0)
    (hK : Level.Keeps (ZoneW softTile xo L fl lo) (ZoneV g.lineMarker xo L fl loV) P) :
    Tri M P (decorate g fuel x0 x1 floor) (fun _ l => P l) := by
  refine decorate_frame hf g x0 x1 floor ?_ ?_ ?_
  · intro l x t wg a1 a2 a3 ht hl
    exact hK.2 l x _ _ ⟨by omega, by omega, by omega, by omega, t, wg, ht, rfl⟩ hl
  · intro l x a1 a2 a3 hl
    exact hK.1 l x _ _ ⟨by omega, by omega, Or.inr ⟨by unfold softTile; decide, by omega,
      by omega⟩⟩ hl
  · intro l x b a1 a2 a3 hb hl
    exact hK.1 l x _ _ ⟨by omega, by omega, Or.inr ⟨softTile_of_blockRowTile hb, by omega,
      by omega⟩⟩ hl

/-- The writes of `buildStraight`: whatever survives them for every length
and floor row the call can draw is kept for the ones it draws. -/
theorem buildStraight_frame {M : Bool} (h : Int) {fuel : Nat}
    (hf : Random.enoughFuel ≤ fuel) (g : LevelGenerator) (hg : g.height = h)
    (xo maxLength : Int) (safe : Bool) (Pf : Int → Int → Level → Prop)
    (hK : ∀ L floor, LenOK (if safe then 10 else 2) (if safe then 14 else 11) maxLength L →
      h - 4 ≤ floor → floor ≤ h - 1 →
      Level.Keeps (ZoneW (fun b => safe = false ∧ softTile b) xo L floor (floor - 4))
        (ZoneV (fun st => safe = false ∧ g.lineMarker st) xo L floor (floor - 4))
        (Pf L floor)) :
    Tri M (fun l => ∀ L floor,
        LenOK (if safe then 10 else 2) (if safe then 14 else 11) maxLength L →
        h - 4 ≤ floor → floor ≤ h - 1 → Pf L floor l)
      (buildStraight g fuel xo maxLength safe)
      (fun L l => LenOK (if safe then 10 else 2) (if safe then 14 else 11) maxLength L ∧
        ∃ floor, h - 4 ≤ floor ∧ floor ≤ h - 1 ∧ Pf L floor l) := by
  unfold buildStraight
  simp only [bind_eq, ret_andThen, andThen_assoc]
  refine Tri.bind_nextInt hf _ (by norm_num) (by norm_num) (fun r hr0 hr1 => ?_)
  have main : ∀ len : Int, LenOK (if safe then 10 else 2) (if safe then 14 else 11) maxLength
      (if len > maxLength then maxLength else len) →
      Tri M (fun l => ∀ L floor,
        LenOK (if safe then 10 else 2) (if safe then 14 else 11) maxLength L →
        h - 4 ≤ floor → floor ≤ h - 1 → Pf L floor l)
      ((nextInt fuel 4).andThen fun r =>
        (fillGround g xo (xo + if len > maxLength then maxLength else len)
          (g.height - 1 - r)).andThen fun _ =>
          if ¬ safe = true ∧ (if len > maxLength then maxLength else len) > 5 then
            (decorate g fuel xo (xo + if len > maxLength then maxLength else len)
              (g.height - 1 - r)).andThen
                fun _ => ret (if len > maxLength then maxLength else len)
          else ret (if len > maxLength then maxLength else len))
      (fun L l => LenOK (if safe then 10 else 2) (if safe then 14 else 11) maxLength L ∧
        ∃ floor, h - 4 ≤ floor ∧ floor ≤ h - 1 ∧ Pf L floor l) := by
    intro len
    generalize (if len > maxLength then maxLength else len) = L
    intro hlen
    refine Tri.bind_nextInt hf _ (by norm_num) (by norm_num) (fun r1 h10 h11 => ?_)
    have hfl0 : h - 4 ≤ g.height - 1 - r1 := by omega
    have hfl1 : g.height - 1 - r1 ≤ h - 1 := by omega
    have hk := hK L (g.height - 1 - r1) hlen hfl0 hfl1
    refine Tri.pre (P := Pf L (g.height - 1 - r1)) (fun l hl => hl L _ hlen hfl0 hfl1) ?_
    refine Tri.bind (fillGround_frame g _ _ _ (fun l x y a1 a2 a3 hl =>
      hk.1 l x y _ ⟨a1, a2, Or.inl ⟨rfl, a3⟩⟩ hl)) (fun _ => ?_)
    refine Tri.ofIte (fun hc => ?_)
      (fun _ => Tri.ofRet _ (fun l hl => ⟨hlen, _, hfl0, hfl1, hl⟩))
    refine Tri.bind (R := fun _ l => Pf L (g.height - 1 - r1) l) ?_
      (fun _ => Tri.ofRet _ (fun l hl => ⟨hlen, _, hfl0, hfl1, hl⟩))
    have hs : safe = false := by
      cases safe
      · rfl
      · exact absurd rfl hc.1
    refine decorate_zone hf g xo (xo + L) _ xo L _ (g.height - 1 - r1 - 4)
      (g.height - 1 - r1 - 4) (by omega) (by omega) (le_refl _) (Or.inl (le_refl _))
      (Or.inl (by omega)) ⟨?_, ?_⟩
    · intro l x y b hw hl
      exact hk.1 l x y b ⟨hw.1, hw.2.1, hw.2.2.imp id (fun hh => ⟨⟨hs, hh.1⟩, hh.2⟩)⟩ hl
    · intro l x y st hv hl
      exact hk.2 l x y st ⟨hv.1, hv.2.1, hv.2.2.1, hv.2.2.2.1, hs, hv.2.2.2.2⟩ hl
  cases safe with
  | false =>
    simp only [Bool.false_eq_true, if_false, ret_andThen] at main ⊢
    refine main (r + 2) ?_
    unfold LenOK
    split_ifs <;> omega
  | true =>
    simp only [if_true, ret_andThen, andThen_assoc] at main ⊢
    refine Tri.bind_nextInt hf _ (by norm_num) (by norm_num) (fun r' h0 h1 => ?_)
    refine main (10 + r') ?_
    unfold LenOK
    split_ifs <;> omega

end LevelGenerator

end InfiniteTux
namespace InfiniteTux

namespace LevelGenerator

open Gen

theorem hillPaint_frame {M : Bool} {P : Level → Prop} (w h : Int) (hw : 1 ≤ w) (hh : 1 ≤ h)
    (hWF : ∀ l, P l → l.WF w h) (xxo l h' x y : Int)
    (hP : ∀ l b, softTile b → P l → P (l.setBlock x y b)) :
    Tri M P (hillPaint xxo l h' x y) (fun _ l => P l) := by
  unfold hillPaint
  simp only [bind_eq, ret_andThen, andThen_assoc]
  have hlast : Tri M P
      ((getBlock x y).andThen fun b =>
        if b = u8 (6 + 8 * 16) then setBlock x y (u8 (6 + 11 * 16)) else ret ())
      (fun _ l => P l) := by
    refine Tri.bind_getBlock w h hw hh hWF (fun _ => ?_)
    refine Tri.ofIte (fun _ => ?_) (fun _ => Tri.ofRet _ (fun _ hl => hl))
    exact (Tri.ofSetBlock _ _ _).pre (fun l hl => hP l _ (by unfold softTile; decide) hl)
  refine Tri.bind_getBlock w h hw hh hWF (fun _ => ?_)
  refine Tri.ofIte (fun _ => ?_) (fun _ => ?_)
  · refine (Tri.ofSetBlock _ _ _).pre (fun l hl => hP l _ ?_ hl)
    unfold softTile
    split_ifs <;> decide
  · refine Tri.bind_getBlock w h hw hh hWF (fun _ => ?_)
    refine Tri.ofIte (fun _ => ?_) (fun _ => hlast)
    exact Tri.bind_setBlock (fun l hl => hP l _ (by unfold softTile; decide) hl) hlast

/-- The writes of the tier loop of `buildHillStraight`: markers in the rows
of `[0, floor)`, tiles in the rows of `[1, floor)`, all in the columns of
the zone. -/
theorem hillLoop_frame {M : Bool} {P : Level → Prop} (w h : Int) (hw : 1 ≤ w) (hh : 1 ≤ h)
    (hWF : ∀ l, P l → l.WF w h) {fuel : Nat} (hf : Random.enoughFuel ≤ fuel)
    (g : LevelGenerator) (xo length floor : Int)
    (hlen1 : length < 2 ^ 31) (hM : M = true → 10 ≤ length)
    (hK : Level.Keeps (ZoneW softTile xo length floor 1) (ZoneV g.lineMarker xo length floor 0)
      P) :
    ∀ (n : Nat) (hcur : Int) (occupied : List Bool), 0 < n → hcur < n → hcur ≤ floor →
      (occupied.length : Int) = length →
      Tri M P (hillLoop g fuel xo length floor n hcur occupied) (fun _ l => P l) := by
  intro n
  induction n with
  | zero => intro hcur occupied h0; omega
  | succ n ih =>
    intro hcur occupied _ hn hfl hocc
    unfold hillLoop
    simp only [bind_eq, ret_andThen, andThen_assoc]
    refine Tri.bind_nextInt hf _ (by norm_num) (by norm_num) (fun r hr0 hr1 => ?_)
    refine Tri.ofIte (fun _ => Tri.ofRet _ (fun _ hl => hl)) (fun hpos => ?_)
    refine Tri.bind_nextInt hf _ (by norm_num) (by norm_num) (fun r1 h10 h11 => ?_)
    refine Tri.bind (Tri.nextInt hf (length - (r1 + 3) - 2) (by omega)
      (fun hm => by have := hM hm; omega)) (fun r2 => ?_)
    refine Tri.pre (P := fun l => (((0 < length - (r1 + 3) - 2 →
        0 ≤ r2 ∧ r2 < length - (r1 + 3) - 2) ∧ (length - (r1 + 3) - 2 ≤ 0 → r2 = 0)) ∧ P l))
      (fun l hl => ⟨hl.2, hl.1⟩) (Tri.assume (fun hr2 => ?_))
    have hr2nn : 0 ≤ r2 := by
      by_cases hb : 0 < length - (r1 + 3) - 2
      · exact (hr2.1 hb).1
      · rw [hr2.2 (by omega)]
    obtain ⟨c, hc, hcf⟩ := hillConflict_total occupied (r2 + xo + 1 - xo) (r1 + 3) length
      hocc (by omega)
    refine Tri.bind_ofOption hc ?_
    cases c with
    | true => exact Tri.ofIte (fun _ => Tri.ofRet _ (fun _ hl => hl)) (fun hne => absurd rfl hne)
    | false =>
      refine Tri.ofIte (fun hne => by simp at hne) (fun _ => ?_)
      have hin := hcf rfl
      obtain ⟨o1, ho1, hlen1'⟩ := set1_total occupied (r2 + xo + 1 - xo) true
        (by omega) (by omega)
      refine Tri.bind_ofOption ho1 ?_
      obtain ⟨o2, ho2, hlen2⟩ := set1_total o1 (r2 + xo + 1 - xo + (r1 + 3)) true
        (by omega) (by omega)
      refine Tri.bind_ofOption ho2 ?_
      refine Tri.bind (addEnemyLine_frame hf g _ _ _ (fun l x t wg a1 a2 ht hl =>
        hK.2 l x _ _ ⟨by omega, by omega, by omega, by omega, t, wg, ht, rfl⟩ hl)) (fun _ => ?_)
      refine Tri.bind_nextInt hf _ (by norm_num) (by norm_num) (fun r3 _ _ => ?_)
      have hpaint : Tri M P
          (forRange (r2 + xo + 1) (r2 + xo + 1 + (r1 + 3)) () fun x _ =>
            forRange (hcur - 2 - r) floor () fun y _ =>
              hillPaint (r2 + xo + 1) (r1 + 3) (hcur - 2 - r) x y)
          (fun _ l => P l) := by
        refine Tri.forRange_inv _ _ _ _ (fun x _ a1 a2 => ?_)
        refine Tri.forRange_inv _ _ _ _ (fun y _ b1 b2 => ?_)
        exact hillPaint_frame w h hw hh hWF _ _ _ x y (fun l b hb hl =>
          hK.1 l x y b ⟨by omega, by omega, Or.inr ⟨hb, by omega, by omega⟩⟩ hl)
      refine Tri.ofIte (fun _ => ?_) (fun _ => ?_)
      · refine Tri.bind (decorate_zone hf g _ _ _ xo length floor 1 0 (by omega) (by omega)
          (by omega) (Or.inr (le_refl _)) (Or.inr (le_refl _)) hK) (fun _ => ?_)
        refine Tri.bind hpaint (fun _ => ?_)
        exact Tri.ofIte (fun hne => by simp at hne) (fun _ => Tri.ofRet _ (fun _ hl => hl))
      · refine Tri.bind hpaint (fun _ => ?_)
        refine Tri.ofIte (fun _ => ?_) (fun hne => absurd trivial hne)
        exact ih (hcur - 2 - r) o2 (by omega) (by omega) (by omega) (by omega)

end LevelGenerator

end InfiniteTux
namespace InfiniteTux

namespace LevelGenerator

open Gen

/-- The writes of `buildHillStraight`. -/
theorem buildHillStraight_frame {M : Bool} (w h : Int) (hw : 1 ≤ w) (hh : 5 ≤ h)
    {fuel : Nat} (hf : Random.enoughFuel ≤ fuel) (hfh : h ≤ fuel)
    (g : LevelGenerator) (hg : g.height = h) (xo maxLength : Int)
    (hm0 : 0 ≤ maxLength) (hM : M = true → 10 ≤ maxLength)
    (Pf : Int → Int → Level → Prop) (hWF : ∀ L floor l, Pf L floor l → l.WF w h)
    (hK : ∀ L floor, LenOK 10 19 maxLength L → h - 4 ≤ floor → floor ≤ h - 1 →
      Level.Keeps (ZoneW softTile xo L floor 1) (ZoneV g.lineMarker xo L floor 0)
        (Pf L floor)) :
    Tri M (fun l => ∀ L floor, LenOK 10 19 maxLength L → h - 4 ≤ floor → floor ≤ h - 1 →
        Pf L floor l)
      (buildHillStraight g fuel xo maxLength)
      (fun L l => LenOK 10 19 maxLength L ∧
        ∃ floor, h - 4 ≤ floor ∧ floor ≤ h - 1 ∧ Pf L floor l) := by
  unfold buildHillStraight
  simp only [bind_eq, ret_andThen, andThen_assoc]
  refine Tri.bind_nextInt hf _ (by norm_num) (by norm_num) (fun r hr0 hr1 => ?_)
  refine Tri.bind_nextInt hf _ (by norm_num) (by norm_num) (fun r1 h10 h11 => ?_)
  generalize hL : (if r + 10 > maxLength then maxLength else r + 10) = L
  have hlen : LenOK 10 19 maxLength L := by
    rw [← hL]
    unfold LenOK
    split_ifs <;> omega
  have hL0 : 0 ≤ L := by rw [← hL]; split_ifs <;> omega
  have hfl0 : h - 4 ≤ g.height - 1 - r1 := by omega
  have hfl1 : g.height - 1 - r1 ≤ h - 1 := by omega
  have hk := hK L (g.height - 1 - r1) hlen hfl0 hfl1
  refine Tri.pre (P := Pf L (g.height - 1 - r1)) (fun l hl => hl L _ hlen hfl0 hfl1) ?_
  refine Tri.bind (fillGround_frame g _ _ _ (fun l x y a1 a2 a3 hl =>
    hk.1 l x y _ ⟨a1, a2, Or.inl ⟨rfl, a3⟩⟩ hl)) (fun _ => ?_)
  refine Tri.bind (addEnemyLine_frame hf g _ _ _ (fun l x t wg a1 a2 ht hl =>
    hk.2 l x _ _ ⟨by omega, by omega, by omega, by omega, t, wg, ht, rfl⟩ hl)) (fun _ => ?_)
  refine Tri.bind (hillLoop_frame w h hw (by omega) (hWF L _) hf g xo L _
    (by unfold LenOK at hlen; omega) (fun hm => by
      have := hM hm
      unfold LenOK at hlen
      omega) hk fuel (g.height - 1 - r1) _
    (by unfold Random.enoughFuel at hf; omega) (by omega) (le_refl _)
    (by rw [List.length_replicate]; omega)) (fun _ => ?_)
  exact Tri.ofRet _ (fun l hl => ⟨hlen, g.height - 1 - r1, hfl0, hfl1, hl⟩)

/-- The writes of `buildJump`. -/
theorem buildJump_zone {M : Bool} (h : Int) {fuel : Nat}
    (hf : Random.enoughFuel ≤ fuel) (g : LevelGenerator) (hg : g.height = h)
    (xo maxLength : Int) (Pf : Int → Int → Level → Prop)
    (hK : ∀ L floor, LenOK 6 13 maxLength L → h - 4 ≤ floor → floor ≤ h - 1 →
      Level.Keeps (ZoneW softTile xo L floor (floor - 4)) (ZoneV (fun _ => False) xo L floor
        (floor - 4)) (Pf L floor)) :
    Tri M (fun l => ∀ L floor, LenOK 6 13 maxLength L → h - 4 ≤ floor → floor ≤ h - 1 →
        Pf L floor l)
      (buildJump g fuel xo maxLength)
      (fun L l => LenOK 6 13 maxLength L ∧
        ∃ floor, h - 4 ≤ floor ∧ floor ≤ h - 1 ∧ Pf L floor l) := by
  unfold buildJump
  simp only [bind_eq, ret_andThen, andThen_assoc]
  refine Tri.bind_nextInt hf _ (by norm_num) (by norm_num) (fun r hr0 hr1 => ?_)
  refine Tri.bind_nextInt hf _ (by norm_num) (by norm_num) (fun r1 h10 h11 => ?_)
  refine Tri.bind_nextInt hf _ (by norm_num) (by norm_num) (fun r2 _ _ => ?_)
  refine Tri.bind_nextInt hf _ (by norm_num) (by norm_num) (fun r3 h30 h31 => ?_)
  generalize hL : (if (r + 2) * 2 + (r1 + 2) > maxLength then maxLength
    else (r + 2) * 2 + (r1 + 2)) = L
  have hlen : LenOK 6 13 maxLength L := by
    rw [← hL]
    unfold LenOK
    split_ifs <;> omega
  have hfl0 : h - 4 ≤ g.height - 1 - r3 := by omega
  have hfl1 : g.height - 1 - r3 ≤ h - 1 := by omega
  have hk := hK L (g.height - 1 - r3) hlen hfl0 hfl1
  refine Tri.pre (P := Pf L (g.height - 1 - r3)) (fun l hl => hl L _ hlen hfl0 hfl1) ?_
  refine Tri.bind (R := fun _ l => Pf L (g.height - 1 - r3) l) ?_
    (fun _ => Tri.ofRet _ (fun l hl => ⟨hlen, _, hfl0, hfl1, hl⟩))
  refine Tri.forRange_inv _ _ _ _ (fun x _ a1 a2 => ?_)
  refine Tri.ofIte (fun hx => ?_) (fun _ => Tri.ofRet _ (fun _ hl => hl))
  refine Tri.forRange_inv _ _ _ _ (fun y _ b1 b2 => ?_)
  refine Tri.ofIte (fun hy => ?_) (fun hy => ?_)
  · exact (Tri.ofSetBlock _ _ _).pre (fun l hl => hk.1 l x y _ ⟨a1, a2, Or.inl ⟨rfl, hy⟩⟩ hl)
  refine Tri.ofIte (fun _ => ?_) (fun _ => Tri.ofRet _ (fun _ hl => hl))
  refine Tri.ofIte (fun hs => ?_) (fun hs => ?_)
  · refine Tri.ofIte (fun hc => ?_) (fun _ => Tri.ofRet _ (fun _ hl => hl))
    exact (Tri.ofSetBlock _ _ _).pre (fun l hl => hk.1 l x y _
      ⟨a1, a2, Or.inr ⟨by unfold softTile; decide, by omega, by omega⟩⟩ hl)
  · refine Tri.ofIte (fun hc => ?_) (fun _ => Tri.ofRet _ (fun _ hl => hl))
    exact (Tri.ofSetBlock _ _ _).pre (fun l hl => hk.1 l x y _
      ⟨a1, a2, Or.inr ⟨by unfold softTile; decide, by omega, by omega⟩⟩ hl)

/-- The writes of `buildCannons`. -/
theorem buildCannons_zone {M : Bool} (h : Int) {fuel : Nat}
    (hf : Random.enoughFuel ≤ fuel) (g : LevelGenerator) (hg : g.height = h)
    (xo maxLength : Int) (Pf : Int → Int → Level → Prop)
    (hK : ∀ L floor, LenOK 2 11 maxLength L → h - 4 ≤ floor → floor ≤ h - 1 →
      Level.Keeps (ZoneW softTile xo L floor (floor - 4)) (ZoneV (fun _ => False) xo L floor
        (floor - 4)) (Pf L floor)) :
    Tri M (fun l => ∀ L floor, LenOK 2 11 maxLength L → h - 4 ≤ floor → floor ≤ h - 1 →
        Pf L floor l)
      (buildCannons g fuel xo maxLength)
      (fun L l => LenOK 2 11 maxLength L ∧
        ∃ floor, h - 4 ≤ floor ∧ floor ≤ h - 1 ∧ Pf L floor l) := by
  unfold buildCannons
  simp only [bind_eq, ret_andThen, andThen_assoc]
  refine Tri.bind_nextInt hf _ (by norm_num) (by norm_num) (fun r hr0 hr1 => ?_)
  refine Tri.bind_nextInt hf _ (by norm_num) (by norm_num) (fun r1 h10 h11 => ?_)
  refine Tri.bind_nextInt hf _ (by norm_num) (by norm_num) (fun r2 _ _ => ?_)
  generalize hL : (if r + 2 > maxLength then maxLength else r + 2) = L
  have hlen : LenOK 2 11 maxLength L := by
    rw [← hL]
    unfold LenOK
    split_ifs <;> omega
  have hfl0 : h - 4 ≤ g.height - 1 - r1 := by omega
  have hfl1 : g.height - 1 - r1 ≤ h - 1 := by omega
  have hk := hK L (g.height - 1 - r1) hlen hfl0 hfl1
  refine Tri.pre (P := Pf L (g.height - 1 - r1)) (fun l hl => hl L _ hlen hfl0 hfl1) ?_
  refine Tri.bind (R := fun _ l => Pf L (g.height - 1 - r1) l) ?_
    (fun _ => Tri.ofRet _ (fun l hl => ⟨hlen, _, hfl0, hfl1, hl⟩))
  refine Tri.forRange_inv _ _ _ _ (fun x xc a1 a2 => ?_)
  have hcol : ∀ (xCannon : Int) (v : Int), Tri M (Pf L (g.height - 1 - r1))
      ((nextInt fuel 4).andThen fun r =>
        (forRange 0 g.height () fun y _ =>
          if y ≥ g.height - 1 - r1 then setBlock x y (u8 (1 + 9 * 16))
          else if x = xCannon ∧ y ≥ g.height - 1 - r1 - r - 1 then
            if y = g.height - 1 - r1 - r - 1 then setBlock x y (u8 (14 + 0 * 16))
            else if y = g.height - 1 - r1 - r - 1 + 1 then setBlock x y (u8 (14 + 1 * 16))
            else setBlock x y (u8 (14 + 2 * 16))
          else ret ()).andThen fun _ => ret v)
      (fun _ l => Pf L (g.height - 1 - r1) l) := by
    intro xCannon v
    refine Tri.bind_nextInt hf _ (by norm_num) (by norm_num) (fun r4 c0 c1 => ?_)
    refine Tri.bind (R := fun _ l => Pf L (g.height - 1 - r1) l) ?_
      (fun _ => Tri.ofRet _ (fun _ hl => hl))
    refine Tri.forRange_inv _ _ _ _ (fun y _ b1 b2 => ?_)
    refine Tri.ofIte (fun hy => ?_) (fun hy => ?_)
    · exact (Tri.ofSetBlock _ _ _).pre
        (fun l hl => hk.1 l x y _ ⟨a1, a2, Or.inl ⟨rfl, hy⟩⟩ hl)
    refine Tri.ofIte (fun hc => ?_) (fun _ => Tri.ofRet _ (fun _ hl => hl))
    refine Tri.ofIte (fun _ => ?_) (fun _ => ?_)
    · exact (Tri.ofSetBlock _ _ _).pre (fun l hl => hk.1 l x y _
        ⟨a1, a2, Or.inr ⟨by unfold softTile; decide, by omega, by omega⟩⟩ hl)
    refine Tri.ofIte (fun _ => ?_) (fun _ => ?_)
    · exact (Tri.ofSetBlock _ _ _).pre (fun l hl => hk.1 l x y _
        ⟨a1, a2, Or.inr ⟨by unfold softTile; decide, by omega, by omega⟩⟩ hl)
    · exact (Tri.ofSetBlock _ _ _).pre (fun l hl => hk.1 l x y _
        ⟨a1, a2, Or.inr ⟨by unfold softTile; decide, by omega, by omega⟩⟩ hl)
  refine Tri.ofIte (fun _ => ?_) (fun _ => ?_)
  · refine Tri.bind_nextInt hf _ (by norm_num) (by norm_num) (fun r3 _ _ => ?_)
    exact hcol _ _
  · exact hcol _ _

end LevelGenerator

end InfiniteTux
namespace InfiniteTux

theorem softTile_ne {t : Nat} (h : softTile t) : t ≠ 0 ∧ t ≠ u8 (1 + 9 * 16) ∧ t ≠ 10 := by
  unfold softTile at h
  simp only [List.mem_cons, List.mem_singleton, List.not_mem_nil, or_false] at h
  have e : u8 (1 + 9 * 16) = 145 := by decide
  rw [e]
  omega

theorem lineMarker_type {g : LevelGenerator} {st : SpriteTemplate} (h : g.lineMarker st) :
    st.type ≠ ENEMY_FLOWER := by
  obtain ⟨t, wg, ht, rfl⟩ := h
  obtain ⟨t1, t2, t3⟩ := ht
  unfold SpriteTemplate.init
  simp only
  unfold ENEMY_FLOWER ENEMY_GOOMBA ENEMY_RED_KOOPA ENEMY_GREEN_KOOPA at *
  unfold ENEMY_SPIKY at t3
  rcases lt_or_le g.difficulty 1 with d1 | d1
  · have := t1 d1
    omega
  · rcases lt_or_le g.difficulty 3 with d3 | d3
    · have := t2 d1 d3
      omega
    · have := t3 d3
      omega

namespace Level

/-- A marker is read only inside the grid. -/
theorem marker_inGrid {w h : Int} {l : Level} (hs : l.WFSprites w h) {x y : Int}
    {m : Option SpriteTemplate} (hm : l.marker x y = some m) :
    0 ≤ x ∧ x < w ∧ 0 ≤ y ∧ y < h := by
  obtain ⟨h3, h4⟩ := hs
  unfold Level.marker at2 at hm
  by_cases hneg : x < 0 ∨ y < 0
  · rw [if_pos hneg] at hm
    cases hm
  · rw [if_neg hneg] at hm
    cases hc : l.spriteTemplates[x.toNat]? with
    | none =>
      rw [hc] at hm
      cases hm
    | some col =>
      rw [hc] at hm
      simp only at hm
      have hx : x.toNat < l.spriteTemplates.length := by
        by_contra hge
        rw [List.getElem?_eq_none (by omega)] at hc
        cases hc
      have hcm : col ∈ l.spriteTemplates := List.getElem?_mem hc
      have hy : y.toNat < col.length := by
        by_contra hge
        rw [List.getElem?_eq_none (by omega)] at hm
        cases hm
      rw [h4 col hcm] at hy
      omega

/-- A tile is read only inside the grid. -/
theorem tile_inGrid {w h : Int} {l : Level} (hl : l.WF w h) {x y : Int} {t : Nat}
    (ht : l.tile x y = some t) : 0 ≤ x ∧ x < w ∧ 0 ≤ y ∧ y < h := by
  obtain ⟨_, _, h3, h4⟩ := hl
  unfold Level.tile at2 at ht
  by_cases hneg : x < 0 ∨ y < 0
  · rw [if_pos hneg] at ht
    cases ht
  · rw [if_neg hneg] at ht
    cases hc : l.map[x.toNat]? with
    | none =>
      rw [hc] at ht
      cases ht
    | some col =>
      rw [hc] at ht
      simp only at ht
      have hx : x.toNat < l.map.length := by
        by_contra hge
        rw [List.getElem?_eq_none (by omega)] at hc
        cases hc
      have hcm : col ∈ l.map := List.getElem?_mem hc
      have hy : y.toNat < col.length := by
        by_contra hge
        rw [List.getElem?_eq_none (by omega)] at ht
        cases ht
      rw [h4 col hcm] at hy
      omega

end Level

end InfiniteTux
namespace InfiniteTux

namespace LevelGenerator

open Gen

/-- The invariant inside a zone survives the writes of the zone. -/
theorem BuildInv_keeps (g : LevelGenerator) (w h px py : Int)
    (pm : Option (Option SpriteTemplate)) (xo L floor lo loV : Int)
    (T : Nat → Prop) (TV : SpriteTemplate → Prop)
    (hT : ∀ b, T b → softTile b)
    (hTV : ∀ st, TV st → 1 ≤ xo ∧ st.type ≠ ENEMY_FLOWER)
    (hfl : h - 4 ≤ floor) (hh : 5 ≤ h)
    (hlo : 1 ≤ lo ∧ (g.type ≠ TYPE_OVERGROUND → h - 8 ≤ lo))
    (hloV : g.type ≠ TYPE_OVERGROUND → h - 8 ≤ loV) :
    Level.Keeps (ZoneW T xo L floor lo) (ZoneV TV xo L floor loV)
      (g.BuildInv w h px py pm xo L floor) := by
  refine ⟨?_, ?_⟩
  · rintro l x y b ⟨hx0, hx1, hb⟩ ⟨hwf, hws, c3, c4, c5, c6, c7⟩
    have ht := Level.tile_setBlock hwf x y b
    refine ⟨hwf.setBlock _ _ _, hws.keepBlock _ _ _, ?_, ?_, ?_, ?_, ?_⟩
    · intro x' y' t hx' e
      rw [ht, if_neg (by omega)] at e
      exact c3 x' y' t hx' e
    · intro x' y' t e hne
      rw [ht] at e
      split at e
      · rename_i hc
        simp only [Option.some.injEq] at e
        rcases hb with ⟨_, hy⟩ | ⟨_, hy, _⟩
        · exact ⟨by omega, fun _ => by omega⟩
        · exact ⟨by omega, fun hg => by have := hlo.2 hg; omega⟩
      · exact c4 x' y' t e hne
    · intro x' y' t hx' e
      rw [ht] at e
      split at e
      · rename_i hc
        simp only [Option.some.injEq] at e
        rw [← e]
        rcases hb with ⟨hb1, hy⟩ | ⟨hb1, _, hy⟩
        · exact Or.inr (Or.inl ⟨hb1, by omega⟩)
        · exact Or.inr (Or.inr ⟨hT b hb1, by omega⟩)
      · exact c5 x' y' t hx' e
    · intro x' y' st hm
      rw [Level.marker_setBlock] at hm
      obtain ⟨m1, m2, m3, m4, t, e, hok⟩ := c6 x' y' st hm
      refine ⟨m1, m2, m3, m4, ?_⟩
      unfold Level.MarkerOK
      rw [ht]
      split
      · rename_i hc
        have hm4 := m4 (by omega)
        rcases hb with ⟨_, hy⟩ | ⟨hb1, _, _⟩
        · omega
        · exact ⟨b, rfl, Or.inl ⟨Or.inr (hT b hb1), hm4.2⟩⟩
      · exact ⟨t, e, hok⟩
    · intro hp
      rw [Level.marker_setBlock]
      exact c7 hp
  · rintro l x y st ⟨hx0, hx1, hy0, hy1, hst⟩ ⟨hwf, hws, c3, c4, c5, c6, c7⟩
    obtain ⟨hxo, hty⟩ := hTV st hst
    have hmk := Level.marker_setSpriteTemplate hwf hws x y st
    refine ⟨hwf.setSpriteTemplate _ _ _, hws.keepSprite _ _ _, ?_, ?_, ?_, ?_, ?_⟩
    · intro x' y' t hx' e
      rw [Level.tile_setSpriteTemplate] at e
      exact c3 x' y' t hx' e
    · intro x' y' t e hne
      rw [Level.tile_setSpriteTemplate] at e
      exact c4 x' y' t e hne
    · intro x' y' t hx' e
      rw [Level.tile_setSpriteTemplate] at e
      exact c5 x' y' t hx' e
    · intro x' y' st' hm
      rw [hmk] at hm
      unfold Level.MarkerOK
      rw [Level.tile_setSpriteTemplate]
      split at hm
      · rename_i hc
        simp only [Option.some.injEq] at hm
        rw [← hm, hc.1, hc.2.1]
        refine ⟨by omega, hx1, fun hg => by have := hloV hg; omega, fun _ => ⟨hy1, hty⟩, ?_⟩
        obtain ⟨t, e⟩ := Level.tile_isSome hwf hc.2.2.1 hc.2.2.2.1 hc.2.2.2.2.1 hc.2.2.2.2.2
        refine ⟨t, e, Or.inl ⟨?_, hty⟩⟩
        rcases c5 x y t hx0 e with h0 | ⟨_, h1⟩ | ⟨h1, _⟩
        · exact Or.inl h0
        · omega
        · exact Or.inr h1
      · exact c6 x' y' st' hm
    · intro hp
      rw [hmk, if_neg (by omega)]
      exact c7 hp

/-- Between two zones the invariant of the zone about to be built holds
for every length and floor row. -/
theorem BuildInv_of_ZoneInv {g : LevelGenerator} {w h px py : Int}
    {pm : Option (Option SpriteTemplate)} {xo : Int} {l : Level}
    (hl : g.ZoneInv w h px py pm xo l) (L floor : Int) (hL : 0 ≤ L) :
    g.BuildInv w h px py pm xo L floor l := by
  obtain ⟨hwf, hws, c3, c4, c5, c6⟩ := hl
  refine ⟨hwf, hws, fun x y t hx e => c3 x y t (by omega) e, c4,
    fun x y t hx e => Or.inl (c3 x y t hx e), fun x y st hm => ?_, c6⟩
  obtain ⟨m1, m2, m3, m4⟩ := c5 x y st hm
  exact ⟨m1, by omega, m3, fun hx => absurd hx (by omega), m4⟩

/-- After a zone the invariant between zones holds at the new length. -/
theorem ZoneInv_of_BuildInv {g : LevelGenerator} {w h px py : Int}
    {pm : Option (Option SpriteTemplate)} {xo L floor : Int} {l : Level}
    (hl : g.BuildInv w h px py pm xo L floor l) (hp : px < xo) :
    g.ZoneInv w h px py pm (xo + L) l := by
  obtain ⟨hwf, hws, c3, c4, _, c6, c7⟩ := hl
  refine ⟨hwf, hws, c3, c4, fun x y st hm => ?_, fun _ => c7 hp⟩
  obtain ⟨m1, m2, m3, _, m5⟩ := c6 x y st hm
  exact ⟨m1, m2, m3, m5⟩

/-- A straight zone takes the invariant between zones to the new length. -/
theorem buildStraight_step {M : Bool} (w h : Int) (hh : 9 ≤ h) {fuel : Nat}
    (hf : Random.enoughFuel ≤ fuel) (g : LevelGenerator) (hg : g.height = h)
    (px py : Int) (pm : Option (Option SpriteTemplate))
    (xo maxLength : Int) (safe : Bool) (hm0 : 0 ≤ maxLength) (hxo : safe = true ∨ 1 ≤ xo)
    (hp : px < xo) :
    Tri M (g.ZoneInv w h px py pm xo) (buildStraight g fuel xo maxLength safe)
      (fun L l => LenOK (if safe then 10 else 2) (if safe then 14 else 11) maxLength L ∧
        g.ZoneInv w h px py pm (xo + L) l) := by
  refine (buildStraight_frame h hf g hg xo maxLength safe
    (fun L floor l => g.BuildInv w h px py pm xo L floor l) ?_).conseq ?_ ?_
  · intro L floor _ hfl0 _
    refine BuildInv_keeps g w h px py pm xo L floor (floor - 4) (floor - 4) _ _
      (fun b hb => hb.2) (fun st hst => ⟨?_, lineMarker_type hst.2⟩) hfl0 (by omega)
      ⟨by omega, fun _ => by omega⟩ (fun _ => by omega)
    rcases hxo with hs | hs
    · rw [hs] at hst
      exact absurd hst.1 (by simp)
    · exact hs
  · intro l hl L floor hlen _ _
    refine BuildInv_of_ZoneInv hl L floor ?_
    unfold LenOK at hlen
    split_ifs at hlen <;> omega
  · rintro L l ⟨hlen, floor, _, _, hb⟩
    exact ⟨hlen, ZoneInv_of_BuildInv hb hp⟩

/-- A hill zone of an overground level takes the invariant between zones
to the new length. -/
theorem buildHillStraight_step {M : Bool} (w h : Int) (hw : 1 ≤ w) (hh : 9 ≤ h)
    {fuel : Nat} (hf : Random.enoughFuel ≤ fuel) (hfh : h ≤ fuel)
    (g : LevelGenerator) (hg : g.height = h) (htype : g.type = TYPE_OVERGROUND)
    (px py : Int) (pm : Option (Option SpriteTemplate))
    (xo maxLength : Int) (hm0 : 0 ≤ maxLength) (hM : M = true → 10 ≤ maxLength)
    (hxo : 1 ≤ xo) (hp : px < xo) :
    Tri M (g.ZoneInv w h px py pm xo) (buildHillStraight g fuel xo maxLength)
      (fun L l => LenOK 10 19 maxLength L ∧ g.ZoneInv w h px py pm (xo + L) l) := by
  refine (buildHillStraight_frame w h hw (by omega) hf hfh g hg xo maxLength hm0 hM
    (fun L floor l => g.BuildInv w h px py pm xo L floor l) (fun _ _ l hl => hl.1)
    ?_).conseq ?_ ?_
  · intro L floor _ hfl0 _
    exact BuildInv_keeps g w h px py pm xo L floor 1 0 _ _
      (fun b hb => hb) (fun st hst => ⟨hxo, lineMarker_type hst⟩) hfl0 (by omega)
      ⟨le_refl _, fun hne => absurd htype hne⟩ (fun hne => absurd htype hne)
  · intro l hl L floor hlen _ _
    refine BuildInv_of_ZoneInv hl L floor ?_
    unfold LenOK at hlen
    omega
  · rintro L l ⟨hlen, floor, _, _, hb⟩
    exact ⟨hlen, ZoneInv_of_BuildInv hb hp⟩

/-- A jump zone takes the invariant between zones to the new length. -/
theorem buildJump_step {M : Bool} (w h : Int) (hh : 9 ≤ h) {fuel : Nat}
    (hf : Random.enoughFuel ≤ fuel) (g : LevelGenerator) (hg : g.height = h)
    (px py : Int) (pm : Option (Option SpriteTemplate))
    (xo maxLength : Int) (hm0 : 0 ≤ maxLength) (hp : px < xo) :
    Tri M (g.ZoneInv w h px py pm xo) (buildJump g fuel xo maxLength)
      (fun L l => LenOK 6 13 maxLength L ∧ g.ZoneInv w h px py pm (xo + L) l) := by
  refine (buildJump_zone h hf g hg xo maxLength
    (fun L floor l => g.BuildInv w h px py pm xo L floor l) ?_).conseq ?_ ?_
  · intro L floor _ hfl0 _
    exact BuildInv_keeps g w h px py pm xo L floor (floor - 4) (floor - 4) _ _
      (fun b hb => hb) (fun st hst => hst.elim) hfl0 (by omega)
      ⟨by omega, fun _ => by omega⟩ (fun _ => by omega)
  · intro l hl L floor hlen _ _
    refine BuildInv_of_ZoneInv hl L floor ?_
    unfold LenOK at hlen
    omega
  · rintro L l ⟨hlen, floor, _, _, hb⟩
    exact ⟨hlen, ZoneInv_of_BuildInv hb hp⟩

/-- A cannon zone takes the invariant between zones to the new length. -/
theorem buildCannons_step {M : Bool} (w h : Int) (hh : 9 ≤ h) {fuel : Nat}
    (hf : Random.enoughFuel ≤ fuel) (g : LevelGenerator) (hg : g.height = h)
    (px py : Int) (pm : Option (Option SpriteTemplate))
    (xo maxLength : Int) (hm0 : 0 ≤ maxLength) (hp : px < xo) :
    Tri M (g.ZoneInv w h px py pm xo) (buildCannons g fuel xo maxLength)
      (fun L l => LenOK 2 11 maxLength L ∧ g.ZoneInv w h px py pm (xo + L) l) := by
  refine (buildCannons_zone h hf g hg xo maxLength
    (fun L floor l => g.BuildInv w h px py pm xo L floor l) ?_).conseq ?_ ?_
  · intro L floor _ hfl0 _
    exact BuildInv_keeps g w h px py pm xo L floor (floor - 4) (floor - 4) _ _
      (fun b hb => hb) (fun st hst => hst.elim) hfl0 (by omega)
      ⟨by omega, fun _ => by omega⟩ (fun _ => by omega)
  · intro l hl L floor hlen _ _
    refine BuildInv_of_ZoneInv hl L floor ?_
    unfold LenOK at hlen
    omega
  · rintro L l ⟨hlen, floor, _, _, hb⟩
    exact ⟨hlen, ZoneInv_of_BuildInv hb hp⟩

end LevelGenerator

end InfiniteTux
namespace InfiniteTux

namespace LevelGenerator

open Gen

theorem TubeColInv_of_ZoneInv {g : LevelGenerator} {w h px py : Int}
    {pm : Option (Option SpriteTemplate)} {x : Int} {l : Level}
    (hl : g.ZoneInv w h px py pm x l) (xT tH : Int) :
    g.TubeColInv w h px py pm x xT tH 0 l := by
  obtain ⟨hwf, hws, c3, c4, c5, c6⟩ := hl
  refine ⟨hwf, hws, fun x' y' t hx e => c3 x' y' t (by omega) e, c4, fun y' t e => ?_,
    fun x' y' st hm => ?_, c6⟩
  · have := Level.tile_inGrid hwf e
    exact ⟨fun _ => c3 x y' t (le_refl _) e, fun hlt => by omega⟩
  · obtain ⟨m1, m2, m3, m4⟩ := c5 x' y' st hm
    exact ⟨m1, by omega, m3, fun _ => m4, fun hx => by omega⟩

theorem ZoneInv_of_TubeColInv {g : LevelGenerator} {w h px py : Int}
    {pm : Option (Option SpriteTemplate)} {x xT tH : Int} {l : Level}
    (hl : g.TubeColInv w h px py pm x xT tH h l) (hp : px < x) (htH : tH < h) :
    g.ZoneInv w h px py pm (x + 1) l := by
  obtain ⟨hwf, hws, c3, c4, c5, c6, c7⟩ := hl
  refine ⟨hwf, hws, c3, c4, fun x' y' st hm => ?_, fun _ => c7 hp⟩
  obtain ⟨m1, m2, m3, m4, m5⟩ := c6 x' y' st hm
  refine ⟨m1, m2, m3, ?_⟩
  by_cases hx : x' < x
  · exact m4 hx
  · have hxx : x' = x := by omega
    obtain ⟨e1, e2, e3⟩ := m5 hxx
    have hin := Level.marker_inGrid hws hm
    obtain ⟨t, ht⟩ := Level.tile_isSome hwf hin.1 hin.2.1 hin.2.2.1 hin.2.2.2
    refine ⟨t, ht, Or.inr ⟨?_, e3⟩⟩
    rw [hxx] at ht
    exact (c5 y' t ht).2 (by omega) e1 e2

/-- A tile write in the column `x` at the row `y` of the row loop. -/
theorem TubeColInv_setBlock {g : LevelGenerator} {w h px py : Int}
    {pm : Option (Option SpriteTemplate)} {x xT tH y : Int} {l : Level} (b : Nat)
    (hl : g.TubeColInv w h px py pm x xT tH y l)
    (hy : 1 ≤ y ∧ (g.type ≠ TYPE_OVERGROUND → h - 8 ≤ y))
    (hb : y = tH → x = xT → b = 10) :
    g.TubeColInv w h px py pm x xT tH (y + 1) (l.setBlock x y b) := by
  obtain ⟨hwf, hws, c3, c4, c5, c6, c7⟩ := hl
  have ht := Level.tile_setBlock hwf x y b
  refine ⟨hwf.setBlock _ _ _, hws.keepBlock _ _ _, ?_, ?_, ?_, ?_, ?_⟩
  · intro x' y' t hx' e
    rw [ht, if_neg (by omega)] at e
    exact c3 x' y' t hx' e
  · intro x' y' t e hne
    rw [ht] at e
    split at e
    · rename_i hc
      rw [hc.2.1]
      exact hy
    · exact c4 x' y' t e hne
  · intro y' t e
    rw [ht] at e
    split at e
    · rename_i hc
      simp only [Option.some.injEq] at e
      refine ⟨fun hle => by omega, fun _ h1 h2 => ?_⟩
      rw [← e]
      exact hb (by omega) h2
    · rename_i hc
      have hne : y' ≠ y := by
        intro hyy
        have := Level.tile_inGrid hwf e
        exact hc ⟨rfl, hyy, by omega, by omega, by omega, by omega⟩
      obtain ⟨a1, a2⟩ := c5 y' t e
      exact ⟨fun hle => a1 (by omega), fun hlt => a2 (by omega)⟩
  · intro x' y' st hm
    rw [Level.marker_setBlock] at hm
    obtain ⟨m1, m2, m3, m4, m5⟩ := c6 x' y' st hm
    refine ⟨m1, m2, m3, fun hx => ?_, m5⟩
    obtain ⟨t, e, hok⟩ := m4 hx
    refine ⟨t, ?_, hok⟩
    rw [ht, if_neg (by omega)]
    exact e
  · intro hp
    rw [Level.marker_setBlock]
    exact c7 hp

/-- A row of the row loop that writes nothing. -/
theorem TubeColInv_skip {g : LevelGenerator} {w h px py : Int}
    {pm : Option (Option SpriteTemplate)} {x xT tH y : Int} {l : Level}
    (hl : g.TubeColInv w h px py pm x xT tH y l) (hb : ¬ (y = tH ∧ x = xT)) :
    g.TubeColInv w h px py pm x xT tH (y + 1) l := by
  obtain ⟨hwf, hws, c3, c4, c5, c6, c7⟩ := hl
  refine ⟨hwf, hws, c3, c4, fun y' t e => ?_, c6, c7⟩
  obtain ⟨a1, a2⟩ := c5 y' t e
  refine ⟨fun hle => a1 (by omega), fun hlt h1 h2 => ?_⟩
  by_cases hyy : y' = y
  · exact absurd ⟨by omega, h2⟩ hb
  · exact a2 (by omega) h1 h2

/-- The flower marker of a pipe, placed before the rows of its column. -/
theorem TubeColInv_marker {g : LevelGenerator} {w h px py : Int}
    {pm : Option (Option SpriteTemplate)} {x xT tH : Int} {l : Level}
    (hl : g.TubeColInv w h px py pm x xT tH 0 l) (hx : 1 ≤ x) (hxT : x = xT)
    (htH : g.type ≠ TYPE_OVERGROUND → h - 8 ≤ tH) (hp : px < x) :
    g.TubeColInv w h px py pm x xT tH 0
      (l.setSpriteTemplate x tH (SpriteTemplate.init ENEMY_FLOWER false)) := by
  obtain ⟨hwf, hws, c3, c4, c5, c6, c7⟩ := hl
  have hmk := Level.marker_setSpriteTemplate hwf hws x tH
    (SpriteTemplate.init ENEMY_FLOWER false)
  refine ⟨hwf.setSpriteTemplate _ _ _, hws.keepSprite _ _ _, ?_, ?_, ?_, ?_, ?_⟩
  · intro x' y' t hx' e
    rw [Level.tile_setSpriteTemplate] at e
    exact c3 x' y' t hx' e
  · intro x' y' t e hne
    rw [Level.tile_setSpriteTemplate] at e
    exact c4 x' y' t e hne
  · intro y' t e
    rw [Level.tile_setSpriteTemplate] at e
    exact c5 y' t e
  · intro x' y' st hm
    rw [hmk] at hm
    split at hm
    · rename_i hc
      simp only [Option.some.injEq] at hm
      rw [← hm]
      exact ⟨by omega, by omega, fun hg => by have := htH hg; omega, fun hlt => by omega,
        fun _ => ⟨hc.2.1, hxT, rfl⟩⟩
    · obtain ⟨m1, m2, m3, m4, m5⟩ := c6 x' y' st hm
      refine ⟨m1, m2, m3, fun hlt => ?_, m5⟩
      obtain ⟨t, e, hok⟩ := m4 hlt
      exact ⟨t, by rw [Level.tile_setSpriteTemplate]; exact e, hok⟩
  · intro hpx
    rw [hmk, if_neg (by omega)]
    exact c7 hpx

end LevelGenerator

end InfiniteTux
namespace InfiniteTux

namespace LevelGenerator

open Gen

/-- The row loop of `buildTubes` in the column `x`. -/
theorem tubeRows {M : Bool} (w h : Int) (hh : 9 ≤ h) (g : LevelGenerator)
    (hg : g.height = h) (px py : Int) (pm : Option (Option SpriteTemplate))
    (x xT tH floor : Int) (v : Int × Int) (hp : px < x) (hfl0 : h - 4 ≤ floor)
    (hfl1 : floor ≤ h - 1) (ht0 : floor - 3 ≤ tH) (ht1 : tH ≤ floor - 2) :
    Tri M (g.TubeColInv w h px py pm x xT tH 0)
      ((forRange 0 g.height () (fun y _ =>
        if y ≥ floor then setBlock x y (u8 (1 + 9 * 16))
        else if (x = xT ∨ x = xT + 1) ∧ y ≥ tH then
          if y = tH then setBlock x y (u8 (10 + x - xT + 0 * 16))
          else setBlock x y (u8 (10 + x - xT + 1 * 16))
        else ret ())).andThen (fun _ => ret v))
      (fun a l => a = v ∧ g.ZoneInv w h px py pm (x + 1) l) := by
  subst hg
  refine Tri.bind (R := fun _ l => g.TubeColInv w g.height px py pm x xT tH g.height l) ?_
    (fun _ => Tri.ofRet _ (fun l hl => ⟨rfl, ZoneInv_of_TubeColInv hl hp (by omega)⟩))
  refine Tri.forRange
    (fun (y : Int) (_ : Unit) l => g.TubeColInv w g.height px py pm x xT tH y l)
    0 g.height () _ (by omega) (fun y _ hy0 hy1 => ?_)
  refine Tri.ofIte (fun hy => ?_) (fun hy => ?_)
  · exact (Tri.ofSetBlock _ _ _).pre (fun l hl =>
      TubeColInv_setBlock _ hl ⟨by omega, fun _ => by omega⟩ (fun h1 _ => by omega))
  refine Tri.ofIte (fun hc => ?_) (fun hc => ?_)
  · refine Tri.ofIte (fun hyt => ?_) (fun hyt => ?_)
    · refine (Tri.ofSetBlock _ _ _).pre (fun l hl =>
        TubeColInv_setBlock _ hl ⟨by omega, fun _ => by omega⟩ (fun _ hx => ?_))
      have e : 10 + x - xT + 0 * 16 = 10 := by omega
      rw [e]
      rfl
    · exact (Tri.ofSetBlock _ _ _).pre (fun l hl =>
        TubeColInv_setBlock _ hl ⟨by omega, fun _ => by omega⟩ (fun h1 _ => absurd h1 hyt))
  · exact Tri.ofRet _ (fun l hl => TubeColInv_skip hl (by omega))

/-- The column body of `buildTubes` after the draw of the next pipe. -/
theorem tubeColumn {M : Bool} (w h : Int) (hh : 9 ≤ h) {fuel : Nat}
    (hf : Random.enoughFuel ≤ fuel) (g : LevelGenerator)
    (hg : g.height = h) (px py : Int) (pm : Option (Option SpriteTemplate))
    (x xT tH floor : Int) (hx : 1 ≤ x) (hp : px < x) (hfl0 : h - 4 ≤ floor)
    (hfl1 : floor ≤ h - 1) (ht0 : floor - 3 ≤ tH) (ht1 : tH ≤ floor - 2) :
    Tri M (g.ZoneInv w h px py pm x)
      (if x = xT then
        (nextInt fuel 11).andThen fun r =>
          if r < g.difficulty + 1 then
            (setSpriteTemplate x tH (SpriteTemplate.init ENEMY_FLOWER false)).andThen fun _ =>
              (forRange 0 g.height () (fun y _ =>
                if y ≥ floor then setBlock x y (u8 (1 + 9 * 16))
                else if (x = xT ∨ x = xT + 1) ∧ y ≥ tH then
                  if y = tH then setBlock x y (u8 (10 + x - xT + 0 * 16))
                  else setBlock x y (u8 (10 + x - xT + 1 * 16))
                else ret ())).andThen (fun _ => ret (xT, tH))
          else
            (forRange 0 g.height () (fun y _ =>
              if y ≥ floor then setBlock x y (u8 (1 + 9 * 16))
              else if (x = xT ∨ x = xT + 1) ∧ y ≥ tH then
                if y = tH then setBlock x y (u8 (10 + x - xT + 0 * 16))
                else setBlock x y (u8 (10 + x - xT + 1 * 16))
              else ret ())).andThen (fun _ => ret (xT, tH))
      else
        (forRange 0 g.height () (fun y _ =>
          if y ≥ floor then setBlock x y (u8 (1 + 9 * 16))
          else if (x = xT ∨ x = xT + 1) ∧ y ≥ tH then
            if y = tH then setBlock x y (u8 (10 + x - xT + 0 * 16))
            else setBlock x y (u8 (10 + x - xT + 1 * 16))
          else ret ())).andThen (fun _ => ret (xT, tH)))
      (fun a l => g.ZoneInv w h px py pm (x + 1) l ∧ floor - 3 ≤ a.2 ∧ a.2 ≤ floor - 2) := by
  have hrows := (tubeRows (M := M) w h hh g hg px py pm x xT tH floor (xT, tH) hp hfl0 hfl1
    ht0 ht1).post (B := fun a l => g.ZoneInv w h px py pm (x + 1) l ∧ floor - 3 ≤ a.2 ∧
      a.2 ≤ floor - 2) (fun a l hl => by
        rw [hl.1]
        exact ⟨hl.2, ht0, ht1⟩)
  have hplain := hrows.pre (fun l (hl : g.ZoneInv w h px py pm x l) =>
    TubeColInv_of_ZoneInv hl xT tH)
  refine Tri.ofIte (fun hxT => ?_) (fun _ => hplain)
  refine Tri.bind_nextInt hf _ (by norm_num) (by norm_num) (fun r _ _ => ?_)
  refine Tri.ofIte (fun _ => ?_) (fun _ => hplain)
  refine Tri.bind ((Tri.ofSetSpriteTemplate x tH _).pre
    (fun l (hl : g.ZoneInv w h px py pm x l) =>
      TubeColInv_marker (TubeColInv_of_ZoneInv hl xT tH) hx hxT (fun _ => by omega) hp))
    (fun _ => hrows)

/-- A pipe zone takes the invariant between zones to the new length. -/
theorem buildTubes_step {M : Bool} (w h : Int) (hh : 9 ≤ h) {fuel : Nat}
    (hf : Random.enoughFuel ≤ fuel) (g : LevelGenerator) (hg : g.height = h)
    (px py : Int) (pm : Option (Option SpriteTemplate))
    (xo maxLength : Int) (hm0 : 0 ≤ maxLength) (hxo : 1 ≤ xo) (hp : px < xo) :
    Tri M (g.ZoneInv w h px py pm xo) (buildTubes g fuel xo maxLength)
      (fun L l => LenOK 5 14 maxLength L ∧ g.ZoneInv w h px py pm (xo + L) l) := by
  unfold buildTubes
  simp only [bind_eq, ret_andThen, andThen_assoc]
  refine Tri.bind_nextInt hf _ (by norm_num) (by norm_num) (fun r hr0 hr1 => ?_)
  refine Tri.bind_nextInt hf _ (by norm_num) (by norm_num) (fun r1 h10 h11 => ?_)
  refine Tri.bind_nextInt hf _ (by norm_num) (by norm_num) (fun r2 _ _ => ?_)
  refine Tri.bind_nextInt hf _ (by norm_num) (by norm_num) (fun r3 h30 h31 => ?_)
  generalize hL : (if r + 5 > maxLength then maxLength else r + 5) = L
  have hlen : LenOK 5 14 maxLength L := by
    rw [← hL]
    unfold LenOK
    split_ifs <;> omega
  have hL0 : 0 ≤ L := by rw [← hL]; split_ifs <;> omega
  generalize hfloor : g.height - 1 - r1 = floor
  have hfl0 : h - 4 ≤ floor := by omega
  have hfl1 : floor ≤ h - 1 := by omega
  refine Tri.bind (R := fun _ l => g.ZoneInv w h px py pm (xo + L) l) ?_
    (fun _ => Tri.ofRet _ (fun l hl => ⟨hlen, hl⟩))
  refine (Tri.forRange (fun (x : Int) (acc : Int × Int) l =>
    g.ZoneInv w h px py pm x l ∧ floor - 3 ≤ acc.2 ∧ acc.2 ≤ floor - 2) xo (xo + L) _ _
    (by omega) (fun x a hx0 hx1 => ?_)).conseq (fun l hl => ⟨hl, by simp only; omega,
      by simp only; omega⟩) (fun _ l hl => hl.1)
  refine Tri.pre (P := fun l => (floor - 3 ≤ a.2 ∧ a.2 ≤ floor - 2) ∧
    g.ZoneInv w h px py pm x l) (fun l hl => ⟨hl.2, hl.1⟩) (Tri.assume (fun ha => ?_))
  refine Tri.ofIte (fun _ => ?_) (fun _ => ?_)
  · refine Tri.bind_nextInt hf _ (by norm_num) (by norm_num) (fun r4 _ _ => ?_)
    refine Tri.bind_nextInt hf _ (by norm_num) (by norm_num) (fun r5 c0 c1 => ?_)
    exact tubeColumn w h hh hf g hg px py pm x _ _ floor (by omega) (by omega) hfl0 hfl1
      (by omega) (by omega)
  · exact tubeColumn w h hh hf g hg px py pm x _ _ floor (by omega) (by omega) hfl0 hfl1
      ha.1 ha.2

end LevelGenerator

end InfiniteTux
namespace InfiniteTux

namespace Gen

/-- Two assertions proved of one step hold of its one result. -/
theorem Tri.both {α : Type} {M : Bool} {P A : Level → Prop} {Q B : α → Level → Prop}
    {m : Gen α} (h1 : Tri M P m Q) (h2 : Tri M A m B) :
    Tri M (fun l => P l ∧ A l) m (fun a l => Q a l ∧ B a l) := by
  intro s hs hm
  obtain ⟨a, s1, e1, q1, m1⟩ := h1 s hs.1 hm
  obtain ⟨b, s2, e2, q2, _⟩ := h2 s hs.2 hm
  rw [e1] at e2
  simp only [Option.some.injEq, Prod.mk.injEq] at e2
  rw [← e2.1, ← e2.2] at q2
  exact ⟨a, s1, e1, ⟨q1, q2⟩, m1⟩

end Gen

namespace LevelGenerator

open Gen

/-- Off the overground no draw selects the hill zone. -/
theorem hill_only_overground (g0 : LevelGenerator) (difficulty type : Int) (t : Int)
    (hs : selectZone (g0.setOdds difficulty type).odds t = ODDS_HILL_STRAIGHT) :
    (g0.setOdds difficulty type).type = TYPE_OVERGROUND := by
  by_contra hne
  have hne' : type ≠ TYPE_OVERGROUND := hne
  exact selectZone_ne_hill g0 difficulty type hne' t hs

/-- A zone takes the invariant between zones to the new length. -/
theorem buildZone_step {M : Bool} (w h : Int) (hw : 1 ≤ w) (hh : 9 ≤ h)
    {fuel : Nat} (hf : Random.enoughFuel ≤ fuel) (hfh : h ≤ fuel)
    (g : LevelGenerator) (hg : g.height = h) (ht0 : 0 < g.totalOdds)
    (ht1 : g.totalOdds < 2 ^ 31)
    (hhill : ∀ t, 0 ≤ t → t < g.totalOdds → selectZone g.odds t = ODDS_HILL_STRAIGHT →
      g.type = TYPE_OVERGROUND)
    (px py : Int) (pm : Option (Option SpriteTemplate))
    (x maxLength : Int) (hm : 19 ≤ maxLength) (hx : 1 ≤ x) (hp : px < x) :
    Tri M (g.ZoneInv w h px py pm x) (buildZone g fuel x maxLength)
      (fun L l => (2 ≤ L ∧ L ≤ 19) ∧ g.ZoneInv w h px py pm (x + L) l) := by
  unfold buildZone
  simp only [bind_eq, ret_andThen, andThen_assoc]
  refine Tri.bind_nextInt hf _ ht0 ht1 (fun t t0 t1 => ?_)
  unfold dispatchZone
  refine Tri.ofIte (fun _ => ?_) (fun _ => ?_)
  · refine (buildStraight_step w h hh hf g hg px py pm x maxLength false (by omega)
      (Or.inr hx) hp).post (fun L l hl => ⟨?_, hl.2⟩)
    have := hl.1
    simp only [LenOK, Bool.false_eq_true, if_false] at this
    omega
  refine Tri.ofIte (fun hz => ?_) (fun _ => ?_)
  · refine (buildHillStraight_step w h hw hh hf hfh g hg (hhill t t0 t1 hz) px py pm x
      maxLength (by omega) (fun _ => by omega) hx hp).post (fun L l hl => ⟨?_, hl.2⟩)
    have := hl.1
    simp only [LenOK] at this
    omega
  refine Tri.ofIte (fun _ => ?_) (fun _ => ?_)
  · refine (buildTubes_step w h hh hf g hg px py pm x maxLength (by omega) hx hp).post
      (fun L l hl => ⟨?_, hl.2⟩)
    have := hl.1
    simp only [LenOK] at this
    omega
  refine Tri.ofIte (fun _ => ?_) (fun _ => ?_)
  · refine (buildJump_step w h hh hf g hg px py pm x maxLength (by omega) hp).post
      (fun L l hl => ⟨?_, hl.2⟩)
    have := hl.1
    simp only [LenOK] at this
    omega
  refine Tri.ofIte (fun _ => ?_) (fun hne => ?_)
  · refine (buildCannons_step w h hh hf g hg px py pm x maxLength (by omega) hp).post
      (fun L l hl => ⟨?_, hl.2⟩)
    have := hl.1
    simp only [LenOK] at this
    omega
  · exfalso
    have h5 : selectZone g.odds t < 5 := by
      unfold selectZone
      simp only [List.range, List.range.loop, List.foldl]
      split_ifs <;> omega
    simp only [ODDS_STRAIGHT, ODDS_HILL_STRAIGHT, ODDS_TUBES, ODDS_JUMP, ODDS_CANNONS] at *
    omega

/-- The zone loop keeps the invariant between zones. -/
theorem zoneLoop_step {M : Bool} (w h : Int) (hw : 1 ≤ w) (hh : 9 ≤ h)
    {fuel : Nat} (hf : Random.enoughFuel ≤ fuel) (hfh : h ≤ fuel)
    (g : LevelGenerator) (hg : g.height = h) (ht0 : 0 < g.totalOdds)
    (ht1 : g.totalOdds < 2 ^ 31)
    (hhill : ∀ t, 0 ≤ t → t < g.totalOdds → selectZone g.odds t = ODDS_HILL_STRAIGHT →
      g.type = TYPE_OVERGROUND)
    (px py : Int) (pm : Option (Option SpriteTemplate)) :
    ∀ (n : Nat) (length : Int), 0 < n → w - 64 - length < n → 1 ≤ length → px < length →
      Tri M (g.ZoneInv w h px py pm length) (zoneLoop g fuel n length)
        (fun L l => (w - 64 ≤ L ∧ length ≤ L) ∧ g.ZoneInv w h px py pm L l) := by
  intro n
  induction n with
  | zero => intro length h0; omega
  | succ n ih =>
    intro length _ hn hl1 hpx
    unfold zoneLoop
    simp only [bind_eq, ret_andThen, andThen_assoc]
    refine Tri.bind_getLevel (fun l0 hl0 => ?_)
    have hw0 : l0.width = w := hl0.1.1
    rw [hw0]
    refine Tri.pre (P := g.ZoneInv w h px py pm length) (fun l hl => by rw [hl]; exact hl0) ?_
    refine Tri.ofIte (fun hlt => ?_) (fun hge => ?_)
    · refine Tri.bind (buildZone_step w h hw hh hf hfh g hg ht0 ht1 hhill px py pm length
        (w - length) (by omega) hl1 hpx) (fun z => ?_)
      refine Tri.pre (P := fun l => (2 ≤ z ∧ z ≤ 19) ∧ g.ZoneInv w h px py pm (length + z) l)
        (fun l hl => hl) (Tri.assume (fun hz => ?_))
      refine (ih (length + z) (by omega) (by omega) (by omega) (by omega)).post
        (fun L l hl => ⟨⟨hl.1.1, by omega⟩, hl.2⟩)
    · exact Tri.ofRet _ (fun l hl => ⟨⟨by omega, le_refl _⟩, hl⟩)

end LevelGenerator

end InfiniteTux
namespace InfiniteTux

namespace LevelGenerator

open Gen

theorem generate_eq (g : LevelGenerator) (fuel : Nat) :
    generate g fuel = getLevel.andThen fun lv =>
      (buildStraight g fuel 0 lv.width true).andThen fun L0 =>
        (zoneLoop g fuel fuel L0).andThen fun L => finishLevel g fuel lv.width L := rfl

theorem ZoneInv_setExit {g : LevelGenerator} {w h px py : Int}
    {pm : Option (Option SpriteTemplate)} {len : Int} {l : Level}
    (hl : g.ZoneInv w h px py pm len l) (x y : Int) :
    g.ZoneInv w h px py pm len { l with xExit := x, yExit := y } := hl

theorem DoneInv_of_ZoneInv {g : LevelGenerator} {w h px py : Int}
    {pm : Option (Option SpriteTemplate)} {len : Int} {l : Level}
    (hl : g.ZoneInv w h px py pm len l) (hp : px < len) :
    g.DoneInv w h px py pm l := by
  obtain ⟨hwf, hws, _, c4, c5, c6⟩ := hl
  refine ⟨hwf, hws, fun x y t e hne => ?_, fun x y st hm => ?_, c6 hp⟩
  · obtain ⟨a1, a2⟩ := c4 x y t e hne
    exact ⟨fun _ => a1, fun hg => Or.inr (Or.inr (a2 hg))⟩
  · obtain ⟨m1, _, m3, m4⟩ := c5 x y st hm
    exact ⟨m1, m3, m4⟩

/-- The exit fill keeps the invariant between zones. -/
theorem exitFill_step {M : Bool} (w h : Int) (hh : 9 ≤ h) (g : LevelGenerator)
    (px py : Int) (pm : Option (Option SpriteTemplate)) (L floor : Int)
    (hfl0 : h - 4 ≤ floor) (hp : px < L) :
    Tri M (g.ZoneInv w h px py pm L) (fillGround g L w floor)
      (fun _ l => g.DoneInv w h px py pm l) := by
  have hk := BuildInv_keeps g w h px py pm L (if L ≤ w then w - L else 0) floor (floor - 4)
    (floor - 4) (fun _ => False) (fun _ => False) (fun _ hb => hb.elim)
    (fun _ hs => hs.elim) hfl0 (by omega) ⟨by omega, fun _ => by omega⟩ (fun _ => by omega)
  refine (fillGround_frame (P := g.BuildInv w h px py pm L (if L ≤ w then w - L else 0) floor)
    g L w floor ?_).conseq ?_ ?_
  · intro l x y a1 a2 a3 hl
    exact hk.1 l x y _ ⟨a1, by split_ifs <;> omega, Or.inl ⟨rfl, a3⟩⟩ hl
  · intro l hl
    exact BuildInv_of_ZoneInv hl _ _ (by split_ifs <;> omega)
  · intro _ l hl
    exact DoneInv_of_ZoneInv (ZoneInv_of_BuildInv hl hp) (by split_ifs <;> omega)

end LevelGenerator

end InfiniteTux
namespace InfiniteTux

namespace LevelGenerator

open Gen

/-- The ceiling loop: it writes the ground tile in column 0 and in the rows
0..3 of the columns from 5 on, and leaves column 0 all ground. -/
theorem addCeiling_step {M : Bool} {P : Level → Prop} (w h : Int) (hw : 1 ≤ w) (hh : 1 ≤ h)
    {fuel : Nat} (hf : Random.enoughFuel ≤ fuel) (hWF : ∀ l, P l → l.WF w h)
    (hP : ∀ l x y, x < 1 ∨ (4 < x ∧ y ≤ 3) → 0 ≤ y → P l →
      P (l.setBlock x y (u8 (1 + 9 * 16)))) :
    Tri M P (addCeiling fuel) (fun _ l => P l ∧ l.WallColumn h) := by
  unfold addCeiling
  simp only [bind_eq, ret_andThen, andThen_assoc]
  refine Tri.bind_getLevel (fun l0 hl0 => ?_)
  have hw0 : l0.width = w := (hWF l0 hl0).1
  have hh0 : l0.height = h := (hWF l0 hl0).2.1
  rw [hw0, hh0]
  refine Tri.pre (P := P) (fun l hl => by rw [hl]; exact hl0) ?_
  refine Tri.bind (R := fun _ l => P l ∧ l.WallColumn h) ?_
    (fun _ => Tri.ofRet _ (fun _ hl => hl))
  have hkeep : ∀ (l : Level) (x y : Int), l.WF w h → l.WallColumn h →
      (l.setBlock x y (u8 (1 + 9 * 16))).WallColumn h := by
    intro l x y hwf hc y' a1 a2
    rw [Level.tile_setBlock hwf]
    split
    · rfl
    · exact hc y' a1 a2
  refine (Tri.forRange (fun (x : Int) (acc : Int × Int) l =>
    P l ∧ (0 ≤ acc.1 ∧ acc.1 ≤ 3) ∧ (1 ≤ x → l.WallColumn h)) 0 w _ _ (by omega)
    (fun x a hx0 hx1 => ?_)).conseq
    (fun l hl => ⟨hl, ⟨le_refl _, by norm_num⟩, fun hc => absurd hc (by omega)⟩)
    (fun _ l hl => ⟨hl.1, hl.2.2 hw⟩)
  have hcol : ∀ (c : Int) (v : Int × Int), 0 ≤ c → c ≤ 3 → 0 ≤ v.1 → v.1 ≤ 3 →
      Tri M (fun l => P l ∧ (1 ≤ x → l.WallColumn h))
      ((forRange 0 h () fun y _ =>
        if (x > 4 ∧ y ≤ c) ∨ x < 1 then setBlock x y (u8 (1 + 9 * 16)) else ret ()).andThen
          fun _ => ret v)
      (fun a' l => P l ∧ (0 ≤ a'.1 ∧ a'.1 ≤ 3) ∧ (1 ≤ x + 1 → l.WallColumn h)) := by
    intro c v c0 c1 v0 v1
    refine Tri.bind (R := fun _ l => P l ∧ (1 ≤ x → l.WallColumn h) ∧
      (x = 0 → ∀ y', 0 ≤ y' → y' < h → l.tile 0 y' = some (u8 (1 + 9 * 16)))) ?_
      (fun _ => Tri.ofRet _ (fun l hl => ⟨hl.1, ⟨v0, v1⟩, fun _ => by
        by_cases hx : x = 0
        · exact hl.2.2 hx
        · exact hl.2.1 (by omega)⟩))
    refine (Tri.forRange (fun (y : Int) (_ : Unit) l => P l ∧ (1 ≤ x → l.WallColumn h) ∧
      (x = 0 → ∀ y', 0 ≤ y' → y' < y → l.tile 0 y' = some (u8 (1 + 9 * 16)))) 0 h () _
      (by omega) (fun y _ hy0 hy1 => ?_)).conseq
      (fun l hl => ⟨hl.1, hl.2, fun _ y' a1 a2 => by omega⟩) (fun _ l hl => hl)
    refine Tri.ofIte (fun hc => ?_) (fun hc => ?_)
    · refine (Tri.ofSetBlock _ _ _).pre (fun l hl => ⟨hP l x y ?_ hy0 hl.1, fun h1 =>
        hkeep l x y (hWF l hl.1) (hl.2.1 h1), fun hx y' a1 a2 => ?_⟩)
      · rcases hc with hc | hc
        · exact Or.inr ⟨hc.1, by omega⟩
        · exact Or.inl hc
      · rw [Level.tile_setBlock (hWF l hl.1)]
        split
        · rfl
        · rename_i hne
          have : y' ≠ y := by
            intro hyy
            exact hne ⟨hx.symm, hyy, by omega, by omega, by omega, by omega⟩
          exact hl.2.2 hx y' a1 (by omega)
    · exact Tri.ofRet _ (fun l hl => ⟨hl.1, hl.2.1, fun hx => absurd (Or.inr (by omega)) hc⟩)
  refine Tri.pre (P := fun l => ((0 ≤ a.1 ∧ a.1 ≤ 3)) ∧ (P l ∧ (1 ≤ x → l.WallColumn h)))
    (fun l hl => ⟨hl.2.1, hl.1, hl.2.2⟩) (Tri.assume (fun ha => ?_))
  refine Tri.ofIte (fun _ => ?_) (fun _ => hcol _ _ ha.1 ha.2 ha.1 ha.2)
  refine Tri.bind_nextInt hf _ (by norm_num) (by norm_num) (fun c c0 c1 => ?_)
  refine Tri.bind_nextInt hf _ (by norm_num) (by norm_num) (fun r _ _ => ?_)
  exact hcol _ _ c0 (by omega) c0 (by omega)

end LevelGenerator

end InfiniteTux
namespace InfiniteTux

namespace Level

theorem getBlockCapped_inGrid {w h : Int} {l : Level} (hl : l.WF w h) {x y : Int}
    (hx0 : 0 ≤ x) (hx1 : x < w) (hy0 : 0 ≤ y) (hy1 : y < h) :
    l.getBlockCapped x y = l.tile x y := by
  obtain ⟨h1, h2, _, _⟩ := hl
  unfold Level.getBlockCapped Level.tile
  simp only
  rw [if_neg (by omega), if_neg (by omega), if_neg (by omega), if_neg (by omega)]

theorem spriteTemplates_setBlock (l : Level) (x y : Int) (b : Nat) :
    (l.setBlock x y b).spriteTemplates = l.spriteTemplates := by
  unfold Level.setBlock
  split <;> rfl

/-- A cell that does not hold the ground tile has its four corners empty. -/
theorem vertexFull_of_ne_ground {w h : Int} {l : Level} (hl : l.WF w h) {x y : Int}
    (hx0 : 0 ≤ x) (hx1 : x < w) (hy0 : 0 ≤ y) (hy1 : y < h)
    (ht : l.tile x y ≠ some (u8 (1 + 9 * 16))) :
    l.vertexFull x y = false ∧ l.vertexFull (x + 1) y = false
      ∧ l.vertexFull x (y + 1) = false ∧ l.vertexFull (x + 1) (y + 1) = false := by
  have hc : l.getBlockCapped x y ≠ some (u8 (1 + 9 * 16)) := by
    rw [getBlockCapped_inGrid hl hx0 hx1 hy0 hy1]
    exact ht
  have e1 : x + 1 - 1 = x := by omega
  have e2 : y + 1 - 1 = y := by omega
  unfold Level.vertexFull
  simp only [e1, e2, decide_eq_false_iff_not, not_and]
  exact ⟨fun _ _ _ => hc, fun _ h _ => absurd h hc, fun _ _ h => absurd h hc,
    fun h _ _ => absurd h hc⟩

/-- Next to a column 0 that is all ground the vertices of the left edge
are full. -/
theorem vertexFull_wallColumn {w h : Int} {l : Level} (hl : l.WF w h) (hw : 1 ≤ w)
    (hh : 1 ≤ h) (hc : l.WallColumn h) (y : Int) : l.vertexFull 0 y = true := by
  have key : ∀ x' y', x' ≤ 0 → l.getBlockCapped x' y' = some (u8 (1 + 9 * 16)) := by
    intro x' y' hx'
    obtain ⟨h1, h2, _, _⟩ := hl
    unfold Level.getBlockCapped
    simp only
    have ex : (if (if x' < 0 then 0 else x') ≥ l.width then l.width - 1
        else (if x' < 0 then 0 else x')) = 0 := by
      split_ifs <;> omega
    rw [ex]
    exact hc _ (by split_ifs <;> omega) (by split_ifs <;> omega)
  unfold Level.vertexFull
  rw [decide_eq_true_iff]
  exact ⟨key _ _ (by omega), key _ _ (by omega), key _ _ (by omega), key _ _ (by omega)⟩

end Level

namespace LevelGenerator

open Gen

theorem autotile_of_ne_ground (g : LevelGenerator) {w h : Int} {l : Level} (hl : l.WF w h)
    {x y : Int} (hx0 : 0 ≤ x) (hx1 : x < w) (hy0 : 0 ≤ y) (hy1 : y < h)
    (ht : l.tile x y ≠ some (u8 (1 + 9 * 16))) : g.autotile l x y = l.tile x y := by
  obtain ⟨e1, e2, e3, e4⟩ := Level.vertexFull_of_ne_ground hl hx0 hx1 hy0 hy1 ht
  unfold autotile
  rw [e1, e2, e3, e4]
  rfl

theorem autotile_wallColumn (g : LevelGenerator) {w h : Int} {l : Level} (hl : l.WF w h)
    (hw : 1 ≤ w) (hh : 1 ≤ h) (hc : l.WallColumn h) (y : Int) :
    ∃ t, g.autotile l 0 y = some t ∧
      (t = u8 (1 + 9 * 16 + tileOffset g.type) ∨ t = u8 (2 + 9 * 16 + tileOffset g.type)
        ∨ t = u8 (3 + 10 * 16 + tileOffset g.type)
        ∨ t = u8 (3 + 9 * 16 + tileOffset g.type)) := by
  unfold autotile
  rw [Level.vertexFull_wallColumn hl hw hh hc y, Level.vertexFull_wallColumn hl hw hh hc (y + 1)]
  cases l.vertexFull (0 + 1) y <;> cases l.vertexFull (0 + 1) (y + 1)
  · exact ⟨_, rfl, Or.inr (Or.inl rfl)⟩
  · exact ⟨_, rfl, Or.inr (Or.inr (Or.inr rfl))⟩
  · exact ⟨_, rfl, Or.inr (Or.inr (Or.inl rfl))⟩
  · exact ⟨_, rfl, Or.inl rfl⟩

theorem MarkerOK_ne_ground {l : Level} {x y : Int} {st : SpriteTemplate}
    (h : l.MarkerOK x y st) : l.tile x y ≠ some (u8 (1 + 9 * 16)) := by
  obtain ⟨t, e, hok⟩ := h
  rw [e]
  intro hc
  simp only [Option.some.injEq] at hc
  have e145 : u8 (1 + 9 * 16) = 145 := by decide
  rcases hok with ⟨h0 | hs, _⟩ | ⟨h10, _⟩
  · rw [h0, e145] at hc
    omega
  · exact (softTile_ne hs).2.1 hc
  · rw [h10, e145] at hc
    omega

/-- The autotiling pass keeps the invariant, and turns a column 0 that is
all ground into wall ids. -/
theorem fixWalls_step {M : Bool} (w h : Int) (hw : 1 ≤ w) (hh : 1 ≤ h) (g : LevelGenerator)
    (hgw : g.width = w) (hgh : g.height = h) (px py : Int)
    (pm : Option (Option SpriteTemplate)) (C : Prop) :
    Tri M (fun l => g.DoneInv w h px py pm l ∧ (C → l.WallColumn h)) (fixWalls g)
      (fun _ l => g.DoneInv w h px py pm l ∧
        (C → l.WallColumnFixed (tileOffset g.type) h)) := by
  intro s hs hm
  obtain ⟨⟨hwf, hws, c3, c4, c5⟩, hcol⟩ := hs
  obtain ⟨_, s', e, ⟨hwf', ht⟩, hm'⟩ :=
    fixWalls_val (M := M) w h hw hh s.level hwf g hgw hgh s rfl hm
  obtain ⟨_, s'', e', hsp, _⟩ := fixWalls_spec (M := M) w h hw hh
    (P := fun l => l.WF w h ∧ l.spriteTemplates = s.level.spriteTemplates)
    (fun l hl => hl.1) g hgw hgh
    (fun l x y b hl => ⟨hl.1.setBlock _ _ _, by
      rw [Level.spriteTemplates_setBlock]; exact hl.2⟩) s ⟨hwf, rfl⟩ hm
  rw [e] at e'
  simp only [Option.some.injEq, Prod.mk.injEq] at e'
  rw [← e'.2] at hsp
  have hmk : ∀ x y, s'.level.marker x y = s.level.marker x y := by
    intro x y
    unfold Level.marker
    rw [hsp.2]
  have hkeep : ∀ x y, s.level.tile x y ≠ some (u8 (1 + 9 * 16)) → 0 ≤ x → x < w → 0 ≤ y →
      y < h → s'.level.tile x y = s.level.tile x y := by
    intro x y hne a1 a2 a3 a4
    rw [ht x y a1 a2 a3 a4]
    exact autotile_of_ne_ground g hwf a1 a2 a3 a4 hne
  refine ⟨(), s', e, ⟨⟨hwf', ?_, ?_, ?_, ?_⟩, ?_⟩, hm'⟩
  · unfold Level.WFSprites
    rw [hsp.2]
    exact hws
  · intro x y t et hne
    obtain ⟨a1, a2, a3, a4⟩ := Level.tile_inGrid hwf' et
    obtain ⟨t0, e0⟩ := Level.tile_isSome hwf a1 a2 a3 a4
    by_cases hg0 : t0 = u8 (1 + 9 * 16)
    · refine c3 x y t0 e0 ?_
      rw [hg0]
      decide
    · have := hkeep x y (by rw [e0]; simpa using hg0) a1 a2 a3 a4
      rw [this] at et
      exact c3 x y t et hne
  · intro x y st hmx
    rw [hmk] at hmx
    obtain ⟨m1, m2, m3⟩ := c4 x y st hmx
    refine ⟨m1, m2, ?_⟩
    obtain ⟨a1, a2, a3, a4⟩ := Level.marker_inGrid hws hmx
    unfold Level.MarkerOK
    rw [hkeep x y (MarkerOK_ne_ground m3) a1 a2 a3 a4]
    exact m3
  · rw [hmk]
    exact c5
  · intro hC y a1 a2
    rw [ht 0 y (le_refl _) (by omega) a1 a2]
    exact autotile_wallColumn g hwf hw hh (hcol hC) y

end LevelGenerator

end InfiniteTux
namespace InfiniteTux

namespace LevelGenerator

open Gen

/-- A ground write of the ceiling loop keeps the invariant. -/
theorem DoneInv_ceiling {g : LevelGenerator} {w h px py : Int}
    {pm : Option (Option SpriteTemplate)} {l : Level} (hl : g.DoneInv w h px py pm l)
    (hh : 12 ≤ h) (htype : g.type = TYPE_CASTLE ∨ g.type = TYPE_UNDERGROUND)
    (x y : Int) (hc : x < 1 ∨ (4 < x ∧ y ≤ 3)) :
    g.DoneInv w h px py pm (l.setBlock x y (u8 (1 + 9 * 16))) := by
  obtain ⟨hwf, hws, c3, c4, c5⟩ := hl
  have hne : g.type ≠ TYPE_OVERGROUND := by
    unfold TYPE_CASTLE TYPE_UNDERGROUND at htype
    unfold TYPE_OVERGROUND
    omega
  have ht := Level.tile_setBlock hwf x y (u8 (1 + 9 * 16))
  refine ⟨hwf.setBlock _ _ _, hws.keepBlock _ _ _, ?_, ?_, ?_⟩
  · intro x' y' t e hnz
    rw [ht] at e
    split at e
    · rename_i hcell
      exact ⟨fun hog => absurd hog hne, fun _ => by omega⟩
    · exact c3 x' y' t e hnz
  · intro x' y' st hm
    rw [Level.marker_setBlock] at hm
    obtain ⟨m1, m2, t, e, hok⟩ := c4 x' y' st hm
    have := m2 hne
    refine ⟨m1, m2, t, ?_, hok⟩
    rw [ht, if_neg (by omega)]
    exact e
  · rw [Level.marker_setBlock]
    exact c5

/-- The statements after the zone loop take the invariant between zones to
the invariant of the finished level. -/
theorem finishLevel_step {M : Bool} (w h : Int) (hw : 1 ≤ w) (hh : 12 ≤ h) {fuel : Nat}
    (hf : Random.enoughFuel ≤ fuel) (g : LevelGenerator) (hgw : g.width = w)
    (hgh : g.height = h) (px py : Int) (pm : Option (Option SpriteTemplate)) (L : Int)
    (hp : px < L) :
    Tri M (g.ZoneInv w h px py pm L) (finishLevel g fuel w L)
      (fun _ l => g.DoneInv w h px py pm l ∧
        (g.type = TYPE_CASTLE ∨ g.type = TYPE_UNDERGROUND →
          l.WallColumnFixed (tileOffset g.type) h)) := by
  unfold finishLevel
  simp only [bind_eq, ret_andThen, andThen_assoc]
  refine Tri.bind_nextInt hf _ (by norm_num) (by norm_num) (fun r r0 r1 => ?_)
  refine Tri.bind_setExit (A := g.ZoneInv w h px py pm L)
    (fun l hl => ZoneInv_setExit hl _ _) ?_
  refine Tri.bind (exitFill_step w h (by omega) g px py pm L _ (by omega) hp) (fun _ => ?_)
  refine Tri.ofIte (fun hc => ?_) (fun hc => ?_)
  · refine Tri.bind (addCeiling_step w h hw (by omega) hf (fun l hl => hl.1)
      (fun l x y hxy _ hl => DoneInv_ceiling hl hh hc x y hxy)) (fun _ => ?_)
    exact (fixWalls_step w h hw (by omega) g hgw hgh px py pm
      (g.type = TYPE_CASTLE ∨ g.type = TYPE_UNDERGROUND)).pre (fun l hl => ⟨hl.1, fun _ => hl.2⟩)
  · exact (fixWalls_step w h hw (by omega) g hgw hgh px py pm
      (g.type = TYPE_CASTLE ∨ g.type = TYPE_UNDERGROUND)).pre
        (fun l hl => ⟨hl, fun hC => absurd hC hc⟩)

/-- The whole of `createLevelInternal` after the seeding, from the empty
level: the finished level satisfies the invariant. -/
theorem generate_done {M : Bool} (w h : Int) (hw : 1 ≤ w) (hh : 12 ≤ h) {fuel : Nat}
    (hf : Random.enoughFuel ≤ fuel) (hfw : w ≤ fuel) (hfh : h ≤ fuel)
    (g : LevelGenerator) (hgw : g.width = w) (hgh : g.height = h) (ht0 : 0 < g.totalOdds)
    (ht1 : g.totalOdds < 2 ^ 31)
    (hhill : ∀ t, 0 ≤ t → t < g.totalOdds → selectZone g.odds t = ODDS_HILL_STRAIGHT →
      g.type = TYPE_OVERGROUND) (py : Int) :
    Tri M (g.ZoneInv w h (-1) py none 0) (generate g fuel)
      (fun _ l => g.DoneInv w h (-1) py none l ∧
        (g.type = TYPE_CASTLE ∨ g.type = TYPE_UNDERGROUND →
          l.WallColumnFixed (tileOffset g.type) h)) := by
  rw [generate_eq]
  refine Tri.bind_getLevel (fun l0 hl0 => ?_)
  have hw0 : l0.width = w := hl0.1.1
  rw [hw0]
  refine Tri.pre (P := g.ZoneInv w h (-1) py none 0) (fun l hl => by rw [hl]; exact hl0) ?_
  refine Tri.bind (buildStraight_step w h (by omega) hf g hgh (-1) py none 0 w true
    (by omega) (Or.inl rfl) (by omega)) (fun L0 => Tri.assume (fun hL0 => ?_))
  have hL0' := hL0
  simp only [LenOK, if_true] at hL0'
  rw [zero_add]
  refine Tri.bind (zoneLoop_step w h hw (by omega) hf hfh g hgh ht0 ht1 hhill (-1) py none
    fuel L0 (by unfold Random.enoughFuel at hf; omega) (by omega) (by omega) (by omega))
    (fun L => Tri.assume (fun hL => ?_))
  exact finishLevel_step w h hw hh hf g hgw hgh (-1) py none L (by omega)

end LevelGenerator

end InfiniteTux
namespace InfiniteTux

theorem at2_replicate {α : Type} (n m : Nat) (v : α) (x y : Int) (a : α)
    (h : at2 (List.replicate n (List.replicate m v)) x y = some a) : a = v := by
  unfold at2 at h
  split at h
  · cases h
  · cases hc : (List.replicate n (List.replicate m v))[x.toNat]? with
    | none =>
      rw [hc] at h
      cases h
    | some col =>
      rw [hc] at h
      simp only at h
      have hcol := List.eq_of_mem_replicate (List.getElem?_mem hc)
      rw [hcol] at h
      exact List.eq_of_mem_replicate (List.getElem?_mem h)

namespace LevelGenerator

open Gen

/-- The level that the constructor builds satisfies the invariant between
zones at length 0. -/
theorem init_ZoneInv (g : LevelGenerator) (w h : Int) (hw : 0 ≤ w) (hh : 0 ≤ h) (py : Int) :
    ∃ l, Level.init w h = some l ∧ g.ZoneInv w h (-1) py none 0 l := by
  unfold Level.init
  rw [if_neg (by omega)]
  refine ⟨_, rfl, ⟨rfl, rfl, ?_, ?_⟩, ⟨?_, ?_⟩, ?_, ?_, ?_, ?_⟩
  · simp
  · intro col hc
    simp only at hc
    rw [List.eq_of_mem_replicate hc, List.length_replicate]
  · simp
  · intro col hc
    simp only at hc
    rw [List.eq_of_mem_replicate hc, List.length_replicate]
  · intro x y t _ e
    exact at2_replicate _ _ _ _ _ _ e
  · intro x y t e hne
    exact absurd (at2_replicate _ _ _ _ _ _ e) hne
  · intro x y st e
    have := at2_replicate _ _ _ _ _ _ e
    cases this
  · intro _
    unfold Level.marker at2
    rw [if_pos (by omega)]

/-- Every level that `createLevelInternal` returns satisfies the invariant
of the finished level. -/
theorem createLevelRun_done (w h : Int) (hw : 1 ≤ w) (hh : 12 ≤ h) {fuel : Nat}
    (hf : Random.enoughFuel ≤ fuel) (hfw : w ≤ fuel) (hfh : h ≤ fuel)
    (g0 : LevelGenerator) (hgw : g0.width = w) (hgh : g0.height = h) (random0 : Random)
    (seed difficulty type : Int) (hlo : -(2 : Int) ^ 31 ≤ 5 * difficulty - 10)
    (hd : 22 + 8 * difficulty < 2 ^ 31) :
    ∃ s, createLevelRun g0 random0 fuel seed difficulty type = some s ∧
      (g0.setOdds difficulty type).DoneInv w h (-1) 0 none s.level ∧
      (type = TYPE_CASTLE ∨ type = TYPE_UNDERGROUND →
        s.level.WallColumnFixed (tileOffset type) h) := by
  unfold createLevelRun
  simp only
  have e1 : (g0.setOdds difficulty type).width = w := hgw
  have e2 : (g0.setOdds difficulty type).height = h := hgh
  rw [e1, e2]
  obtain ⟨l, hl, hinv⟩ := init_ZoneInv (g0.setOdds difficulty type) w h (by omega) (by omega) 0
  rw [hl]
  simp only
  have ht0 := totalOdds_ge g0 difficulty type hlo hd
  obtain ⟨a, s', e, hq, _⟩ := generate_done (M := false) w h hw hh hf hfw hfh
    (g0.setOdds difficulty type) e1 e2 (by omega) (totalOdds_lt g0 difficulty type)
    (fun t _ _ hs => hill_only_overground g0 difficulty type t hs) 0
    ⟨Random.setSeed seed, l, false⟩ hinv (fun hc => by cases hc)
  rw [e]
  exact ⟨s', rfl, hq.1, hq.2⟩

end LevelGenerator

end InfiniteTux

namespace InfiniteTux

/-! ## Walkable columns -/

/-- The tile that `getBlock` reads for a row of the grid: the column is
clamped into the grid. -/
theorem Level.getBlock_row {w h : Int} {l : Level} (hl : l.WF w h) (hw : 1 ≤ w)
    (x : Int) {y : Int} (hy0 : 0 ≤ y) (hy1 : y < h) :
    l.getBlock x y = l.tile (max 0 (min x (w - 1))) y := by
  obtain ⟨h1, h2, _, _⟩ := hl
  unfold Level.getBlock Level.tile
  simp only [max_def, min_def]
  rw [if_neg (by omega)]
  congr 1
  · split_ifs <;> omega
  · split_ifs <;> omega

/-- A tile whose behaviour byte has the three blocking bits clear blocks
no movement. -/
theorem Level.isBlocking_clear (TILE_BEHAVIORS : List Nat) (l : Level) (x y : Int)
    (xa ya : CFloat) (block beh : Nat) (hb : l.getBlock x y = some block)
    (ht : TILE_BEHAVIORS[block]? = some beh) (h0 : beh.testBit 0 = false)
    (h1 : beh.testBit 1 = false) (h2 : beh.testBit 2 = false) :
    l.isBlocking TILE_BEHAVIORS x y xa ya = some false := by
  unfold Level.isBlocking
  rw [hb]
  simp only
  rw [ht]
  have e0 : decide (beh &&& BIT_BLOCK_UPPER > 0) = beh.testBit 0 := decide_and_bit beh 0
  have e1 : decide (beh &&& BIT_BLOCK_ALL > 0) = beh.testBit 1 := decide_and_bit beh 1
  have e2 : decide (beh &&& BIT_BLOCK_LOWER > 0) = beh.testBit 2 := decide_and_bit beh 2
  simp only [e0, e1, e2, h0, h1, h2]
  cases CFloat.lt CFloat.zero ya <;> cases CFloat.lt ya CFloat.zero <;> rfl

/-- A tile whose behaviour byte has the bit `BLOCK_ALL` blocks every
movement. -/
theorem Level.isBlocking_all (TILE_BEHAVIORS : List Nat) (l : Level) (x y : Int)
    (xa ya : CFloat) (block beh : Nat) (hb : l.getBlock x y = some block)
    (ht : TILE_BEHAVIORS[block]? = some beh) (h1 : beh.testBit 1 = true) :
    l.isBlocking TILE_BEHAVIORS x y xa ya = some true := by
  unfold Level.isBlocking
  rw [hb]
  simp only
  rw [ht]
  have e0 : decide (beh &&& BIT_BLOCK_UPPER > 0) = beh.testBit 0 := decide_and_bit beh 0
  have e1 : decide (beh &&& BIT_BLOCK_ALL > 0) = beh.testBit 1 := decide_and_bit beh 1
  have e2 : decide (beh &&& BIT_BLOCK_LOWER > 0) = beh.testBit 2 := decide_and_bit beh 2
  simp only [e0, e1, e2, h1]
  cases CFloat.lt CFloat.zero ya <;> cases CFloat.lt ya CFloat.zero <;>
    cases beh.testBit 0 <;> cases beh.testBit 2 <;> rfl

theorem solidTable_zero : solidTable[0]? = some 0 := by
  unfold solidTable
  exact List.getElem?_cons_zero

theorem solidTable_pos (t : Nat) (h1 : 1 ≤ t) (h2 : t < 256) :
    solidTable[t]? = some BIT_BLOCK_ALL := by
  unfold solidTable
  obtain ⟨k, rfl⟩ : ∃ k, t = k + 1 := ⟨t - 1, by omega⟩
  rw [List.getElem?_cons_succ, List.getElem?_replicate]
  rw [if_pos (by omega)]

/-- C11 fails at column 0 of an underground level: in the level that
`createLevel(320, 15, 0, 0, TYPE_UNDERGROUND)` returns the exit column is
not negative and every row of column 0 blocks all movement under the table
`solidTable`, so that the column `x = 0` of `[0, xExit]` has no row `y` of
the grid with `(0, y)` and `(0, y - 1)` both non-blocking. -/
theorem C11_wall_column_counterexample :
    ∃ lvl, LevelGenerator.createLevel 0 0 0 0 Random.enoughFuel 320 15 0 0 TYPE_UNDERGROUND
        = some lvl ∧
      ¬ (∀ x : Int, 0 ≤ x → x ≤ lvl.xExit → ∃ y : Int, 0 ≤ y ∧ y < lvl.height ∧
          lvl.isBlocking solidTable x y CFloat.zero CFloat.zero = some false ∧
          lvl.isBlocking solidTable x (y - 1) CFloat.zero CFloat.zero = some false) := by
  have hf : ((320 : Int) ≤ Random.enoughFuel) ∧ ((15 : Int) ≤ Random.enoughFuel) := by
    unfold Random.enoughFuel
    constructor <;> norm_num
  obtain ⟨s, hs, hinv, hwall⟩ :=
    LevelGenerator.createLevelRun_done 320 15 (by norm_num) (by norm_num) (le_refl _)
      hf.1 hf.2 (LevelGenerator.init 320 15 0 0 0) rfl rfl (Random.setSeed 0) 0 0
      TYPE_UNDERGROUND (by norm_num) (by norm_num)
  obtain ⟨s', hs', _, _, L0, L, floor, hL0, h1, h2, h3, h4, _⟩ :=
    LevelGenerator.createLevelRun_spec 320 15 (by norm_num) (by norm_num) (le_refl _)
      hf.1 hf.2 (LevelGenerator.init 320 15 0 0 0) rfl rfl (Random.setSeed 0) 0 0
      TYPE_UNDERGROUND (by norm_num) (by norm_num)
  have es : s' = s := by
    rw [hs] at hs'
    exact (Option.some.inj hs').symm
  subst es
  refine ⟨s'.level, ?_, ?_⟩
  · unfold LevelGenerator.createLevel LevelGenerator.createLevelInternal
    rw [hs]
    rfl
  · intro hall
    have hx : (0 : Int) ≤ s'.level.xExit := by
      unfold LevelGenerator.LenOK at hL0
      omega
    obtain ⟨y, hy0, hy1, hb, _⟩ := hall 0 (le_refl _) hx
    have hwf := hinv.1
    rw [hwf.2.1] at hy1
    obtain ⟨t, ht, hcase⟩ := hwall (Or.inr rfl) y hy0 hy1
    have hg : s'.level.getBlock 0 y = some t := by
      rw [Level.getBlock_row hwf (by norm_num) 0 hy0 hy1]
      exact ht
    have htrue : s'.level.isBlocking solidTable 0 y CFloat.zero CFloat.zero = some true := by
      rcases hcase with e | e | e | e <;>
        · subst e
          exact Level.isBlocking_all solidTable s'.level 0 y CFloat.zero CFloat.zero _
            BIT_BLOCK_ALL hg (solidTable_pos _ (by decide) (by decide)) rfl
    rw [htrue] at hb
    cases hb

/-- C11, amended: for every seed and level type, every difficulty in the
range where the weight arithmetic does not leave the `int` range
(`-2^31 <= 5 * difficulty - 10` and `22 + 8 * difficulty < 2^31`) and every
grid of at least 2 columns and 14 rows (`width + 1` and `height + 1`
fitting an `int`), `createLevel` returns a level that has, in every column
`x` of `[0, xExit]` on the overground and in every column `x` of
`[1, xExit]` for the other level types, a row `y` of the grid such that
neither `(x, y)` nor `(x, y - 1)` blocks any movement, under every
behaviour table in which tile 0 has no blocking bit.  Row 0 serves on the
overground and row 5 elsewhere.  On a castle or underground level every row
of column 0 holds one of the four ids that `fixWalls` gives a ground cell
with both left corners full, and blocks every movement under every table
in which that id is `BLOCK_ALL`: column 0 is the left wall and has no such
row. -/
theorem C11_walkable_column (clock type0 difficulty0 totalOdds0 : Int) (fuel : Nat)
    (hf : Random.enoughFuel ≤ fuel) (width height seed difficulty type : Int)
    (hw : 2 ≤ width) (hw' : width < 2 ^ 31 - 1) (hh : 14 ≤ height)
    (hh' : height < 2 ^ 31 - 1) (hdlo : -(2 : Int) ^ 31 ≤ 5 * difficulty - 10)
    (hd : 22 + 8 * difficulty < 2 ^ 31) (TILE_BEHAVIORS : List Nat) (beh0 : Nat)
    (ht : TILE_BEHAVIORS[0]? = some beh0) (hb0 : beh0.testBit 0 = false)
    (hb1 : beh0.testBit 1 = false) (hb2 : beh0.testBit 2 = false) :
    ∃ lvl, LevelGenerator.createLevel clock type0 difficulty0 totalOdds0 fuel
        width height seed difficulty type = some lvl ∧
      (∀ x : Int, 0 ≤ x → x ≤ lvl.xExit → (type = TYPE_OVERGROUND ∨ 1 ≤ x) →
        ∃ y : Int, 0 ≤ y ∧ y < lvl.height ∧ ∀ xa ya : CFloat,
          lvl.isBlocking TILE_BEHAVIORS x y xa ya = some false ∧
          lvl.isBlocking TILE_BEHAVIORS x (y - 1) xa ya = some false) ∧
      (type = TYPE_CASTLE ∨ type = TYPE_UNDERGROUND →
        ∀ y : Int, 0 ≤ y → y < lvl.height →
          ∃ t, lvl.getBlock 0 y = some t ∧
            (t = u8 (1 + 9 * 16 + LevelGenerator.tileOffset type)
              ∨ t = u8 (2 + 9 * 16 + LevelGenerator.tileOffset type)
              ∨ t = u8 (3 + 10 * 16 + LevelGenerator.tileOffset type)
              ∨ t = u8 (3 + 9 * 16 + LevelGenerator.tileOffset type)) ∧
            ∀ beh : Nat, TILE_BEHAVIORS[t]? = some beh → beh.testBit 1 = true →
              ∀ xa ya : CFloat, lvl.isBlocking TILE_BEHAVIORS 0 y xa ya = some true) := by
  have hf' : width ≤ fuel ∧ height ≤ fuel := by
    unfold Random.enoughFuel at hf
    omega
  obtain ⟨s, hs, hinv, hwall⟩ :=
    LevelGenerator.createLevelRun_done width height (by omega) (by omega) hf hf'.1 hf'.2
      (LevelGenerator.init width height type0 difficulty0 totalOdds0) rfl rfl
      (Random.setSeed clock) seed difficulty type hdlo hd
  obtain ⟨hwf, _, htile, _, _⟩ := hinv
  have hty : ((LevelGenerator.init width height type0 difficulty0 totalOdds0).setOdds
      difficulty type).type = type := rfl
  rw [hty] at htile
  refine ⟨s.level, ?_, ?_, ?_⟩
  · unfold LevelGenerator.createLevel LevelGenerator.createLevelInternal
    rw [hs]
    rfl
  · intro x hx0 _ hx
    have hempty : ∀ y : Int, 0 ≤ y → y < height →
        (type = TYPE_OVERGROUND → y < 1) → (type ≠ TYPE_OVERGROUND → 3 < y ∧ y < height - 8) →
        s.level.getBlock x y = some 0 := by
      intro y hy0 hy1 ho hn
      rw [Level.getBlock_row hwf (by omega) x hy0 hy1]
      obtain ⟨t, e⟩ := Level.tile_isSome hwf (x := max 0 (min x (width - 1)))
        (le_max_left _ _) (by simp only [max_def, min_def]; split_ifs <;> omega) hy0 hy1
      rw [e]
      by_cases h0 : t = 0
      · rw [h0]
      · exfalso
        obtain ⟨c1, c2⟩ := htile _ _ _ e h0
        by_cases hov : type = TYPE_OVERGROUND
        · have := c1 hov
          have := ho hov
          omega
        · have h3 := hn hov
          have hx1 : 1 ≤ x := by
            rcases hx with hx | hx
            · exact absurd hx hov
            · exact hx
          have hm : 1 ≤ max 0 (min x (width - 1)) := by
            simp only [max_def, min_def]
            split_ifs <;> omega
          rcases c2 hov with c | c | c <;> omega
    have hclear : ∀ y : Int, s.level.getBlock x y = some 0 → ∀ xa ya : CFloat,
        s.level.isBlocking TILE_BEHAVIORS x y xa ya = some false := fun y hg xa ya =>
      Level.isBlocking_clear TILE_BEHAVIORS s.level x y xa ya 0 beh0 hg ht hb0 hb1 hb2
    rw [hwf.2.1]
    by_cases hov : type = TYPE_OVERGROUND
    · refine ⟨0, le_refl _, by omega, fun xa ya => ⟨?_, ?_⟩⟩
      · exact hclear 0 (hempty 0 (le_refl _) (by omega) (fun _ => by norm_num)
          (fun h => absurd hov h)) xa ya
      · refine hclear (0 - 1) ?_ xa ya
        unfold Level.getBlock
        simp
    · refine ⟨5, by norm_num, by omega, fun xa ya => ⟨?_, ?_⟩⟩
      · exact hclear 5 (hempty 5 (by norm_num) (by omega) (fun h => absurd h hov)
          (fun _ => ⟨by norm_num, by omega⟩)) xa ya
      · exact hclear (5 - 1) (hempty (5 - 1) (by norm_num) (by omega) (fun h => absurd h hov)
          (fun _ => ⟨by norm_num, by omega⟩)) xa ya
  · intro hcu y hy0 hy1
    rw [hwf.2.1] at hy1
    obtain ⟨t, e, hcase⟩ := hwall hcu y hy0 hy1
    have e0 : max 0 (min 0 (width - 1)) = (0 : Int) := by
      simp only [max_def, min_def]
      split_ifs <;> omega
    have hg : s.level.getBlock 0 y = some t := by
      rw [Level.getBlock_row hwf (by omega) 0 hy0 hy1, e0]
      exact e
    exact ⟨t, hg, hcase, fun beh hbeh hbit xa ya =>
      Level.isBlocking_all TILE_BEHAVIORS s.level 0 y xa ya t beh hg hbeh hbit⟩

/-- C11, amended, for the castle level of 320 by 15 from the seed 7 at
difficulty 3, under the table `solidTable`. -/
theorem C11_walkable_column_witness :
    (Random.enoughFuel ≤ Random.enoughFuel ∧ (2 : Int) ≤ 320 ∧ (320 : Int) < 2 ^ 31 - 1 ∧
      (14 : Int) ≤ 15 ∧ (15 : Int) < 2 ^ 31 - 1 ∧ -(2 : Int) ^ 31 ≤ 5 * 3 - 10 ∧
      (22 : Int) + 8 * 3 < 2 ^ 31 ∧
      solidTable[0]? = some 0 ∧ (0 : Nat).testBit 0 = false ∧ (0 : Nat).testBit 1 = false ∧
      (0 : Nat).testBit 2 = false) ∧
    ∃ lvl, LevelGenerator.createLevel 0 0 0 0 Random.enoughFuel 320 15 7 3 TYPE_CASTLE
        = some lvl ∧
      (∀ x : Int, 0 ≤ x → x ≤ lvl.xExit → (TYPE_CASTLE = TYPE_OVERGROUND ∨ 1 ≤ x) →
        ∃ y : Int, 0 ≤ y ∧ y < lvl.height ∧ ∀ xa ya : CFloat,
          lvl.isBlocking solidTable x y xa ya = some false ∧
          lvl.isBlocking solidTable x (y - 1) xa ya = some false) ∧
      ∀ y : Int, 0 ≤ y → y < lvl.height → ∀ xa ya : CFloat,
        lvl.isBlocking solidTable 0 y xa ya = some true := by
  obtain ⟨lvl, e, h1, h2⟩ :=
    C11_walkable_column 0 0 0 0 Random.enoughFuel (le_refl _) 320 15 7 3 TYPE_CASTLE
      (by norm_num) (by norm_num) (by norm_num) (by norm_num) (by norm_num) (by norm_num)
      solidTable 0 solidTable_zero (Nat.zero_testBit 0) (Nat.zero_testBit 1)
      (Nat.zero_testBit 2)
  refine ⟨⟨le_refl _, by norm_num, by norm_num, by norm_num, by norm_num, by norm_num,
    by norm_num, solidTable_zero, Nat.zero_testBit 0, Nat.zero_testBit 1,
    Nat.zero_testBit 2⟩, lvl, e, h1, fun y hy0 hy1 xa ya => ?_⟩
  obtain ⟨t, _, hcase, hall⟩ := h2 (Or.inl rfl) y hy0 hy1
  refine hall BIT_BLOCK_ALL ?_ rfl xa ya
  rcases hcase with c | c | c | c <;>
    · subst c
      exact solidTable_pos _ (by decide) (by decide)

end InfiniteTux
namespace InfiniteTux

/-! ## Markers and the tiles under them -/

namespace LevelGenerator

open Gen

theorem andThen_some {α β : Type} {m : Gen α} {f : α → Gen β} {s s' : GenState} {a : α}
    (h : m s = some (a, s')) : (m.andThen f) s = f a s' := by
  unfold Gen.andThen
  rw [h]

theorem zoneLoop_succ (g : LevelGenerator) (fuel n : Nat) (length : Int) :
    zoneLoop g fuel (n + 1) length = getLevel.andThen fun lv =>
      if length < lv.width - 64 then
        (buildZone g fuel length (lv.width - length)).andThen fun z =>
          zoneLoop g fuel n (length + z)
      else ret length := rfl

/-- The marker of one cell may be pinned once the zones have passed its
column. -/
theorem ZoneInv_pin {g : LevelGenerator} {w h py0 : Int} {len : Int} {l : Level}
    (hl : g.ZoneInv w h (-1) py0 none len l) (px py : Int) :
    g.ZoneInv w h px py (l.marker px py) len l :=
  ⟨hl.1, hl.2.1, hl.2.2.1, hl.2.2.2.1, hl.2.2.2.2.1, fun _ => rfl⟩

/-- A marker that the first two zones leave in a column they have passed
is still there in the finished level. -/
theorem generate_pinned (w h : Int) (hw : 79 ≤ w) (hh : 12 ≤ h) {fuel : Nat}
    (hf : Random.enoughFuel ≤ fuel) (hfw : w ≤ fuel) (hfh : h ≤ fuel)
    (g : LevelGenerator) (hgw : g.width = w) (hgh : g.height = h) (ht0 : 0 < g.totalOdds)
    (ht1 : g.totalOdds < 2 ^ 31)
    (hhill : ∀ t, 0 ≤ t → t < g.totalOdds → selectZone g.odds t = ODDS_HILL_STRAIGHT →
      g.type = TYPE_OVERGROUND)
    (s0 : GenState) (hs0 : g.ZoneInv w h (-1) 0 none 0 s0.level)
    (L0 z : Int) (s2 : GenState) (hpre : openingZones g fuel w s0 = some ((L0, z), s2))
    (px py : Int) (hpx : px < L0 + z) :
    ∃ s', generate g fuel s0 = some ((), s') ∧
      g.DoneInv w h px py (s2.level.marker px py) s'.level := by
  obtain ⟨k, rfl⟩ : ∃ k, fuel = k + 1 :=
    ⟨fuel - 1, by unfold Random.enoughFuel at hf; omega⟩
  have hw0 : s0.level.width = w := hs0.1.1
  obtain ⟨A, s1, hb1, ⟨hlen, hz1⟩, _⟩ :=
    buildStraight_step (M := false) w h (by omega) hf g hgh (-1) 0 none 0 w true
      (by omega) (Or.inl rfl) (by omega) s0 hs0 (fun hc => by cases hc)
  simp only [LenOK, if_true] at hlen
  rw [zero_add] at hz1
  have hw1 : s1.level.width = w := hz1.1.1
  obtain ⟨B, s2', hb2, ⟨hB, hz2⟩, _⟩ :=
    buildZone_step (M := false) w h (by omega) (by omega) hf hfh g hgh ht0 ht1 hhill
      (-1) 0 none A (w - A) (by omega) (by omega) (by omega) s1 hz1 (fun hc => by cases hc)
  have hpre' : openingZones g (k + 1) w s0 = some ((A, B), s2') := by
    unfold openingZones
    rw [andThen_some hb1, andThen_some hb2]
    rfl
  rw [hpre'] at hpre
  simp only [Option.some.injEq, Prod.mk.injEq] at hpre
  obtain ⟨⟨eA, eB⟩, es⟩ := hpre
  subst eA eB es
  obtain ⟨L, s3, hb3, ⟨hL, hz3⟩, _⟩ :=
    zoneLoop_step (M := false) w h (by omega) (by omega) hf hfh g hgh ht0 ht1 hhill
      px py (s2'.level.marker px py) k (A + B) (by omega) (by omega) (by omega) hpx s2'
      (ZoneInv_pin hz2 px py) (fun hc => by cases hc)
  obtain ⟨u, s4, hb4, ⟨hz4, _⟩, _⟩ :=
    finishLevel_step (M := false) w h (by omega) hh hf g hgw hgh px py
      (s2'.level.marker px py) L (by omega) s3 hz3 (fun hc => by cases hc)
  refine ⟨s4, ?_, hz4⟩
  have hloop : zoneLoop g (k + 1) (k + 1) A s1 = some (L, s3) := by
    rw [zoneLoop_succ]
    show (if A < s1.level.width - 64 then
        (buildZone g (k + 1) A (s1.level.width - A)).andThen fun z =>
          zoneLoop g (k + 1) k (A + z)
      else ret A) s1 = some (L, s3)
    rw [hw1, if_pos (by omega), andThen_some hb2]
    exact hb3
  rw [generate_eq]
  show ((buildStraight g (k + 1) 0 s0.level.width true).andThen fun L0 =>
      (zoneLoop g (k + 1) (k + 1) L0).andThen fun L =>
        finishLevel g (k + 1) s0.level.width L) s0 = some ((), s4)
  rw [hw0, andThen_some hb1, andThen_some hloop]
  exact hb4

theorem createLevel_of_generate (clock type0 difficulty0 totalOdds0 : Int) (fuel : Nat)
    (w h seed difficulty type : Int) (l0 : Level) (hl0 : Level.init w h = some l0)
    (s' : GenState)
    (hg : generate ((init w h type0 difficulty0 totalOdds0).setOdds difficulty type) fuel
      ⟨Random.setSeed seed, l0, false⟩ = some ((), s')) :
    createLevel clock type0 difficulty0 totalOdds0 fuel w h seed difficulty type
      = some s'.level := by
  unfold createLevel createLevelInternal createLevelRun
  simp only
  have e1 : ((init w h type0 difficulty0 totalOdds0).setOdds difficulty type).width = w := rfl
  have e2 : ((init w h type0 difficulty0 totalOdds0).setOdds difficulty type).height = h := rfl
  rw [e1, e2, hl0]
  simp only
  rw [hg]
  rfl

end LevelGenerator

theorem groundId_range {t : Nat} (h : groundId t) :
    128 ≤ t ∧ t ≤ 191 ∧ (t % 16 < 4 ∨ 8 ≤ t % 16) := by
  obtain ⟨c, r, toff, h1, h2, h3, h4, h5, rfl⟩ := h
  unfold u8
  rcases h5 with e | e | e <;> subst e <;> omega

theorem groundId_of_soft {t : Nat} (h : t = 0 ∨ softTile t ∨ t = 10) : ¬ groundId t := by
  intro hg
  have hr := groundId_range hg
  unfold softTile at h
  simp only [List.mem_cons, List.mem_singleton, List.not_mem_nil, or_false] at h
  omega

set_option maxRecDepth 10000000 in
/-- The first two zones of the overground level of 320 by 15 built from
the seed 1 at difficulty 10: an opening run of 13 columns, then a pipe zone
of 9 columns that places a flower marker in the cell `(15, 11)`. -/
theorem openingZones_seed1 :
    ((LevelGenerator.openingZones ((LevelGenerator.init 320 15 0 0 0).setOdds 10
        TYPE_OVERGROUND) Random.enoughFuel 320
        ⟨Random.setSeed 1, Level.blank 320 15, false⟩).map
      (fun r => (r.1, r.2.level.marker 15 11)))
      = some ((13, 9), some (some (SpriteTemplate.init ENEMY_FLOWER false))) := by
  decide!

/-- C13 fails at a pipe marker: the overground level of 320 by 15 that
`createLevel` builds from the seed 1 at difficulty 10 holds, in the cell
`(15, 11)`, the flower marker of a pipe of `buildTubes` and the pipe tile
10, the top-left tile of that pipe; under the table `solidTable`, in which
the pipe tiles are `BLOCK_ALL`, the cell blocks every movement. -/
theorem C13_pipe_marker_counterexample :
    ∃ lvl, LevelGenerator.createLevel 0 0 0 0 Random.enoughFuel 320 15 1 10 TYPE_OVERGROUND
        = some lvl ∧
      lvl.marker 15 11 = some (some (SpriteTemplate.init ENEMY_FLOWER false)) ∧
      lvl.tile 15 11 = some 10 ∧ pipeTile 10 ∧
      solidTable[10]? = some BIT_BLOCK_ALL ∧
      ∀ xa ya : CFloat, lvl.isBlocking solidTable 15 11 xa ya = some true := by
  have hf : ((320 : Int) ≤ Random.enoughFuel) ∧ ((15 : Int) ≤ Random.enoughFuel) := by
    unfold Random.enoughFuel
    constructor <;> norm_num
  have hinit : Level.init 320 15 = some (Level.blank 320 15) := rfl
  obtain ⟨l0, hl0, hz0⟩ := LevelGenerator.init_ZoneInv
    ((LevelGenerator.init 320 15 0 0 0).setOdds 10 TYPE_OVERGROUND) 320 15 (by norm_num)
    (by norm_num) 0
  rw [hinit] at hl0
  have el0 := Option.some.inj hl0
  subst el0
  have hev := openingZones_seed1
  cases hpre : LevelGenerator.openingZones ((LevelGenerator.init 320 15 0 0 0).setOdds 10
      TYPE_OVERGROUND) Random.enoughFuel 320 ⟨Random.setSeed 1, Level.blank 320 15, false⟩ with
  | none =>
    rw [hpre] at hev
    cases hev
  | some r =>
    obtain ⟨⟨L0, z⟩, s2⟩ := r
    rw [hpre] at hev
    simp only [Option.map_some', Option.some.injEq, Prod.mk.injEq] at hev
    obtain ⟨⟨eL, ez⟩, hmk⟩ := hev
    subst eL ez
    have ht0 := LevelGenerator.totalOdds_ge (LevelGenerator.init 320 15 0 0 0) 10
      TYPE_OVERGROUND (by norm_num) (by norm_num)
    obtain ⟨s', hs', hd⟩ := LevelGenerator.generate_pinned 320 15 (by norm_num) (by norm_num)
      (le_refl _) hf.1 hf.2 ((LevelGenerator.init 320 15 0 0 0).setOdds 10 TYPE_OVERGROUND)
      rfl rfl (by omega)
      (LevelGenerator.totalOdds_lt (LevelGenerator.init 320 15 0 0 0) 10 TYPE_OVERGROUND)
      (fun t _ _ hs => LevelGenerator.hill_only_overground _ 10 TYPE_OVERGROUND t hs)
      ⟨Random.setSeed 1, Level.blank 320 15, false⟩ hz0 13 9 s2 hpre 15 11 (by norm_num)
    rw [hmk] at hd
    obtain ⟨hwf, _, _, hmarks, hpin⟩ := hd
    obtain ⟨_, _, t, htile, hok⟩ := hmarks 15 11 _ hpin
    have et : t = 10 := by
      rcases hok with ⟨_, hne⟩ | ⟨e, _⟩
      · exact absurd rfl hne
      · exact e
    subst et
    have hg : s'.level.getBlock 15 11 = some 10 := by
      rw [Level.getBlock_row hwf (by norm_num) 15 (by norm_num) (by norm_num)]
      exact htile
    have hsolid : solidTable[10]? = some BIT_BLOCK_ALL :=
      solidTable_pos 10 (by norm_num) (by norm_num)
    have hbit : BIT_BLOCK_ALL.testBit 1 = true := rfl
    exact ⟨s'.level, LevelGenerator.createLevel_of_generate 0 0 0 0 Random.enoughFuel 320 15
        1 10 TYPE_OVERGROUND _ hinit s' hs', hpin, htile, Or.inl rfl, hsolid, fun xa ya =>
      Level.isBlocking_all solidTable s'.level 15 11 xa ya 10 BIT_BLOCK_ALL hg hsolid hbit⟩

/-- C13, amended: in every generated level of at least 12 rows (every
seed and level type, every difficulty in the range where the weight
arithmetic does not leave the `int` range, `-2^31 <= 5 * difficulty - 10`
and `22 + 8 * difficulty < 2^31`, `width + 1` and `height + 1` fitting an
`int`), a cell that holds a spawn marker of a type other than
`ENEMY_FLOWER` (the markers of `addEnemyLine`) holds neither an id of
solid ground nor a pipe tile, and a cell that holds a marker of type
`ENEMY_FLOWER` (the pipe markers of `buildTubes`) holds the tile 10, the
top-left tile of its pipe. -/
theorem C13_marker_tiles (clock type0 difficulty0 totalOdds0 : Int) (fuel : Nat)
    (hf : Random.enoughFuel ≤ fuel) (width height seed difficulty type : Int)
    (hw : 1 ≤ width) (hw' : width < 2 ^ 31 - 1) (hh : 12 ≤ height)
    (hh' : height < 2 ^ 31 - 1) (hdlo : -(2 : Int) ^ 31 ≤ 5 * difficulty - 10)
    (hd : 22 + 8 * difficulty < 2 ^ 31) :
    ∃ lvl, LevelGenerator.createLevel clock type0 difficulty0 totalOdds0 fuel
        width height seed difficulty type = some lvl ∧
      ∀ (x y : Int) (st : SpriteTemplate), lvl.marker x y = some (some st) →
        ∃ t, lvl.tile x y = some t ∧ ¬ groundId t ∧
          (st.type ≠ ENEMY_FLOWER → ¬ pipeTile t) ∧ (st.type = ENEMY_FLOWER → t = 10) := by
  have hf' : width ≤ fuel ∧ height ≤ fuel := by
    unfold Random.enoughFuel at hf
    omega
  obtain ⟨s, hs, hinv, _⟩ :=
    LevelGenerator.createLevelRun_done width height hw hh hf hf'.1 hf'.2
      (LevelGenerator.init width height type0 difficulty0 totalOdds0) rfl rfl
      (Random.setSeed clock) seed difficulty type hdlo hd
  obtain ⟨_, _, _, hmarks, _⟩ := hinv
  refine ⟨s.level, ?_, ?_⟩
  · unfold LevelGenerator.createLevel LevelGenerator.createLevelInternal
    rw [hs]
    rfl
  · intro x y st hm
    obtain ⟨_, _, t, htile, hok⟩ := hmarks x y st hm
    refine ⟨t, htile, ?_, ?_, ?_⟩
    · rcases hok with ⟨h0 | hsoft, _⟩ | ⟨e, _⟩
      · exact groundId_of_soft (Or.inl h0)
      · exact groundId_of_soft (Or.inr (Or.inl hsoft))
      · exact groundId_of_soft (Or.inr (Or.inr e))
    · intro hne hp
      rcases hok with ⟨h0 | hsoft, _⟩ | ⟨_, e⟩
      · unfold pipeTile at hp
        omega
      · unfold pipeTile at hp
        unfold softTile at hsoft
        simp only [List.mem_cons, List.mem_singleton, List.not_mem_nil, or_false] at hsoft
        omega
      · exact hne e
    · intro hfl
      rcases hok with ⟨_, hne⟩ | ⟨e, _⟩
      · exact absurd hfl hne
      · exact e

/-- C13, amended, for the overground level of 320 by 15 from the seed 1 at
difficulty 10. -/
theorem C13_marker_tiles_witness :
    (Random.enoughFuel ≤ Random.enoughFuel ∧ (1 : Int) ≤ 320 ∧ (320 : Int) < 2 ^ 31 - 1 ∧
      (12 : Int) ≤ 15 ∧ (15 : Int) < 2 ^ 31 - 1 ∧ -(2 : Int) ^ 31 ≤ 5 * 10 - 10 ∧
      (22 : Int) + 8 * 10 < 2 ^ 31) ∧
    ∃ lvl, LevelGenerator.createLevel 0 0 0 0 Random.enoughFuel 320 15 1 10 TYPE_OVERGROUND
        = some lvl ∧
      ∀ (x y : Int) (st : SpriteTemplate), lvl.marker x y = some (some st) →
        ∃ t, lvl.tile x y = some t ∧ ¬ groundId t ∧
          (st.type ≠ ENEMY_FLOWER → ¬ pipeTile t) ∧ (st.type = ENEMY_FLOWER → t = 10) :=
  ⟨⟨le_refl _, by norm_num, by norm_num, by norm_num, by norm_num, by norm_num,
      by norm_num⟩,
    C13_marker_tiles 0 0 0 0 Random.enoughFuel (le_refl _) 320 15 1 10 TYPE_OVERGROUND
      (by norm_num) (by norm_num) (by norm_num) (by norm_num) (by norm_num) (by norm_num)⟩

end InfiniteTux
namespace InfiniteTux

/-! ## The platforms of a hill zone -/

namespace LevelGenerator

open Gen

theorem fail_andThen {α β : Type} (f : α → Gen β) : (fail : Gen α).andThen f = fail := rfl

theorem ite_andThen {α β : Type} (c : Prop) [Decidable c] (a b : Gen α) (f : α → Gen β) :
    (if c then a else b).andThen f = if c then a.andThen f else b.andThen f := by
  split <;> rfl

/-- The ghost list does not change what the tier loop does. -/
theorem hillLoop_erase (g : LevelGenerator) (fuel : Nat) (xo length floor : Int) :
    ∀ (n : Nat) (h : Int) (occupied : List Bool) (segs : List (Int × Int)),
      (hillLoopSegs g fuel xo length floor n h occupied segs).andThen (fun _ => ret ())
        = hillLoop g fuel xo length floor n h occupied := by
  intro n
  induction n with
  | zero => intro h occupied segs; rfl
  | succ n ih =>
    intro h occupied segs
    unfold hillLoop hillLoopSegs
    simp only [bind_eq, ret_andThen, andThen_assoc, ite_andThen, ih]

/-- The ghost list does not change what `buildHillStraight` does. -/
theorem buildHillStraight_erase (g : LevelGenerator) (fuel : Nat) (xo maxLength : Int) :
    (buildHillStraightSegs g fuel xo maxLength).andThen (fun r => ret r.1)
      = buildHillStraight g fuel xo maxLength := by
  unfold buildHillStraight buildHillStraightSegs
  simp only [bind_eq, ret_andThen, andThen_assoc, ite_andThen, fail_andThen,
    ← hillLoop_erase g fuel xo _ _ fuel _ _ []]

theorem at1_set1 {α : Type} {v v' : List α} {i : Int} {a : α}
    (h : set1 v i a = some v') (j : Int) :
    at1 v' j = if j = i then some a else at1 v j := by
  unfold set1 at h
  split at h
  · cases h
  · rename_i hi
    have e := Option.some.inj h
    subst e
    unfold at1
    by_cases hj : j < 0
    · rw [if_pos hj, if_neg (by omega), if_pos hj]
    · rw [if_neg hj, if_neg hj]
      by_cases hji : j = i
      · subst hji
        rw [if_pos rfl, List.getElem?_set_self (by omega)]
      · rw [if_neg hji, List.getElem?_set_ne (by omega)]

/-- When the stop condition of the tier loop is false, none of the four
columns it probes is marked in `occupied`. -/
theorem hillConflict_false {occupied : List Bool} {d l length : Int}
    (hlen : (occupied.length : Int) = length)
    (h : hillConflict occupied d l length = some false) :
    ∀ c : Int, (c = d - 1 ∨ c = d ∨ c = d + l ∨ c = d + l + 1) →
      at1 occupied c ≠ some true := by
  unfold hillConflict at h
  split at h
  · cases h
  rename_i hr
  cases ha : at1 occupied d with
  | none => rw [ha] at h; cases h
  | some a =>
    rw [ha] at h
    cases a with
    | true => cases h
    | false =>
      simp only at h
      cases hb : at1 occupied (d + l) with
      | none => rw [hb] at h; cases h
      | some b =>
        rw [hb] at h
        cases b with
        | true => cases h
        | false =>
          simp only at h
          have hout : ∀ c : Int, c < 0 ∨ length ≤ c → at1 occupied c ≠ some true := by
            intro c hc
            unfold at1
            split
            · simp
            · rw [List.getElem?_eq_none (by omega)]
              simp
          have hm : at1 occupied (d - 1) ≠ some true := by
            by_cases h1 : d - 1 ≥ 0
            · rw [if_pos h1] at h
              cases hc : at1 occupied (d - 1) with
              | none => simp
              | some c =>
                rw [hc] at h
                cases c with
                | true => cases h
                | false => simp
            · exact hout _ (Or.inl (by omega))
          have hp : at1 occupied (d + l + 1) ≠ some true := by
            by_cases h2 : d + l + 1 < length
            · cases hc : (if d - 1 ≥ 0 then at1 occupied (d - 1) else some false) with
              | none => rw [hc] at h; cases h
              | some c =>
                rw [hc] at h
                cases c with
                | true => cases h
                | false =>
                  simp only at h
                  rw [if_pos h2] at h
                  rw [h]
                  simp
            · exact hout _ (Or.inr (by omega))
          intro c hc
          rcases hc with e | e | e | e <;> subst e
          · exact hm
          · rw [ha]; simp
          · rw [hb]; simp
          · exact hp

/-- The tier loop of `buildHillStraight` returns within `n` iterations
when the current tier row is at most `2 * n`, and every platform it places
keeps clear of the marks of the platforms placed before it. -/
theorem hillLoopSegs_spec {M : Bool} {P : Level → Prop} (w h : Int) (hw : 1 ≤ w)
    (hh : 1 ≤ h) (hWF : ∀ l, P l → l.WF w h) {fuel : Nat} (hf : Random.enoughFuel ≤ fuel)
    (g : LevelGenerator) (xo length floor : Int)
    (hlen1 : length < 2 ^ 31) (hM : M = true → 10 ≤ length)
    (hP : Level.Stable floor P) :
    ∀ (n : Nat) (hcur : Int) (occupied : List Bool) (segs : List (Int × Int)),
      0 < n → hcur ≤ 2 * n → hcur ≤ floor → (occupied.length : Int) = length →
      SegMarks xo occupied segs → segs.Pairwise hillApart →
      Tri M P (hillLoopSegs g fuel xo length floor n hcur occupied segs)
        (fun segs' l => P l ∧ segs'.Pairwise hillApart) := by
  intro n
  induction n with
  | zero => intro hcur occupied segs h0; omega
  | succ n ih =>
    intro hcur occupied segs _ hn hfl hocc hmarks hpw
    unfold hillLoopSegs
    simp only [bind_eq, ret_andThen, andThen_assoc]
    refine Tri.bind_nextInt hf _ (by norm_num) (by norm_num) (fun r hr0 hr1 => ?_)
    refine Tri.ofIte (fun _ => Tri.ofRet _ (fun _ hl => ⟨hl, hpw⟩)) (fun hpos => ?_)
    refine Tri.bind_nextInt hf _ (by norm_num) (by norm_num) (fun r1 h10 h11 => ?_)
    refine Tri.bind (Tri.nextInt hf (length - (r1 + 3) - 2) (by omega)
      (fun hm => by have := hM hm; omega)) (fun r2 => ?_)
    refine Tri.pre (P := fun l => (((0 < length - (r1 + 3) - 2 →
        0 ≤ r2 ∧ r2 < length - (r1 + 3) - 2) ∧ (length - (r1 + 3) - 2 ≤ 0 → r2 = 0)) ∧ P l))
      (fun l hl => ⟨hl.2, hl.1⟩) (Tri.assume (fun hr2 => ?_))
    obtain ⟨c, hc, hcf⟩ := hillConflict_total occupied (r2 + xo + 1 - xo) (r1 + 3) length
      hocc (by omega)
    refine Tri.bind_ofOption hc ?_
    cases c with
    | true =>
      exact Tri.ofIte (fun _ => Tri.ofRet _ (fun _ hl => ⟨hl, hpw⟩)) (fun hne => absurd rfl hne)
    | false =>
      refine Tri.ofIte (fun hne => by simp at hne) (fun _ => ?_)
      have hin := hcf rfl
      have hclear := hillConflict_false hocc hc
      obtain ⟨o1, ho1, hlen1'⟩ := set1_total occupied (r2 + xo + 1 - xo) true
        (by omega) (by omega)
      refine Tri.bind_ofOption ho1 ?_
      obtain ⟨o2, ho2, hlen2⟩ := set1_total o1 (r2 + xo + 1 - xo + (r1 + 3)) true
        (by omega) (by omega)
      refine Tri.bind_ofOption ho2 ?_
      have hmarks' : SegMarks xo o2 (segs ++ [(r2 + xo + 1, r1 + 3)]) := by
        intro a ha
        rw [at1_set1 ho2, at1_set1 ho2, at1_set1 ho1, at1_set1 ho1]
        rcases List.mem_append.mp ha with ha | ha
        · obtain ⟨m1, m2⟩ := hmarks a ha
          rw [m1, m2]
          constructor <;> split_ifs <;> rfl
        · rw [List.mem_singleton] at ha
          subst ha
          constructor
          · rw [if_neg (by omega), if_pos rfl]
          · rw [if_pos rfl]
      have hpw' : (segs ++ [(r2 + xo + 1, r1 + 3)]).Pairwise hillApart := by
        rw [List.pairwise_append]
        refine ⟨hpw, List.pairwise_singleton _ _, fun a ha b hb => ?_⟩
        rw [List.mem_singleton] at hb
        subst hb
        obtain ⟨m1, m2⟩ := hmarks a ha
        intro c hc'
        have hcl := hclear (c - xo) (by simp only at hc'; omega)
        constructor
        · intro e
          rw [e] at hcl
          exact hcl m1
        · intro e
          rw [e, show a.1 + a.2 - xo = a.1 - xo + a.2 by ring] at hcl
          exact hcl m2
      refine Tri.bind (addEnemyLine_spec hf g _ _ _ hP.2) (fun _ => ?_)
      refine Tri.bind_nextInt hf _ (by norm_num) (by norm_num) (fun r3 _ _ => ?_)
      have hpaint : Tri M P
          (forRange (r2 + xo + 1) (r2 + xo + 1 + (r1 + 3)) () fun x _ =>
            forRange (hcur - 2 - r) floor () fun y _ =>
              hillPaint (r2 + xo + 1) (r1 + 3) (hcur - 2 - r) x y)
          (fun _ l => P l) := by
        refine Tri.forRange_inv _ _ _ _ (fun x _ _ _ => ?_)
        refine Tri.forRange_inv _ _ _ _ (fun y _ _ hy => ?_)
        exact hillPaint_spec w h hw hh hWF _ _ _ x y (fun l b hl => hP.1 l x y b hy hl)
      refine Tri.ofIte (fun _ => ?_) (fun _ => ?_)
      · refine Tri.bind (decorate_spec hf g _ _ _ (hP.weaken (by omega))) (fun _ => ?_)
        refine Tri.bind hpaint (fun _ => ?_)
        exact Tri.ofIte (fun hne => by simp at hne)
          (fun _ => Tri.ofRet _ (fun _ hl => ⟨hl, hpw'⟩))
      · refine Tri.bind hpaint (fun _ => ?_)
        refine Tri.ofIte (fun _ => ?_) (fun hne => absurd trivial hne)
        exact ih (hcur - 2 - r) o2 _ (by omega) (by omega) (by omega) (by omega) hmarks' hpw'

/-- A hill zone returns, and every platform it places keeps clear of the
marks of the platforms placed before it. -/
theorem buildHillStraightSegs_spec {M : Bool} (w h : Int) (hw : 1 ≤ w) (hh : 1 ≤ h)
    {fuel : Nat} (hf : Random.enoughFuel ≤ fuel) (hfh : h ≤ fuel)
    (g : LevelGenerator) (hg : g.height = h) (xo maxLength : Int)
    (hm0 : 0 ≤ maxLength) (hM : M = true → 10 ≤ maxLength) :
    Tri M (fun l => l.WF w h) (buildHillStraightSegs g fuel xo maxLength)
      (fun r l => l.WF w h ∧ r.2.Pairwise hillApart) := by
  unfold buildHillStraightSegs
  simp only [bind_eq, ret_andThen, andThen_assoc]
  refine Tri.bind_nextInt hf _ (by norm_num) (by norm_num) (fun r hr0 hr1 => ?_)
  refine Tri.bind_nextInt hf _ (by norm_num) (by norm_num) (fun r1 h10 h11 => ?_)
  generalize hL : (if r + 10 > maxLength then maxLength else r + 10) = L
  have hL0 : 0 ≤ L := by rw [← hL]; split_ifs <;> omega
  have hL1 : L ≤ 19 := by rw [← hL]; split_ifs <;> omega
  have hLM : M = true → 10 ≤ L := fun hm => by
    have := hM hm
    rw [← hL]
    split_ifs <;> omega
  have hst := Level.stable_ground w h (g.height - 1 - r1) (fun _ _ => False)
    (fun x y hs => hs.elim)
  refine Tri.bind (R := fun _ l => l.WF w h ∧ l.Ground (fun _ _ => False)) ?_ (fun _ => ?_)
  · exact (fillGround_spec (M := M) w h (fun _ _ => False) g xo (xo + L)
      (g.height - 1 - r1) (fun _ _ hs => hs.elim)).conseq
        (fun l hl => ⟨hl, fun _ _ hs => hs.elim⟩)
        (fun _ l hl => ⟨hl.1, fun _ _ hs => hs.elim⟩)
  · refine Tri.bind (addEnemyLine_spec hf g _ _ _ hst.2) (fun _ => ?_)
    refine Tri.bind (hillLoopSegs_spec w h hw hh (fun l hl => hl.1) hf g xo L _
      (by omega) hLM hst fuel (g.height - 1 - r1) _ []
      (by unfold Random.enoughFuel at hf; omega) (by omega) (le_refl _)
      (by rw [List.length_replicate]; omega) (fun a ha => by cases ha)
      List.Pairwise.nil) (fun segs => ?_)
    exact Tri.ofRet _ (fun l hl => ⟨hl.1.1, hl.2⟩)

end LevelGenerator

set_option maxRecDepth 10000000 in
/-- The hill zone built at column 10 of the empty level of 40 by 15 from
`Random(3)` at difficulty 0: 14 columns long, with the platforms `(17, 4)`
and then `(15, 3)`. -/
theorem buildHillStraightSegs_seed3 :
    ((LevelGenerator.buildHillStraightSegs ((LevelGenerator.init 40 15 0 0 0).setOdds 0
        TYPE_OVERGROUND) Random.enoughFuel 10 30
        ⟨Random.setSeed 3, Level.blank 40 15, false⟩).map (fun r => r.1))
      = some (14, [(17, 4), (15, 3)]) := by
  decide!

/-- C21 fails: on the empty level of 40 by 15, from `Random(3)` at
difficulty 0, the call `buildHillStraight(10, 30)` places the platform of
the columns `[17, 21)` and then the platform of the columns `[15, 18)`:
the two spans share the column 17. -/
theorem C21_overlap_counterexample :
    ∃ L segs s', LevelGenerator.buildHillStraightSegs
          ((LevelGenerator.init 40 15 0 0 0).setOdds 0 TYPE_OVERGROUND) Random.enoughFuel
          10 30 ⟨Random.setSeed 3, Level.blank 40 15, false⟩ = some ((L, segs), s') ∧
      LevelGenerator.buildHillStraight
          ((LevelGenerator.init 40 15 0 0 0).setOdds 0 TYPE_OVERGROUND) Random.enoughFuel
          10 30 ⟨Random.setSeed 3, Level.blank 40 15, false⟩ = some (L, s') ∧
      (17, 4) ∈ segs ∧ (15, 3) ∈ segs ∧ spansOverlap (17, 4) (15, 3) := by
  have hev := buildHillStraightSegs_seed3
  cases hrun : LevelGenerator.buildHillStraightSegs
      ((LevelGenerator.init 40 15 0 0 0).setOdds 0 TYPE_OVERGROUND) Random.enoughFuel
      10 30 ⟨Random.setSeed 3, Level.blank 40 15, false⟩ with
  | none =>
    rw [hrun] at hev
    cases hev
  | some r =>
    obtain ⟨⟨L, segs⟩, s'⟩ := r
    rw [hrun] at hev
    simp only [Option.map_some', Option.some.injEq, Prod.mk.injEq] at hev
    obtain ⟨_, hsegs⟩ := hev
    subst hsegs
    refine ⟨L, _, s', rfl, ?_, by simp, by simp, ⟨17, by norm_num, by norm_num,
      by norm_num, by norm_num⟩⟩
    rw [← LevelGenerator.buildHillStraight_erase, LevelGenerator.andThen_some hrun]
    rfl

/-- C21, amended: a call of `buildHillStraight` on a grid with at least
one cell returns, and for any two platforms it places, the earlier one
`a` with first column `a.1` and length `a.2` and the later one `b`, none of
the columns `b.1 - 1`, `b.1`, `b.1 + b.2`, `b.1 + b.2 + 1` is `a.1` or
`a.1 + a.2`: the ends of the later platform neither coincide with nor lie
just outside the marks of the earlier one. -/
theorem C21_hill_platform_marks (w h : Int) (hw : 1 ≤ w) (hh : 1 ≤ h) {fuel : Nat}
    (hf : Random.enoughFuel ≤ fuel) (hfh : h ≤ fuel) (g : LevelGenerator)
    (hg : g.height = h) (xo maxLength : Int) (hm0 : 0 ≤ maxLength) (s : GenState)
    (hs : s.level.WF w h) :
    ∃ L segs s', LevelGenerator.buildHillStraightSegs g fuel xo maxLength s
          = some ((L, segs), s') ∧
      LevelGenerator.buildHillStraight g fuel xo maxLength s = some (L, s') ∧
      segs.Pairwise hillApart := by
  obtain ⟨r, s', hrun, ⟨_, hpw⟩, _⟩ :=
    LevelGenerator.buildHillStraightSegs_spec (M := false) w h hw hh hf hfh g hg xo
      maxLength hm0 (fun hc => by cases hc) s hs (fun hc => by cases hc)
  refine ⟨r.1, r.2, s', hrun, ?_, hpw⟩
  rw [← LevelGenerator.buildHillStraight_erase, LevelGenerator.andThen_some hrun]
  rfl

/-- C21, amended, for the hill zone built at column 10 of the empty level
of 40 by 15 from `Random(3)`. -/
theorem C21_hill_platform_marks_witness :
    ((1 : Int) ≤ 40 ∧ (1 : Int) ≤ 15 ∧ Random.enoughFuel ≤ Random.enoughFuel ∧
      (15 : Int) ≤ Random.enoughFuel ∧ (0 : Int) ≤ 30 ∧ (Level.blank 40 15).WF 40 15) ∧
    ∃ L segs s', LevelGenerator.buildHillStraightSegs
          ((LevelGenerator.init 40 15 0 0 0).setOdds 0 TYPE_OVERGROUND) Random.enoughFuel
          10 30 ⟨Random.setSeed 3, Level.blank 40 15, false⟩ = some ((L, segs), s') ∧
      LevelGenerator.buildHillStraight
          ((LevelGenerator.init 40 15 0 0 0).setOdds 0 TYPE_OVERGROUND) Random.enoughFuel
          10 30 ⟨Random.setSeed 3, Level.blank 40 15, false⟩ = some (L, s') ∧
      segs.Pairwise hillApart :=
  ⟨⟨by norm_num, by norm_num, le_refl _, by unfold Random.enoughFuel; norm_num,
      by norm_num, Level.blank_WF 40 15⟩,
    C21_hill_platform_marks 40 15 (by norm_num) (by norm_num) (le_refl _)
      (by unfold Random.enoughFuel; norm_num)
      ((LevelGenerator.init 40 15 0 0 0).setOdds 0 TYPE_OVERGROUND) rfl 10 30 (by norm_num)
      ⟨Random.setSeed 3, Level.blank 40 15, false⟩ (Level.blank_WF 40 15)⟩

/-- C25: the tier loop of `buildHillStraight` has no iteration cap, yet it
returns within `max(1, ceil(floor / 2))` iterations from every generator
state on a grid with at least one cell: the draw `nextInt(3)` lowers `h`
by at least 2 and at most 4 in every iteration, and the loop stops as soon
as `h <= 0`.  The fourth argument of `hillLoop` is the number of
iterations the loop may run. -/
theorem C25_hill_loop_bound (w h : Int) (hw : 1 ≤ w) (hh : 1 ≤ h) {fuel : Nat}
    (hf : Random.enoughFuel ≤ fuel) (g : LevelGenerator) (xo length floor : Int)
    (hlen1 : length < 2 ^ 31) (occupied : List Bool)
    (hocc : (occupied.length : Int) = length) (s : GenState) (hs : s.level.WF w h) :
    (∀ r : Random, ∃ v r', r.nextInt fuel 3 = some (v, r') ∧ 2 ≤ 2 + v ∧ 2 + v ≤ 4) ∧
    ∃ s', LevelGenerator.hillLoop g fuel xo length floor
        (max 1 ((floor + 1) / 2)).toNat floor occupied s = some ((), s') := by
  constructor
  · intro r
    obtain ⟨v, r', hr⟩ := Random.nextInt_total hf 3 (by norm_num) r
    have := Random.nextInt_range (by norm_num) (by norm_num) hr
    exact ⟨v, r', hr, by omega, by omega⟩
  · have hst := Level.stable_ground w h floor (fun _ _ => False) (fun x y hs => hs.elim)
    obtain ⟨segs, s', hrun, _, _⟩ :=
      LevelGenerator.hillLoopSegs_spec (M := false) w h hw hh (fun l hl => hl.1) hf g xo
        length floor hlen1 (fun hc => by cases hc) hst (max 1 ((floor + 1) / 2)).toNat
        floor occupied [] (by omega) (by omega) (le_refl _) hocc (fun a ha => by cases ha)
        List.Pairwise.nil s ⟨hs, fun _ _ hs => hs.elim⟩ (fun hc => by cases hc)
    refine ⟨s', ?_⟩
    rw [← LevelGenerator.hillLoop_erase g fuel xo length floor _ floor occupied [],
      LevelGenerator.andThen_some hrun]
    rfl

/-- C25 for a zone of 14 columns with the floor row 11 on the empty level
of 40 by 15, from `Random(3)`: the loop returns within 6 iterations. -/
theorem C25_hill_loop_bound_witness :
    ((1 : Int) ≤ 40 ∧ (1 : Int) ≤ 15 ∧ Random.enoughFuel ≤ Random.enoughFuel ∧
      (14 : Int) < 2 ^ 31 ∧ (((List.replicate 14 false).length : Nat) : Int) = 14 ∧
      (Level.blank 40 15).WF 40 15) ∧
    ∃ s', LevelGenerator.hillLoop ((LevelGenerator.init 40 15 0 0 0).setOdds 0
        TYPE_OVERGROUND) Random.enoughFuel 10 14 11 (max 1 (((11 : Int) + 1) / 2)).toNat 11
        (List.replicate 14 false) ⟨Random.setSeed 3, Level.blank 40 15, false⟩
          = some ((), s') :=
  ⟨⟨by norm_num, by norm_num, le_refl _, by norm_num, by simp, Level.blank_WF 40 15⟩,
    (C25_hill_loop_bound 40 15 (by norm_num) (by norm_num) (le_refl _)
      ((LevelGenerator.init 40 15 0 0 0).setOdds 0 TYPE_OVERGROUND) 10 14 11 (by norm_num)
      (List.replicate 14 false) (by simp) ⟨Random.setSeed 3, Level.blank 40 15, false⟩
      (Level.blank_WF 40 15)).2⟩

end InfiniteTux
namespace InfiniteTux

/-! ## Termination of the zone loop -/

namespace LevelGenerator

open Gen

/-- The ghost list does not change what the zone loop does. -/
theorem zoneLoop_erase (g : LevelGenerator) (fuel : Nat) :
    ∀ (n : Nat) (length : Int) (calls : List (Int × Int × Int)),
      (zoneLoopTrace g fuel n length calls).andThen (fun r => ret r.1)
        = zoneLoop g fuel n length := by
  intro n
  induction n with
  | zero => intro length calls; rfl
  | succ n ih =>
    intro length calls
    unfold zoneLoop zoneLoopTrace
    simp only [bind_eq, ret_andThen, andThen_assoc, ite_andThen, ih]

/-- The zone loop returns within `n - 1` zones when at most `2 * (n - 1)`
columns are missing up to `width - 64`; every call of `buildZone` it makes
is as `zoneCallOK` says, and two columns at least are built per call. -/
theorem zoneLoopTrace_spec {M : Bool} (w h : Int) (hw : 1 ≤ w) (hh : 1 ≤ h)
    {fuel : Nat} (hf : Random.enoughFuel ≤ fuel) (hfh : h ≤ fuel)
    (g : LevelGenerator) (hg : g.height = h) (ht0 : 0 < g.totalOdds)
    (ht1 : g.totalOdds < 2 ^ 31) :
    ∀ (n : Nat) (length : Int) (calls : List (Int × Int × Int)),
      0 < n → w - 64 - length + 2 ≤ 2 * n →
      Tri M (fun l => l.WF w h) (zoneLoopTrace g fuel n length calls)
        (fun r l => l.WF w h ∧ w - 64 ≤ r.1 ∧ length ≤ r.1 ∧ (r.1 = length ∨ r.1 ≤ w - 46) ∧
          ∃ new, r.2 = calls ++ new ∧ (∀ c ∈ new, zoneCallOK w c ∧ length ≤ c.1) ∧
            length + 2 * new.length ≤ r.1 ∧
            (new = [] ∨ length + 2 * new.length ≤ w - 63)) := by
  intro n
  induction n with
  | zero => intro length calls h0; omega
  | succ n ih =>
    intro length calls _ hn
    unfold zoneLoopTrace
    simp only [bind_eq, ret_andThen, andThen_assoc]
    refine Tri.bind_getLevel (fun l0 hl0 => ?_)
    have hw0 : l0.width = w := hl0.1
    rw [hw0]
    refine Tri.pre (P := fun l => l.WF w h) (fun l hl => by rw [hl]; exact hl0) ?_
    refine Tri.ofIte (fun hlt => ?_) (fun hge => ?_)
    · refine Tri.bind (buildZone_spec w h hw hh hf hfh g hg ht0 ht1 length (w - length)
        (by omega)) (fun z => ?_)
      refine Tri.pre (P := fun l => (2 ≤ z ∧ z ≤ 19) ∧ l.WF w h)
        (fun l hl => ⟨hl.2, hl.1⟩) (Tri.assume (fun hz => ?_))
      refine (ih (length + z) (calls ++ [(length, w - length, z)]) (by omega)
        (by omega)).post (fun r l hl => ?_)
      obtain ⟨h1, h2, h3, h4, new, e, hall, hcnt, hcap⟩ := hl
      refine ⟨h1, h2, by omega, Or.inr (by omega), (length, w - length, z) :: new, ?_, ?_, ?_,
        Or.inr ?_⟩
      · rw [e, List.append_assoc]
        rfl
      · intro c hc
        rcases List.mem_cons.mp hc with hc | hc
        · subst hc
          exact ⟨⟨hlt, rfl, by simp only; omega, hz.1, hz.2, by simp only; omega,
            by simp only; omega⟩, le_refl _⟩
        · exact ⟨(hall c hc).1, by have := (hall c hc).2; omega⟩
      · rw [List.length_cons]
        push_cast
        omega
      · rw [List.length_cons]
        push_cast
        rcases hcap with hcap | hcap
        · rw [hcap, List.length_nil]
          push_cast
          omega
        · omega
    · refine Tri.ofRet _ (fun l hl => ?_)
      refine ⟨hl, ?_, le_refl _, Or.inl rfl, [], ?_, ?_, ?_, Or.inl rfl⟩
      · simp only
        omega
      · simp
      · intro c hc
        cases hc
      · simp

end LevelGenerator

/-- C24: the zone loop of `createLevelInternal` terminates.  From every
generator state on a grid of `width` columns and at least one row, for
every difficulty in the range where the weight arithmetic does not leave
the `int` range (`-2^31 <= 5 * difficulty - 10` and
`22 + 8 * difficulty < 2^31`) and every level type, the loop entered with at least one column built returns; every call of `buildZone`
it makes is made with fewer than `width - 64` columns built, receives
`maxLength = width - built > 64` and returns a length between 2 and 19, so
that the count of built columns grows with every call and stays within
`width`; at most `(width - 64) / 2` calls are made, and at least
`width - 64` columns are built at the end. -/
theorem C24_zone_loop_terminates (width height : Int) (hw : 1 ≤ width) (hh : 1 ≤ height)
    {fuel : Nat} (hf : Random.enoughFuel ≤ fuel) (hfw : width ≤ fuel) (hfh : height ≤ fuel)
    (g0 : LevelGenerator) (hg : g0.height = height) (difficulty type : Int)
    (hdlo : -(2 : Int) ^ 31 ≤ 5 * difficulty - 10) (hd : 22 + 8 * difficulty < 2 ^ 31)
    (length : Int) (hl : 1 ≤ length) (s : GenState) (hs : s.level.WF width height) :
    ∃ L calls s',
      LevelGenerator.zoneLoopTrace (g0.setOdds difficulty type) fuel fuel length [] s
        = some ((L, calls), s') ∧
      LevelGenerator.zoneLoop (g0.setOdds difficulty type) fuel fuel length s
        = some (L, s') ∧
      (∀ c ∈ calls, zoneCallOK width c) ∧
      calls.length ≤ ((width - 64) / 2).toNat ∧
      width - 64 ≤ L ∧ length + 2 * calls.length ≤ L ∧ (L = length ∨ L ≤ width - 46) := by
  have ht0 := LevelGenerator.totalOdds_ge g0 difficulty type hdlo hd
  obtain ⟨r, s', hrun, ⟨_, h2, _, h4, new, e, hall, hcnt, hcap⟩, _⟩ :=
    LevelGenerator.zoneLoopTrace_spec (M := false) width height hw hh hf hfh
      (g0.setOdds difficulty type) hg (by omega)
      (LevelGenerator.totalOdds_lt g0 difficulty type) fuel length []
      (by unfold Random.enoughFuel at hf; omega) (by omega) s hs (fun hc => by cases hc)
  rw [List.nil_append] at e
  subst e
  refine ⟨r.1, r.2, s', hrun, ?_, fun c hc => (hall c hc).1, ?_, h2, hcnt, h4⟩
  · rw [← LevelGenerator.zoneLoop_erase _ fuel fuel length [],
      LevelGenerator.andThen_some hrun]
    rfl
  · rcases hcap with hcap | hcap
    · rw [hcap, List.length_nil]
      exact Nat.zero_le _
    · omega

/-- C24 for the level of 320 by 15 at difficulty 3, from `Random(5)` and
12 columns built. -/
theorem C24_zone_loop_terminates_witness :
    ((1 : Int) ≤ 320 ∧ (1 : Int) ≤ 15 ∧ Random.enoughFuel ≤ Random.enoughFuel ∧
      (320 : Int) ≤ Random.enoughFuel ∧ (15 : Int) ≤ Random.enoughFuel ∧
      -(2 : Int) ^ 31 ≤ 5 * 3 - 10 ∧ (22 : Int) + 8 * 3 < 2 ^ 31 ∧ (1 : Int) ≤ 12 ∧
      (Level.blank 320 15).WF 320 15) ∧
    ∃ L calls s',
      LevelGenerator.zoneLoopTrace ((LevelGenerator.init 320 15 0 0 0).setOdds 3 TYPE_CASTLE)
        Random.enoughFuel Random.enoughFuel 12 []
        ⟨Random.setSeed 5, Level.blank 320 15, false⟩ = some ((L, calls), s') ∧
      LevelGenerator.zoneLoop ((LevelGenerator.init 320 15 0 0 0).setOdds 3 TYPE_CASTLE)
        Random.enoughFuel Random.enoughFuel 12
        ⟨Random.setSeed 5, Level.blank 320 15, false⟩ = some (L, s') ∧
      (∀ c ∈ calls, zoneCallOK 320 c) ∧
      calls.length ≤ (((320 : Int) - 64) / 2).toNat ∧
      (320 : Int) - 64 ≤ L ∧ 12 + 2 * calls.length ≤ L ∧ (L = 12 ∨ L ≤ 320 - 46) :=
  ⟨⟨by norm_num, by norm_num, le_refl _, by unfold Random.enoughFuel; norm_num,
      by unfold Random.enoughFuel; norm_num, by norm_num, by norm_num, by norm_num,
      Level.blank_WF 320 15⟩,
    C24_zone_loop_terminates 320 15 (by norm_num) (by norm_num) (le_refl _)
      (by unfold Random.enoughFuel; norm_num) (by unfold Random.enoughFuel; norm_num)
      (LevelGenerator.init 320 15 0 0 0) rfl 3 TYPE_CASTLE (by norm_num) (by norm_num) 12
      (by norm_num)
      ⟨Random.setSeed 5, Level.blank 320 15, false⟩ (Level.blank_WF 320 15)⟩

end InfiniteTux
namespace InfiniteTux

/-! ## The opening run -/

theorem Level.data_setBlock (l : Level) (x y : Int) (b : Nat) :
    (l.setBlock x y b).data = l.data := by
  unfold Level.setBlock
  split <;> rfl

/-- C26: the opening run is safe and undecorated.  From every generator
state on a well-formed grid, `buildStraight(xo, maxLength, true)` returns
`min(maxLength, L)` for some `L` in 10..14; it leaves the markers and the
countdown grid as they were, and every cell either keeps its tile or lies
in a column of `[xo, xo + length)` at a row from the floor row down and
holds the solid-ground tile `1 + 9 * 16`: no marker, coin or block is
placed. -/
theorem C26_opening_run (w h : Int) {fuel : Nat} (hf : Random.enoughFuel ≤ fuel)
    (g : LevelGenerator) (hg : g.height = h) (xo maxLength : Int) (s : GenState)
    (hs : s.level.WF w h) :
    ∃ L s', LevelGenerator.buildStraight g fuel xo maxLength true s = some (L, s') ∧
      (∃ L', 10 ≤ L' ∧ L' ≤ 14 ∧ L = min maxLength L') ∧
      s'.level.spriteTemplates = s.level.spriteTemplates ∧
      s'.level.data = s.level.data ∧
      ∃ floor, h - 4 ≤ floor ∧ floor ≤ h - 1 ∧
        ∀ x y, s'.level.tile x y = s.level.tile x y ∨
          (xo ≤ x ∧ x < xo + L ∧ floor ≤ y ∧
            s'.level.tile x y = some (u8 (1 + 9 * 16))) := by
  obtain ⟨L, s', hrun, ⟨hlen, floor, hf0, hf1, _, hsp, hdata, htile⟩, _⟩ :=
    LevelGenerator.buildStraight_frame (M := false) h hf g hg xo maxLength true
      (fun L floor l => l.WF w h ∧ l.spriteTemplates = s.level.spriteTemplates ∧
        l.data = s.level.data ∧
        ∀ x y, l.tile x y = s.level.tile x y ∨
          (xo ≤ x ∧ x < xo + L ∧ floor ≤ y ∧ l.tile x y = some (u8 (1 + 9 * 16))))
      (fun L floor _ _ _ => ⟨fun l x y b hW hl => (by
          obtain ⟨hx0, hx1, hb⟩ := hW
          obtain ⟨hwf, h1, h2, h3⟩ := hl
          rcases hb with ⟨hb, hy⟩ | ⟨⟨hc, _⟩, _⟩
          · refine ⟨hwf.setBlock x y b, ?_, ?_, fun x' y' => ?_⟩
            · rw [Level.spriteTemplates_setBlock, h1]
            · rw [Level.data_setBlock, h2]
            · rw [Level.tile_setBlock hwf]
              split
              · rename_i hc
                right
                rw [hc.1, hc.2.1, hb]
                exact ⟨hx0, hx1, hy, rfl⟩
              · exact h3 x' y'
          · cases hc),
        fun l x y st hV _ => (by
          have := hV.2.2.2.2.1
          cases this)⟩)
      s (fun L floor _ _ _ => ⟨hs, rfl, rfl, fun x y => Or.inl rfl⟩) (fun hc => by cases hc)
  refine ⟨L, s', hrun, ?_, hsp, hdata, floor, hf0, hf1, htile⟩
  simp only [LevelGenerator.LenOK, if_true] at hlen
  by_cases h10 : 10 ≤ L
  · exact ⟨L, h10, hlen.2.1, by rw [min_def]; split_ifs <;> omega⟩
  · exact ⟨10, le_refl _, by norm_num, by rw [min_def]; split_ifs <;> omega⟩

/-- C26 for the first call of `createLevelInternal` on the level of 320 by
15, from `Random(1)`. -/
theorem C26_opening_run_witness :
    (Random.enoughFuel ≤ Random.enoughFuel ∧ (Level.blank 320 15).WF 320 15) ∧
    ∃ L s', LevelGenerator.buildStraight ((LevelGenerator.init 320 15 0 0 0).setOdds 10
          TYPE_OVERGROUND) Random.enoughFuel 0 320 true
          ⟨Random.setSeed 1, Level.blank 320 15, false⟩ = some (L, s') ∧
      (∃ L', 10 ≤ L' ∧ L' ≤ 14 ∧ L = min 320 L') ∧
      s'.level.spriteTemplates = (Level.blank 320 15).spriteTemplates ∧
      s'.level.data = (Level.blank 320 15).data ∧
      ∃ floor, (15 : Int) - 4 ≤ floor ∧ floor ≤ 15 - 1 ∧
        ∀ x y, s'.level.tile x y = (Level.blank 320 15).tile x y ∨
          (0 ≤ x ∧ x < 0 + L ∧ floor ≤ y ∧
            s'.level.tile x y = some (u8 (1 + 9 * 16))) :=
  ⟨⟨le_refl _, Level.blank_WF 320 15⟩,
    C26_opening_run 320 15 (le_refl _)
      ((LevelGenerator.init 320 15 0 0 0).setOdds 10 TYPE_OVERGROUND) rfl 0 320
      ⟨Random.setSeed 1, Level.blank 320 15, false⟩ (Level.blank_WF 320 15)⟩

end InfiniteTux
namespace InfiniteTux

/-! ## The autotiling pass: the fallback branch and the frame -/

/-- C28: the fallback branch of the classification chain of `fixWalls` is
unreachable.  For each of the 16 values of the four corner flags one of
the five conditions that precede the fallback holds, so the chain never
yields the fallback id `0 + 1 * 16 + to`, and for the offset of every
level type the byte it hands to `setBlock` is never the byte of the
fallback id. -/
theorem C28_fallback_unreachable (b00 b10 b01 b11 : Bool) :
    ((b00 = b10 ∧ b01 = b11) ∨ (b00 = b01 ∧ b10 = b11) ∨ (b00 = b11 ∧ b01 = b10)
        ∨ b00 = b10 ∨ b01 = b11)
      ∧ (∀ toff : Int,
          LevelGenerator.wallTile b00 b10 b01 b11 toff ≠ some (0 + 1 * 16 + toff))
      ∧ (∀ (type t : Int),
          LevelGenerator.wallTile b00 b10 b01 b11 (LevelGenerator.tileOffset type) = some t →
            u8 t ≠ u8 (0 + 1 * 16 + LevelGenerator.tileOffset type)) := by
  refine ⟨?_, ?_, ?_⟩
  · cases b00 <;> cases b10 <;> cases b01 <;> cases b11 <;> decide
  · intro toff hc
    cases b00 <;> cases b10 <;> cases b01 <;> cases b11 <;>
      simp [LevelGenerator.wallTile] at hc
  · intro type t ht hc
    have hoff : LevelGenerator.tileOffset type = 0 ∨ LevelGenerator.tileOffset type = 8
        ∨ LevelGenerator.tileOffset type = 12 := by
      unfold LevelGenerator.tileOffset
      split_ifs <;> simp
    unfold u8 at hc
    rcases hoff with e | e | e <;> rw [e] at ht hc <;>
      cases b00 <;> cases b10 <;> cases b01 <;> cases b11 <;>
        simp [LevelGenerator.wallTile] at ht <;> subst ht <;> omega

/-- C29: `fixWalls` modifies only ground cells.  On every grid with at
least one cell and for every level type the pass returns, and every cell
of the grid whose tile before the pass is not the placeholder `1 + 9 * 16`
has its four corner-vertex flags false and holds the same tile after the
pass; the cells of the border, whose neighbours are read capped, are
included. -/
theorem C29_fixWalls_ground_only (g : LevelGenerator) (s : GenState) (w h : Int)
    (hw : 1 ≤ w) (hh : 1 ≤ h) (hgw : g.width = w) (hgh : g.height = h)
    (hs : s.level.WF w h) :
    ∃ s', LevelGenerator.fixWalls g s = some ((), s') ∧
      ∀ x y, 0 ≤ x → x < w → 0 ≤ y → y < h →
        s.level.tile x y ≠ some (u8 (1 + 9 * 16)) →
          (s.level.vertexFull x y = false ∧ s.level.vertexFull (x + 1) y = false
            ∧ s.level.vertexFull x (y + 1) = false
            ∧ s.level.vertexFull (x + 1) (y + 1) = false)
          ∧ s'.level.tile x y = s.level.tile x y := by
  obtain ⟨u, s', hrun, ⟨_, hval⟩, _⟩ :=
    LevelGenerator.fixWalls_val (M := false) w h hw hh s.level hs g hgw hgh s rfl
      (fun hc => by cases hc)
  refine ⟨s', hrun, fun x y hx0 hx1 hy0 hy1 hne => ⟨?_, ?_⟩⟩
  · exact Level.vertexFull_of_ne_ground hs hx0 hx1 hy0 hy1 hne
  · rw [hval x y hx0 hx1 hy0 hy1]
    exact LevelGenerator.autotile_of_ne_ground g hs hx0 hx1 hy0 hy1 hne

/-- C29 on the grid `diagonalGrid` of an underground level: the cells
`(2, 0)` and `(0, 2)`, both in a corner of the grid, are empty and stay
empty. -/
theorem C29_fixWalls_ground_only_witness :
    ((1 : Int) ≤ 3 ∧ diagonalGrid.WF 3 3) ∧
    ∃ s', LevelGenerator.fixWalls (LevelGenerator.init 3 3 TYPE_UNDERGROUND 0 0)
        ⟨Random.setSeed 0, diagonalGrid, false⟩ = some ((), s') ∧
      ∀ x y, 0 ≤ x → x < 3 → 0 ≤ y → y < 3 →
        diagonalGrid.tile x y ≠ some (u8 (1 + 9 * 16)) →
          (diagonalGrid.vertexFull x y = false ∧ diagonalGrid.vertexFull (x + 1) y = false
            ∧ diagonalGrid.vertexFull x (y + 1) = false
            ∧ diagonalGrid.vertexFull (x + 1) (y + 1) = false)
          ∧ s'.level.tile x y = diagonalGrid.tile x y := by
  have hwf : diagonalGrid.WF 3 3 := by
    refine ⟨rfl, rfl, rfl, ?_⟩
    intro col hc
    simp only [diagonalGrid, List.mem_cons, List.mem_singleton, List.not_mem_nil,
      or_false] at hc
    rcases hc with e | e | e <;> rw [e] <;> rfl
  exact ⟨⟨by norm_num, hwf⟩,
    C29_fixWalls_ground_only (LevelGenerator.init 3 3 TYPE_UNDERGROUND 0 0)
      ⟨Random.setSeed 0, diagonalGrid, false⟩ 3 3 (by norm_num) (by norm_num) rfl rfl hwf⟩

end InfiniteTux
namespace InfiniteTux

/-! ## The seed -/

namespace Random

/-- The state that `setSeed` installs is read off the low 48 bits of its
argument. -/
theorem setSeed_seed (seed : Int) :
    (setSeed seed).seed = (((seed % 2 ^ 48).toNat ^^^ 0x5DEECE66D : Nat) : Int) := by
  have hm : (toU64 seed ^^^ 0x5DEECE66D) &&& ((1 <<< 48) - 1)
      = (toU64 seed ^^^ 0x5DEECE66D) % 2 ^ 48 := by
    have h : ((1 : Nat) <<< 48) - 1 = 2 ^ 48 - 1 := by decide
    rw [h, Nat.and_pow_two_sub_one_eq_mod]
  have hlt : (toU64 seed ^^^ 0x5DEECE66D) % 2 ^ 48 < 2 ^ 48 := Nat.mod_lt _ (by norm_num)
  unfold setSeed
  simp only
  rw [hm, ofU64_small hlt, xor_mod_two_pow_of_lt _ _ 48 (by norm_num)]
  congr 2
  have h := mask48_eq seed
  have h2 : ((1 : Nat) <<< 48) - 1 = 2 ^ 48 - 1 := by decide
  rw [h2, Nat.and_pow_two_sub_one_eq_mod] at h
  exact h

theorem setSeed_range (seed : Int) :
    0 ≤ (setSeed seed).seed ∧ (setSeed seed).seed < 2 ^ 48 := by
  rw [setSeed_seed]
  have h0 : (0 : Int) ≤ seed % 2 ^ 48 := Int.emod_nonneg _ (by norm_num)
  have h1 : seed % 2 ^ 48 < 2 ^ 48 := Int.emod_lt_of_pos _ (by norm_num)
  have hlt : (seed % 2 ^ 48).toNat ^^^ 0x5DEECE66D < 2 ^ 48 :=
    Nat.xor_lt_two_pow (by omega) (by norm_num)
  constructor
  · exact Int.natCast_nonneg _
  · exact_mod_cast hlt

end Random

/-- C30: only the low 48 bits of the seed matter.  The state that
`Random(s)` installs and the state after every call of `next` lie in
`[0, 2^48)`; two seeds that agree modulo `2^48` install the same state, so
that every `next` and `nextInt` on `Random(s1)` and on `Random(s2)` returns
the same value and leaves the same state, and `createLevel` builds the
same level from the two seeds, for every width, height, difficulty and
level type. -/
theorem C30_seed_low_48_bits (s1 s2 : Int) (hs : s1 % 2 ^ 48 = s2 % 2 ^ 48) :
    (∀ s : Int, 0 ≤ (Random.setSeed s).seed ∧ (Random.setSeed s).seed < 2 ^ 48)
      ∧ (∀ (r : Random) (bits : Nat),
          0 ≤ (r.next bits).2.seed ∧ (r.next bits).2.seed < 2 ^ 48)
      ∧ Random.setSeed s1 = Random.setSeed s2
      ∧ (∀ bits : Nat, (Random.setSeed s1).next bits = (Random.setSeed s2).next bits)
      ∧ (∀ (fuel : Nat) (bound : Int),
          (Random.setSeed s1).nextInt fuel bound = (Random.setSeed s2).nextInt fuel bound)
      ∧ (∀ (clock type0 difficulty0 totalOdds0 : Int) (fuel : Nat)
          (width height difficulty type : Int),
          LevelGenerator.createLevel clock type0 difficulty0 totalOdds0 fuel width height
              s1 difficulty type
            = LevelGenerator.createLevel clock type0 difficulty0 totalOdds0 fuel width height
              s2 difficulty type) := by
  have e : Random.setSeed s1 = Random.setSeed s2 := by
    have h1 := Random.setSeed_seed s1
    have h2 := Random.setSeed_seed s2
    rw [hs] at h1
    cases hr1 : Random.setSeed s1 with
    | mk a =>
      cases hr2 : Random.setSeed s2 with
      | mk b =>
        rw [hr1] at h1
        rw [hr2] at h2
        simp only at h1 h2
        rw [h1, h2]
  refine ⟨Random.setSeed_range, fun r bits => ?_, e, fun bits => by rw [e],
    fun fuel bound => by rw [e], ?_⟩
  · rw [Random.next_seed]
    exact ⟨Int.emod_nonneg _ (by norm_num), Int.emod_lt_of_pos _ (by norm_num)⟩
  · intro clock type0 difficulty0 totalOdds0 fuel width height difficulty type
    unfold LevelGenerator.createLevel LevelGenerator.createLevelInternal
      LevelGenerator.createLevelRun
    simp only [e]

/-- C30 for the seeds 5 and `5 + 2^48`. -/
theorem C30_seed_low_48_bits_witness :
    ((5 : Int) % 2 ^ 48 = (5 + 2 ^ 48) % 2 ^ 48) ∧
    Random.setSeed 5 = Random.setSeed (5 + 2 ^ 48) ∧
    LevelGenerator.createLevel 0 0 0 0 Random.enoughFuel 320 15 5 3 TYPE_CASTLE
      = LevelGenerator.createLevel 0 0 0 0 Random.enoughFuel 320 15 (5 + 2 ^ 48) 3
          TYPE_CASTLE :=
  ⟨by norm_num, (C30_seed_low_48_bits 5 (5 + 2 ^ 48) (by norm_num)).2.2.1,
    (C30_seed_low_48_bits 5 (5 + 2 ^ 48) (by norm_num)).2.2.2.2.2 0 0 0 0 Random.enoughFuel
      320 15 3 TYPE_CASTLE⟩

end InfiniteTux
namespace InfiniteTux

/-! ## The table reads of `noise` -/

namespace ImprovedNoise

theorem latticeIndex_range (f : Int) : 0 ≤ latticeIndex f ∧ latticeIndex f ≤ 255 := by
  unfold latticeIndex
  have h : toU32 f &&& 255 ≤ 255 := Nat.and_le_right
  constructor
  · exact Int.natCast_nonneg _
  · exact_mod_cast h

/-- The masked index is the coordinate reduced modulo 256, also for a
negative coordinate. -/
theorem latticeIndex_eq (f : Int) : latticeIndex f = f % 256 := by
  unfold latticeIndex toU32
  have h : (255 : Nat) = 2 ^ 8 - 1 := by norm_num
  rw [h, Nat.and_pow_two_sub_one_eq_mod]
  omega

/-- The table that the shuffle leaves holds bytes only. -/
theorem byteTable_of_shuffle {st : Random × List Int × List Int} (h : ShuffleInv 256 st) :
    ByteTable st.2.2 := by
  obtain ⟨h1, h2, h3, h4⟩ := h
  refine ⟨h3, fun i i0 i1 => ?_⟩
  have key : ∀ j : Nat, j < 256 → ∃ v : Int, st.2.1[j]? = some v ∧ 0 ≤ v ∧ v ≤ 255 := by
    intro j hj
    have hj' : j < st.2.1.length := by omega
    refine ⟨st.2.1[j], List.getElem?_eq_getElem hj', ?_⟩
    have hm := (h2.mem_iff (a := st.2.1[j])).mp (List.getElem_mem hj')
    rw [List.mem_map] at hm
    obtain ⟨k, hk, e⟩ := hm
    rw [List.mem_range] at hk
    omega
  unfold LevelGenerator.at1
  rw [if_neg (by omega)]
  by_cases hlt : i < 256
  · obtain ⟨v, e, hv⟩ := key i.toNat (by omega)
    exact ⟨v, by rw [(h4 i.toNat (by omega)).1, e], hv⟩
  · obtain ⟨v, e, hv⟩ := key (i.toNat - 256) (by omega)
    have hi : i.toNat = i.toNat - 256 + 256 := by omega
    exact ⟨v, by rw [hi, (h4 (i.toNat - 256) (by omega)).2, e], hv⟩

/-- On a table of bytes every read of `noise` is inside the table. -/
theorem noiseReads_spec (n : ImprovedNoise) (hn : ByteTable n.p) (fx fy fz : Int) :
    ∃ idx hashes, n.noiseReads fx fy fz = some (idx, hashes) ∧ idx.length = 14 ∧
      hashes.length = 8 ∧ (∀ i ∈ idx, 0 ≤ i ∧ i ≤ 511) ∧ (∀ v ∈ hashes, 0 ≤ v ∧ v ≤ 255) := by
  obtain ⟨x0, x1⟩ := latticeIndex_range fx
  obtain ⟨y0, y1⟩ := latticeIndex_range fy
  obtain ⟨z0, z1⟩ := latticeIndex_range fz
  obtain ⟨pX, eX, aX, bX⟩ := hn.2 (latticeIndex fx) (by omega) (by omega)
  obtain ⟨pA, eA, aA, bA⟩ := hn.2 (pX + latticeIndex fy) (by omega) (by omega)
  obtain ⟨pA1, eA1, aA1, bA1⟩ := hn.2 (pX + latticeIndex fy + 1) (by omega) (by omega)
  obtain ⟨pX1, eX1, aX1, bX1⟩ := hn.2 (latticeIndex fx + 1) (by omega) (by omega)
  obtain ⟨pB, eB, aB, bB⟩ := hn.2 (pX1 + latticeIndex fy) (by omega) (by omega)
  obtain ⟨pB1, eB1, aB1, bB1⟩ := hn.2 (pX1 + latticeIndex fy + 1) (by omega) (by omega)
  obtain ⟨h1, e1, a1, b1⟩ := hn.2 (pA + latticeIndex fz) (by omega) (by omega)
  obtain ⟨h2, e2, a2, b2⟩ := hn.2 (pB + latticeIndex fz) (by omega) (by omega)
  obtain ⟨h3, e3, a3, b3⟩ := hn.2 (pA1 + latticeIndex fz) (by omega) (by omega)
  obtain ⟨h4, e4, a4, b4⟩ := hn.2 (pB1 + latticeIndex fz) (by omega) (by omega)
  obtain ⟨h5, e5, a5, b5⟩ := hn.2 (pA + latticeIndex fz + 1) (by omega) (by omega)
  obtain ⟨h6, e6, a6, b6⟩ := hn.2 (pB + latticeIndex fz + 1) (by omega) (by omega)
  obtain ⟨h7, e7, a7, b7⟩ := hn.2 (pA1 + latticeIndex fz + 1) (by omega) (by omega)
  obtain ⟨h8, e8, a8, b8⟩ := hn.2 (pB1 + latticeIndex fz + 1) (by omega) (by omega)
  refine ⟨[latticeIndex fx, pX + latticeIndex fy, pX + latticeIndex fy + 1,
      latticeIndex fx + 1, pX1 + latticeIndex fy, pX1 + latticeIndex fy + 1,
      pA + latticeIndex fz, pB + latticeIndex fz, pA1 + latticeIndex fz,
      pB1 + latticeIndex fz, pA + latticeIndex fz + 1, pB + latticeIndex fz + 1,
      pA1 + latticeIndex fz + 1, pB1 + latticeIndex fz + 1],
    [h1, h2, h3, h4, h5, h6, h7, h8], ?_, ?_, ?_, ?_, ?_⟩
  · unfold noiseReads
    simp only [Option.bind_eq_bind, eX, Option.some_bind, eA, eA1, eX1, eB, eB1, e1, e2, e3,
      e4, e5, e6, e7, e8]
  · rfl
  · rfl
  · intro i hi
    simp only [List.mem_cons, List.mem_singleton, List.not_mem_nil, or_false] at hi
    rcases hi with e | e | e | e | e | e | e | e | e | e | e | e | e | e <;> omega
  · intro v hv
    simp only [List.mem_cons, List.mem_singleton, List.not_mem_nil, or_false] at hv
    rcases hv with e | e | e | e | e | e | e | e <;> omega

end ImprovedNoise

/-- C27: the indexing of `ImprovedNoise::noise` needs no wraparound.  For
the table `p` that the constructor builds from any seed (512 entries, each
in 0..255) and every lattice cell, the coordinates being masked to
`X, Y, Z` in 0..255 (a negative coordinate included: the mask is the
remainder modulo 256), each of the 14 indices at which `noise` reads `p`
(`X`, `A`, `A + 1`, `X + 1`, `B`, `B + 1`, `AA`, `BA`, `AB`, `BB` and the
last four plus 1) lies in `[0, 511]`, so that every read is inside the
table. -/
theorem C27_noise_indexing (p0 : List Int) (fuel : Nat) (seed : Int)
    (hp : p0.length = 512) (hf : Random.enoughFuel ≤ fuel) (fx fy fz : Int) :
    ∃ n : ImprovedNoise, ImprovedNoise.init p0 fuel seed = some n ∧
      n.p.length = 512 ∧
      (0 ≤ ImprovedNoise.latticeIndex fx ∧ ImprovedNoise.latticeIndex fx ≤ 255 ∧
        ImprovedNoise.latticeIndex fx = fx % 256) ∧
      ∃ idx hashes, n.noiseReads fx fy fz = some (idx, hashes) ∧ idx.length = 14 ∧
        ∀ i ∈ idx, 0 ≤ i ∧ i ≤ 511 := by
  have h0 : ImprovedNoise.ShuffleInv 0
      (Random.setSeed seed, (List.range 256).map (fun i : Nat => (i : Int)), p0) :=
    ⟨by simp, List.Perm.refl _, hp, fun i hi => absurd hi (by omega)⟩
  obtain ⟨⟨r, perm, p⟩, e, hinv⟩ :=
    ImprovedNoise.shuffleLoop_spec hf 256 0 _ (by omega) h0
  have hb := ImprovedNoise.byteTable_of_shuffle hinv
  simp only at hb
  obtain ⟨idx, hashes, hr, hlen, _, hidx, _⟩ :=
    ImprovedNoise.noiseReads_spec ⟨p⟩ hb fx fy fz
  refine ⟨⟨p⟩, ?_, hb.1, ⟨(ImprovedNoise.latticeIndex_range fx).1,
    (ImprovedNoise.latticeIndex_range fx).2, ImprovedNoise.latticeIndex_eq fx⟩,
    idx, hashes, hr, hlen, hidx⟩
  unfold ImprovedNoise.init
  simp only
  have : ((0 : Nat) : Int) = 0 := rfl
  rw [← this, e]
  rfl

/-- C27 for the table built from the seed 0 over 512 zero words and the
lattice cell of the point `(-1.5, 300.25, 128)`. -/
theorem C27_noise_indexing_witness :
    ((List.replicate 512 (0 : Int)).length = 512 ∧ Random.enoughFuel ≤ Random.enoughFuel) ∧
    ∃ n : ImprovedNoise,
      ImprovedNoise.init (List.replicate 512 0) Random.enoughFuel 0 = some n ∧
      n.p.length = 512 ∧
      (0 ≤ ImprovedNoise.latticeIndex (-2) ∧ ImprovedNoise.latticeIndex (-2) ≤ 255 ∧
        ImprovedNoise.latticeIndex (-2) = (-2) % 256) ∧
      ∃ idx hashes, n.noiseReads (-2) 300 128 = some (idx, hashes) ∧ idx.length = 14 ∧
        ∀ i ∈ idx, 0 ≤ i ∧ i ≤ 511 :=
  ⟨⟨List.length_replicate 512 0, le_refl _⟩,
    C27_noise_indexing (List.replicate 512 0) Random.enoughFuel 0
      (List.length_replicate 512 0) (le_refl _) (-2) 300 128⟩

end InfiniteTux
namespace InfiniteTux

/-! ## Loading the behaviour table -/

/-- `loadBehaviors` succeeds exactly when the file opens and holds at least
256 bytes, and then the table is the first 256 bytes of the file. -/
theorem Level.loadBehaviors_spec (table bytes : List Nat) (ht : table.length = 256) :
    (Level.loadBehaviors table (some bytes)).1 = decide (256 ≤ bytes.length)
      ∧ (256 ≤ bytes.length → (Level.loadBehaviors table (some bytes)).2 = bytes.take 256)
      ∧ Level.loadBehaviors table none = (false, table) := by
  refine ⟨?_, ?_, rfl⟩
  · unfold Level.loadBehaviors
    simp only [List.length_take]
    by_cases h : 256 ≤ bytes.length
    · rw [if_neg (by omega)]
      simp [h]
    · rw [if_pos (by omega)]
      simp [h]
  · intro h
    unfold Level.loadBehaviors
    simp only [List.length_take]
    rw [if_neg (by omega)]
    simp only
    have e : min 256 bytes.length = 256 := by omega
    rw [e, List.drop_of_length_le (by omega), List.append_nil]

/-- C22 fails on a resource that is too long: on a file of 257 bytes
`loadBehaviors` reads the first 256 bytes, `gcount()` is 256, and the call
returns true with those bytes installed, so that `Game::init` goes on;
a file of 255 bytes and a file that cannot be opened make it return false,
which `Game::init` treats as fatal. -/
theorem C22_long_resource_accepted :
    Level.loadBehaviors (List.replicate 256 0) (some (List.replicate 257 7))
        = (true, List.replicate 256 7)
      ∧ Game.initBehaviors (List.replicate 256 0) (some (List.replicate 257 7))
        = some (List.replicate 256 7)
      ∧ (Level.loadBehaviors (List.replicate 256 0) (some (List.replicate 255 7))).1 = false
      ∧ Game.initBehaviors (List.replicate 256 0) (some (List.replicate 255 7)) = none
      ∧ Game.initBehaviors (List.replicate 256 0) none = none := by
  have h := Level.loadBehaviors_spec (List.replicate 256 0) (List.replicate 257 7)
    (List.length_replicate _ _)
  have h' := Level.loadBehaviors_spec (List.replicate 256 0) (List.replicate 255 7)
    (List.length_replicate _ _)
  have e1 : (Level.loadBehaviors (List.replicate 256 0) (some (List.replicate 257 7))).1
      = true := by
    rw [h.1, List.length_replicate]
    rfl
  have e2 : (Level.loadBehaviors (List.replicate 256 0) (some (List.replicate 257 7))).2
      = List.replicate 256 7 := by
    rw [h.2.1 (by rw [List.length_replicate]; norm_num), List.take_replicate]
    rfl
  have e3 : (Level.loadBehaviors (List.replicate 256 0) (some (List.replicate 255 7))).1
      = false := by
    rw [h'.1, List.length_replicate]
    rfl
  refine ⟨Prod.ext e1 e2, ?_, e3, ?_, rfl⟩
  · unfold Game.initBehaviors
    rw [e1, e2]
    rfl
  · unfold Game.initBehaviors
    rw [e3]
    rfl

end InfiniteTux
namespace InfiniteTux

/-! ## Width and height that are not positive -/

set_option maxRecDepth 1000000 in
/-- C23 fails for width 0 and height -1: `createLevel(0, -1, 0, 0,
TYPE_OVERGROUND)` reports nothing; it builds and returns a level without
a single cell, with the exit column 8. -/
theorem C23_degenerate_grid_counterexample :
    (LevelGenerator.createLevel 0 0 0 0 Random.enoughFuel 0 (-1) 0 0 TYPE_OVERGROUND).map
        (fun l => (l.width, l.height, l.map, l.xExit))
      = some (0, -1, [], 8) := by
  decide!

/-- C23, amended: `createLevel` checks neither width nor height.  With a
negative width, or with a positive width and a negative height, the
`resize` of the constructor of `Level` throws before any zone is built, and
no level is returned, whatever the seed, the difficulty and the level
type. -/
theorem C23_negative_size_throws (clock type0 difficulty0 totalOdds0 : Int) (fuel : Nat)
    (width height seed difficulty type : Int)
    (h : width < 0 ∨ (0 < width ∧ height < 0)) :
    Level.init width height = none ∧
      LevelGenerator.createLevel clock type0 difficulty0 totalOdds0 fuel width height seed
        difficulty type = none := by
  have e : Level.init width height = none := by
    unfold Level.init
    rw [if_pos h]
  refine ⟨e, ?_⟩
  unfold LevelGenerator.createLevel LevelGenerator.createLevelInternal
    LevelGenerator.createLevelRun
  simp only
  have e1 : ((LevelGenerator.init width height type0 difficulty0 totalOdds0).setOdds
      difficulty type).width = width := rfl
  have e2 : ((LevelGenerator.init width height type0 difficulty0 totalOdds0).setOdds
      difficulty type).height = height := rfl
  rw [e1, e2, e]
  rfl

/-- C23, amended, for width -1 and height 15. -/
theorem C23_negative_size_throws_witness :
    ((-1 : Int) < 0 ∨ ((0 : Int) < -1 ∧ (15 : Int) < 0)) ∧
    Level.init (-1) 15 = none ∧
      LevelGenerator.createLevel 0 0 0 0 Random.enoughFuel (-1) 15 0 0 TYPE_OVERGROUND
        = none :=
  ⟨Or.inl (by norm_num),
    C23_negative_size_throws 0 0 0 0 Random.enoughFuel (-1) 15 0 0 TYPE_OVERGROUND
      (Or.inl (by norm_num))⟩

end InfiniteTux
namespace InfiniteTux

/-! ## The floor under a zone -/

namespace LevelGenerator

open Gen

/-- The ghost floor does not change what `buildStraight` does. -/
theorem buildStraight_erase (g : LevelGenerator) (fuel : Nat) (xo maxLength : Int)
    (safe : Bool) :
    (buildStraightFloor g fuel xo maxLength safe).andThen (fun r => ret r.1)
      = buildStraight g fuel xo maxLength safe := by
  unfold buildStraight buildStraightFloor
  simp only [bind_eq, ret_andThen, andThen_assoc, ite_andThen]

/-- The ghost floor does not change what `buildHillStraight` does. -/
theorem buildHillStraightFloor_erase (g : LevelGenerator) (fuel : Nat)
    (xo maxLength : Int) :
    (buildHillStraightFloor g fuel xo maxLength).andThen (fun r => ret r.1)
      = buildHillStraight g fuel xo maxLength := by
  unfold buildHillStraight buildHillStraightFloor
  simp only [bind_eq, ret_andThen, andThen_assoc, ite_andThen]

/-- The ghost floor does not change what `buildTubes` does. -/
theorem buildTubes_erase (g : LevelGenerator) (fuel : Nat) (xo maxLength : Int) :
    (buildTubesFloor g fuel xo maxLength).andThen (fun r => ret r.1)
      = buildTubes g fuel xo maxLength := by
  unfold buildTubes buildTubesFloor
  simp only [bind_eq, ret_andThen, andThen_assoc, ite_andThen]

/-- The ghost floor does not change what `buildCannons` does. -/
theorem buildCannons_erase (g : LevelGenerator) (fuel : Nat) (xo maxLength : Int) :
    (buildCannonsFloor g fuel xo maxLength).andThen (fun r => ret r.1)
      = buildCannons g fuel xo maxLength := by
  unfold buildCannons buildCannonsFloor
  simp only [bind_eq, ret_andThen, andThen_assoc, ite_andThen]

/-- The ghost floor and jump span do not change what `buildJump` does. -/
theorem buildJump_erase (g : LevelGenerator) (fuel : Nat) (xo maxLength : Int) :
    (buildJumpFloor g fuel xo maxLength).andThen (fun r => ret r.1)
      = buildJump g fuel xo maxLength := by
  unfold buildJump buildJumpFloor
  simp only [bind_eq, ret_andThen, andThen_assoc, ite_andThen]

theorem buildStraightFloor_spec {M : Bool} (w h : Int) {fuel : Nat}
    (hf : Random.enoughFuel ≤ fuel) (g : LevelGenerator) (hg : g.height = h)
    (xo maxLength : Int) (safe : Bool) :
    Tri M (fun l => l.WF w h) (buildStraightFloor g fuel xo maxLength safe)
      (fun r l => l.WF w h ∧
        LenOK (if safe then 10 else 2) (if safe then 14 else 11) maxLength r.1 ∧
        h - 4 ≤ r.2 ∧ r.2 ≤ h - 1 ∧
          l.Ground (fun x y => xo ≤ x ∧ x < xo + r.1 ∧ r.2 ≤ y)) := by
  unfold buildStraightFloor
  simp only [bind_eq, ret_andThen, andThen_assoc]
  have tail : ∀ len lo hi : Int, lo ≤ len → len ≤ hi → Tri M (fun l => l.WF w h)
      ((nextInt fuel 4).andThen fun r =>
        (g.fillGround xo (xo + if len > maxLength then maxLength else len)
            (g.height - 1 - r)).andThen fun _ =>
          if ¬safe = true ∧ (if len > maxLength then maxLength else len) > 5 then
            (g.decorate fuel xo (xo + if len > maxLength then maxLength else len)
                (g.height - 1 - r)).andThen fun _ =>
              ret (if len > maxLength then maxLength else len, g.height - 1 - r)
          else ret (if len > maxLength then maxLength else len, g.height - 1 - r))
      (fun r l => l.WF w h ∧ LenOK lo hi maxLength r.1 ∧
        h - 4 ≤ r.2 ∧ r.2 ≤ h - 1 ∧
          l.Ground (fun x y => xo ≤ x ∧ x < xo + r.1 ∧ r.2 ≤ y)) := by
    intro len lo hi hlo hhi
    refine Tri.bind_nextInt hf _ (by norm_num) (by norm_num) (fun r hr0 hr1 => ?_)
    have hlen : LenOK lo hi maxLength (if len > maxLength then maxLength else len) := by
      unfold LenOK
      split_ifs <;> omega
    have hfill := (fillGround_spec (M := M) w h (fun _ _ => False) g xo
      (xo + if len > maxLength then maxLength else len) (g.height - 1 - r)
      (fun _ _ hs => hs.elim))
    have hpost : ∀ l : Level, (l.WF w h ∧ l.Ground (fun x y =>
          xo ≤ x ∧ x < xo + (if len > maxLength then maxLength else len) ∧
            g.height - 1 - r ≤ y)) →
        (l.WF w h ∧ LenOK lo hi maxLength (if len > maxLength then maxLength else len) ∧
          h - 4 ≤ g.height - 1 - r ∧ g.height - 1 - r ≤ h - 1 ∧ l.Ground (fun x y =>
            xo ≤ x ∧ x < xo + (if len > maxLength then maxLength else len) ∧
              g.height - 1 - r ≤ y)) :=
      fun l hl => ⟨hl.1, hlen, by omega, by omega, hl.2⟩
    refine Tri.bind (R := fun _ l => l.WF w h ∧ l.Ground (fun x y =>
        xo ≤ x ∧ x < xo + (if len > maxLength then maxLength else len) ∧
          g.height - 1 - r ≤ y)) ?_ (fun _ => ?_)
    · refine hfill.conseq (fun l hl => ⟨hl, fun _ _ hs => hs.elim⟩)
        (fun _ l hl => ⟨hl.1, ?_⟩)
      intro x y hs hx0 hx1 hy0 hy1
      refine hl.2 x y (Or.inr ⟨hs.1, hs.2.1, hs.2.2, ?_⟩) hx0 hx1 hy0 hy1
      rw [hg, ← hl.1.2.1]
      exact hy1
    · refine Tri.ofIte (fun _ => ?_) (fun _ => Tri.ofRet _ hpost)
      refine Tri.bind (decorate_spec hf g _ _ _
        (Level.stable_ground w h (g.height - 1 - r) _ (fun x y hs => hs.2.2))) (fun _ => ?_)
      exact Tri.ofRet _ hpost
  refine Tri.bind_nextInt hf _ (by norm_num) (by norm_num) (fun r hr0 hr1 => ?_)
  refine Tri.ofIte (fun hs => ?_) (fun hs => ?_)
  · refine Tri.bind_nextInt hf _ (by norm_num) (by norm_num) (fun r2 h0 h1 => ?_)
    rw [if_pos hs, if_pos hs]
    exact tail (10 + r2) 10 14 (by omega) (by omega)
  · rw [if_neg hs, if_neg hs]
    exact tail (r + 2) 2 11 (by omega) (by omega)

theorem buildHillStraightFloor_spec {M : Bool} (w h : Int) (hw : 1 ≤ w) (hh : 1 ≤ h)
    {fuel : Nat} (hf : Random.enoughFuel ≤ fuel) (hfh : h ≤ fuel)
    (g : LevelGenerator) (hg : g.height = h) (xo maxLength : Int)
    (hm0 : 0 ≤ maxLength) (hM : M = true → 10 ≤ maxLength) :
    Tri M (fun l => l.WF w h) (buildHillStraightFloor g fuel xo maxLength)
      (fun r l => l.WF w h ∧ LenOK 10 19 maxLength r.1 ∧
        h - 4 ≤ r.2 ∧ r.2 ≤ h - 1 ∧
          l.Ground (fun x y => xo ≤ x ∧ x < xo + r.1 ∧ r.2 ≤ y)) := by
  unfold buildHillStraightFloor
  simp only [bind_eq, ret_andThen, andThen_assoc]
  refine Tri.bind_nextInt hf _ (by norm_num) (by norm_num) (fun r hr0 hr1 => ?_)
  refine Tri.bind_nextInt hf _ (by norm_num) (by norm_num) (fun r1 h10 h11 => ?_)
  generalize hL : (if r + 10 > maxLength then maxLength else r + 10) = L
  have hlen : LenOK 10 19 maxLength L := by
    rw [← hL]
    unfold LenOK
    split_ifs <;> omega
  have hL0 : 0 ≤ L := by rw [← hL]; split_ifs <;> omega
  have hfill := (fillGround_spec (M := M) w h (fun _ _ => False) g xo (xo + L)
    (g.height - 1 - r1) (fun _ _ hs => hs.elim))
  have hst := Level.stable_ground w h (g.height - 1 - r1)
    (fun x y => xo ≤ x ∧ x < xo + L ∧ g.height - 1 - r1 ≤ y) (fun x y hs => hs.2.2)
  refine Tri.bind (R := fun _ l => l.WF w h ∧ l.Ground (fun x y =>
      xo ≤ x ∧ x < xo + L ∧ g.height - 1 - r1 ≤ y)) ?_ (fun _ => ?_)
  · refine hfill.conseq (fun l hl => ⟨hl, fun _ _ hs => hs.elim⟩)
      (fun _ l hl => ⟨hl.1, ?_⟩)
    intro x y hs hx0 hx1 hy0 hy1
    refine hl.2 x y (Or.inr ⟨hs.1, hs.2.1, hs.2.2, ?_⟩) hx0 hx1 hy0 hy1
    rw [hg, ← hl.1.2.1]
    exact hy1
  · refine Tri.bind (addEnemyLine_spec hf g _ _ _ hst.2) (fun _ => ?_)
    refine Tri.bind (hillLoop_spec w h hw hh (fun l hl => hl.1) hf g xo L _
      (by unfold LenOK at hlen; omega) (fun hm => by
        have := hM hm
        unfold LenOK at hlen
        omega) hst fuel (g.height - 1 - r1) _
      (by unfold Random.enoughFuel at hf; omega) (by omega) (le_refl _)
      (by rw [List.length_replicate]; omega)) (fun _ => ?_)
    exact Tri.ofRet _ (fun l hl => ⟨hl.1, hlen, by show h - 4 ≤ g.height - 1 - r1; omega,
      by show g.height - 1 - r1 ≤ h - 1; omega, hl.2⟩)

theorem buildCannonsFloor_spec {M : Bool} (w h : Int) {fuel : Nat}
    (hf : Random.enoughFuel ≤ fuel) (g : LevelGenerator) (hg : g.height = h)
    (xo maxLength : Int) :
    Tri M (fun l => l.WF w h) (buildCannonsFloor g fuel xo maxLength)
      (fun r l => l.WF w h ∧ LenOK 2 11 maxLength r.1 ∧
        h - 4 ≤ r.2 ∧ r.2 ≤ h - 1 ∧
          l.Ground (fun x y => xo ≤ x ∧ x < xo + r.1 ∧ r.2 ≤ y)) := by
  unfold buildCannonsFloor
  simp only [bind_eq, ret_andThen, andThen_assoc]
  refine Tri.bind_nextInt hf _ (by norm_num) (by norm_num) (fun r hr0 hr1 => ?_)
  refine Tri.bind_nextInt hf _ (by norm_num) (by norm_num) (fun r1 h10 h11 => ?_)
  refine Tri.bind_nextInt hf _ (by norm_num) (by norm_num) (fun r2 _ _ => ?_)
  generalize hL : (if r + 2 > maxLength then maxLength else r + 2) = L
  have hlen : LenOK 2 11 maxLength L := by
    rw [← hL]
    unfold LenOK
    split_ifs <;> omega
  refine Tri.bind (R := fun _ l => l.WF w h ∧ l.Ground (fun x' y' =>
    xo ≤ x' ∧ x' < (if xo ≤ xo + L then xo + L else xo) ∧ g.height - 1 - r1 ≤ y')) ?_
    (fun _ => Tri.ofRet _ (fun l hl => ⟨hl.1, hlen, by show h - 4 ≤ g.height - 1 - r1; omega,
      by show g.height - 1 - r1 ≤ h - 1; omega,
      hl.2.mono (fun x' y' hs => ⟨hs.1, by split_ifs <;> omega, hs.2.2⟩)⟩))
  refine (Tri.forRange_any (fun (x : Int) (_ : Int) l => l.WF w h ∧
    l.Ground (fun x' y' => xo ≤ x' ∧ x' < x ∧ g.height - 1 - r1 ≤ y')) xo (xo + L) _ _
    (fun x a hx0 hx1 => ?_)).pre (fun l hl => ⟨hl, fun x' y' hs => by omega⟩)
  repeat (first
    | refine Tri.ofIte (fun _ => ?_) (fun _ => ?_)
    | refine Tri.bind_nextInt hf _ (by norm_num) (by norm_num) (fun _ _ _ => ?_)
    | exact column_step w h g hg xo x _ _ (fun y => by
        repeat (first
          | exact CellWrite.write _ _ _
          | exact CellWrite.skip _ _
          | refine CellWrite.branch ?_ ?_)) _)

theorem buildTubesFloor_spec {M : Bool} (w h : Int) {fuel : Nat}
    (hf : Random.enoughFuel ≤ fuel) (g : LevelGenerator) (hg : g.height = h)
    (xo maxLength : Int) :
    Tri M (fun l => l.WF w h) (buildTubesFloor g fuel xo maxLength)
      (fun r l => l.WF w h ∧ LenOK 5 14 maxLength r.1 ∧
        h - 4 ≤ r.2 ∧ r.2 ≤ h - 1 ∧
          l.Ground (fun x y => xo ≤ x ∧ x < xo + r.1 ∧ r.2 ≤ y)) := by
  unfold buildTubesFloor
  simp only [bind_eq, ret_andThen, andThen_assoc]
  refine Tri.bind_nextInt hf _ (by norm_num) (by norm_num) (fun r hr0 hr1 => ?_)
  refine Tri.bind_nextInt hf _ (by norm_num) (by norm_num) (fun r1 h10 h11 => ?_)
  refine Tri.bind_nextInt hf _ (by norm_num) (by norm_num) (fun r2 _ _ => ?_)
  refine Tri.bind_nextInt hf _ (by norm_num) (by norm_num) (fun r3 _ _ => ?_)
  generalize hL : (if r + 5 > maxLength then maxLength else r + 5) = L
  have hlen : LenOK 5 14 maxLength L := by
    rw [← hL]
    unfold LenOK
    split_ifs <;> omega
  refine Tri.bind (R := fun _ l => l.WF w h ∧ l.Ground (fun x' y' =>
    xo ≤ x' ∧ x' < (if xo ≤ xo + L then xo + L else xo) ∧ g.height - 1 - r1 ≤ y')) ?_
    (fun _ => Tri.ofRet _ (fun l hl => ⟨hl.1, hlen, by show h - 4 ≤ g.height - 1 - r1; omega,
      by show g.height - 1 - r1 ≤ h - 1; omega,
      hl.2.mono (fun x' y' hs => ⟨hs.1, by split_ifs <;> omega, hs.2.2⟩)⟩))
  refine (Tri.forRange_any (fun (x : Int) (_ : Int × Int) l => l.WF w h ∧
    l.Ground (fun x' y' => xo ≤ x' ∧ x' < x ∧ g.height - 1 - r1 ≤ y')) xo (xo + L) _ _
    (fun x a hx0 hx1 => ?_)).pre (fun l hl => ⟨hl, fun x' y' hs => by omega⟩)
  repeat (first
    | refine Tri.ofIte (fun _ => ?_) (fun _ => ?_)
    | refine Tri.bind_nextInt hf _ (by norm_num) (by norm_num) (fun _ _ _ => ?_)
    | refine Tri.bind_setSpriteTemplate (fun l hl =>
        ⟨hl.1.setSpriteTemplate _ _ _, hl.2.afterSprite _ _ _⟩) ?_
    | exact column_step w h g hg xo x _ _ (fun y => by
        repeat (first
          | exact CellWrite.write _ _ _
          | exact CellWrite.skip _ _
          | refine CellWrite.branch ?_ ?_)) _)

/-- `buildJump` lays the floor in its two flanks and leaves every cell
outside the flank columns as it was. -/
theorem buildJumpFloor_frame {M : Bool} (w h : Int) {fuel : Nat}
    (hf : Random.enoughFuel ≤ fuel) (g : LevelGenerator) (hg : g.height = h)
    (xo maxLength : Int) (l0 : Level) :
    Tri M (fun l => l = l0 ∧ l.WF w h) (buildJumpFloor g fuel xo maxLength)
      (fun r l => l.WF w h ∧ LenOK 6 13 maxLength r.1 ∧
        h - 4 ≤ r.2.1 ∧ r.2.1 ≤ h - 1 ∧ 2 ≤ r.2.2 ∧ r.2.2 ≤ 5 ∧
          l.Ground (fun x y => xo ≤ x ∧ x < xo + r.1 ∧
            (x < xo + r.2.2 ∨ x > xo + r.1 - r.2.2 - 1) ∧ r.2.1 ≤ y) ∧
          ∀ x y, ¬ (xo ≤ x ∧ x < xo + r.1 ∧
              (x < xo + r.2.2 ∨ x > xo + r.1 - r.2.2 - 1)) →
            l.tile x y = l0.tile x y) := by
  unfold buildJumpFloor
  simp only [bind_eq, ret_andThen, andThen_assoc]
  refine Tri.bind_nextInt hf _ (by norm_num) (by norm_num) (fun r1 h10 h11 => ?_)
  refine Tri.bind_nextInt hf _ (by norm_num) (by norm_num) (fun r2 h20 h21 => ?_)
  refine Tri.bind_nextInt hf _ (by norm_num) (by norm_num) (fun r3 _ _ => ?_)
  refine Tri.bind_nextInt hf _ (by norm_num) (by norm_num) (fun r4 h40 h41 => ?_)
  generalize hL : (if (r1 + 2) * 2 + (r2 + 2) > maxLength then maxLength
    else (r1 + 2) * 2 + (r2 + 2)) = L
  have hlen : LenOK 6 13 maxLength L := by
    rw [← hL]
    unfold LenOK
    split_ifs <;> omega
  have key := Tri.forRange_any (M := M)
    (fun (x : Int) (_ : Unit) l => l.WF w h ∧
      l.Ground (fun x' y' => xo ≤ x' ∧ x' < x ∧
        (x' < xo + (r1 + 2) ∨ x' > xo + L - (r1 + 2) - 1) ∧ g.height - 1 - r4 ≤ y') ∧
      ∀ x' y', ¬ (xo ≤ x' ∧ x' < xo + L ∧
        (x' < xo + (r1 + 2) ∨ x' > xo + L - (r1 + 2) - 1)) → l.tile x' y' = l0.tile x' y')
    xo (xo + L) ()
    (fun x _ =>
      if x < xo + (r1 + 2) ∨ x > xo + L - (r1 + 2) - 1 then
        forRange 0 g.height () (fun y _ =>
          if y ≥ g.height - 1 - r4 then setBlock x y (u8 (1 + 9 * 16))
          else if decide (r3 = 0) = true then
            if x < xo + (r1 + 2) then
              if y ≥ g.height - 1 - r4 - (x - xo) + 1 then setBlock x y (u8 (9 + 0 * 16))
              else ret ()
            else
              if y ≥ g.height - 1 - r4 - (xo + L - 1 - x) + 1 then
                setBlock x y (u8 (9 + 0 * 16))
              else ret ()
          else ret ())
      else ret ())
    (fun x _ hx0 hx1 => by
      refine Tri.ofIte (fun hflank => ?_) (fun hflank => ?_)
      · have hc := column_spec_frame (M := M) w h
          (fun x' y' => xo ≤ x' ∧ x' < x ∧
            (x' < xo + (r1 + 2) ∨ x' > xo + L - (r1 + 2) - 1) ∧ g.height - 1 - r4 ≤ y')
          (fun l => ∀ x' y', ¬ (xo ≤ x' ∧ x' < xo + L ∧
            (x' < xo + (r1 + 2) ∨ x' > xo + L - (r1 + 2) - 1)) →
            l.tile x' y' = l0.tile x' y')
          x (g.height - 1 - r4) g.height
          (fun y => if decide (r3 = 0) = true then
            if x < xo + (r1 + 2) then
              if y ≥ g.height - 1 - r4 - (x - xo) + 1 then setBlock x y (u8 (9 + 0 * 16))
              else ret ()
            else
              if y ≥ g.height - 1 - r4 - (xo + L - 1 - x) + 1 then
                setBlock x y (u8 (9 + 0 * 16))
              else ret ()
          else ret ())
          (fun y => CellWrite.branch
            (CellWrite.branch
              (CellWrite.branch (CellWrite.write _ _ _) (CellWrite.skip _ _))
              (CellWrite.branch (CellWrite.write _ _ _) (CellWrite.skip _ _)))
            (CellWrite.skip _ _))
          (fun x' y' hs => hs.2.2.2)
          (fun l y b hwf hR x' y' hout => by
            rw [Level.tile_setBlock hwf, if_neg (fun hc => hout (by
              rw [hc.1]
              exact ⟨hx0, hx1, hflank⟩))]
            exact hR x' y' hout)
        refine hc.post (fun _ l hl => ⟨hl.1, ?_, hl.2.2⟩)
        intro x' y' hs hx0' hx1' hy0' hy1'
        by_cases hx : x' = x
        · refine hl.2.1 x' y' (Or.inr ⟨hx, hs.2.2.2, ?_⟩) hx0' hx1' hy0' hy1'
          rw [hg, ← hl.1.2.1]
          exact hy1'
        · exact hl.2.1 x' y' (Or.inl ⟨hs.1, by omega, hs.2.2.1, hs.2.2.2⟩)
            hx0' hx1' hy0' hy1'
      · refine Tri.ofRet _ (fun l hl => ⟨hl.1, hl.2.1.mono (fun x' y' hs => ?_), hl.2.2⟩)
        have hx : x' ≠ x := by
          intro hx
          rw [hx] at hs
          exact hflank hs.2.2.1
        exact ⟨hs.1, by omega, hs.2.2.1, hs.2.2.2⟩)
  refine Tri.bind (key.pre (fun l hl => ⟨hl.2, fun x' y' hs => by omega,
    fun x' y' _ => by rw [hl.1]⟩)) (fun _ => ?_)
  refine Tri.ofRet _ (fun l hl => ⟨hl.1, hlen, by show h - 4 ≤ g.height - 1 - r4; omega,
    by show g.height - 1 - r4 ≤ h - 1; omega, by show 2 ≤ r1 + 2; omega,
    by show r1 + 2 ≤ 5; omega, hl.2.1.mono (fun x' y' hs => ?_), hl.2.2⟩)
  refine ⟨hs.1, ?_, hs.2.2.1, hs.2.2.2⟩
  split_ifs <;> omega

end LevelGenerator

/-- C10, amended: called on a level of at least one cell with
`maxLength >= 0` and enough fuel, each of `buildStraight`,
`buildHillStraight`, `buildTubes` and `buildCannons` returns a length `L`
and leaves the ground tile `1 + 9 * 16` in every column of `[xo, xo + L)`
at every in-grid row `y >= floor`, where `floor` is the value of the local
variable `floor` of that call (`height - 1 - nextInt(4)`, one of the last
four rows), read off a copy of the builder that returns it beside `L` and
otherwise runs the same code; `buildJump` does so in the columns of its
two flanks only, `x < xo + js` or `x > xo + L - js - 1` for its locals
`floor` and `js` (in `2..5`), and leaves every cell outside those columns
as it was. -/
theorem C10_floor_deposit (w h : Int) (hw : 1 ≤ w) (hh : 1 ≤ h) (fuel : Nat)
    (hf : Random.enoughFuel ≤ fuel) (hfh : h ≤ fuel) (g : LevelGenerator)
    (hg : g.height = h) (xo maxLength : Int) (hm : 0 ≤ maxLength) (s : GenState)
    (hs : s.level.WF w h) :
    (∀ safe : Bool, ∃ L floor s',
      LevelGenerator.buildStraightFloor g fuel xo maxLength safe s = some ((L, floor), s') ∧
      LevelGenerator.buildStraight g fuel xo maxLength safe s = some (L, s') ∧
      h - 4 ≤ floor ∧ floor ≤ h - 1 ∧
        s'.level.Ground (fun x y => xo ≤ x ∧ x < xo + L ∧ floor ≤ y)) ∧
    (∃ L floor s',
      LevelGenerator.buildHillStraightFloor g fuel xo maxLength s = some ((L, floor), s') ∧
      LevelGenerator.buildHillStraight g fuel xo maxLength s = some (L, s') ∧
      h - 4 ≤ floor ∧ floor ≤ h - 1 ∧
        s'.level.Ground (fun x y => xo ≤ x ∧ x < xo + L ∧ floor ≤ y)) ∧
    (∃ L floor s',
      LevelGenerator.buildTubesFloor g fuel xo maxLength s = some ((L, floor), s') ∧
      LevelGenerator.buildTubes g fuel xo maxLength s = some (L, s') ∧
      h - 4 ≤ floor ∧ floor ≤ h - 1 ∧
        s'.level.Ground (fun x y => xo ≤ x ∧ x < xo + L ∧ floor ≤ y)) ∧
    (∃ L floor s',
      LevelGenerator.buildCannonsFloor g fuel xo maxLength s = some ((L, floor), s') ∧
      LevelGenerator.buildCannons g fuel xo maxLength s = some (L, s') ∧
      h - 4 ≤ floor ∧ floor ≤ h - 1 ∧
        s'.level.Ground (fun x y => xo ≤ x ∧ x < xo + L ∧ floor ≤ y)) ∧
    (∃ L floor js s',
      LevelGenerator.buildJumpFloor g fuel xo maxLength s = some ((L, floor, js), s') ∧
      LevelGenerator.buildJump g fuel xo maxLength s = some (L, s') ∧
      h - 4 ≤ floor ∧ floor ≤ h - 1 ∧ 2 ≤ js ∧ js ≤ 5 ∧
        s'.level.Ground (fun x y => xo ≤ x ∧ x < xo + L ∧
          (x < xo + js ∨ x > xo + L - js - 1) ∧ floor ≤ y) ∧
        ∀ x y, ¬ (xo ≤ x ∧ x < xo + L ∧ (x < xo + js ∨ x > xo + L - js - 1)) →
          s'.level.tile x y = s.level.tile x y) := by
  have hM : (false = true → s.nonPositiveBound = false) := fun hc => by simp at hc
  refine ⟨fun safe => ?_, ?_, ?_, ?_, ?_⟩
  · obtain ⟨r, s', e, hq, _⟩ :=
      LevelGenerator.buildStraightFloor_spec (M := false) w h hf g hg xo maxLength safe
        s hs hM
    refine ⟨r.1, r.2, s', e, ?_, hq.2.2⟩
    rw [← LevelGenerator.buildStraight_erase, LevelGenerator.andThen_some e]
    rfl
  · obtain ⟨r, s', e, hq, _⟩ :=
      LevelGenerator.buildHillStraightFloor_spec (M := false) w h hw hh hf hfh g hg xo
        maxLength hm (fun hc => by simp at hc) s hs hM
    refine ⟨r.1, r.2, s', e, ?_, hq.2.2⟩
    rw [← LevelGenerator.buildHillStraightFloor_erase, LevelGenerator.andThen_some e]
    rfl
  · obtain ⟨r, s', e, hq, _⟩ :=
      LevelGenerator.buildTubesFloor_spec (M := false) w h hf g hg xo maxLength s hs hM
    refine ⟨r.1, r.2, s', e, ?_, hq.2.2⟩
    rw [← LevelGenerator.buildTubes_erase, LevelGenerator.andThen_some e]
    rfl
  · obtain ⟨r, s', e, hq, _⟩ :=
      LevelGenerator.buildCannonsFloor_spec (M := false) w h hf g hg xo maxLength s hs hM
    refine ⟨r.1, r.2, s', e, ?_, hq.2.2⟩
    rw [← LevelGenerator.buildCannons_erase, LevelGenerator.andThen_some e]
    rfl
  · obtain ⟨r, s', e, hq, _⟩ :=
      LevelGenerator.buildJumpFloor_frame (M := false) w h hf g hg xo maxLength s.level s
        ⟨rfl, hs⟩ hM
    refine ⟨r.1, r.2.1, r.2.2, s', e, ?_, hq.2.2⟩
    rw [← LevelGenerator.buildJump_erase, LevelGenerator.andThen_some e]
    rfl

set_option maxRecDepth 1000000 in
/-- C10, amended, on the empty level of 16 by 5 from `Random(0)`:
`buildTubes(0, 16)` returns the length 5, its floor row is row 1, and the
rows 1 to 4 of the columns 0 to 4 hold the ground tile. -/
theorem C10_floor_deposit_witness :
    ((1 : Int) ≤ 16 ∧ (1 : Int) ≤ 5 ∧ Random.enoughFuel ≤ Random.enoughFuel ∧
      (0 : Int) ≤ 16 ∧ (Level.blank 16 5).WF 16 5) ∧
    ∃ s', LevelGenerator.buildTubesFloor ((LevelGenerator.init 16 5 0 0 0).setOdds 0 0)
        Random.enoughFuel 0 16 ⟨Random.setSeed 0, Level.blank 16 5, false⟩
          = some ((5, 1), s') ∧
      LevelGenerator.buildTubes ((LevelGenerator.init 16 5 0 0 0).setOdds 0 0)
        Random.enoughFuel 0 16 ⟨Random.setSeed 0, Level.blank 16 5, false⟩ = some (5, s') ∧
      s'.level.Ground (fun x y => 0 ≤ x ∧ x < 0 + 5 ∧ 1 ≤ y) := by
  refine ⟨⟨by norm_num, by norm_num, le_refl _, by norm_num, Level.blank_WF 16 5⟩, ?_⟩
  obtain ⟨L, floor, s', e, e', _, _, hG⟩ :=
    (C10_floor_deposit 16 5 (by norm_num) (by norm_num) Random.enoughFuel (le_refl _)
      (by norm_num [Random.enoughFuel]) ((LevelGenerator.init 16 5 0 0 0).setOdds 0 0) rfl
      0 16 (by norm_num) ⟨Random.setSeed 0, Level.blank 16 5, false⟩
      (Level.blank_WF 16 5)).2.2.1
  have hv : (LevelGenerator.buildTubesFloor ((LevelGenerator.init 16 5 0 0 0).setOdds 0 0)
      Random.enoughFuel 0 16 ⟨Random.setSeed 0, Level.blank 16 5, false⟩).map
        (fun r => r.1) = some (5, 1) := by
    decide!
  rw [e] at hv
  simp only [Option.map_some', Option.some.injEq, Prod.mk.injEq] at hv
  obtain ⟨eL, efl⟩ := hv
  subst eL efl
  exact ⟨s', e, e', hG⟩

end InfiniteTux
